import Mathlib

/-!
# pcl-flattener: ground estimation and point adjustment

A shallow embedding of the flatten core of `flatten_pcl.cpp`, of `grid.hpp`,
`util.cpp` and `circular_array.hpp`.

Conventions of the embedding:

* C `float`/`double` values are elements of a linearly ordered field `α` with a
  floor function (`ℚ` and `ℝ` are instances). Each arithmetic function of the
  source is embedded twice:
  * in exact arithmetic (`ceiling_divide`, `lerp`, `grid.to_indices`,
    `adjust_point`, `flatten_core`, ...), where every operation is the field
    operation; this layer carries the properties that do not depend on
    rounding (control flow, indexing of the vectors, comparisons, algebraic
    identities);
  * in binary32 (`ceiling_divide_f32`, `lerp_f32`, `grid.to_indices_f32`,
    `adjust_point_f32`, `flatten_core_f32`, ...), where every `float`
    operation is followed by the rounding `f32` and every `double` operation
    by the rounding `f64` (round to nearest, ties to even, with gradual
    underflow); this layer carries the properties of the computed values.
  The exponent range of `f32` and `f64` is unbounded above: overflow to
  infinity, and NaN, are outside both layers.
* C `int` values are `Int`. In the exact layer the conversion `(int) q` is
  truncation toward zero (`c_int_cast`); in the binary32 layer it is moreover
  undefined (`none`) when the truncated value is not a 32-bit `int`
  (`c_int_cast32`).
* The `<cmath>` functions `sqrt`, `tan` and `atan` used by `adjust_point` are
  passed as arguments. The theorems of the exact layer instantiate them with
  `Real.sqrt`, `Real.tan` and `Real.arctan`; the theorems of the binary32 layer
  take `sqrt` correctly rounded, `fun t => f32 (Real.sqrt t)`, and either any
  `tan` and `atan`, or any with `tan 0 = 0` and `atan 0 = 0`.
* `std::vector` indexing is unchecked in C++; here every lookup is an `Option`
  and an out-of-range index makes the enclosing operation return `none`.
* The block a `circular_array` allocates is a list of `cap` slots with arbitrary
  initial content; `std::string` values are lists of characters.
-/

namespace PclFlattener

/-! ## aux_types.h -/

/-- The struct `bbox` of `aux_types.h`. -/
structure bbox (α : Type) where
  minx : α
  miny : α
  maxx : α
  maxy : α
  deriving DecidableEq, Repr

/-- The struct `lidar_point` of `aux_types.h`. -/
structure lidar_point (α : Type) where
  x : α
  y : α
  z : α
  intensity : Int
  deriving DecidableEq, Repr

section Core

variable {α : Type} [LinearOrderedField α] [FloorRing α]

/-! ## util.cpp -/

/-- The C conversion `(int) q` of a floating value: truncation toward zero. -/
def c_int_cast (q : α) : Int :=
  if 0 ≤ q then Int.floor q else Int.ceil q

/-- The function `ceiling_divide` of `util.cpp`: `modf` splits `a/b` into the
integral part `ipart` (truncated toward zero) and the fractional part `fpart`;
the result is `((int) ipart) + (fpart > 0)`. -/
def ceiling_divide (a b : α) : Int :=
  let q : α := a / b
  let ipart : α := ((c_int_cast q : Int) : α)
  let fpart : α := q - ipart
  c_int_cast ipart + (if fpart > 0 then 1 else 0)

/-- The function `int_clamp` of `util.cpp`. -/
def int_clamp (val low high : Int) : Int :=
  max low (min val high)

/-- The function `lerp` of `util.cpp`. -/
def lerp (a b r : α) : α :=
  a * (1 - r) + b * r

/-- The function `lerp_2d` of `util.cpp`: horizontal lerps first, then the
vertical one. -/
def lerp_2d (bl br tl tr x y : α) : α :=
  let bot := lerp bl br x
  let top := lerp tl tr x
  lerp bot top y

/-- The function `interp_angles` of `util.cpp`; the two out-parameters
`(x_theta, y_theta)` are returned as a pair. -/
def interp_angles (atan : α → α) (bl br tl tr x y scale : α) : α × α :=
  let left_z := lerp bl tl y
  let right_z := lerp br tr y
  let x_theta := atan ((right_z - left_z) / scale)
  let bot_z := lerp bl br x
  let top_z := lerp tl tr x
  let y_theta := atan ((top_z - bot_z) / scale)
  (x_theta, y_theta)

/-! ## grid.hpp -/

/-- The class `grid` of `grid.hpp`. -/
structure grid (α : Type) where
  section_len : α
  _h : Int
  _w : Int
  base_x : α
  base_y : α

/-- The constructor `grid(section_len)`; the members it leaves uninitialised
are set to zero here. -/
def grid.new (section_len : α) : grid α :=
  { section_len := section_len, _h := 0, _w := 0, base_x := 0, base_y := 0 }

/-- The method `grid::compute_grid`: the updated grid and the returned pair
`(_h, _w)`. -/
def grid.compute_grid (g : grid α) (box : bbox α) : grid α × (Int × Int) :=
  let dx := box.maxx - box.minx
  let dy := box.maxy - box.miny
  let h := ceiling_divide dy g.section_len
  let w := ceiling_divide dx g.section_len
  ({ g with _h := h, _w := w, base_x := box.minx, base_y := box.miny }, (h, w))

/-- The method `grid::to_indices`: the pair `(y_idx, x_idx)`, row first. -/
def grid.to_indices (g : grid α) (x y : α) : Int × Int :=
  let x_idx := c_int_cast ((x - g.base_x) / g.section_len)
  let y_idx := c_int_cast ((y - g.base_y) / g.section_len)
  (y_idx, x_idx)

/-- The method `grid::center_coords`: the pair `(x, y)`. -/
def grid.center_coords (g : grid α) (y_idx x_idx : Int) : α × α :=
  let x := g.base_x + g.section_len * ((x_idx : α) + 1 / 2)
  let y := g.base_y + g.section_len * ((y_idx : α) + 1 / 2)
  (x, y)

/-! ## flatten_pcl.cpp -/

/-- One iteration of the loop of `compute_full_bbox`. -/
def bbox_step (b : bbox α) (p : lidar_point α) : bbox α :=
  let minx := if p.x < b.minx then p.x else b.minx
  let miny := if p.y < b.miny then p.y else b.miny
  let maxx := if p.x > b.maxx then p.x else b.maxx
  let maxy := if p.y > b.maxy then p.y else b.maxy
  { minx := minx, miny := miny, maxx := maxx, maxy := maxy }

/-- The function `compute_full_bbox` of `flatten_pcl.cpp`: the scan starts from
the box `(0, 0, 0, 0)`. -/
def compute_full_bbox (points : List (lidar_point α)) : bbox α :=
  points.foldl bbox_step { minx := 0, miny := 0, maxx := 0, maxy := 0 }

/-- The function `adjust_point` of `flatten_pcl.cpp`; the point is returned
instead of being updated through the pointer. -/
def adjust_point (sqrt tan atan : α → α) (p : lidar_point α)
    (bl_z br_z tl_z tr_z x_ratio y_ratio grid_scale : α) : lidar_point α :=
  let floor_z := lerp_2d bl_z br_z tl_z tr_z x_ratio y_ratio
  let p1 := { p with z := p.z - floor_z }
  let th := interp_angles atan bl_z br_z tl_z tr_z x_ratio y_ratio grid_scale
  let x_theta := th.1
  let y_theta := th.2
  let dx := -1 * p1.z * tan x_theta
  let p2 := { p1 with z := sqrt (p1.z * p1.z + dx * dx) }
  let p3 := { p2 with x := p2.x - dx }
  let dy := -1 * p3.z * tan y_theta
  let p4 := { p3 with z := sqrt (p3.z * p3.z + dy * dy) }
  { p4 with y := p4.y - dy }

/-- The default of the local `GRID_SIDE_LEN` of `flatten_pcd`. -/
def GRID_SIDE_LEN : α := 20

/-- The constant `MIN_POINTS_PER_BLOCK` of `flatten_pcd`. -/
def MIN_POINTS_PER_BLOCK : Nat := 100

/-- The divisor in `int k = z_vec.size()/20` of `flatten_pcd`. -/
def PERCENTILE_DIVISOR : Nat := 20

/-- A checked lookup `v[i]` with a C `int` index. -/
def vec_get {β : Type} (v : List β) (i : Int) : Option β :=
  if 0 ≤ i then v[i.toNat]? else none

/-- The allocation of `z_arrays`: `h` rows of `w` empty vectors; a negative
count is not a valid vector size. -/
def alloc_z_arrays (h w : Int) : Option (List (List (List α))) :=
  if 0 ≤ h ∧ 0 ≤ w then
    some (List.replicate h.toNat (List.replicate w.toNat []))
  else none

/-- The statement `z_arrays[row][col].push_back(z)`. -/
def push_z (z_arrays : List (List (List α))) (row col : Int) (z : α) :
    Option (List (List (List α))) :=
  match vec_get z_arrays row with
  | none => none
  | some r =>
    match vec_get r col with
    | none => none
    | some cell => some (z_arrays.set row.toNat (r.set col.toNat (cell ++ [z])))

/-- The binning loop of `flatten_pcd`. -/
def bin_points (g : grid α) :
    List (lidar_point α) → List (List (List α)) → Option (List (List (List α)))
  | [], z_arrays => some z_arrays
  | p :: ps, z_arrays =>
    let grid_indices := g.to_indices p.x p.y
    match push_z z_arrays grid_indices.1 grid_indices.2 p.z with
    | none => none
    | some z_arrays1 => bin_points g ps z_arrays1

/-- The body of the `floor_zs` loop for one cell: the entry keeps its initial
value `0` unless the cell has more than `min_points` values, in which case the
copy `z_vec` is sorted ascending and `z_vec[k]` is stored, `k = size / divisor`. -/
def cell_floor (min_points divisor : Nat) (z_vec : List α) : Option α :=
  if z_vec.length > min_points then
    let sorted := z_vec.insertionSort (fun a b => a ≤ b)
    let k := z_vec.length / divisor
    sorted[k]?
  else some 0

/-- Turns a list of lookups into the list of their values, when none fails. -/
def collect {β : Type} : List (Option β) → Option (List β)
  | [] => some []
  | none :: _ => none
  | some b :: rest =>
    match collect rest with
    | none => none
    | some bs => some (b :: bs)

/-- The `floor_zs` loop of `flatten_pcd` over all cells. -/
def compute_floor_zs (min_points divisor : Nat) (z_arrays : List (List (List α))) :
    Option (List (List α)) :=
  collect (z_arrays.map (fun row => collect (row.map (cell_floor min_points divisor))))

/-- The body of the adjustment loop of `flatten_pcd` for one point. -/
def adjust_one (sqrt tan atan : α → α) (g : grid α) (floor_zs : List (List α))
    (p : lidar_point α) : Option (lidar_point α) :=
  let indices := g.to_indices p.x p.y
  let center := g.center_coords indices.1 indices.2
  let dx_ratio := (p.x - center.1) / g.section_len
  let dy_ratio := (p.y - center.2) / g.section_len
  let row := if dy_ratio < 0 then indices.1 - 1 else indices.1
  let dy_ratio := if dy_ratio < 0 then dy_ratio + 1 else dy_ratio
  let col := if dx_ratio < 0 then indices.2 - 1 else indices.2
  let dx_ratio := if dx_ratio < 0 then dx_ratio + 1 else dx_ratio
  let y_bot := int_clamp row 0 (g._h - 1)
  let y_top := int_clamp (row + 1) 0 (g._h - 1)
  let x_left := int_clamp col 0 (g._w - 1)
  let x_right := int_clamp (col + 1) 0 (g._w - 1)
  match vec_get floor_zs y_bot, vec_get floor_zs y_top with
  | some bot_row, some top_row =>
    match vec_get bot_row x_left, vec_get bot_row x_right,
          vec_get top_row x_left, vec_get top_row x_right with
    | some z_bl, some z_br, some z_tl, some z_tr =>
      some (adjust_point sqrt tan atan p z_bl z_br z_tl z_tr dx_ratio dy_ratio g.section_len)
    | _, _, _, _ => none
  | _, _ => none

/-- The adjustment loop of `flatten_pcd`. -/
def adjust_all (sqrt tan atan : α → α) (g : grid α) (floor_zs : List (List α))
    (points : List (lidar_point α)) : Option (List (lidar_point α)) :=
  collect (points.map (adjust_one sqrt tan atan g floor_zs))

/-- The stages of `flatten_pcd` up to the floor heights: bbox, grid, binning,
floor estimation. Returns the grid and `floor_zs`. -/
def flatten_floors (section_len : α) (min_points divisor : Nat)
    (points : List (lidar_point α)) : Option (grid α × List (List α)) :=
  let full_pcl_bbox := compute_full_bbox points
  let gd := (grid.new section_len).compute_grid full_pcl_bbox
  let pcl_grid := gd.1
  let grid_dim := gd.2
  match alloc_z_arrays grid_dim.1 grid_dim.2 with
  | none => none
  | some z0 =>
    match bin_points pcl_grid points z0 with
    | none => none
    | some z_arrays =>
      match compute_floor_zs min_points divisor z_arrays with
      | none => none
      | some floor_zs => some (pcl_grid, floor_zs)

/-- The computation of `flatten_pcd` between reading and writing the file, with
the three tunable values as arguments. -/
def flatten_core (sqrt tan atan : α → α) (section_len : α) (min_points divisor : Nat)
    (points : List (lidar_point α)) : Option (List (lidar_point α)) :=
  match flatten_floors section_len min_points divisor points with
  | none => none
  | some (pcl_grid, floor_zs) => adjust_all sqrt tan atan pcl_grid floor_zs points

/-- The adjustment transform as the specification words it (section 4.4): the
floor height is subtracted first, the rotation in x uses that height `z0`, and
the rotation in y uses the height `z1` already updated by the rotation in x. -/
def adjust_point_two_stage (sqrt tan atan : α → α) (p : lidar_point α)
    (bl br tl tr x_ratio y_ratio scale : α) : lidar_point α :=
  let z0 := p.z - lerp_2d bl br tl tr x_ratio y_ratio
  let th := interp_angles atan bl br tl tr x_ratio y_ratio scale
  let x_theta := th.1
  let y_theta := th.2
  let dx := -z0 * tan x_theta
  let x1 := p.x - dx
  let z1 := sqrt (z0 ^ 2 + dx ^ 2)
  let dy := -z1 * tan y_theta
  let y1 := p.y - dy
  let z2 := sqrt (z1 ^ 2 + dy ^ 2)
  { x := x1, y := y1, z := z2, intensity := p.intensity }

end Core

/-! ## circular_array.hpp -/

section CircularArrayDefs

variable {T : Type}

/-- The class `circular_array<T>` of `circular_array.hpp`; `arr` is the
allocated block of `cap` slots. -/
structure circular_array (T : Type) where
  arr : List T
  num_els : Int
  cap : Int
  start_index : Int

/-- The constructor `circular_array(cap)`; `raw` is the content of the block that
`malloc` returns, which the constructor does not initialise. -/
def circular_array.new (cap : Int) (raw : List T) : circular_array T :=
  { arr := raw, num_els := 0, cap := cap, start_index := 0 }

/-- The method `circular_array::insert`: at capacity the oldest element is
dropped (`start_index++`, `num_els--`), then the element is stored at
`(start_index + num_els) % cap` and `num_els` is incremented. -/
def circular_array.insert (ca : circular_array T) (el : T) : Option (circular_array T) :=
  let ca1 : circular_array T :=
    if ca.num_els = ca.cap then
      { ca with start_index := ca.start_index + 1, num_els := ca.num_els - 1 }
    else ca
  let circular_index := (ca1.start_index + ca1.num_els).tmod ca1.cap
  match vec_get ca1.arr circular_index with
  | none => none
  | some _ =>
    some { ca1 with arr := ca1.arr.set circular_index.toNat el, num_els := ca1.num_els + 1 }

/-- The method `circular_array::size`. -/
def circular_array.size (ca : circular_array T) : Int :=
  ca.num_els

/-- The method `circular_array::as_vec`: the slots `(start_index + i) % cap` for
`i < num_els`, in that order. -/
def circular_array.as_vec (ca : circular_array T) : Option (List T) :=
  collect ((List.range ca.num_els.toNat).map
    (fun (i : Nat) => vec_get ca.arr ((ca.start_index + (i : Int)).tmod ca.cap)))

/-- The method `circular_array::min_value`: the running minimum starts from the
raw slot `arr[0]` and is updated over the slots `(start_index + i) % cap`. -/
def circular_array.min_value [LinearOrder T] (ca : circular_array T) : Option T :=
  match vec_get ca.arr 0 with
  | none => none
  | some first =>
    (List.range ca.num_els.toNat).foldl
      (fun acc (i : Nat) =>
        match acc, vec_get ca.arr ((ca.start_index + (i : Int)).tmod ca.cap) with
        | some min_val, some el => some (if el < min_val then el else min_val)
        | _, _ => none)
      (some first)

/-- A sequence of calls of `insert`, as in the loop of `test_ca.cpp`. -/
def circular_array.insert_all (ca : circular_array T) : List T → Option (circular_array T)
  | [] => some ca
  | x :: xs =>
    match ca.insert x with
    | none => none
    | some ca1 => circular_array.insert_all ca1 xs

/-- The state of a `circular_array` of capacity `n` after the elements `ys` have
been inserted in order: the element inserted as number `j` of the retained
window lives in slot `j % n`. -/
def ca_inv (n : Nat) (ca : circular_array T) (ys : List T) : Prop :=
  ca.cap = (n : Int) ∧ ca.arr.length = n ∧
  ca.num_els = ((min ys.length n : Nat) : Int) ∧
  ca.start_index = ((ys.length - min ys.length n : Nat) : Int) ∧
  ∀ j : Nat, ys.length - min ys.length n ≤ j → j < ys.length → ca.arr[j % n]? = ys[j]?

end CircularArrayDefs

/-! ## util.cpp: file names -/

/-- The position of the first occurrence of `c`, when there is one. -/
def find_first (c : Char) : List Char → Option Nat
  | [] => none
  | a :: rest => if a = c then some 0 else (find_first c rest).map (fun i => i + 1)

/-- The call `s.find(c)` assigned to an `int`: the position of the first
occurrence, and `-1` (the value of `npos` as an `int`) when there is none. -/
def string_find (s : List Char) (c : Char) : Int :=
  match find_first c s with
  | some i => (i : Int)
  | none => -1

/-- The call `s.substr(pos, len)` with `int` arguments: they are converted to
`size_t`, so a negative `pos` lies beyond the end (an `out_of_range` exception,
as for `pos > size`) and a negative `len` exceeds every length. -/
def string_substr (s : List Char) (pos len : Int) : Option (List Char) :=
  if pos < 0 ∨ (s.length : Int) < pos then none
  else if len < 0 then some (s.drop pos.toNat)
  else some ((s.drop pos.toNat).take len.toNat)

/-- The function `string_slice` of `util.cpp`. -/
def string_slice (s : List Char) (a b : Int) : Option (List Char) :=
  let len := b - a
  string_substr s a len

/-- The function `filename_append` of `util.cpp`. -/
def filename_append (input_filename suffix : List Char) : Option (List Char) :=
  let dot_index := string_find input_filename '.'
  match string_slice input_filename 0 dot_index,
        string_slice input_filename dot_index (input_filename.length : Int) with
  | some base_filename, some extension => some (base_filename ++ suffix ++ extension)
  | _, _ => none

/-! ## Binary32 arithmetic

The functions above compute in exact arithmetic. The functions below are the
same source functions with every `float` operation rounded to binary32 and
every `double` operation rounded to binary64, in the order in which C++
evaluates them (an operand of type `double`, such as the literals `0.5`, `1.0`
and `-1.0`, makes the operation a `double` one; storing the result into a
`float` rounds it to binary32). -/

section Binary32

variable {α : Type} [LinearOrderedField α] [FloorRing α]

/-- Rounding to the nearest integer, ties to even. -/
def rne (t : α) : Int :=
  let f := Int.floor t
  if t - (f : α) < 1 / 2 then f
  else if 1 / 2 < t - (f : α) then f + 1
  else if f % 2 = 0 then f else f + 1

/-- The exponent of the binade of `x`, not below the least normal exponent
`emin`. -/
def fp_exp (emin : Int) (x : α) : Int :=
  max (Int.log 2 |x|) emin

/-- The spacing of the floating-point values with `prec` significant bits
around `x`. -/
def fp_ulp (prec : Nat) (emin : Int) (x : α) : α :=
  (2 : α) ^ (fp_exp emin x - ((prec : Int) - 1))

/-- Rounding to nearest, ties to even, onto the binary format with `prec`
significant bits and least normal exponent `emin`, with gradual underflow. The
exponent range is unbounded above: overflow to infinity is outside the model. -/
def fp_round (prec : Nat) (emin : Int) (x : α) : α :=
  ((rne (x / fp_ulp prec emin x) : Int) : α) * fp_ulp prec emin x

/-- Rounding to binary32, the C type `float`. -/
def f32 (x : α) : α := fp_round 24 (-126) x

/-- Rounding to binary64, the C type `double`. -/
def f64 (x : α) : α := fp_round 53 (-1022) x

/-- The conversion `(int) q` to a 32-bit `int`: truncation toward zero; the
conversion is undefined when the truncated value is not an `int`. -/
def c_int_cast32 (q : α) : Option Int :=
  if -(2 : α) ^ 31 - 1 < q ∧ q < (2 : α) ^ 31 then some (c_int_cast q) else none

/-- The function `ceiling_divide` of `util.cpp` in binary32: the quotient `a/b`
is a `float` division; its conversion to `double` and `modf` are exact. -/
def ceiling_divide_f32 (a b : α) : Option Int :=
  let q : α := f32 (a / b)
  let ipart : α := ((c_int_cast q : Int) : α)
  let fpart : α := q - ipart
  match c_int_cast32 ipart with
  | none => none
  | some i => some (i + (if fpart > 0 then 1 else 0))

/-- The function `lerp` of `util.cpp` in binary32. -/
def lerp_f32 (a b r : α) : α :=
  f32 (f32 (a * f32 (1 - r)) + f32 (b * r))

/-- The function `lerp_2d` of `util.cpp` in binary32. -/
def lerp_2d_f32 (bl br tl tr x y : α) : α :=
  let bot := lerp_f32 bl br x
  let top := lerp_f32 tl tr x
  lerp_f32 bot top y

/-- The function `interp_angles` of `util.cpp` in binary32; `atan` is the
library function, whose result is stored into a `float`. -/
def interp_angles_f32 (atan : α → α) (bl br tl tr x y scale : α) : α × α :=
  let left_z := lerp_f32 bl tl y
  let right_z := lerp_f32 br tr y
  let x_theta := f32 (atan (f32 (f32 (right_z - left_z) / scale)))
  let bot_z := lerp_f32 bl br x
  let top_z := lerp_f32 tl tr x
  let y_theta := f32 (atan (f32 (f32 (top_z - bot_z) / scale)))
  (x_theta, y_theta)

/-- The method `grid::compute_grid` in binary32. -/
def grid.compute_grid_f32 (g : grid α) (box : bbox α) : Option (grid α × (Int × Int)) :=
  let dx := f32 (box.maxx - box.minx)
  let dy := f32 (box.maxy - box.miny)
  match ceiling_divide_f32 dy g.section_len, ceiling_divide_f32 dx g.section_len with
  | some h, some w =>
    some ({ g with _h := h, _w := w, base_x := box.minx, base_y := box.miny }, (h, w))
  | _, _ => none

/-- The method `grid::to_indices` in binary32: the pair `(y_idx, x_idx)`. -/
def grid.to_indices_f32 (g : grid α) (x y : α) : Option (Int × Int) :=
  match c_int_cast32 (f32 (f32 (x - g.base_x) / g.section_len)),
        c_int_cast32 (f32 (f32 (y - g.base_y) / g.section_len)) with
  | some x_idx, some y_idx => some (y_idx, x_idx)
  | _, _ => none

/-- The method `grid::center_coords` in binary32: `(float) x_idx + 0.5`, the
product and the sum are `double` operations, and the result is stored into a
`float`. -/
def grid.center_coords_f32 (g : grid α) (y_idx x_idx : Int) : α × α :=
  let x := f32 (f64 (g.base_x + f64 (g.section_len * f64 (f32 (x_idx : α) + 1 / 2))))
  let y := f32 (f64 (g.base_y + f64 (g.section_len * f64 (f32 (y_idx : α) + 1 / 2))))
  (x, y)

/-- The function `adjust_point` of `flatten_pcl.cpp` in binary32; `sqrt` and
`tan` are the `float` library functions, and `-1.0 * p->z * std::tan(..)` is a
`double` product stored into a `float`. -/
def adjust_point_f32 (sqrt tan atan : α → α) (p : lidar_point α)
    (bl_z br_z tl_z tr_z x_ratio y_ratio grid_scale : α) : lidar_point α :=
  let floor_z := lerp_2d_f32 bl_z br_z tl_z tr_z x_ratio y_ratio
  let p1 := { p with z := f32 (p.z - floor_z) }
  let th := interp_angles_f32 atan bl_z br_z tl_z tr_z x_ratio y_ratio grid_scale
  let x_theta := th.1
  let y_theta := th.2
  let dx := f32 (f64 (f64 (-1 * p1.z) * tan x_theta))
  let p2 := { p1 with z := sqrt (f32 (f32 (p1.z * p1.z) + f32 (dx * dx))) }
  let p3 := { p2 with x := f32 (p2.x - dx) }
  let dy := f32 (f64 (f64 (-1 * p3.z) * tan y_theta))
  let p4 := { p3 with z := sqrt (f32 (f32 (p3.z * p3.z) + f32 (dy * dy))) }
  { p4 with y := f32 (p4.y - dy) }

/-- The re-basing steps of the adjustment loop of `flatten_pcd` in binary32;
`ratio += 1.0` is a `double` addition stored into a `float`. -/
def rebase_f32 (g : grid α) (p : lidar_point α) : Option ((Int × Int) × (α × α)) :=
  match g.to_indices_f32 p.x p.y with
  | none => none
  | some indices =>
    let center := g.center_coords_f32 indices.1 indices.2
    let dx_ratio := f32 (f32 (p.x - center.1) / g.section_len)
    let dy_ratio := f32 (f32 (p.y - center.2) / g.section_len)
    let row := if dy_ratio < 0 then indices.1 - 1 else indices.1
    let dy_ratio1 := if dy_ratio < 0 then f32 (f64 (dy_ratio + 1)) else dy_ratio
    let col := if dx_ratio < 0 then indices.2 - 1 else indices.2
    let dx_ratio1 := if dx_ratio < 0 then f32 (f64 (dx_ratio + 1)) else dx_ratio
    some ((row, col), (dx_ratio1, dy_ratio1))

/-- The binning loop of `flatten_pcd` in binary32. -/
def bin_points_f32 (g : grid α) :
    List (lidar_point α) → List (List (List α)) → Option (List (List (List α)))
  | [], z_arrays => some z_arrays
  | p :: ps, z_arrays =>
    match g.to_indices_f32 p.x p.y with
    | none => none
    | some grid_indices =>
      match push_z z_arrays grid_indices.1 grid_indices.2 p.z with
      | none => none
      | some z_arrays1 => bin_points_f32 g ps z_arrays1

/-- The body of the adjustment loop of `flatten_pcd` for one point, in
binary32. -/
def adjust_one_f32 (sqrt tan atan : α → α) (g : grid α) (floor_zs : List (List α))
    (p : lidar_point α) : Option (lidar_point α) :=
  match rebase_f32 g p with
  | none => none
  | some ((row, col), (dx_ratio, dy_ratio)) =>
    let y_bot := int_clamp row 0 (g._h - 1)
    let y_top := int_clamp (row + 1) 0 (g._h - 1)
    let x_left := int_clamp col 0 (g._w - 1)
    let x_right := int_clamp (col + 1) 0 (g._w - 1)
    match vec_get floor_zs y_bot, vec_get floor_zs y_top with
    | some bot_row, some top_row =>
      match vec_get bot_row x_left, vec_get bot_row x_right,
            vec_get top_row x_left, vec_get top_row x_right with
      | some z_bl, some z_br, some z_tl, some z_tr =>
        some (adjust_point_f32 sqrt tan atan p z_bl z_br z_tl z_tr dx_ratio dy_ratio
          g.section_len)
      | _, _, _, _ => none
    | _, _ => none

/-- The adjustment loop of `flatten_pcd` in binary32. -/
def adjust_all_f32 (sqrt tan atan : α → α) (g : grid α) (floor_zs : List (List α))
    (points : List (lidar_point α)) : Option (List (lidar_point α)) :=
  collect (points.map (adjust_one_f32 sqrt tan atan g floor_zs))

/-- The stages of `flatten_pcd` up to the floor heights, in binary32. -/
def flatten_floors_f32 (section_len : α) (min_points divisor : Nat)
    (points : List (lidar_point α)) : Option (grid α × List (List α)) :=
  let full_pcl_bbox := compute_full_bbox points
  match (grid.new section_len).compute_grid_f32 full_pcl_bbox with
  | none => none
  | some (pcl_grid, grid_dim) =>
    match alloc_z_arrays grid_dim.1 grid_dim.2 with
    | none => none
    | some z0 =>
      match bin_points_f32 pcl_grid points z0 with
      | none => none
      | some z_arrays =>
        match compute_floor_zs min_points divisor z_arrays with
        | none => none
        | some floor_zs => some (pcl_grid, floor_zs)

/-- The computation of `flatten_pcd` between reading and writing the file, in
binary32. -/
def flatten_core_f32 (sqrt tan atan : α → α) (section_len : α) (min_points divisor : Nat)
    (points : List (lidar_point α)) : Option (List (lidar_point α)) :=
  match flatten_floors_f32 section_len min_points divisor points with
  | none => none
  | some (pcl_grid, floor_zs) => adjust_all_f32 sqrt tan atan pcl_grid floor_zs points

end Binary32

/-! ## Sample inputs -/

/-- A grid of 3 by 3 cells of side 20 with origin `(-5, -5)`. -/
def sample_grid : grid ℚ :=
  { section_len := 20, _h := 3, _w := 3, base_x := -5, base_y := -5 }

/-- A box of extent 41 by 20. -/
def sample_box : bbox ℚ :=
  { minx := -5, miny := -5, maxx := 36, maxy := 15 }

/-- A cell holding the 200 values `0, 1, ..., 199`. -/
def sample_cell : List ℚ :=
  (List.range 200).map (fun n : Nat => (n : ℚ))

/-- The per-cell value lists of two `z_arrays` of the same dimensions hold the
same values up to order. -/
def cells_perm {β : Type} (za zb : List (List (List β))) : Prop :=
  List.Forall₂ (List.Forall₂ List.Perm) za zb

/-- A floor grid of 3 by 3 cells, all heights zero. -/
def sample_floor_zs : List (List ℚ) :=
  List.replicate 3 (List.replicate 3 0)

/-- A point inside the sample grid. -/
def sample_point : lidar_point ℚ :=
  { x := 47, y := 3, z := 1, intensity := 9 }

/-- The freshly allocated `z_arrays` of the sample grid. -/
def sample_z_arrays : List (List (List ℚ)) :=
  List.replicate 3 (List.replicate 3 [])

/-- The 101 heights `0, 1, ..., 100`. -/
def dense_cell : List ℚ :=
  (List.range 101).map (fun n : Nat => (n : ℚ))

/-- There are 101 points at `(10, 10)`, in the cell `(0, 0)` of the sample grid,
with the heights `0, 1, ..., 100` in this order. -/
def dense_points : List (lidar_point ℚ) :=
  dense_cell.map (fun z => { x := 10, y := 10, z := z, intensity := 7 })

/-! ## Auxiliary lemmas -/

section OrderLemmas

lemma cell_floor_index_lt (min_points divisor n : Nat) (hd : 2 ≤ divisor)
    (hlen : n > min_points) : n / divisor < n := by
  apply Nat.div_lt_self <;> omega

variable {α : Type} [LinearOrderedField α]

lemma bbox_foldl_bounds (points : List (lidar_point α)) :
    ∀ b : bbox α,
      ((points.foldl bbox_step b).minx ≤ b.minx ∧ b.maxx ≤ (points.foldl bbox_step b).maxx ∧
        (points.foldl bbox_step b).miny ≤ b.miny ∧ b.maxy ≤ (points.foldl bbox_step b).maxy) ∧
      ∀ p ∈ points,
        (points.foldl bbox_step b).minx ≤ p.x ∧ p.x ≤ (points.foldl bbox_step b).maxx ∧
        (points.foldl bbox_step b).miny ≤ p.y ∧ p.y ≤ (points.foldl bbox_step b).maxy := by
  induction points with
  | nil => intro b; simp
  | cons q qs ih =>
    intro b
    have hstep : (bbox_step b q).minx ≤ b.minx ∧ (bbox_step b q).minx ≤ q.x ∧
        b.maxx ≤ (bbox_step b q).maxx ∧ q.x ≤ (bbox_step b q).maxx ∧
        (bbox_step b q).miny ≤ b.miny ∧ (bbox_step b q).miny ≤ q.y ∧
        b.maxy ≤ (bbox_step b q).maxy ∧ q.y ≤ (bbox_step b q).maxy := by
      simp only [bbox_step]
      refine ⟨?_, ?_, ?_, ?_, ?_, ?_, ?_, ?_⟩ <;> split <;> linarith
    obtain ⟨⟨i1, i2, i3, i4⟩, ih2⟩ := ih (bbox_step b q)
    obtain ⟨s1, s2, s3, s4, s5, s6, s7, s8⟩ := hstep
    simp only [List.foldl_cons]
    refine ⟨⟨by linarith, by linarith, by linarith, by linarith⟩, ?_⟩
    intro p hp
    rcases List.mem_cons.mp hp with rfl | hp
    · exact ⟨by linarith, by linarith, by linarith, by linarith⟩
    · exact ih2 p hp

lemma collect_map_some {β γ : Type} (f : β → Option γ) (g : β → γ) (l : List β)
    (h : ∀ b ∈ l, f b = some (g b)) : collect (l.map f) = some (l.map g) := by
  induction l with
  | nil => simp [collect]
  | cons b bs ih =>
    have hb : f b = some (g b) := h b (List.mem_cons_self b bs)
    have hbs : collect (bs.map f) = some (bs.map g) :=
      ih (fun c hc => h c (List.mem_cons_of_mem b hc))
    simp [collect, hb, hbs]

lemma cell_floor_eq_some (min_points divisor : Nat) (hd : 2 ≤ divisor) (z_vec : List α) :
    cell_floor min_points divisor z_vec = some ((cell_floor min_points divisor z_vec).getD 0) := by
  unfold cell_floor
  split
  · rename_i hlen
    have hk := cell_floor_index_lt min_points divisor z_vec.length hd hlen
    have hk2 : z_vec.length / divisor < (z_vec.insertionSort (fun a b => a ≤ b)).length := by
      rw [List.length_insertionSort]; exact hk
    simp [List.getElem?_eq_getElem hk2]
  · simp

lemma compute_floor_zs_eq (min_points divisor : Nat) (hd : 2 ≤ divisor)
    (z_arrays : List (List (List α))) :
    compute_floor_zs min_points divisor z_arrays =
      some (z_arrays.map (fun row => row.map
        (fun cell => (cell_floor min_points divisor cell).getD 0))) := by
  unfold compute_floor_zs
  apply collect_map_some
  intro row _
  apply collect_map_some
  intro cell _
  exact cell_floor_eq_some min_points divisor hd cell

lemma floor_zs_cell (min_points divisor : Nat) (hd : 2 ≤ divisor)
    (z_arrays : List (List (List α))) (i j : Nat) (row : List (List α)) (cell : List α)
    (hi : z_arrays[i]? = some row) (hj : row[j]? = some cell) :
    ∃ floor_zs floor_row, compute_floor_zs min_points divisor z_arrays = some floor_zs ∧
      floor_zs[i]? = some floor_row ∧ floor_row[j]? = cell_floor min_points divisor cell := by
  refine ⟨_, row.map (fun cell => (cell_floor min_points divisor cell).getD 0),
    compute_floor_zs_eq min_points divisor hd z_arrays, ?_, ?_⟩
  · simp [List.getElem?_map, hi]
  · simp only [List.getElem?_map, hj, Option.map_some']
    exact (cell_floor_eq_some min_points divisor hd cell).symm

lemma cell_floor_of_sorted_perm (min_points divisor : Nat) (cell s : List α)
    (hlen : cell.length > min_points) (hperm : s.Perm cell)
    (hs : s.Sorted (fun a b => a ≤ b)) :
    cell_floor min_points divisor cell = s[cell.length / divisor]? := by
  have hsort : cell.insertionSort (fun a b => a ≤ b) = s :=
    List.eq_of_perm_of_sorted ((List.perm_insertionSort _ cell).trans hperm.symm)
      (List.sorted_insertionSort _ cell) hs
  simp [cell_floor, hlen, hsort]

lemma sorted_range_cast (n : Nat) :
    ((List.range n).map (fun m : Nat => (m : α))).Sorted (fun a b => a ≤ b) := by
  rw [List.Sorted, List.pairwise_map]
  exact (List.sorted_le_range n).imp (fun h => by exact_mod_cast h)

lemma cell_floor_replicate (min_points divisor n : Nat) (hd : 2 ≤ divisor) (hn : n > min_points)
    (v : α) : cell_floor min_points divisor (List.replicate n v) = some v := by
  have hs : (List.replicate n v).Sorted (fun a b => a ≤ b) := by
    simp [List.Sorted, List.pairwise_replicate]
  have hk := cell_floor_index_lt min_points divisor n hd hn
  rw [cell_floor_of_sorted_perm min_points divisor _ _ (by simpa using hn) (List.Perm.refl _) hs]
  simp [hk]

lemma cell_floor_range_200 :
    cell_floor MIN_POINTS_PER_BLOCK PERCENTILE_DIVISOR
      ((List.range 200).map (fun n : Nat => (n : α))) = some 10 := by
  rw [cell_floor_of_sorted_perm _ _ _ _ (by simp [MIN_POINTS_PER_BLOCK]) (List.Perm.refl _)
    (sorted_range_cast 200)]
  simp [PERCENTILE_DIVISOR]

end OrderLemmas

section FloorLemmas

variable {α : Type} [LinearOrderedField α] [FloorRing α]

lemma c_int_cast_of_nonneg {q : α} (hq : 0 ≤ q) : c_int_cast q = Int.floor q := by
  simp [c_int_cast, hq]

lemma c_int_cast_intCast (n : Int) : c_int_cast ((n : Int) : α) = n := by
  unfold c_int_cast
  split <;> simp

lemma ceiling_divide_eq_ceil (a b : α) : ceiling_divide a b = Int.ceil (a / b) := by
  unfold ceiling_divide
  simp only [c_int_cast_intCast]
  by_cases hq : 0 ≤ a / b
  · rw [c_int_cast_of_nonneg hq]
    by_cases hf : a / b - ((Int.floor (a / b) : Int) : α) > 0
    · rw [if_pos hf]
      symm
      rw [Int.ceil_eq_iff]
      constructor
      · push_cast
        linarith
      · push_cast
        linarith [Int.lt_floor_add_one (a / b)]
    · rw [if_neg hf]
      have h1 : a / b ≤ ((Int.floor (a / b) : Int) : α) := by linarith [not_lt.mp hf]
      have h2 : a / b = ((Int.floor (a / b) : Int) : α) := le_antisymm h1 (Int.floor_le _)
      rw [add_zero]
      conv_rhs => rw [h2]
      simp
  · have hlt : a / b < 0 := not_le.mp hq
    have hc : c_int_cast (a / b) = Int.ceil (a / b) := by simp [c_int_cast, hq]
    rw [hc]
    have hf : ¬ (a / b - ((Int.ceil (a / b) : Int) : α) > 0) := by
      have := Int.le_ceil (a / b)
      intro h
      linarith
    rw [if_neg hf, add_zero]

/-- The end-to-end scenario with the three points moved to `(10, 10)`, where the
grid has one cell: the floor height is 5 and the heights become 0, 0 and 10. -/
lemma flatten_shifted_scenario :
    (flatten_floors (20 : ℝ) 2 20
      [⟨10, 10, 5, 10⟩, ⟨10, 10, 5, 20⟩, ⟨10, 10, 15, 30⟩]).map (fun r => r.2) = some [[5]] ∧
    flatten_core Real.sqrt Real.tan Real.arctan (20 : ℝ) 2 20
      [⟨10, 10, 5, 10⟩, ⟨10, 10, 5, 20⟩, ⟨10, 10, 15, 30⟩] =
      some [⟨10, 10, 0, 10⟩, ⟨10, 10, 0, 20⟩, ⟨10, 10, 10, 30⟩] := by
  have hb : compute_full_bbox ([⟨10, 10, 5, 10⟩, ⟨10, 10, 5, 20⟩, ⟨10, 10, 15, 30⟩] :
      List (lidar_point ℝ)) = ⟨0, 0, 10, 10⟩ := by
    norm_num [compute_full_bbox, bbox_step]
  have hc : Int.ceil ((1 : ℝ) / 2) = 1 := by
    rw [Int.ceil_eq_iff]; norm_num
  have hfl : Int.floor ((1 : ℝ) / 2) = 0 := by
    rw [Int.floor_eq_iff]; norm_num
  have hi : c_int_cast ((1 : ℝ) / 2) = 0 := by
    rw [c_int_cast_of_nonneg (by norm_num), hfl]
  have hf : flatten_floors (20 : ℝ) 2 20
      [⟨10, 10, 5, 10⟩, ⟨10, 10, 5, 20⟩, ⟨10, 10, 15, 30⟩] =
      some (⟨20, 1, 1, 0, 0⟩, [[5]]) := by
    norm_num [flatten_floors, hb, grid.compute_grid, grid.new, ceiling_divide_eq_ceil, hc,
      alloc_z_arrays, bin_points, push_z, vec_get, grid.to_indices, hi, compute_floor_zs,
      collect, cell_floor, List.orderedInsert]
  refine ⟨by simp [hf], ?_⟩
  have h10 : Real.sqrt 100 = 10 := by
    rw [show (100 : ℝ) = 10 * 10 by norm_num]
    exact Real.sqrt_mul_self (by norm_num)
  norm_num [flatten_core, hf, adjust_all, adjust_one, grid.to_indices, hi, grid.center_coords,
    int_clamp, vec_get, collect, adjust_point, interp_angles, lerp_2d, lerp]
  norm_num [h10]

end FloorLemmas

section ListLemmas

lemma collect_eq_some {β : Type} : ∀ (l : List (Option β)) (r : List β),
    collect l = some r → l = r.map some
  | [], r, h => by
    simp only [collect, Option.some.injEq] at h
    subst h
    rfl
  | none :: _, r, h => by simp [collect] at h
  | some b :: rest, r, h => by
    simp only [collect] at h
    cases hc : collect rest with
    | none => simp [hc] at h
    | some bs =>
      simp only [hc, Option.some.injEq] at h
      subst h
      simp [collect_eq_some rest bs hc]

lemma vec_get_of_lt {β : Type} (v : List β) (i : Int) (h0 : 0 ≤ i) (h1 : i < v.length) :
    ∃ b, vec_get v i = some b ∧ b ∈ v := by
  have hlt : i.toNat < v.length := by omega
  refine ⟨v[i.toNat], ?_, List.getElem_mem hlt⟩
  simp [vec_get, h0, List.getElem?_eq_getElem hlt]

lemma int_clamp_bounds (val high : Int) (h : 0 ≤ high) :
    0 ≤ int_clamp val 0 high ∧ int_clamp val 0 high ≤ high := by
  simp only [int_clamp]
  omega

lemma forall2_of_map_eq {β γ : Type} (f : β → Option γ) (P : β → γ → Prop)
    (hf : ∀ b c, f b = some c → P b c) :
    ∀ (l : List β) (r : List γ), l.map f = r.map some → List.Forall₂ P l r
  | [], [], _ => List.Forall₂.nil
  | [], _ :: _, h => by simp at h
  | _ :: _, [], h => by simp at h
  | b :: l, c :: r, h => by
    simp only [List.map_cons, List.cons.injEq] at h
    exact List.Forall₂.cons (hf b c h.1) (forall2_of_map_eq f P hf l r h.2)

lemma forall2_getElem_some {β γ : Type} {R : β → γ → Prop} :
    ∀ {l1 : List β} {l2 : List γ}, List.Forall₂ R l1 l2 → ∀ (i : Nat) (a : β),
      l1[i]? = some a → ∃ b, l2[i]? = some b ∧ R a b
  | _, _, List.Forall₂.nil, i, a, h => by simp at h
  | _, _, List.Forall₂.cons hab ht, 0, a, h => by
    simp only [List.getElem?_cons_zero, Option.some.injEq] at h
    subst h
    exact ⟨_, by simp, hab⟩
  | _, _, List.Forall₂.cons _ ht, i + 1, a, h => by
    simp only [List.getElem?_cons_succ] at h
    obtain ⟨b, hb, hr⟩ := forall2_getElem_some ht i a h
    exact ⟨b, by simpa using hb, hr⟩

lemma forall2_set {β γ : Type} {R : β → γ → Prop} :
    ∀ {l1 : List β} {l2 : List γ}, List.Forall₂ R l1 l2 → ∀ (i : Nat) (a : β) (b : γ),
      R a b → List.Forall₂ R (l1.set i a) (l2.set i b)
  | _, _, List.Forall₂.nil, _, _, _, _ => by simp
  | _, _, List.Forall₂.cons _ ht, 0, _, _, hab => by
    simp only [List.set_cons_zero]
    exact List.Forall₂.cons hab ht
  | _, _, List.Forall₂.cons h1 ht, i + 1, a, b, hab => by
    simp only [List.set_cons_succ]
    exact List.Forall₂.cons h1 (forall2_set ht i a b hab)

lemma forall2_map_eq {β γ : Type} {R : β → β → Prop} (f : β → γ)
    (hf : ∀ a b, R a b → f a = f b) :
    ∀ {l1 l2 : List β}, List.Forall₂ R l1 l2 → l1.map f = l2.map f
  | _, _, List.Forall₂.nil => rfl
  | _, _, List.Forall₂.cons h1 ht => by
    simp only [List.map_cons, hf _ _ h1, forall2_map_eq f hf ht]

lemma forall2_trans {β : Type} {R : β → β → Prop} (hR : ∀ a b c, R a b → R b c → R a c) :
    ∀ {l1 l2 l3 : List β}, List.Forall₂ R l1 l2 → List.Forall₂ R l2 l3 → List.Forall₂ R l1 l3
  | _, _, _, List.Forall₂.nil, List.Forall₂.nil => List.Forall₂.nil
  | _, _, _, List.Forall₂.cons h1 t1, List.Forall₂.cons h2 t2 =>
    List.Forall₂.cons (hR _ _ _ h1 h2) (forall2_trans hR t1 t2)

lemma row_perm_refl {β : Type} (row : List (List β)) : List.Forall₂ List.Perm row row :=
  List.forall₂_same.mpr (fun c _ => List.Perm.refl c)

lemma cells_perm_refl {β : Type} (za : List (List (List β))) : cells_perm za za :=
  List.forall₂_same.mpr (fun row _ => row_perm_refl row)

lemma row_perm_trans {β : Type} {r1 r2 r3 : List (List β)}
    (h1 : List.Forall₂ List.Perm r1 r2) (h2 : List.Forall₂ List.Perm r2 r3) :
    List.Forall₂ List.Perm r1 r3 :=
  forall2_trans (R := fun a b : List β => List.Perm a b)
    (fun _ _ _ p1 p2 => List.Perm.trans p1 p2) h1 h2

lemma cells_perm_trans {β : Type} {za zb zc : List (List (List β))}
    (h1 : cells_perm za zb) (h2 : cells_perm zb zc) : cells_perm za zc :=
  forall2_trans (R := fun a b : List (List β) => List.Forall₂ List.Perm a b)
    (fun _ _ _ r1 r2 => row_perm_trans r1 r2) h1 h2

end ListLemmas

section PushLemmas

variable {α : Type}

lemma push_z_eq_some_iff (za za1 : List (List (List α))) (r c : Int) (z : α) :
    push_z za r c z = some za1 ↔
      0 ≤ r ∧ 0 ≤ c ∧ ∃ row cell, za[r.toNat]? = some row ∧ row[c.toNat]? = some cell ∧
        za1 = za.set r.toNat (row.set c.toNat (cell ++ [z])) := by
  unfold push_z vec_get
  by_cases hr : 0 ≤ r
  · by_cases hc : 0 ≤ c
    · simp only [hr, hc, if_true, true_and]
      cases h1 : za[r.toNat]? with
      | none => simp
      | some row =>
        simp only [Option.some.injEq, exists_and_left, exists_eq_left']
        cases h2 : row[c.toNat]? with
        | none => simp
        | some cell =>
          simp only [Option.some.injEq, exists_eq_left']
          exact eq_comm
    · simp only [hr, hc, if_true, if_false, false_and, and_false, iff_false]
      cases h1 : za[r.toNat]? <;> simp
  · simp [hr]

lemma push_z_rel (za zb za1 : List (List (List α))) (r c : Int) (z : α)
    (hrel : cells_perm za zb) (h : push_z za r c z = some za1) :
    ∃ zb1, push_z zb r c z = some zb1 ∧ cells_perm za1 zb1 := by
  obtain ⟨hr, hc, row, cell, h1, h2, h3⟩ := (push_z_eq_some_iff za za1 r c z).mp h
  obtain ⟨rowb, hb1, hrow⟩ := forall2_getElem_some hrel _ _ h1
  obtain ⟨cellb, hb2, hcell⟩ := forall2_getElem_some hrow _ _ h2
  refine ⟨zb.set r.toNat (rowb.set c.toNat (cellb ++ [z])), ?_, ?_⟩
  · exact (push_z_eq_some_iff zb _ r c z).mpr ⟨hr, hc, rowb, cellb, hb1, hb2, rfl⟩
  · rw [h3]
    exact forall2_set hrel _ _ _ (forall2_set hrow _ _ _ (hcell.append_right [z]))

lemma push_z_comm (za a1 a2 : List (List (List α))) (r1 c1 r2 c2 : Int) (z1 z2 : α)
    (h1 : push_z za r1 c1 z1 = some a1) (h2 : push_z a1 r2 c2 z2 = some a2) :
    ∃ b1 b2, push_z za r2 c2 z2 = some b1 ∧ push_z b1 r1 c1 z1 = some b2 ∧
      cells_perm a2 b2 := by
  obtain ⟨hr1, hc1, row1, cell1, e1, f1, g1⟩ := (push_z_eq_some_iff za a1 r1 c1 z1).mp h1
  obtain ⟨hr2, hc2, row2, cell2, e2, f2, g2⟩ := (push_z_eq_some_iff a1 a2 r2 c2 z2).mp h2
  have hi1 : r1.toNat < za.length := (List.getElem?_eq_some.mp e1).1
  have hj1 : c1.toNat < row1.length := (List.getElem?_eq_some.mp f1).1
  subst g1
  by_cases hi : r1.toNat = r2.toNat
  · rw [← hi, List.getElem?_set_self (by simpa using hi1)] at e2
    simp only [Option.some.injEq] at e2
    subst e2
    by_cases hj : c1.toNat = c2.toNat
    · rw [← hj, List.getElem?_set_self (by simpa using hj1)] at f2
      simp only [Option.some.injEq] at f2
      subst f2
      refine ⟨za.set r2.toNat (row1.set c2.toNat (cell1 ++ [z2])),
        za.set r1.toNat (row1.set c1.toNat (cell1 ++ [z2] ++ [z1])),
        (push_z_eq_some_iff za _ r2 c2 z2).mpr
          ⟨hr2, hc2, row1, cell1, hi ▸ e1, hj ▸ f1, rfl⟩, ?_, ?_⟩
      · refine (push_z_eq_some_iff _ _ r1 c1 z1).mpr
          ⟨hr1, hc1, row1.set c1.toNat (cell1 ++ [z2]), cell1 ++ [z2], ?_, ?_, ?_⟩
        · rw [← hi, List.getElem?_set_self (by simpa using hi1), ← hj]
        · rw [List.getElem?_set_self (by simpa using hj1)]
        · rw [← hi, ← hj, List.set_set, List.set_set]
      · rw [g2, ← hi, ← hj, List.set_set, List.set_set]
        refine forall2_set (cells_perm_refl za) _ _ _
          (forall2_set (row_perm_refl row1) _ _ _ ?_)
        simp only [List.append_assoc]
        exact List.Perm.append_left cell1 (List.Perm.swap z2 z1 [])
    · rw [List.getElem?_set_ne hj] at f2
      refine ⟨za.set r2.toNat (row1.set c2.toNat (cell2 ++ [z2])),
        za.set r1.toNat ((row1.set c2.toNat (cell2 ++ [z2])).set c1.toNat (cell1 ++ [z1])),
        (push_z_eq_some_iff za _ r2 c2 z2).mpr
          ⟨hr2, hc2, row1, cell2, hi ▸ e1, f2, rfl⟩, ?_, ?_⟩
      · refine (push_z_eq_some_iff _ _ r1 c1 z1).mpr
          ⟨hr1, hc1, row1.set c2.toNat (cell2 ++ [z2]), cell1, ?_, ?_, ?_⟩
        · rw [← hi, List.getElem?_set_self (by simpa using hi1)]
        · rw [List.getElem?_set_ne (Ne.symm hj)]
          exact f1
        · rw [← hi, List.set_set]
      · rw [g2, ← hi, List.set_set, List.set_comm _ _ _ hj]
        exact cells_perm_refl _
  · rw [List.getElem?_set_ne hi] at e2
    refine ⟨za.set r2.toNat (row2.set c2.toNat (cell2 ++ [z2])),
      (za.set r2.toNat (row2.set c2.toNat (cell2 ++ [z2]))).set r1.toNat
        (row1.set c1.toNat (cell1 ++ [z1])),
      (push_z_eq_some_iff za _ r2 c2 z2).mpr
        ⟨hr2, hc2, row2, cell2, e2, f2, rfl⟩, ?_, ?_⟩
    · refine (push_z_eq_some_iff _ _ r1 c1 z1).mpr ⟨hr1, hc1, row1, cell1, ?_, f1, rfl⟩
      rw [List.getElem?_set_ne (Ne.symm hi)]
      exact e1
    · rw [g2, List.set_comm _ _ _ hi]
      exact cells_perm_refl _

end PushLemmas

section PermLemmas

variable {α : Type} [LinearOrderedField α]

lemma cell_floor_perm (min_points divisor : Nat) {c1 c2 : List α} (h : c1.Perm c2) :
    cell_floor min_points divisor c1 = cell_floor min_points divisor c2 := by
  have hs : c1.insertionSort (fun a b => a ≤ b) = c2.insertionSort (fun a b => a ≤ b) :=
    List.eq_of_perm_of_sorted
      (((List.perm_insertionSort _ c1).trans h).trans (List.perm_insertionSort _ c2).symm)
      (List.sorted_insertionSort _ c1) (List.sorted_insertionSort _ c2)
  simp only [cell_floor, h.length_eq, hs]

lemma compute_floor_zs_perm (min_points divisor : Nat) {za zb : List (List (List α))}
    (h : cells_perm za zb) :
    compute_floor_zs min_points divisor za = compute_floor_zs min_points divisor zb := by
  unfold compute_floor_zs
  congr 1
  refine forall2_map_eq _ ?_ h
  intro r1 r2 hr
  congr 1
  exact forall2_map_eq _ (fun c1 c2 hc => cell_floor_perm min_points divisor hc) hr

end PermLemmas

section PipelineLemmas

variable {α : Type} [LinearOrderedField α] [FloorRing α]

lemma adjust_one_isSome (sqrt tan atan : α → α) (g : grid α) (floor_zs : List (List α))
    (p : lidar_point α) (hh : 1 ≤ g._h) (hw : 1 ≤ g._w)
    (hlen : (floor_zs.length : Int) = g._h)
    (hrows : ∀ r ∈ floor_zs, (r.length : Int) = g._w) :
    ∃ q, adjust_one sqrt tan atan g floor_zs p = some q := by
  have get_row : ∀ v : Int, ∃ r, vec_get floor_zs (int_clamp v 0 (g._h - 1)) = some r ∧
      (r.length : Int) = g._w := by
    intro v
    obtain ⟨b0, b1⟩ := int_clamp_bounds v (g._h - 1) (by omega)
    obtain ⟨r, hr, hmem⟩ := vec_get_of_lt floor_zs _ b0 (by omega)
    exact ⟨r, hr, hrows r hmem⟩
  have get_cell : ∀ (r : List α), (r.length : Int) = g._w → ∀ v : Int,
      ∃ c, vec_get r (int_clamp v 0 (g._w - 1)) = some c := by
    intro r hr v
    obtain ⟨b0, b1⟩ := int_clamp_bounds v (g._w - 1) (by omega)
    obtain ⟨c, hc, _⟩ := vec_get_of_lt r _ b0 (by omega)
    exact ⟨c, hc⟩
  simp only [adjust_one]
  generalize (if (p.y - (g.center_coords (g.to_indices p.x p.y).1 (g.to_indices p.x p.y).2).2)
      / g.section_len < 0 then (g.to_indices p.x p.y).1 - 1 else (g.to_indices p.x p.y).1) = row
  generalize (if (p.x - (g.center_coords (g.to_indices p.x p.y).1 (g.to_indices p.x p.y).2).1)
      / g.section_len < 0 then (g.to_indices p.x p.y).2 - 1 else (g.to_indices p.x p.y).2) = col
  obtain ⟨rb, hrb, lb⟩ := get_row row
  obtain ⟨rt, hrt, lt⟩ := get_row (row + 1)
  obtain ⟨c1, hc1⟩ := get_cell rb lb col
  obtain ⟨c2, hc2⟩ := get_cell rb lb (col + 1)
  obtain ⟨c3, hc3⟩ := get_cell rt lt col
  obtain ⟨c4, hc4⟩ := get_cell rt lt (col + 1)
  simp only [hrb, hrt, hc1, hc2, hc3, hc4]
  exact ⟨_, rfl⟩

lemma adjust_one_intensity (sqrt tan atan : α → α) (g : grid α) (floor_zs : List (List α))
    (p q : lidar_point α) (h : adjust_one sqrt tan atan g floor_zs p = some q) :
    q.intensity = p.intensity := by
  simp only [adjust_one] at h
  split at h
  · split at h
    · simp only [Option.some.injEq] at h
      rw [← h]
      rfl
    · exact absurd h (by simp)
  · exact absurd h (by simp)

lemma bin_points_rel (g : grid α) : ∀ (ps : List (lidar_point α))
    (za zb ra : List (List (List α))), cells_perm za zb → bin_points g ps za = some ra →
    ∃ rb, bin_points g ps zb = some rb ∧ cells_perm ra rb
  | [], za, zb, ra, hrel, h => by
    simp only [bin_points, Option.some.injEq] at h
    subst h
    exact ⟨zb, rfl, hrel⟩
  | p :: ps, za, zb, ra, hrel, h => by
    simp only [bin_points] at h
    cases hp : push_z za (g.to_indices p.x p.y).1 (g.to_indices p.x p.y).2 p.z with
    | none => simp [hp] at h
    | some za1 =>
      simp only [hp] at h
      obtain ⟨zb1, hb, hrel1⟩ := push_z_rel za zb za1 _ _ _ hrel hp
      obtain ⟨rb, hrb, hr⟩ := bin_points_rel g ps za1 zb1 ra hrel1 h
      refine ⟨rb, ?_, hr⟩
      simp only [bin_points, hb]
      exact hrb

lemma bin_points_perm (g : grid α) {ps qs : List (lidar_point α)} (hperm : ps.Perm qs) :
    ∀ (za zb ra : List (List (List α))), cells_perm za zb → bin_points g ps za = some ra →
    ∃ rb, bin_points g qs zb = some rb ∧ cells_perm ra rb := by
  induction hperm with
  | nil => exact bin_points_rel g []
  | cons p _ ih =>
    intro za zb ra hrel h
    simp only [bin_points] at h
    cases hp : push_z za (g.to_indices p.x p.y).1 (g.to_indices p.x p.y).2 p.z with
    | none => simp [hp] at h
    | some za1 =>
      simp only [hp] at h
      obtain ⟨zb1, hb, hrel1⟩ := push_z_rel za zb za1 _ _ _ hrel hp
      obtain ⟨rb, hrb, hr⟩ := ih za1 zb1 ra hrel1 h
      refine ⟨rb, ?_, hr⟩
      simp only [bin_points, hb]
      exact hrb
  | swap p q l =>
    intro za zb ra hrel h
    simp only [bin_points] at h
    cases hq : push_z za (g.to_indices q.x q.y).1 (g.to_indices q.x q.y).2 q.z with
    | none => simp [hq] at h
    | some za1 =>
      simp only [hq] at h
      cases hp : push_z za1 (g.to_indices p.x p.y).1 (g.to_indices p.x p.y).2 p.z with
      | none => simp [hp] at h
      | some za2 =>
        simp only [hp] at h
        obtain ⟨b1, b2, hb1, hb2, hrel2⟩ := push_z_comm za za1 za2 _ _ _ _ _ _ hq hp
        obtain ⟨c1, hc1, hrc1⟩ := push_z_rel za zb b1 _ _ _ hrel hb1
        obtain ⟨c2, hc2, hrc2⟩ := push_z_rel b1 c1 b2 _ _ _ hrc1 hb2
        obtain ⟨rb, hrb, hr⟩ := bin_points_rel g l za2 c2 ra (cells_perm_trans hrel2 hrc2) h
        refine ⟨rb, ?_, hr⟩
        simp only [bin_points, hc1, hc2]
        exact hrb
  | trans _ _ ih1 ih2 =>
    intro za zb ra hrel h
    obtain ⟨rm, hm, hr1⟩ := ih1 za za ra (cells_perm_refl za) h
    obtain ⟨rb, hb, hr2⟩ := ih2 za zb rm hrel hm
    exact ⟨rb, hb, cells_perm_trans hr1 hr2⟩

lemma sample_floor_zs_rows : ∀ r ∈ sample_floor_zs, (r.length : Int) = sample_grid._w := by
  intro r hr
  rw [List.eq_of_mem_replicate hr]
  rfl

end PipelineLemmas

section SelectionLemmas

variable {α : Type} [LinearOrderedField α]

lemma exists_min_mem : ∀ (l : List α), l ≠ [] → ∃ m ∈ l, ∀ e ∈ l, m ≤ e
  | [], h => absurd rfl h
  | [a], _ => ⟨a, by simp, by simp⟩
  | a :: b :: t, _ => by
    obtain ⟨m, hm, hall⟩ := exists_min_mem (b :: t) (by simp)
    by_cases h : a ≤ m
    · refine ⟨a, by simp, ?_⟩
      intro e he
      rcases List.mem_cons.mp he with rfl | he
      · exact le_refl _
      · exact le_trans h (hall e he)
    · refine ⟨m, List.mem_cons_of_mem a hm, ?_⟩
      intro e he
      rcases List.mem_cons.mp he with rfl | he
      · exact le_of_lt (not_le.mp h)
      · exact hall e he

lemma exists_max_mem : ∀ (l : List α), l ≠ [] → ∃ m ∈ l, ∀ e ∈ l, e ≤ m
  | [], h => absurd rfl h
  | [a], _ => ⟨a, by simp, by simp⟩
  | a :: b :: t, _ => by
    obtain ⟨m, hm, hall⟩ := exists_max_mem (b :: t) (by simp)
    by_cases h : m ≤ a
    · refine ⟨a, by simp, ?_⟩
      intro e he
      rcases List.mem_cons.mp he with rfl | he
      · exact le_refl _
      · exact le_trans (hall e he) h
    · refine ⟨m, List.mem_cons_of_mem a hm, ?_⟩
      intro e he
      rcases List.mem_cons.mp he with rfl | he
      · exact le_of_lt (not_le.mp h)
      · exact hall e he

lemma sorted_split_counts (A B : List α) (v : α)
    (hs : (A ++ v :: B).Sorted (fun a b => a ≤ b)) :
    A.length + 1 ≤ (A ++ v :: B).countP (fun e => decide (e ≤ v)) ∧
    (A ++ v :: B).length - A.length ≤ (A ++ v :: B).countP (fun e => decide (v ≤ e)) := by
  rw [List.Sorted, List.pairwise_append] at hs
  obtain ⟨_, htail, hcross⟩ := hs
  have hv : ∀ a ∈ B, v ≤ a := fun a ha => List.rel_of_pairwise_cons htail ha
  constructor
  · have h1 : A.countP (fun e => decide (e ≤ v)) = A.length := by
      rw [List.countP_eq_length]
      intro a ha
      simpa using hcross a ha v (List.mem_cons_self _ _)
    rw [List.countP_append, h1, List.countP_cons_of_pos _ _ (by simp)]
    omega
  · have h2 : (v :: B).countP (fun e => decide (v ≤ e)) = (v :: B).length := by
      rw [List.countP_eq_length]
      intro a ha
      rcases List.mem_cons.mp ha with rfl | ha
      · simp
      · simpa using hv a ha
    rw [List.countP_append, h2, List.length_append]
    omega

lemma sorted_rank_counts (s : List α) (hs : s.Sorted (fun a b => a ≤ b)) (k : Nat)
    (hk : k < s.length) :
    k + 1 ≤ s.countP (fun e => decide (e ≤ s[k])) ∧
    s.length - k ≤ s.countP (fun e => decide (s[k] ≤ e)) := by
  have hsplit : s.take k ++ s[k] :: s.drop (k + 1) = s := by
    rw [← List.drop_eq_getElem_cons hk, List.take_append_drop]
  have hlen_take : (s.take k).length = k := by
    rw [List.length_take]; omega
  have h := sorted_split_counts (s.take k) (s.drop (k + 1)) s[k] (by rw [hsplit]; exact hs)
  rw [hsplit, hlen_take] at h
  exact h

end SelectionLemmas

section SparseLemmas

lemma push_z_shape {β : Type} (za za1 : List (List (List β))) (r c : Int) (z : β) (w : Nat)
    (hrows : ∀ row ∈ za, row.length = w) (h : push_z za r c z = some za1) :
    za1.length = za.length ∧ (∀ row ∈ za1, row.length = w) ∧ 1 ≤ za.length ∧ 1 ≤ w := by
  obtain ⟨_, _, row, cell, h1, h2, h3⟩ := (push_z_eq_some_iff za za1 r c z).mp h
  have hi := (List.getElem?_eq_some.mp h1).1
  have hj := (List.getElem?_eq_some.mp h2).1
  have hrow : row.length = w := hrows row (List.getElem?_mem h1)
  subst h3
  refine ⟨by simp, ?_, by omega, by omega⟩
  intro row1 hmem
  rcases List.mem_or_eq_of_mem_set hmem with hm | rfl
  · exact hrows row1 hm
  · simpa using hrow

lemma alloc_z_arrays_shape {α : Type} (h w : Int) (z0 : List (List (List α)))
    (ha : alloc_z_arrays h w = some z0) :
    0 ≤ h ∧ 0 ≤ w ∧ z0.length = h.toNat ∧ ∀ row ∈ z0, row.length = w.toNat := by
  unfold alloc_z_arrays at ha
  split at ha
  · rename_i hhw
    simp only [Option.some.injEq] at ha
    subst ha
    refine ⟨hhw.1, hhw.2, by simp, ?_⟩
    intro row hrow
    rw [List.eq_of_mem_replicate hrow]
    simp
  · exact absurd ha (by simp)

end SparseLemmas

section CircularArrayLemmas

variable {T : Type}

lemma mod_ne_of_lt_of_sub_lt (n j L : Nat) (h1 : j < L) (h2 : L - j < n) : j % n ≠ L % n := by
  intro h
  have h3 : (L - j) % n = 0 := Nat.sub_mod_eq_zero_of_mod_eq h.symm
  rw [Nat.mod_eq_of_lt h2] at h3
  omega

lemma vec_get_natCast {β : Type} (v : List β) (i : Nat) : vec_get v (i : Int) = v[i]? := by
  simp [vec_get]

lemma ca_inv_insert (n : Nat) (hn : 1 ≤ n) (ca : circular_array T) (ys : List T) (x : T)
    (h : ca_inv n ca ys) : ∃ ca1, ca.insert x = some ca1 ∧ ca_inv n ca1 (ys ++ [x]) := by
  obtain ⟨hcap, hlen, hnum, hstart, hwin⟩ := h
  have hidx : ((if ca.num_els = ca.cap then
        ({ ca with start_index := ca.start_index + 1, num_els := ca.num_els - 1 } :
          circular_array T)
      else ca).start_index +
      (if ca.num_els = ca.cap then
        ({ ca with start_index := ca.start_index + 1, num_els := ca.num_els - 1 } :
          circular_array T)
      else ca).num_els) = ((ys.length : Nat) : Int) := by
    split <;> simp only [hstart, hnum] <;> omega
  have hcap1 : (if ca.num_els = ca.cap then
        ({ ca with start_index := ca.start_index + 1, num_els := ca.num_els - 1 } :
          circular_array T)
      else ca).cap = (n : Int) := by
    split <;> simp only [hcap]
  have harr1 : (if ca.num_els = ca.cap then
        ({ ca with start_index := ca.start_index + 1, num_els := ca.num_els - 1 } :
          circular_array T)
      else ca).arr = ca.arr := by
    split <;> rfl
  have hlt : ys.length % n < ca.arr.length := by
    rw [hlen]; exact Nat.mod_lt _ (by omega)
  have htm : (((ys.length : Nat) : Int)).tmod (n : Int) = ((ys.length % n : Nat) : Int) :=
    (Int.ofNat_tmod _ _).symm
  simp only [circular_array.insert, hidx, hcap1, harr1, htm, vec_get_natCast,
    List.getElem?_eq_getElem hlt, Int.toNat_ofNat]
  refine ⟨_, rfl, ?_, ?_, ?_, ?_, ?_⟩
  · rfl
  · simp [hlen]
  · simp only [List.length_append, List.length_singleton]
    split <;> rename_i hfull
    · simp only [hnum, hcap] at hfull ⊢
      omega
    · simp only [hnum, hcap] at hfull ⊢
      omega
  · simp only [List.length_append, List.length_singleton]
    split <;> rename_i hfull
    · simp only [hnum, hcap, hstart] at hfull ⊢
      omega
    · simp only [hnum, hcap, hstart] at hfull ⊢
      omega
  · intro j hj1 hj2
    simp only [List.length_append, List.length_singleton] at hj1 hj2
    by_cases hjl : j = ys.length
    · subst hjl
      rw [List.getElem?_set_self hlt]
      simp
    · have hjlt : j < ys.length := by omega
      have hne : ys.length % n ≠ j % n :=
        Ne.symm (mod_ne_of_lt_of_sub_lt n j ys.length hjlt (by omega))
      rw [List.getElem?_set_ne hne, hwin j (by omega) hjlt, List.getElem?_append_left hjlt]

lemma ca_inv_insert_all (n : Nat) (hn : 1 ≤ n) : ∀ (xs : List T) (ca : circular_array T)
    (ys : List T), ca_inv n ca ys →
    ∃ ca1, ca.insert_all xs = some ca1 ∧ ca_inv n ca1 (ys ++ xs)
  | [], ca, ys, h => ⟨ca, rfl, by simpa using h⟩
  | x :: xs, ca, ys, h => by
    obtain ⟨ca1, h1, hinv1⟩ := ca_inv_insert n hn ca ys x h
    obtain ⟨ca2, h2, hinv2⟩ := ca_inv_insert_all n hn xs ca1 (ys ++ [x]) hinv1
    refine ⟨ca2, ?_, by simpa using hinv2⟩
    simp only [circular_array.insert_all, h1]
    exact h2

lemma ca_inv_new (n : Nat) (raw : List T) (hraw : raw.length = n) :
    ca_inv n (circular_array.new (n : Int) raw) [] := by
  refine ⟨rfl, hraw, by simp [circular_array.new], by simp [circular_array.new], ?_⟩
  intro j _ hj
  simp at hj

lemma collect_map_some_id {β : Type} (l : List β) : collect (l.map some) = some l := by
  have h := collect_map_some (fun b : β => some b) id l (fun _ _ => rfl)
  simpa using h

lemma ca_inv_reads (n : Nat) (_hn : 1 ≤ n) (ca : circular_array T) (ys : List T)
    (h : ca_inv n ca ys) :
    (List.range ca.num_els.toNat).map
      (fun (i : Nat) => vec_get ca.arr ((ca.start_index + (i : Int)).tmod ca.cap)) =
    (ys.drop (ys.length - min ys.length n)).map some := by
  obtain ⟨hcap, hlen, hnum, hstart, hwin⟩ := h
  apply List.ext_getElem?
  intro i
  simp only [hnum, Int.toNat_ofNat, hstart, hcap, List.getElem?_map, List.getElem?_range,
    List.getElem?_drop]
  by_cases hi : i < min ys.length n
  · have hj : ys.length - min ys.length n + i < ys.length := by omega
    have e : (((ys.length - min ys.length n : Nat) : Int) + (i : Int)) =
        ((ys.length - min ys.length n + i : Nat) : Int) := by push_cast; rfl
    rw [List.getElem?_range hi]
    simp only [Option.map_some', e]
    rw [← Int.ofNat_tmod, vec_get_natCast, hwin _ (by omega) hj,
      List.getElem?_eq_getElem hj]
    rfl
  · have hj : ys.length ≤ ys.length - min ys.length n + i := by omega
    have hr : (List.range (min ys.length n)).length ≤ i := by
      rw [List.length_range]; omega
    rw [List.getElem?_eq_none hr, List.getElem?_eq_none hj]
    rfl

lemma ca_inv_as_vec (n : Nat) (hn : 1 ≤ n) (ca : circular_array T) (ys : List T)
    (h : ca_inv n ca ys) :
    ca.as_vec = some (ys.drop (ys.length - min ys.length n)) := by
  unfold circular_array.as_vec
  rw [ca_inv_reads n hn ca ys h]
  exact collect_map_some_id _

lemma fold_reads_eq [LinearOrder T] (f : Nat → Option T) :
    ∀ (is : List Nat) (v : List T) (m : T), is.map f = v.map some →
      is.foldl (fun acc i =>
        match acc, f i with
        | some min_val, some el => some (if el < min_val then el else min_val)
        | _, _ => none) (some m) =
      some (v.foldl (fun min_val el => if el < min_val then el else min_val) m)
  | [], [], m, _ => rfl
  | [], _ :: _, _, h => by simp at h
  | _ :: _, [], _, h => by simp at h
  | i :: is, e :: v, m, h => by
    simp only [List.map_cons, List.cons.injEq] at h
    simp only [List.foldl_cons, h.1]
    exact fold_reads_eq f is v _ h.2

lemma fold_min_spec [LinearOrder T] : ∀ (v : List T) (m : T),
    (v.foldl (fun min_val el => if el < min_val then el else min_val) m ≤ m ∧
      ∀ e ∈ v, v.foldl (fun min_val el => if el < min_val then el else min_val) m ≤ e) ∧
    (v.foldl (fun min_val el => if el < min_val then el else min_val) m = m ∨
      v.foldl (fun min_val el => if el < min_val then el else min_val) m ∈ v)
  | [], m => by simp
  | a :: v, m => by
    obtain ⟨⟨h1, h2⟩, h3⟩ := fold_min_spec v (if a < m then a else m)
    simp only [List.foldl_cons]
    have hle : (if a < m then a else m) ≤ m := by
      split
      · exact le_of_lt (by assumption)
      · exact le_refl _
    have hle2 : (if a < m then a else m) ≤ a := by
      split
      · exact le_refl _
      · exact not_lt.mp (by assumption)
    refine ⟨⟨le_trans h1 hle, ?_⟩, ?_⟩
    · intro e he
      rcases List.mem_cons.mp he with rfl | he
      · exact le_trans h1 hle2
      · exact h2 e he
    · rcases h3 with h3 | h3
      · rw [h3]
        by_cases ham : a < m
        · right; simp [ham]
        · left; simp [ham]
      · right
        exact List.mem_cons_of_mem _ h3

lemma ca_inv_slot_zero (n : Nat) (hn : 1 ≤ n) (ca : circular_array T) (ys : List T)
    (hne : ys ≠ []) (h : ca_inv n ca ys) :
    ∃ first, vec_get ca.arr 0 = some first ∧
      first ∈ ys.drop (ys.length - min ys.length n) := by
  obtain ⟨hcap, hlen, hnum, hstart, hwin⟩ := h
  have hL : 1 ≤ ys.length := by
    cases ys with
    | nil => exact absurd rfl hne
    | cons _ _ => simp
  have hdm := Nat.div_add_mod (ys.length - 1) n
  have hml := Nat.mod_lt (ys.length - 1) (show 0 < n by omega)
  have hjL : (ys.length - 1) / n * n < ys.length := by
    rw [Nat.mul_comm]; omega
  have hjs : ys.length - min ys.length n ≤ (ys.length - 1) / n * n := by
    rw [Nat.mul_comm]; omega
  have hw := hwin _ hjs hjL
  rw [Nat.mul_mod_left] at hw
  refine ⟨ys[(ys.length - 1) / n * n], ?_, ?_⟩
  · have : vec_get ca.arr 0 = ca.arr[0]? := vec_get_natCast ca.arr 0
    rw [this, hw, List.getElem?_eq_getElem hjL]
  · rw [List.mem_iff_getElem?]
    refine ⟨(ys.length - 1) / n * n - (ys.length - min ys.length n), ?_⟩
    rw [List.getElem?_drop, Nat.add_sub_cancel' hjs, List.getElem?_eq_getElem hjL]

lemma ca_min_value_of_inv [LinearOrder T] (n : Nat) (hn : 1 ≤ n) (ca : circular_array T)
    (ys : List T) (hne : ys ≠ []) (h : ca_inv n ca ys) :
    ∃ m, ca.min_value = some m ∧ m ∈ ys.drop (ys.length - min ys.length n) ∧
      ∀ e ∈ ys.drop (ys.length - min ys.length n), m ≤ e := by
  obtain ⟨first, hf, hmem⟩ := ca_inv_slot_zero n hn ca ys hne h
  have hr := ca_inv_reads n hn ca ys h
  have hfold := fold_reads_eq
    (fun (i : Nat) => vec_get ca.arr ((ca.start_index + (i : Int)).tmod ca.cap))
    _ _ first hr
  obtain ⟨⟨_, h2⟩, h3⟩ := fold_min_spec (ys.drop (ys.length - min ys.length n)) first
  refine ⟨_, ?_, ?_, h2⟩
  · simp only [circular_array.min_value, hf]
    exact hfold
  · rcases h3 with h3 | h3
    · rw [h3]; exact hmem
    · exact h3

end CircularArrayLemmas

section FilenameLemmas

lemma find_first_of_mem (c : Char) : ∀ (s : List Char), c ∈ s →
    ∃ i, find_first c s = some i ∧ i < s.length ∧ s[i]? = some c ∧ c ∉ s.take i
  | [], h => by simp at h
  | a :: rest, h => by
    by_cases hac : a = c
    · exact ⟨0, by simp [find_first, hac], by simp, by simp [hac], by simp⟩
    · have hmem : c ∈ rest := by
        rcases List.mem_cons.mp h with h1 | h1
        · exact absurd h1.symm hac
        · exact h1
      obtain ⟨i, h1, h2, h3, h4⟩ := find_first_of_mem c rest hmem
      refine ⟨i + 1, by simp [find_first, hac, h1], by simpa using h2, by simpa using h3, ?_⟩
      simp only [List.take_succ_cons, List.mem_cons, not_or]
      exact ⟨fun h => hac h.symm, h4⟩

end FilenameLemmas

section PowLemmas

variable {α : Type} [LinearOrderedField α]

lemma zpow_two_eq_intCast (d : Int) (hd : 0 ≤ d) :
    (2 : α) ^ d = (((2 : Int) ^ d.toNat : Int) : α) := by
  have : d = (d.toNat : Int) := (Int.toNat_of_nonneg hd).symm
  conv_lhs => rw [this]
  rw [zpow_natCast]
  push_cast
  rfl

end PowLemmas

section FloatLemmas

variable {α : Type} [LinearOrderedField α] [FloorRing α]

lemma rne_eq_of_abs_sub_lt (t : α) (m : Int) (h : |t - (m : α)| < 1 / 2) : rne t = m := by
  have h1 := abs_lt.mp h
  unfold rne
  simp only
  by_cases hf : Int.floor t = m
  · rw [hf]
    have : t - (m : α) < 1 / 2 := h1.2
    rw [if_pos this]
  · have hfl : Int.floor t = m - 1 := by
      rw [Int.floor_eq_iff]
      push_cast
      constructor
      · linarith
      · have hlt : t < (m : α) := by
          by_contra hge
          push_neg at hge
          apply hf
          rw [Int.floor_eq_iff]
          constructor
          · exact hge
          · linarith
        linarith
    rw [hfl]
    push_cast
    have h2 : ¬ (t - ((m : α) - 1) < 1 / 2) := by
      push_neg; linarith
    have h3 : (1 : α) / 2 < t - ((m : α) - 1) := by linarith
    rw [if_neg h2, if_pos h3]
    ring

lemma rne_intCast (m : Int) : rne ((m : Int) : α) = m :=
  rne_eq_of_abs_sub_lt _ m (by simp)

lemma rne_cases (t : α) :
    (rne t = Int.floor t ∧ t - (Int.floor t : α) ≤ 1 / 2) ∨
    (rne t = Int.floor t + 1 ∧ 1 / 2 ≤ t - (Int.floor t : α)) := by
  unfold rne
  simp only
  by_cases h1 : t - (Int.floor t : α) < 1 / 2
  · left
    rw [if_pos h1]
    exact ⟨rfl, h1.le⟩
  · rw [if_neg h1]
    by_cases h2 : (1 : α) / 2 < t - (Int.floor t : α)
    · right
      rw [if_pos h2]
      exact ⟨rfl, h2.le⟩
    · rw [if_neg h2]
      have h3 : t - (Int.floor t : α) = 1 / 2 := le_antisymm (not_lt.mp h2) (not_lt.mp h1)
      by_cases h4 : Int.floor t % 2 = 0
      · left
        rw [if_pos h4]
        exact ⟨rfl, h3.le⟩
      · right
        rw [if_neg h4]
        exact ⟨rfl, h3.ge⟩

lemma rne_tie (m : Int) :
    rne ((m : α) + 1 / 2) = if m % 2 = 0 then m else m + 1 := by
  have hf : Int.floor ((m : α) + 1 / 2) = m := by
    rw [Int.floor_eq_iff]
    constructor <;> norm_num
  unfold rne
  simp only
  rw [hf]
  have h1 : ¬ ((m : α) + 1 / 2 - (m : α) < 1 / 2) := by norm_num
  have h2 : ¬ ((1 : α) / 2 < (m : α) + 1 / 2 - (m : α)) := by norm_num
  rw [if_neg h1, if_neg h2]

/-- The result of `rne` is a nearest integer. -/
lemma rne_nearest (t : α) (n : Int) : |t - (rne t : α)| ≤ |t - (n : α)| := by
  have hfl : (Int.floor t : α) ≤ t := Int.floor_le t
  have hlt : t < (Int.floor t : α) + 1 := Int.lt_floor_add_one t
  have hn : n ≤ Int.floor t ∨ Int.floor t + 1 ≤ n := by omega
  rcases rne_cases t with ⟨h, hr⟩ | ⟨h, hr⟩
  · rw [h, abs_of_nonneg (by linarith)]
    rcases hn with hn | hn
    · have : (n : α) ≤ (Int.floor t : α) := by exact_mod_cast hn
      rw [abs_of_nonneg (by linarith)]
      linarith
    · have : ((Int.floor t : α) + 1) ≤ (n : α) := by exact_mod_cast hn
      rw [abs_of_nonpos (by linarith)]
      linarith
  · rw [h]
    push_cast
    rw [abs_of_nonpos (by linarith)]
    rcases hn with hn | hn
    · have : (n : α) ≤ (Int.floor t : α) := by exact_mod_cast hn
      rw [abs_of_nonneg (by linarith)]
      linarith
    · have : ((Int.floor t : α) + 1) ≤ (n : α) := by exact_mod_cast hn
      rw [abs_of_nonpos (by linarith)]
      linarith

lemma rne_sub_le (t : α) : |t - (rne t : α)| ≤ 1 / 2 := by
  have hfl : (Int.floor t : α) ≤ t := Int.floor_le t
  have hlt : t < (Int.floor t : α) + 1 := Int.lt_floor_add_one t
  rcases rne_cases t with ⟨h, hr⟩ | ⟨h, hr⟩
  · rw [h, abs_of_nonneg (by linarith)]
    exact hr
  · rw [h]
    push_cast
    rw [abs_of_nonpos (by linarith)]
    linarith

lemma rne_le_of_le (t : α) (n : Int) (h : t ≤ (n : α)) : rne t ≤ n := by
  by_contra hc
  push_neg at hc
  have h1 : (n : α) + 1 ≤ (rne t : α) := by exact_mod_cast hc
  have h2 := rne_nearest t n
  rw [abs_of_nonpos (by linarith), abs_of_nonpos (by linarith)] at h2
  linarith

lemma le_rne_of_le (t : α) (n : Int) (h : (n : α) ≤ t) : n ≤ rne t := by
  by_contra hc
  push_neg at hc
  have h1 : (rne t : α) + 1 ≤ (n : α) := by exact_mod_cast hc
  have h2 := rne_nearest t n
  rw [abs_of_nonneg (by linarith), abs_of_nonneg (by linarith)] at h2
  linarith

lemma rne_neg (t : α) : rne (-t) = -rne t := by
  have hfl : (Int.floor t : α) ≤ t := Int.floor_le t
  have hlt : t < (Int.floor t : α) + 1 := Int.lt_floor_add_one t
  rcases lt_trichotomy (t - (Int.floor t : α)) (1 / 2) with h | h | h
  · have h1 : rne t = Int.floor t :=
      rne_eq_of_abs_sub_lt t _ (by rw [abs_of_nonneg (by linarith)]; exact h)
    rw [h1]
    apply rne_eq_of_abs_sub_lt
    push_cast
    rw [abs_lt]
    constructor <;> linarith
  · have ht : t = (Int.floor t : α) + 1 / 2 := by linarith
    have hnt : -t = ((-(Int.floor t) - 1 : Int) : α) + 1 / 2 := by
      push_cast; linarith
    have e1 : rne t = if Int.floor t % 2 = 0 then Int.floor t else Int.floor t + 1 := by
      conv_lhs => rw [ht]
      exact rne_tie _
    rw [hnt, rne_tie, e1]
    split_ifs <;> omega
  · have h1 : rne t = Int.floor t + 1 := by
      apply rne_eq_of_abs_sub_lt
      push_cast
      rw [abs_lt]
      constructor <;> linarith
    rw [h1]
    apply rne_eq_of_abs_sub_lt
    push_cast
    rw [abs_lt]
    constructor <;> linarith

lemma rne_nonneg (t : α) (ht : 0 ≤ t) : 0 ≤ rne t := by
  have hf : 0 ≤ Int.floor t := Int.floor_nonneg.mpr ht
  unfold rne
  simp only
  split
  · exact hf
  · split
    · omega
    · split <;> omega

lemma fp_ulp_pos (prec : Nat) (emin : Int) (x : α) : 0 < fp_ulp prec emin x := by
  unfold fp_ulp
  positivity

lemma fp_round_zero (prec : Nat) (emin : Int) : fp_round prec emin (0 : α) = 0 := by
  unfold fp_round
  have h : rne (0 : α) = 0 := by
    have := rne_intCast (α := α) 0
    simpa using this
  rw [zero_div, h]
  simp

lemma fp_round_nonneg (prec : Nat) (emin : Int) (x : α) (hx : 0 ≤ x) :
    0 ≤ fp_round prec emin x := by
  unfold fp_round
  have h1 : 0 ≤ x / fp_ulp prec emin x := div_nonneg hx (fp_ulp_pos prec emin x).le
  have h2 : (0 : α) ≤ ((rne (x / fp_ulp prec emin x) : Int) : α) := by
    exact_mod_cast rne_nonneg _ h1
  exact mul_nonneg h2 (fp_ulp_pos prec emin x).le

lemma fp_exp_eq (emin e : Int) (x : α) (hx : x ≠ 0) (he : emin ≤ e)
    (hlo : e = emin ∨ (2 : α) ^ e ≤ |x|) (hhi : |x| < (2 : α) ^ (e + 1)) :
    fp_exp emin x = e := by
  have hpos : 0 < |x| := abs_pos.mpr hx
  have h2 : ((2 : Nat) : α) = 2 := by norm_num
  have hlog_lt : Int.log 2 |x| < e + 1 := by
    rw [← Int.lt_zpow_iff_log_lt (by norm_num) hpos, h2]
    exact hhi
  unfold fp_exp
  rcases hlo with hlo | hlo
  · subst hlo
    exact max_eq_right (by omega)
  · have hle : e ≤ Int.log 2 |x| := by
      rw [← Int.zpow_le_iff_le_log (by norm_num) hpos, h2]
      exact hlo
    have : Int.log 2 |x| = e := by omega
    rw [this]
    exact max_eq_left he

/-- Evaluation of a rounding: `x` lies in the binade of exponent `e` (or below the
least normal binade when `e = emin`) and `m` is the nearest integer to the scaled
value. -/
lemma fp_round_eval (prec : Nat) (emin e m : Int) (x : α) (hx : x ≠ 0) (he : emin ≤ e)
    (hlo : e = emin ∨ (2 : α) ^ e ≤ |x|) (hhi : |x| < (2 : α) ^ (e + 1))
    (hm : |x / (2 : α) ^ (e - ((prec : Int) - 1)) - (m : α)| < 1 / 2) :
    fp_round prec emin x = (m : α) * (2 : α) ^ (e - ((prec : Int) - 1)) := by
  unfold fp_round fp_ulp
  rw [fp_exp_eq emin e x hx he hlo hhi, rne_eq_of_abs_sub_lt _ m hm]

/-- Evaluation of a rounding at a positive value. -/
lemma fp_round_eval_pos (prec : Nat) (emin e m : Int) (x : α) (hx : 0 < x) (he : emin ≤ e)
    (hlo : e = emin ∨ (2 : α) ^ e ≤ x) (hhi : x < (2 : α) ^ (e + 1))
    (hm1 : (m : α) - 1 / 2 < x / (2 : α) ^ (e - ((prec : Int) - 1)))
    (hm2 : x / (2 : α) ^ (e - ((prec : Int) - 1)) < (m : α) + 1 / 2) :
    fp_round prec emin x = (m : α) * (2 : α) ^ (e - ((prec : Int) - 1)) := by
  apply fp_round_eval prec emin e m x (ne_of_gt hx) he
  · rw [abs_of_pos hx]; exact hlo
  · rw [abs_of_pos hx]; exact hhi
  · rw [abs_lt]; constructor <;> linarith

lemma fp_exp_neg (emin : Int) (x : α) : fp_exp emin (-x) = fp_exp emin x := by
  unfold fp_exp
  rw [abs_neg]

lemma fp_ulp_neg (prec : Nat) (emin : Int) (x : α) :
    fp_ulp prec emin (-x) = fp_ulp prec emin x := by
  unfold fp_ulp
  rw [fp_exp_neg]

lemma fp_round_neg (prec : Nat) (emin : Int) (x : α) :
    fp_round prec emin (-x) = -fp_round prec emin x := by
  unfold fp_round
  rw [fp_ulp_neg, neg_div, rne_neg]
  push_cast
  ring

lemma fp_exp_ge (emin : Int) (x : α) : emin ≤ fp_exp emin x := le_max_right _ _

lemma abs_lt_zpow_fp_exp (emin : Int) (x : α) : |x| < (2 : α) ^ (fp_exp emin x + 1) := by
  have h2 : ((2 : Nat) : α) = 2 := by norm_num
  have h := Int.lt_zpow_succ_log_self (b := 2) (by norm_num) |x|
  rw [h2] at h
  refine lt_of_lt_of_le h ?_
  apply zpow_le_zpow_right₀ (by norm_num)
  have : Int.log 2 |x| ≤ fp_exp emin x := le_max_left _ _
  omega

lemma zpow_fp_exp_le_abs (emin : Int) (x : α) (hx : x ≠ 0) (h : emin < fp_exp emin x) :
    (2 : α) ^ fp_exp emin x ≤ |x| := by
  have h2 : ((2 : Nat) : α) = 2 := by norm_num
  have hlog : fp_exp emin x = Int.log 2 |x| := by
    unfold fp_exp at h ⊢
    rcases le_total (Int.log 2 |x|) emin with h1 | h1
    · rw [max_eq_right h1] at h
      omega
    · exact max_eq_left h1
  rw [hlog]
  have := Int.zpow_log_le_self (b := 2) (r := |x|) (by norm_num) (abs_pos.mpr hx)
  rwa [h2] at this

/-- A multiple of the spacing around `x` is fixed by the rounding of `x`. -/
lemma fp_round_of_div_int (prec : Nat) (emin : Int) (x : α) (j : Int)
    (h : x / fp_ulp prec emin x = (j : α)) : fp_round prec emin x = x := by
  unfold fp_round
  rw [h, rne_intCast, ← h]
  exact div_mul_cancel₀ x (fp_ulp_pos prec emin x).ne.symm

/-- The values `m * 2 ^ k` with `|m| ≤ 2 ^ prec` and `k` not below the least
exponent are fixed by the rounding. -/
lemma fp_round_of_representable (prec : Nat) (emin : Int) (m k : Int) (hp : 1 ≤ prec)
    (hm : |m| ≤ 2 ^ prec) (hk : emin - ((prec : Int) - 1) ≤ k) :
    fp_round prec emin ((m : α) * (2 : α) ^ k) = (m : α) * (2 : α) ^ k := by
  set x : α := (m : α) * (2 : α) ^ k with hx
  by_cases h0 : x = 0
  · rw [h0]
    exact fp_round_zero prec emin
  have h2pos : ∀ n : Int, (0 : α) < (2 : α) ^ n := fun n => zpow_pos (by norm_num) n
  have habs : |x| = |(m : α)| * (2 : α) ^ k := by
    rw [hx, abs_mul, abs_of_pos (h2pos k)]
  have hmle : |(m : α)| ≤ (2 : α) ^ (prec : Int) := by
    have : ((|m| : Int) : α) ≤ (((2 : Int) ^ prec : Int) : α) := Int.cast_le.mpr hm
    rw [zpow_natCast]
    push_cast at this
    exact this
  have hxle : |x| ≤ (2 : α) ^ ((prec : Int) + k) := by
    rw [habs, zpow_add₀ (by norm_num : (2 : α) ≠ 0)]
    exact mul_le_mul_of_nonneg_right hmle (h2pos k).le
  by_cases hcase : fp_exp emin x - ((prec : Int) - 1) ≤ k
  · -- x is a multiple of the spacing
    apply fp_round_of_div_int prec emin x (m * (2 : Int) ^ (k - (fp_exp emin x - ((prec : Int) - 1))).toNat)
    unfold fp_ulp
    push_cast
    have e1 := zpow_two_eq_intCast (α := α) (k - (fp_exp emin x - ((prec : Int) - 1))) (by omega)
    push_cast at e1
    rw [← e1, hx, mul_div_assoc, ← zpow_sub₀ (by norm_num : (2 : α) ≠ 0)]
  · push_neg at hcase
    have hgt : emin < fp_exp emin x := by omega
    have hlo := zpow_fp_exp_le_abs emin x h0 hgt
    have hle : (prec : Int) + k ≤ fp_exp emin x := by omega
    have hhi : |x| ≤ (2 : α) ^ fp_exp emin x :=
      le_trans hxle (zpow_le_zpow_right₀ (by norm_num) hle)
    have heq : |x| = (2 : α) ^ fp_exp emin x := le_antisymm hhi hlo
    have hdiv : (2 : α) ^ fp_exp emin x / fp_ulp prec emin x
        = (((2 : Int) ^ (prec - 1) : Int) : α) := by
      unfold fp_ulp
      rw [← zpow_sub₀ (by norm_num : (2 : α) ≠ 0)]
      have hp1 : (1 : Int) ≤ (prec : Int) := by exact_mod_cast hp
      have e1 := zpow_two_eq_intCast (α := α) ((prec : Int) - 1) (by omega)
      have e2 : ((prec : Int) - 1).toNat = prec - 1 := by omega
      rw [e2] at e1
      rw [← e1]
      congr 1
      ring
    rcases abs_cases x with ⟨hax, _⟩ | ⟨hax, _⟩
    · apply fp_round_of_div_int prec emin x ((2 : Int) ^ (prec - 1))
      rw [← hdiv, ← heq, hax]
    · apply fp_round_of_div_int prec emin x (-(2 : Int) ^ (prec - 1))
      have hneg : x = -(2 : α) ^ fp_exp emin x := by rw [← heq, hax]; ring
      have : x / fp_ulp prec emin x = -((2 : α) ^ fp_exp emin x / fp_ulp prec emin x) := by
        rw [← neg_div, ← hneg]
      rw [this, hdiv]
      push_cast
      rfl

/-- The rounding of `x` is `M * 2 ^ K` with `|M| ≤ 2 ^ prec`. -/
lemma fp_round_mantissa (prec : Nat) (emin : Int) (x : α) :
    |rne (x / fp_ulp prec emin x)| ≤ 2 ^ prec := by
  have hu := fp_ulp_pos prec emin x
  have hlt := abs_lt_zpow_fp_exp emin x
  have hb : |x / fp_ulp prec emin x| ≤ (((2 : Int) ^ prec : Int) : α) := by
    rw [abs_div, abs_of_pos hu, div_le_iff₀ hu]
    unfold fp_ulp
    push_cast
    rw [← zpow_natCast, ← zpow_add₀ (by norm_num : (2 : α) ≠ 0)]
    have : (prec : Int) + (fp_exp emin x - ((prec : Int) - 1)) = fp_exp emin x + 1 := by ring
    rw [this]
    exact hlt.le
  rw [abs_le] at hb ⊢
  constructor
  · apply le_rne_of_le
    push_cast
    have := hb.1
    push_cast at this
    exact this
  · apply rne_le_of_le
    exact hb.2

/-- The rounding is idempotent. -/
lemma fp_round_idem (prec : Nat) (emin : Int) (x : α) (hp : 1 ≤ prec) :
    fp_round prec emin (fp_round prec emin x) = fp_round prec emin x := by
  unfold fp_round
  have h := fp_round_of_representable (α := α) prec emin (rne (x / fp_ulp prec emin x))
    (fp_exp emin x - ((prec : Int) - 1)) hp (fp_round_mantissa prec emin x)
    (by have := fp_exp_ge emin x; omega)
  unfold fp_round at h
  exact h

/-- The rounding of `x` is nearest to `x` among the multiples of the spacing. -/
lemma fp_round_nearest_mul (prec : Nat) (emin : Int) (x : α) (n : Int) :
    |x - fp_round prec emin x| ≤ |x - (n : α) * fp_ulp prec emin x| := by
  have hu := fp_ulp_pos prec emin x
  have h := rne_nearest (x / fp_ulp prec emin x) n
  have e1 : x - fp_round prec emin x
      = (x / fp_ulp prec emin x - (rne (x / fp_ulp prec emin x) : α)) * fp_ulp prec emin x := by
    unfold fp_round
    field_simp
    ring
  have e2 : x - (n : α) * fp_ulp prec emin x
      = (x / fp_ulp prec emin x - (n : α)) * fp_ulp prec emin x := by
    field_simp
    ring
  rw [e1, e2, abs_mul, abs_mul, abs_of_pos hu]
  exact mul_le_mul_of_nonneg_right h hu.le

/-- The rounding error is at most half the spacing. -/
lemma fp_round_error (prec : Nat) (emin : Int) (x : α) :
    |x - fp_round prec emin x| ≤ fp_ulp prec emin x / 2 := by
  have hu := fp_ulp_pos prec emin x
  have h := rne_sub_le (x / fp_ulp prec emin x)
  have e1 : x - fp_round prec emin x
      = (x / fp_ulp prec emin x - (rne (x / fp_ulp prec emin x) : α)) * fp_ulp prec emin x := by
    unfold fp_round
    field_simp
    ring
  rw [e1, abs_mul, abs_of_pos hu]
  calc |x / fp_ulp prec emin x - (rne (x / fp_ulp prec emin x) : α)| * fp_ulp prec emin x
      ≤ 1 / 2 * fp_ulp prec emin x := mul_le_mul_of_nonneg_right h hu.le
    _ = fp_ulp prec emin x / 2 := by ring

/-- The rounding of `x` is nearest to `x` among the values fixed by the rounding. -/
lemma fp_round_nearest (prec : Nat) (emin : Int) (x r : α) (hp : 1 ≤ prec)
    (hr : fp_round prec emin r = r) :
    |x - fp_round prec emin x| ≤ |x - r| := by
  by_cases hx0 : x = 0
  · rw [hx0, fp_round_zero, sub_zero, abs_zero]
    exact abs_nonneg _
  have h2pos : ∀ n : Int, (0 : α) < (2 : α) ^ n := fun n => zpow_pos (by norm_num) n
  have hp1 : (1 : Int) ≤ (prec : Int) := by exact_mod_cast hp
  by_cases hcase : fp_exp emin x ≤ fp_exp emin r
  · -- r is a multiple of the spacing around x
    have hr1 : r = ((rne (r / fp_ulp prec emin r)
        * (2 : Int) ^ (fp_exp emin r - fp_exp emin x).toNat : Int) : α) * fp_ulp prec emin x := by
      conv_lhs => rw [← hr]
      unfold fp_round
      push_cast
      have e1 := zpow_two_eq_intCast (α := α) (fp_exp emin r - fp_exp emin x) (by omega)
      push_cast at e1
      rw [← e1, mul_assoc]
      congr 1
      unfold fp_ulp
      rw [← zpow_add₀ (by norm_num : (2 : α) ≠ 0)]
      congr 1
      ring
    rw [hr1]
    exact fp_round_nearest_mul prec emin x _
  · push_neg at hcase
    have hgt : emin < fp_exp emin x := lt_of_le_of_lt (fp_exp_ge emin r) hcase
    have hlo := zpow_fp_exp_le_abs emin x hx0 hgt
    have hrlt : |r| < (2 : α) ^ fp_exp emin x :=
      lt_of_lt_of_le (abs_lt_zpow_fp_exp emin r) (zpow_le_zpow_right₀ (by norm_num) (by omega))
    have hpow : (2 : α) ^ fp_exp emin x
        = (((2 : Int) ^ (prec - 1) : Int) : α) * fp_ulp prec emin x := by
      unfold fp_ulp
      have e1 := zpow_two_eq_intCast (α := α) ((prec : Int) - 1) (by omega)
      have e2 : ((prec : Int) - 1).toNat = prec - 1 := by omega
      rw [e2] at e1
      rw [← e1, ← zpow_add₀ (by norm_num : (2 : α) ≠ 0)]
      congr 1
      ring
    rcases abs_cases x with ⟨hax, hx⟩ | ⟨hax, hx⟩
    · have h1 := fp_round_nearest_mul prec emin x ((2 : Int) ^ (prec - 1))
      rw [← hpow] at h1
      rw [hax] at hlo
      have h3 : |x - (2 : α) ^ fp_exp emin x| = x - (2 : α) ^ fp_exp emin x :=
        abs_of_nonneg (by linarith)
      rw [h3] at h1
      have hr2 := (abs_lt.mp hrlt).2
      have h4 : |x - r| = x - r := abs_of_nonneg (by linarith)
      rw [h4]
      linarith
    · have h1 := fp_round_nearest_mul prec emin x (-(2 : Int) ^ (prec - 1))
      have e3 : ((-(2 : Int) ^ (prec - 1) : Int) : α) * fp_ulp prec emin x
          = -(2 : α) ^ fp_exp emin x := by
        rw [hpow]; push_cast; ring
      rw [e3] at h1
      rw [hax] at hlo
      have h3 : |x - -(2 : α) ^ fp_exp emin x| = -(x - -(2 : α) ^ fp_exp emin x) :=
        abs_of_nonpos (by linarith)
      rw [h3] at h1
      have hr2 := (abs_lt.mp hrlt).1
      have h4 : |x - r| = -(x - r) := abs_of_nonpos (by linarith)
      rw [h4]
      linarith

/-- A value fixed by the rounding that bounds `x` from above bounds its rounding. -/
lemma fp_round_le_of_le (prec : Nat) (emin : Int) (x r : α) (hp : 1 ≤ prec)
    (hr : fp_round prec emin r = r) (h : x ≤ r) : fp_round prec emin x ≤ r := by
  by_contra hc
  push_neg at hc
  have h1 := fp_round_nearest prec emin x r hp hr
  rw [abs_of_nonpos (by linarith), abs_of_nonpos (by linarith)] at h1
  linarith

/-- A value fixed by the rounding that bounds `x` from below bounds its rounding. -/
lemma le_fp_round_of_le (prec : Nat) (emin : Int) (x r : α) (hp : 1 ≤ prec)
    (hr : fp_round prec emin r = r) (h : r ≤ x) : r ≤ fp_round prec emin x := by
  by_contra hc
  push_neg at hc
  have h1 := fp_round_nearest prec emin x r hp hr
  rw [abs_of_nonneg (by linarith), abs_of_nonneg (by linarith)] at h1
  linarith

/-- The rounding is monotone. -/
lemma fp_round_mono (prec : Nat) (emin : Int) (x y : α) (hp : 1 ≤ prec) (h : x ≤ y) :
    fp_round prec emin x ≤ fp_round prec emin y := by
  have hix := fp_round_idem prec emin x hp
  have hiy := fp_round_idem prec emin y hp
  by_cases h1 : x ≤ fp_round prec emin y
  · exact fp_round_le_of_le prec emin x _ hp hiy h1
  push_neg at h1
  by_cases h2 : fp_round prec emin x ≤ y
  · exact le_fp_round_of_le prec emin y _ hp hix h2
  push_neg at h2
  have n1 := fp_round_nearest prec emin y (fp_round prec emin x) hp hix
  have n2 := fp_round_nearest prec emin x (fp_round prec emin y) hp hiy
  rw [abs_of_nonneg (by linarith), abs_of_nonpos (by linarith)] at n1
  rw [abs_of_nonpos (by linarith), abs_of_nonneg (by linarith)] at n2
  have hxy : x = y := le_antisymm h (by linarith)
  rw [hxy]

/-- The relative rounding error of a value in the normal range. -/
lemma fp_round_rel_error (prec : Nat) (emin : Int) (x : α)
    (hx : (2 : α) ^ emin ≤ |x|) :
    |x - fp_round prec emin x| ≤ |x| * (2 : α) ^ (-(prec : Int)) := by
  have h2pos : ∀ n : Int, (0 : α) < (2 : α) ^ n := fun n => zpow_pos (by norm_num) n
  have hx0 : x ≠ 0 := by
    intro h
    rw [h, abs_zero] at hx
    exact absurd hx (not_le.mpr (h2pos emin))
  have h2 : ((2 : Nat) : α) = 2 := by norm_num
  have hlog : emin ≤ Int.log 2 |x| := by
    rw [← Int.zpow_le_iff_le_log (by norm_num) (abs_pos.mpr hx0), h2]
    exact hx
  have he : fp_exp emin x = Int.log 2 |x| := max_eq_left hlog
  have hlo : (2 : α) ^ fp_exp emin x ≤ |x| := by
    rw [he]
    have := Int.zpow_log_le_self (b := 2) (r := |x|) (by norm_num) (abs_pos.mpr hx0)
    rwa [h2] at this
  have herr := fp_round_error prec emin x
  have hu : fp_ulp prec emin x / 2 = (2 : α) ^ fp_exp emin x * (2 : α) ^ (-(prec : Int)) := by
    unfold fp_ulp
    rw [← zpow_add₀ (by norm_num : (2 : α) ≠ 0)]
    have : fp_exp emin x - ((prec : Int) - 1) = (fp_exp emin x + -(prec : Int)) + 1 := by ring
    rw [this, zpow_add_one₀ (by norm_num : (2 : α) ≠ 0)]
    ring
  rw [hu] at herr
  exact le_trans herr (mul_le_mul_of_nonneg_right hlo (h2pos _).le)

lemma f32_abs (x : α) (hx : f32 x = x) : f32 |x| = |x| := by
  rcases abs_cases x with ⟨h, _⟩ | ⟨h, _⟩
  · rw [h, hx]
  · rw [h]
    unfold f32 at hx ⊢
    rw [fp_round_neg, hx]

end FloatLemmas

section SqrtLemmas

/-- The square root of a value within relative distance `ε` of `(M * U) ^ 2` lies
within `U / 2` of `M * U`, when `M * ε ≤ 1 - ε` and `1 / 2 ≤ M * ε`. -/
lemma sqrt_bracket (M U ε y : ℝ) (hU : 0 < U) (hε : 0 < ε) (hM1 : 1 / 2 ≤ M * ε)
    (hM2 : M * ε ≤ 1 - ε) (hM : 1 ≤ M)
    (h1 : M * U * (M * U) - y ≤ M * U * (M * U) * ε)
    (h2 : -(M * U * (M * U) * ε) ≤ M * U * (M * U) - y) :
    M * U - U / 2 < Real.sqrt y ∧ Real.sqrt y < M * U + U / 2 := by
  have hM0 : 0 < M := lt_of_lt_of_le one_pos hM
  have hU2 : 0 < U * U := mul_pos hU hU
  have hp1 : 0 ≤ M * (1 - ε - M * ε) := mul_nonneg hM0.le (by linarith)
  have hp2 : 0 < M * (1 - M * ε) := mul_pos hM0 (by linarith)
  constructor
  · have hnn : 0 ≤ M * U - U / 2 := by
      have : 0 ≤ (M - 1 / 2) * U := mul_nonneg (by linarith) hU.le
      linarith
    rw [Real.lt_sqrt hnn]
    have key : 0 < (M - M * ε * M - 1 / 4) * (U * U) := mul_pos (by linarith) hU2
    linarith
  · rw [Real.sqrt_lt' (by positivity)]
    have key : 0 < (M + 1 / 4 - M * ε * M) * (U * U) := mul_pos (by linarith) hU2
    linarith

/-- In binary32 the correctly rounded square root of the rounded square of a
positive value `a ≥ 2 ^ (-63)` is `a` again. -/
lemma f32_sqrt_sq_of_pos (a : ℝ) (ha : f32 a = a) (hlo : (2 : ℝ) ^ (-63 : Int) ≤ a) :
    f32 (Real.sqrt (f32 (a * a))) = a := by
  have h2pos : ∀ n : Int, (0 : ℝ) < (2 : ℝ) ^ n := fun n => zpow_pos (by norm_num) n
  have hapos : 0 < a := lt_of_lt_of_le (h2pos _) hlo
  have ha0 : a ≠ 0 := hapos.ne.symm
  have h2 : ((2 : Nat) : ℝ) = 2 := by norm_num
  -- the exponent of a
  have hlog : (-63 : Int) ≤ Int.log 2 |a| := by
    rw [← Int.zpow_le_iff_le_log (by norm_num) (abs_pos.mpr ha0), h2, abs_of_pos hapos]
    exact hlo
  have hege : (-63 : Int) ≤ fp_exp (-126) a := le_trans hlog (le_max_left _ _)
  obtain ⟨e, he⟩ : ∃ e, e = fp_exp (-126) a := ⟨_, rfl⟩
  have hgt : (-126 : Int) < fp_exp (-126) a := by omega
  have hael := zpow_fp_exp_le_abs (-126) a ha0 hgt
  have haeu := abs_lt_zpow_fp_exp (-126) a
  rw [abs_of_pos hapos, ← he] at hael haeu
  -- the mantissa of a
  obtain ⟨M, hM⟩ : ∃ M : Int, M = rne (a / fp_ulp 24 (-126) a) := ⟨_, rfl⟩
  obtain ⟨U, hU⟩ : ∃ U : ℝ, U = (2 : ℝ) ^ (e - 23) := ⟨_, rfl⟩
  have hUpos : 0 < U := by rw [hU]; exact h2pos _
  have hU' : (2 : ℝ) ^ (e - (((24 : Nat) : Int) - 1)) = U := by rw [hU]; norm_num
  have hulp : fp_ulp 24 (-126) a = U := by
    unfold fp_ulp
    rw [← he]
    exact hU'
  have haM : a = (M : ℝ) * U := by
    have := ha
    unfold f32 fp_round at this
    rw [← hM, hulp] at this
    exact this.symm
  obtain ⟨N, hN⟩ : ∃ N : ℝ, N = 2 ^ 23 := ⟨_, rfl⟩
  have hpe : (2 : ℝ) ^ e = N * U := by
    have : e = 23 + (e - 23) := by ring
    conv_lhs => rw [this]
    rw [zpow_add₀ (by norm_num : (2 : ℝ) ≠ 0), ← hU, hN]
    norm_num
  have hpe1 : (2 : ℝ) ^ (e + 1) = 2 * N * U := by
    rw [zpow_add_one₀ (by norm_num : (2 : ℝ) ≠ 0), hpe]
    ring
  rw [hpe] at hael
  rw [hpe1] at haeu
  have hM1 : N ≤ (M : ℝ) := by
    rw [haM] at hael
    exact le_of_mul_le_mul_right hael hUpos
  have hM2 : (M : ℝ) ≤ 2 * N - 1 := by
    rw [haM] at haeu
    have h3 : (M : ℝ) < 2 * N := lt_of_mul_lt_mul_right haeu hUpos.le
    have h4 : M < 2 ^ 24 := by
      rw [hN] at h3
      have : (M : ℝ) < ((2 ^ 24 : Int) : ℝ) := by
        push_cast
        linarith
      exact_mod_cast this
    have h5 : M ≤ 2 ^ 24 - 1 := by omega
    have h6 : (M : ℝ) ≤ ((2 ^ 24 - 1 : Int) : ℝ) := by exact_mod_cast h5
    rw [hN]
    push_cast at h6
    linarith
  -- the rounded square
  obtain ⟨y, hy⟩ : ∃ y : ℝ, y = f32 (a * a) := ⟨_, rfl⟩
  have hsq : (2 : ℝ) ^ (-126 : Int) ≤ |a * a| := by
    rw [abs_of_pos (mul_pos hapos hapos)]
    have : (2 : ℝ) ^ (-126 : Int) = (2 : ℝ) ^ (-63 : Int) * (2 : ℝ) ^ (-63 : Int) := by
      rw [← zpow_add₀ (by norm_num : (2 : ℝ) ≠ 0)]
      norm_num
    rw [this]
    exact mul_le_mul hlo hlo (h2pos _).le hapos.le
  have herr := fp_round_rel_error 24 (-126) (a * a) hsq
  rw [abs_of_pos (mul_pos hapos hapos)] at herr
  obtain ⟨ε, hε⟩ : ∃ ε : ℝ, ε = (2 : ℝ) ^ (-((24 : Nat) : Int)) := ⟨_, rfl⟩
  have hεpos : 0 < ε := by rw [hε]; exact h2pos _
  have hNε : N * ε = 1 / 2 := by
    rw [hN, hε, zpow_neg]
    norm_num
  rw [← hε] at herr
  have hyf : fp_round 24 (-126) (a * a) = y := by rw [hy]; rfl
  rw [hyf, abs_le, haM] at herr
  obtain ⟨herr1, herr2⟩ := herr
  obtain ⟨s, hs⟩ : ∃ s : ℝ, s = Real.sqrt y := ⟨_, rfl⟩
  rw [← hy, ← hs]
  have hN1 : (1 : ℝ) ≤ N := by rw [hN]; norm_num
  have hbr := sqrt_bracket (M : ℝ) U ε y hUpos hεpos
    (by
      have := mul_le_mul_of_nonneg_right hM1 hεpos.le
      linarith)
    (by
      have := mul_le_mul_of_nonneg_right hM2 hεpos.le
      linarith)
    (le_trans hN1 hM1) herr2 herr1
  rw [← hs] at hbr
  obtain ⟨hdn, hup⟩ := hbr
  -- the binade of s
  have hslo : N * U ≤ s := by
    have hfix : f32 ((2 : ℝ) ^ e * (2 : ℝ) ^ e) = (2 : ℝ) ^ e * (2 : ℝ) ^ e := by
      have := fp_round_of_representable (α := ℝ) 24 (-126) 1 (e + e) (by norm_num)
        (by norm_num) (by push_cast; omega)
      rw [zpow_add₀ (by norm_num : (2 : ℝ) ≠ 0)] at this
      simpa [f32] using this
    have hle : (2 : ℝ) ^ e * (2 : ℝ) ^ e ≤ a * a := by
      rw [hpe]
      exact mul_le_mul hael hael (by positivity) hapos.le
    have hyl : (2 : ℝ) ^ e * (2 : ℝ) ^ e ≤ y := by
      rw [hy]
      exact le_fp_round_of_le 24 (-126) _ _ (by norm_num) hfix hle
    rw [hs, ← hpe]
    apply Real.le_sqrt_of_sq_le
    rw [sq]
    exact hyl
  have hNU : 0 < N * U := mul_pos (lt_of_lt_of_le one_pos hN1) hUpos
  have hspos : 0 < s := lt_of_lt_of_le hNU hslo
  have hshi : s < 2 * N * U := by
    have := mul_le_mul_of_nonneg_right hM2 hUpos.le
    linarith
  have hev := fp_round_eval 24 (-126) e M s hspos.ne.symm (by omega)
    (Or.inr (by rw [abs_of_pos hspos, hpe]; exact hslo))
    (by rw [abs_of_pos hspos, hpe1]; exact hshi)
    (by
      rw [hU', abs_lt]
      constructor
      · rw [lt_sub_iff_add_lt, lt_div_iff₀ hUpos]
        linarith
      · rw [sub_lt_iff_lt_add, div_lt_iff₀ hUpos]
        linarith)
  rw [hU'] at hev
  unfold f32
  rw [hev]
  exact haM.symm

/-- In binary32 `sqrt (z * z)` is `|z|` for `z = 0` and for `|z| ≥ 2 ^ (-63)`. -/
lemma f32_sqrt_sq (z : ℝ) (hz : f32 z = z) (hlo : z = 0 ∨ (2 : ℝ) ^ (-63 : Int) ≤ |z|) :
    f32 (Real.sqrt (f32 (z * z))) = |z| := by
  rcases hlo with h | h
  · rw [h]
    simp [f32, fp_round_zero]
  · have := f32_sqrt_sq_of_pos |z| (f32_abs z hz) h
    rwa [abs_mul_abs_self] at this

end SqrtLemmas

section Binary32Lemmas

variable {α : Type} [LinearOrderedField α] [FloorRing α]

lemma f32_zero : f32 (0 : α) = 0 := fp_round_zero 24 (-126)

lemma f64_zero : f64 (0 : α) = 0 := fp_round_zero 53 (-1022)

lemma f32_idem (x : α) : f32 (f32 x) = f32 x := fp_round_idem 24 (-126) x (by norm_num)

lemma f32_nonneg (x : α) (hx : 0 ≤ x) : 0 ≤ f32 x := fp_round_nonneg 24 (-126) x hx

lemma f32_neg (x : α) : f32 (-x) = -f32 x := fp_round_neg 24 (-126) x

lemma f64_neg (x : α) : f64 (-x) = -f64 x := fp_round_neg 53 (-1022) x

lemma f32_mono (x y : α) (h : x ≤ y) : f32 x ≤ f32 y := fp_round_mono 24 (-126) x y (by norm_num) h

lemma f32_le_of_le (x r : α) (hr : f32 r = r) (h : x ≤ r) : f32 x ≤ r :=
  fp_round_le_of_le 24 (-126) x r (by norm_num) hr h

lemma le_f32_of_le (x r : α) (hr : f32 r = r) (h : r ≤ x) : r ≤ f32 x :=
  le_fp_round_of_le 24 (-126) x r (by norm_num) hr h

lemma f64_le_of_le (x r : α) (hr : f64 r = r) (h : x ≤ r) : f64 x ≤ r :=
  fp_round_le_of_le 53 (-1022) x r (by norm_num) hr h

lemma le_f64_of_le (x r : α) (hr : f64 r = r) (h : r ≤ x) : r ≤ f64 x :=
  le_fp_round_of_le 53 (-1022) x r (by norm_num) hr h

/-- The binary32 values: `m * 2 ^ k` with `|m| ≤ 2 ^ 24` and `k ≥ -149`. -/
lemma f32_of_repr (x : α) (m k : Int) (hx : x = (m : α) * (2 : α) ^ k)
    (hm : |m| ≤ 2 ^ 24) (hk : -149 ≤ k) : f32 x = x := by
  rw [hx]
  exact fp_round_of_representable 24 (-126) m k (by norm_num) hm (by push_cast; omega)

/-- The binary64 values: `m * 2 ^ k` with `|m| ≤ 2 ^ 53` and `k ≥ -1074`. -/
lemma f64_of_repr (x : α) (m k : Int) (hx : x = (m : α) * (2 : α) ^ k)
    (hm : |m| ≤ 2 ^ 53) (hk : -1074 ≤ k) : f64 x = x := by
  rw [hx]
  exact fp_round_of_representable 53 (-1022) m k (by norm_num) hm (by push_cast; omega)

/-- Evaluation of a binary32 rounding whose argument is a binary32 value. -/
lemma f32_eq (x r : α) (m k : Int) (hxr : x = r) (hr : r = (m : α) * (2 : α) ^ k)
    (hm : |m| ≤ 2 ^ 24) (hk : -149 ≤ k) : f32 x = r := by
  rw [hxr]
  exact f32_of_repr r m k hr hm hk

/-- Evaluation of a binary64 rounding whose argument is a binary64 value. -/
lemma f64_eq (x r : α) (m k : Int) (hxr : x = r) (hr : r = (m : α) * (2 : α) ^ k)
    (hm : |m| ≤ 2 ^ 53) (hk : -1074 ≤ k) : f64 x = r := by
  rw [hxr]
  exact f64_of_repr r m k hr hm hk

lemma f32_intCast (n : Int) (hn : |n| ≤ 2 ^ 24) : f32 ((n : Int) : α) = n :=
  f32_of_repr _ n 0 (by simp) hn (by norm_num)

/-- A binary32 value has a mantissa and an exponent. -/
lemma f32_repr (x : α) (h : f32 x = x) :
    ∃ m k : Int, x = (m : α) * (2 : α) ^ k ∧ |m| ≤ 2 ^ 24 ∧ -149 ≤ k := by
  refine ⟨rne (x / fp_ulp 24 (-126) x), fp_exp (-126) x - 23, ?_, ?_, ?_⟩
  · have h1 : f32 x = ((rne (x / fp_ulp 24 (-126) x) : Int) : α)
        * (2 : α) ^ (fp_exp (-126) x - 23) := by
      unfold f32 fp_round
      congr 1
    rw [← h1, h]
  · exact fp_round_mantissa 24 (-126) x
  · have := fp_exp_ge (-126) x
    omega

/-- A binary32 value is a binary64 value. -/
lemma f64_of_f32 (x : α) (h : f32 x = x) : f64 x = x := by
  obtain ⟨m, k, hx, hm, hk⟩ := f32_repr x h
  exact f64_of_repr x m k hx (le_trans hm (by norm_num)) (by omega)

lemma f32_one : f32 (1 : α) = 1 := f32_of_repr 1 1 0 (by simp) (by norm_num) (by norm_num)

lemma c_int_cast32_of_nonneg (q : α) (h0 : 0 ≤ q) (h1 : q < (2 : α) ^ 31) :
    c_int_cast32 q = some (Int.floor q) := by
  unfold c_int_cast32
  have h2 : -(2 : α) ^ 31 - 1 < q := by
    have : (0 : α) < (2 : α) ^ 31 := by positivity
    linarith
  rw [if_pos ⟨h2, h1⟩, c_int_cast_of_nonneg h0]

lemma c_int_cast32_intCast (n : Int) (h0 : -(2 ^ 31) ≤ n) (h1 : n < 2 ^ 31) :
    c_int_cast32 ((n : Int) : α) = some n := by
  unfold c_int_cast32
  have a1 : -(2 : α) ^ 31 - 1 < (n : α) := by
    have : ((-(2 ^ 31) - 1 : Int) : α) < (n : α) := by exact_mod_cast (by omega : -(2 ^ 31) - 1 < n)
    push_cast at this
    norm_num
    linarith
  have a2 : (n : α) < (2 : α) ^ 31 := by
    have : (n : α) < ((2 ^ 31 : Int) : α) := by exact_mod_cast h1
    push_cast at this
    norm_num
    linarith
  rw [if_pos ⟨a1, a2⟩, c_int_cast_intCast]

lemma lerp_f32_zero (r : α) : lerp_f32 0 0 r = 0 := by
  simp [lerp_f32, f32_zero]

lemma lerp_2d_f32_zero (x y : α) : lerp_2d_f32 0 0 0 0 x y = 0 := by
  simp [lerp_2d_f32, lerp_f32_zero]

lemma lerp_f32_idem (a b r : α) : f32 (lerp_f32 a b r) = lerp_f32 a b r := f32_idem _

/-- At the ratio `1` the interpolation returns the second end point. -/
lemma lerp_f32_at_one (a b : α) (hb : f32 b = b) : lerp_f32 a b 1 = b := by
  simp [lerp_f32, f32_zero, f32_idem, hb]

/-- At the ratio `0` the interpolation returns the first end point. -/
lemma lerp_f32_at_zero (a b : α) (ha : f32 a = a) : lerp_f32 a b 0 = a := by
  simp [lerp_f32, f32_zero, f32_one, f32_idem, ha]

end Binary32Lemmas

section LerpBinary32

variable {α : Type} [LinearOrderedField α] [FloorRing α]

/-- The rounding in terms of the binade of its argument. -/
lemma fp_round_eq_rne (prec : Nat) (emin e : Int) (x : α) (hx : x ≠ 0) (he : emin ≤ e)
    (hlo : e = emin ∨ (2 : α) ^ e ≤ |x|) (hhi : |x| < (2 : α) ^ (e + 1)) :
    fp_round prec emin x
      = ((rne (x / (2 : α) ^ (e - ((prec : Int) - 1))) : Int) : α)
        * (2 : α) ^ (e - ((prec : Int) - 1)) := by
  unfold fp_round fp_ulp
  rw [fp_exp_eq emin e x hx he hlo hhi]

lemma f32_one_sub_tie : f32 ((1 : α) - 1 / 2 ^ 25) = 1 := by
  have h := fp_round_eq_rne 24 (-126) (-1) ((1 : α) - 1 / 2 ^ 25) (by norm_num) (by norm_num)
    (Or.inr (by rw [abs_of_pos (by norm_num)]; norm_num))
    (by rw [abs_of_pos (by norm_num)]; norm_num)
  have e1 : ((1 : α) - 1 / 2 ^ 25) / (2 : α) ^ ((-1 : Int) - (((24 : Nat) : Int) - 1))
      = ((16777215 : Int) : α) + 1 / 2 := by
    norm_num
  rw [e1, rne_tie] at h
  unfold f32
  rw [h]
  norm_num

lemma f32_one_add_small : f32 ((1 : α) + 1 / 2 ^ 25) = 1 := by
  have h := fp_round_eval_pos 24 (-126) 0 8388608 ((1 : α) + 1 / 2 ^ 25) (by norm_num)
    (by norm_num) (Or.inr (by norm_num)) (by norm_num) (by norm_num) (by norm_num)
  unfold f32
  rw [h]
  norm_num

/-- Values within `2 ^ (-25)` of `1` round to `1` in binary32. -/
lemma f32_near_one (v : α) (h1 : 1 - 1 / 2 ^ 25 ≤ v) (h2 : v ≤ 1 + 1 / 2 ^ 25) : f32 v = 1 := by
  apply le_antisymm
  · rw [← f32_one_add_small (α := α)]
    exact f32_mono _ _ h2
  · rw [← f32_one_sub_tie (α := α)]
    exact f32_mono _ _ h1

/-- The rounding error of a value in `(0, 1)` is at most `2 ^ (-25)` in binary32. -/
lemma f32_error_lt_one (x : α) (h0 : 0 < x) (h1 : x < 1) : |x - f32 x| ≤ 1 / 2 ^ 25 := by
  have h2 : ((2 : Nat) : α) = 2 := by norm_num
  have hlog : Int.log 2 |x| < 0 := by
    rw [← Int.lt_zpow_iff_log_lt (by norm_num) (abs_pos.mpr h0.ne.symm), h2, abs_of_pos h0]
    simpa using h1
  have he : fp_exp (-126) x ≤ -1 := by
    unfold fp_exp
    exact max_le (by omega) (by norm_num)
  have hu : fp_ulp 24 (-126) x ≤ (2 : α) ^ (-24 : Int) := by
    unfold fp_ulp
    apply zpow_le_zpow_right₀ (by norm_num)
    push_cast
    omega
  have herr := fp_round_error 24 (-126) x
  have e24 : (2 : α) ^ (-24 : Int) = 1 / 2 ^ 24 := by
    rw [zpow_neg]
    norm_num
  rw [e24] at hu
  unfold f32
  calc |x - fp_round 24 (-126) x| ≤ fp_ulp 24 (-126) x / 2 := herr
    _ ≤ 1 / 2 ^ 24 / 2 := by linarith
    _ = 1 / 2 ^ 25 := by norm_num

/-- In binary32 `lerp(1, 1, r)` is `1` for every binary32 ratio in `[0, 1]`. -/
lemma lerp_f32_one (r : α) (hr : f32 r = r) (h0 : 0 ≤ r) (h1 : r ≤ 1) : lerp_f32 1 1 r = 1 := by
  have e : lerp_f32 1 1 r = f32 (f32 (1 - r) + r) := by
    simp only [lerp_f32, one_mul, f32_idem, hr]
  rw [e]
  rcases eq_or_lt_of_le h0 with h | h
  · rw [← h]
    simp [f32_one]
  rcases eq_or_lt_of_le h1 with h' | h'
  · rw [h']
    simp [f32_zero, f32_one]
  have herr := f32_error_lt_one (1 - r) (by linarith) (by linarith)
  rw [abs_le] at herr
  apply f32_near_one <;> linarith [herr.1, herr.2]

/-- In binary32 `lerp_2d(1, 1, 1, 1, x, y)` is `1` for binary32 ratios in `[0, 1]`. -/
lemma lerp_2d_f32_one (x y : α) (hx : f32 x = x) (hy : f32 y = y)
    (hx0 : 0 ≤ x) (hx1 : x ≤ 1) (hy0 : 0 ≤ y) (hy1 : y ≤ 1) : lerp_2d_f32 1 1 1 1 x y = 1 := by
  simp only [lerp_2d_f32, lerp_f32_one x hx hx0 hx1, lerp_f32_one y hy hy0 hy1]

/-- On the top edge `lerp_2d` returns the horizontal lerp of the top corners. -/
lemma lerp_2d_f32_top_edge (tl tr t : α) : lerp_2d_f32 0 0 tl tr t 1 = lerp_f32 tl tr t := by
  simp only [lerp_2d_f32, lerp_f32_zero]
  exact lerp_f32_at_one 0 _ (lerp_f32_idem tl tr t)

lemma lerp_f32_ten_half : lerp_f32 (10 : α) 10 (1 / 2) = 10 := by
  have h1 : f32 ((1 : α) - 1 / 2) = 1 / 2 := by
    have := f32_of_repr ((1 : α) / 2) 1 (-1) (by norm_num) (by norm_num) (by norm_num)
    norm_num
    norm_num at this
    exact this
  have h2 : f32 ((10 : α) * (1 / 2)) = 5 := by
    have := f32_of_repr (5 : α) 5 0 (by norm_num) (by norm_num) (by norm_num)
    norm_num
    exact this
  have h3 : f32 ((5 : α) + 5) = 10 := by
    have := f32_of_repr (10 : α) 10 0 (by norm_num) (by norm_num) (by norm_num)
    norm_num
    exact this
  simp only [lerp_f32, h1, h2, h3]

end LerpBinary32

section EvalLemmas

variable {α : Type} [LinearOrderedField α] [FloorRing α]

/-- Evaluation of a binary32 rounding at a positive value: `e` is the exponent
of the binade and `m` the nearest integer to the scaled value. -/
lemma f32_eval (x r : α) (e m : Int) (hx : 0 < x) (he : -126 ≤ e)
    (hlo : e = -126 ∨ (2 : α) ^ e ≤ x) (hhi : x < (2 : α) ^ (e + 1))
    (hm : (m : α) - 1 / 2 < x / (2 : α) ^ (e - 23) ∧ x / (2 : α) ^ (e - 23) < (m : α) + 1 / 2)
    (hr : r = (m : α) * (2 : α) ^ (e - 23)) : f32 x = r := by
  have h := fp_round_eval_pos 24 (-126) e m x hx he hlo hhi
    (by norm_num; exact hm.1) (by norm_num; exact hm.2)
  unfold f32
  rw [h, hr]
  norm_num

/-- Evaluation of a binary32 rounding at a positive value half-way between two
binary32 values: the one with the even mantissa is taken. -/
lemma f32_eval_tie (x r : α) (e j m : Int) (hx : 0 < x) (he : -126 ≤ e)
    (hlo : e = -126 ∨ (2 : α) ^ e ≤ x) (hhi : x < (2 : α) ^ (e + 1))
    (ht : x / (2 : α) ^ (e - 23) = (j : α) + 1 / 2)
    (hm : m = if j % 2 = 0 then j else j + 1)
    (hr : r = (m : α) * (2 : α) ^ (e - 23)) : f32 x = r := by
  have h := fp_round_eq_rne 24 (-126) e x hx.ne.symm he
    (by rw [abs_of_pos hx]; exact hlo) (by rw [abs_of_pos hx]; exact hhi)
  have e1 : e - (((24 : Nat) : Int) - 1) = e - 23 := by norm_num
  rw [e1, ht, rne_tie, ← hm] at h
  unfold f32
  rw [h, hr]

/-- The binary32 value nearest to `0.3`. -/
lemma f32_three_tenths : f32 ((5033165 : α) / 16777216) = 5033165 / 16777216 :=
  f32_of_repr _ 5033165 (-24) (by norm_num) (by norm_num) (by norm_num)

/-- The binary32 value nearest to `0.1`. -/
lemma f32_one_tenth : f32 ((13421773 : α) / 134217728) = 13421773 / 134217728 :=
  f32_of_repr _ 13421773 (-27) (by norm_num) (by norm_num) (by norm_num)

lemma lerp_f32_three_three_tenths : lerp_f32 (3 : α) 3 (5033165 / 16777216) = 3 := by
  have h1 : f32 ((1 : α) - 5033165 / 16777216) = 11744051 / 16777216 :=
    f32_eq _ _ 11744051 (-24) (by norm_num) (by norm_num) (by norm_num) (by norm_num)
  have h2 : f32 ((3 : α) * (11744051 / 16777216)) = 4404019 / 2097152 :=
    f32_eval _ _ (1) 8808038 (by norm_num) (by norm_num) (Or.inr (by norm_num)) (by norm_num)
      (by norm_num) (by norm_num)
  have h3 : f32 ((3 : α) * (5033165 / 16777216)) = 15099495 / 16777216 :=
    f32_eq _ _ 15099495 (-24) (by norm_num) (by norm_num) (by norm_num) (by norm_num)
  have h4 : f32 ((4404019 : α) / 2097152 + 15099495 / 16777216) = 3 :=
    f32_eval _ _ (1) 12582912 (by norm_num) (by norm_num) (Or.inr (by norm_num)) (by norm_num)
      (by norm_num) (by norm_num)
  simp only [lerp_f32, h1, h2, h3, h4]

lemma lerp_f32_three_one_tenth : lerp_f32 (3 : α) 3 (13421773 / 134217728) = 12582911 / 4194304 := by
  have h1 : f32 ((1 : α) - 13421773 / 134217728) = 7549747 / 8388608 :=
    f32_eval _ _ (-1) 15099494 (by norm_num) (by norm_num) (Or.inr (by norm_num)) (by norm_num)
      (by norm_num) (by norm_num)
  have h2 : f32 ((3 : α) * (7549747 / 8388608)) = 2831155 / 1048576 :=
    f32_eval_tie _ _ (1) 11324620 11324620 (by norm_num) (by norm_num) (Or.inr (by norm_num))
      (by norm_num) (by norm_num) (by decide) (by norm_num)
  have h3 : f32 ((3 : α) * (13421773 / 134217728)) = 5033165 / 16777216 :=
    f32_eval _ _ (-2) 10066330 (by norm_num) (by norm_num) (Or.inr (by norm_num)) (by norm_num)
      (by norm_num) (by norm_num)
  have h4 : f32 ((2831155 : α) / 1048576 + 5033165 / 16777216) = 12582911 / 4194304 :=
    f32_eval _ _ (1) 12582911 (by norm_num) (by norm_num) (Or.inr (by norm_num)) (by norm_num)
      (by norm_num) (by norm_num)
  simp only [lerp_f32, h1, h2, h3, h4]

/-- In binary32 `lerp_2d(3, 3, 3, 3, 0.3f, 0.1f)` is `3 - 2 ^ (-22)`. -/
lemma lerp_2d_f32_three :
    lerp_2d_f32 (3 : α) 3 3 3 (5033165 / 16777216) (13421773 / 134217728)
      = 12582911 / 4194304 := by
  simp only [lerp_2d_f32, lerp_f32_three_three_tenths, lerp_f32_three_one_tenth]

/-- In binary32 `lerp(10, 10, x)` is `10 - 2 ^ (-20)` at `x = 7990127 / 2 ^ 26`. -/
lemma lerp_f32_ten_off : lerp_f32 (10 : α) 10 (7990127 / 67108864) = 10485759 / 1048576 := by
  have h1 : f32 ((1 : α) - 7990127 / 67108864) = 3694921 / 4194304 :=
    f32_eval _ _ (-1) 14779684 (by norm_num) (by norm_num) (Or.inr (by norm_num)) (by norm_num)
      (by norm_num) (by norm_num)
  have h2 : f32 ((10 : α) * (3694921 / 4194304)) = 4618651 / 524288 :=
    f32_eval_tie _ _ (3) 9237302 9237302 (by norm_num) (by norm_num) (Or.inr (by norm_num))
      (by norm_num) (by norm_num) (by decide) (by norm_num)
  have h3 : f32 ((10 : α) * (7990127 / 67108864)) = 9987659 / 8388608 :=
    f32_eval _ _ (0) 9987659 (by norm_num) (by norm_num) (Or.inr (by norm_num)) (by norm_num)
      (by norm_num) (by norm_num)
  have h4 : f32 ((4618651 : α) / 524288 + 9987659 / 8388608) = 10485759 / 1048576 :=
    f32_eval _ _ (3) 10485759 (by norm_num) (by norm_num) (Or.inr (by norm_num)) (by norm_num)
      (by norm_num) (by norm_num)
  simp only [lerp_f32, h1, h2, h3, h4]

lemma lerp_f32_five_quarter : lerp_f32 (5 : α) 5 (1 / 4) = 5 := by
  have h1 : f32 ((1 : α) - 1 / 4) = 3 / 4 :=
    f32_eq _ _ 3 (-2) (by norm_num) (by norm_num) (by norm_num) (by norm_num)
  have h2 : f32 ((5 : α) * (3 / 4)) = 15 / 4 :=
    f32_eq _ _ 15 (-2) (by norm_num) (by norm_num) (by norm_num) (by norm_num)
  have h3 : f32 ((5 : α) * (1 / 4)) = 5 / 4 :=
    f32_eq _ _ 5 (-2) (by norm_num) (by norm_num) (by norm_num) (by norm_num)
  have h4 : f32 ((15 : α) / 4 + 5 / 4) = 5 :=
    f32_eq _ _ 5 (0) (by norm_num) (by norm_num) (by norm_num) (by norm_num)
  simp only [lerp_f32, h1, h2, h3, h4]

lemma lerp_f32_five_three_quarters : lerp_f32 (5 : α) 5 (3 / 4) = 5 := by
  have h1 : f32 ((1 : α) - 3 / 4) = 1 / 4 :=
    f32_eq _ _ 1 (-2) (by norm_num) (by norm_num) (by norm_num) (by norm_num)
  have h2 : f32 ((5 : α) * (1 / 4)) = 5 / 4 :=
    f32_eq _ _ 5 (-2) (by norm_num) (by norm_num) (by norm_num) (by norm_num)
  have h3 : f32 ((5 : α) * (3 / 4)) = 15 / 4 :=
    f32_eq _ _ 15 (-2) (by norm_num) (by norm_num) (by norm_num) (by norm_num)
  have h4 : f32 ((5 : α) / 4 + 15 / 4) = 5 :=
    f32_eq _ _ 5 (0) (by norm_num) (by norm_num) (by norm_num) (by norm_num)
  simp only [lerp_f32, h1, h2, h3, h4]

/-- In binary32 `lerp_2d(5, 5, 5, 5, 1/4, 3/4)` is `5`. -/
lemma lerp_2d_f32_five : lerp_2d_f32 (5 : α) 5 5 5 (1 / 4) (3 / 4) = 5 := by
  simp only [lerp_2d_f32, lerp_f32_five_quarter, lerp_f32_five_three_quarters]

lemma lerp_f32_sample_bot : lerp_f32 (0 : α) 1 (1 / 4) = 1 / 4 := by
  have h1 : f32 ((1 : α) - 1 / 4) = 3 / 4 :=
    f32_eq _ _ (3) (-2) (by norm_num) (by norm_num) (by norm_num) (by norm_num)
  have h2 : f32 ((0 : α) * (3 / 4)) = 0 :=
    f32_eq _ _ (0) (0) (by norm_num) (by norm_num) (by norm_num) (by norm_num)
  have h3 : f32 ((1 : α) * (1 / 4)) = 1 / 4 :=
    f32_eq _ _ (1) (-2) (by norm_num) (by norm_num) (by norm_num) (by norm_num)
  have h4 : f32 ((0 : α) + (1 / 4)) = 1 / 4 :=
    f32_eq _ _ (1) (-2) (by norm_num) (by norm_num) (by norm_num) (by norm_num)
  simp only [lerp_f32, h1, h2, h3, h4]

lemma lerp_f32_sample_top : lerp_f32 (2 : α) 4 (1 / 4) = 5 / 2 := by
  have h1 : f32 ((1 : α) - 1 / 4) = 3 / 4 :=
    f32_eq _ _ (3) (-2) (by norm_num) (by norm_num) (by norm_num) (by norm_num)
  have h2 : f32 ((2 : α) * (3 / 4)) = 3 / 2 :=
    f32_eq _ _ (3) (-1) (by norm_num) (by norm_num) (by norm_num) (by norm_num)
  have h3 : f32 ((4 : α) * (1 / 4)) = 1 :=
    f32_eq _ _ (1) (0) (by norm_num) (by norm_num) (by norm_num) (by norm_num)
  have h4 : f32 (((3 : α) / 2) + 1) = 5 / 2 :=
    f32_eq _ _ (5) (-1) (by norm_num) (by norm_num) (by norm_num) (by norm_num)
  simp only [lerp_f32, h1, h2, h3, h4]

lemma lerp_f32_sample : lerp_f32 ((1 : α) / 4) (5 / 2) (3 / 4) = 31 / 16 := by
  have h1 : f32 ((1 : α) - 3 / 4) = 1 / 4 :=
    f32_eq _ _ (1) (-2) (by norm_num) (by norm_num) (by norm_num) (by norm_num)
  have h2 : f32 (((1 : α) / 4) * (1 / 4)) = 1 / 16 :=
    f32_eq _ _ (1) (-4) (by norm_num) (by norm_num) (by norm_num) (by norm_num)
  have h3 : f32 (((5 : α) / 2) * (3 / 4)) = 15 / 8 :=
    f32_eq _ _ (15) (-3) (by norm_num) (by norm_num) (by norm_num) (by norm_num)
  have h4 : f32 (((1 : α) / 16) + (15 / 8)) = 31 / 16 :=
    f32_eq _ _ (31) (-4) (by norm_num) (by norm_num) (by norm_num) (by norm_num)
  simp only [lerp_f32, h1, h2, h3, h4]

/-- In binary32 `lerp_2d(0, 1, 2, 4, 1/4, 3/4)` is `31/16`, as in exact
arithmetic. -/
lemma lerp_2d_f32_sample : lerp_2d_f32 (0 : α) 1 2 4 (1 / 4) (3 / 4) = 31 / 16 := by
  simp only [lerp_2d_f32, lerp_f32_sample_bot, lerp_f32_sample_top, lerp_f32_sample]

end EvalLemmas

section AdjustBinary32

/-- In binary32, with the correctly rounded square root, a point over level
ground (equal heights at both ends of each axis, library functions with
`tan 0 = 0` and `atan 0 = 0`) keeps `x` and `y`, and its `z` becomes the
magnitude of `d = z - floor_z`, unless the square of `d` underflows. -/
lemma adjust_point_f32_level (tan atan : ℝ → ℝ) (htan : tan 0 = 0) (hatan : atan 0 = 0)
    (p : lidar_point ℝ) (bl br tl tr x_ratio y_ratio scale : ℝ)
    (hsx : lerp_f32 br tr y_ratio = lerp_f32 bl tl y_ratio)
    (hsy : lerp_f32 tl tr x_ratio = lerp_f32 bl br x_ratio)
    (hpx : f32 p.x = p.x) (hpy : f32 p.y = p.y)
    (hd : f32 (p.z - lerp_2d_f32 bl br tl tr x_ratio y_ratio) = 0 ∨
      (2 : ℝ) ^ (-63 : Int) ≤ |f32 (p.z - lerp_2d_f32 bl br tl tr x_ratio y_ratio)|) :
    adjust_point_f32 (fun t => f32 (Real.sqrt t)) tan atan p bl br tl tr x_ratio y_ratio scale
      = { p with z := |f32 (p.z - lerp_2d_f32 bl br tl tr x_ratio y_ratio)| } := by
  obtain ⟨d, hdd⟩ : ∃ d, d = f32 (p.z - lerp_2d_f32 bl br tl tr x_ratio y_ratio) := ⟨_, rfl⟩
  rw [← hdd] at hd ⊢
  have hfd : f32 d = d := by rw [hdd]; exact f32_idem _
  have h1 : f32 (Real.sqrt (f32 (d * d))) = |d| := f32_sqrt_sq d hfd hd
  have hd2 : |d| = 0 ∨ (2 : ℝ) ^ (-63 : Int) ≤ |(|d|)| := by
    rcases hd with h | h
    · left; rw [h, abs_zero]
    · right; rwa [abs_abs]
  have h2 : f32 (Real.sqrt (f32 (|d| * |d|))) = |d| := by
    have := f32_sqrt_sq |d| (f32_abs d hfd) hd2
    rwa [abs_abs] at this
  simp only [adjust_point_f32, interp_angles_f32, ← hdd, hsx, hsy, sub_self, f32_zero, f64_zero,
    zero_div, hatan, htan, mul_zero, add_zero, sub_zero, f32_idem, hpx, hpy, h1, h2]

/-- In binary32, with the correctly rounded square root, the `z` produced by
`adjust_point` is non-negative. -/
lemma adjust_point_f32_z_nonneg (tan atan : ℝ → ℝ) (p : lidar_point ℝ)
    (bl br tl tr x_ratio y_ratio scale : ℝ) :
    0 ≤ (adjust_point_f32 (fun t => f32 (Real.sqrt t)) tan atan p bl br tl tr
      x_ratio y_ratio scale).z := by
  simp only [adjust_point_f32]
  exact f32_nonneg _ (Real.sqrt_nonneg _)

/-- One rotation stage in binary32 does not shrink a height `z` with
`2 ^ (-63) ≤ |z|`. -/
lemma stage_f32_ge (z dx : ℝ) (hz : f32 z = z) (hlo : (2 : ℝ) ^ (-63 : Int) ≤ |z|) :
    |z| ≤ f32 (Real.sqrt (f32 (f32 (z * z) + f32 (dx * dx)))) := by
  have h1 : f32 (Real.sqrt (f32 (z * z))) = |z| := f32_sqrt_sq z hz (Or.inr hlo)
  have hB : 0 ≤ f32 (dx * dx) := f32_nonneg _ (mul_self_nonneg dx)
  have h2 : f32 (z * z) ≤ f32 (f32 (z * z) + f32 (dx * dx)) :=
    le_f32_of_le _ _ (f32_idem _) (by linarith)
  rw [← h1]
  exact f32_mono _ _ (Real.sqrt_le_sqrt h2)

/-- In binary32, with the correctly rounded square root, `adjust_point` does not
shrink the height above the floor `d = z - floor_z` when `2 ^ (-63) ≤ |d|`. -/
lemma adjust_point_f32_z_ge (tan atan : ℝ → ℝ) (p : lidar_point ℝ)
    (bl br tl tr x_ratio y_ratio scale : ℝ)
    (hd : (2 : ℝ) ^ (-63 : Int) ≤ |f32 (p.z - lerp_2d_f32 bl br tl tr x_ratio y_ratio)|) :
    |f32 (p.z - lerp_2d_f32 bl br tl tr x_ratio y_ratio)| ≤
      (adjust_point_f32 (fun t => f32 (Real.sqrt t)) tan atan p bl br tl tr
        x_ratio y_ratio scale).z := by
  obtain ⟨d, hdd⟩ : ∃ d, d = f32 (p.z - lerp_2d_f32 bl br tl tr x_ratio y_ratio) := ⟨_, rfl⟩
  rw [← hdd] at hd ⊢
  have hfd : f32 d = d := by rw [hdd]; exact f32_idem _
  simp only [adjust_point_f32, ← hdd]
  obtain ⟨dx, hdx⟩ : ∃ dx, dx = f32 (f64 (f64 (-1 * d) * tan
    (interp_angles_f32 atan bl br tl tr x_ratio y_ratio scale).1)) := ⟨_, rfl⟩
  rw [← hdx]
  obtain ⟨z1, hz1⟩ : ∃ z1, z1 = f32 (Real.sqrt (f32 (f32 (d * d) + f32 (dx * dx)))) := ⟨_, rfl⟩
  rw [← hz1]
  have s1 : |d| ≤ z1 := by rw [hz1]; exact stage_f32_ge d dx hfd hd
  have hz1f : f32 z1 = z1 := by rw [hz1]; exact f32_idem _
  have hz1pos : 0 ≤ z1 := le_trans (abs_nonneg d) s1
  have hz1lo : (2 : ℝ) ^ (-63 : Int) ≤ |z1| := by
    rw [abs_of_nonneg hz1pos]
    exact le_trans hd s1
  have s2 := stage_f32_ge z1 (f32 (f64 (f64 (-1 * z1) * tan
    (interp_angles_f32 atan bl br tl tr x_ratio y_ratio scale).2))) hz1f hz1lo
  rw [abs_of_nonneg hz1pos] at s2
  exact le_trans s1 s2

/-- In binary32 the `z` produced by `adjust_point` depends on the height `d`
above the floor only through its magnitude. -/
lemma adjust_point_f32_z_mirror (sqrt tan atan : ℝ → ℝ) (p q : lidar_point ℝ)
    (bl br tl tr x_ratio y_ratio scale : ℝ)
    (h : f32 (q.z - lerp_2d_f32 bl br tl tr x_ratio y_ratio)
      = -f32 (p.z - lerp_2d_f32 bl br tl tr x_ratio y_ratio)) :
    (adjust_point_f32 sqrt tan atan q bl br tl tr x_ratio y_ratio scale).z =
      (adjust_point_f32 sqrt tan atan p bl br tl tr x_ratio y_ratio scale).z := by
  simp only [adjust_point_f32, h]
  have e1 : ∀ t : ℝ, f32 (f64 (f64 (-1 * -t) * tan
      (interp_angles_f32 atan bl br tl tr x_ratio y_ratio scale).1))
      = -f32 (f64 (f64 (-1 * t) * tan
      (interp_angles_f32 atan bl br tl tr x_ratio y_ratio scale).1)) := by
    intro t
    rw [← f32_neg, ← f64_neg, ← neg_mul, ← f64_neg]
    congr 4
    ring
  rw [e1]
  simp only [neg_mul_neg]

end AdjustBinary32

section SmallSlope

end SmallSlope

section SparseBinary32

lemma bin_points_f32_shape {α : Type} [LinearOrderedField α] [FloorRing α] (g : grid α)
    (w : Nat) :
    ∀ (ps : List (lidar_point α)) (za ra : List (List (List α))),
      (∀ row ∈ za, row.length = w) → bin_points_f32 g ps za = some ra →
      ra.length = za.length ∧ (∀ row ∈ ra, row.length = w) ∧
        (ps ≠ [] → 1 ≤ za.length ∧ 1 ≤ w) ∧
        (∀ p ∈ ps, ∃ idx, g.to_indices_f32 p.x p.y = some idx)
  | [], za, ra, hrows, h => by
    simp only [bin_points_f32, Option.some.injEq] at h
    subst h
    exact ⟨rfl, hrows, fun hne => absurd rfl hne, fun p hp => absurd hp (List.not_mem_nil p)⟩
  | p :: ps, za, ra, hrows, h => by
    simp only [bin_points_f32] at h
    cases hi : g.to_indices_f32 p.x p.y with
    | none => simp [hi] at h
    | some idx =>
      simp only [hi] at h
      cases hp : push_z za idx.1 idx.2 p.z with
      | none => simp [hp] at h
      | some za1 =>
        simp only [hp] at h
        obtain ⟨e1, e2, e3, e4⟩ := push_z_shape za za1 _ _ _ w hrows hp
        obtain ⟨f1, f2, _, f4⟩ := bin_points_f32_shape g w ps za1 ra e2 h
        refine ⟨f1.trans e1, f2, fun _ => ⟨e3, e4⟩, ?_⟩
        intro p1 hp1
        rcases List.mem_cons.mp hp1 with rfl | hmem
        · exact ⟨idx, hi⟩
        · exact f4 p1 hmem

lemma compute_grid_f32_fields {α : Type} [LinearOrderedField α] [FloorRing α] (g g1 : grid α)
    (box : bbox α) (h w : Int) (hg : g.compute_grid_f32 box = some (g1, (h, w))) :
    g1._h = h ∧ g1._w = w ∧ g1.section_len = g.section_len ∧
      g1.base_x = box.minx ∧ g1.base_y = box.miny := by
  simp only [grid.compute_grid_f32] at hg
  split at hg
  · simp only [Option.some.injEq, Prod.mk.injEq] at hg
    obtain ⟨e1, e2, e3⟩ := hg
    subst e1 e2 e3
    exact ⟨rfl, rfl, rfl, rfl, rfl⟩
  · exact absurd hg (by simp)

/-- In binary32, over a floor grid that is `0` everywhere, the adjustment of a
point with binary32 coordinates whose indices are computed returns the point
with `z` replaced by `|z|`, for `z = 0` or `|z| ≥ 2 ^ (-63)`. -/
lemma adjust_one_f32_zero_floor (tan atan : ℝ → ℝ) (htan : tan 0 = 0) (hatan : atan 0 = 0)
    (g : grid ℝ) (floor_zs : List (List ℝ)) (p : lidar_point ℝ)
    (hh : 1 ≤ g._h) (hw : 1 ≤ g._w) (hlen : (floor_zs.length : Int) = g._h)
    (hrows : ∀ r ∈ floor_zs, (r.length : Int) = g._w)
    (hzero : ∀ r ∈ floor_zs, ∀ v ∈ r, v = 0)
    (hidx : ∃ idx, g.to_indices_f32 p.x p.y = some idx)
    (hpx : f32 p.x = p.x) (hpy : f32 p.y = p.y) (hpz : f32 p.z = p.z)
    (hz : p.z = 0 ∨ (2 : ℝ) ^ (-63 : Int) ≤ |p.z|) :
    adjust_one_f32 (fun t => f32 (Real.sqrt t)) tan atan g floor_zs p
      = some { p with z := |p.z| } := by
  have get_row : ∀ v : Int, ∃ r, vec_get floor_zs (int_clamp v 0 (g._h - 1)) = some r ∧
      (r.length : Int) = g._w ∧ r ∈ floor_zs := by
    intro v
    obtain ⟨b0, b1⟩ := int_clamp_bounds v (g._h - 1) (by omega)
    obtain ⟨r, hr, hmem⟩ := vec_get_of_lt floor_zs _ b0 (by omega)
    exact ⟨r, hr, hrows r hmem, hmem⟩
  have get_cell : ∀ (r : List ℝ), r ∈ floor_zs → (r.length : Int) = g._w → ∀ v : Int,
      vec_get r (int_clamp v 0 (g._w - 1)) = some 0 := by
    intro r hmem hr v
    obtain ⟨b0, b1⟩ := int_clamp_bounds v (g._w - 1) (by omega)
    obtain ⟨c, hc, hcm⟩ := vec_get_of_lt r _ b0 (by omega)
    rw [hc, hzero r hmem c hcm]
  obtain ⟨idx, hi⟩ := hidx
  have hreb : ∃ row col dxr dyr, rebase_f32 g p = some ((row, col), (dxr, dyr)) := by
    simp only [rebase_f32, hi]
    exact ⟨_, _, _, _, rfl⟩
  obtain ⟨row, col, dxr, dyr, hreb⟩ := hreb
  obtain ⟨rb, hrb, lb, mb⟩ := get_row row
  obtain ⟨rt, hrt, lt, mt⟩ := get_row (row + 1)
  have hd : f32 (p.z - lerp_2d_f32 0 0 0 0 dxr dyr) = p.z := by
    rw [lerp_2d_f32_zero, sub_zero, hpz]
  have key := adjust_point_f32_level tan atan htan hatan p 0 0 0 0 dxr dyr g.section_len
    rfl rfl hpx hpy (by rw [hd]; exact hz)
  rw [hd] at key
  simp only [adjust_one_f32, hreb, hrb, hrt, get_cell rb mb lb, get_cell rt mt lt, key]

end SparseBinary32

section GridBinary32

variable {α : Type} [LinearOrderedField α] [FloorRing α]

/-- In binary32 `ceiling_divide` returns the ceiling of the rounded quotient,
when that quotient is non-negative and below `2 ^ 31`. -/
lemma ceiling_divide_f32_eq_ceil (a b : α) (h0 : 0 ≤ f32 (a / b))
    (h1 : f32 (a / b) < (2 : α) ^ 31) :
    ceiling_divide_f32 a b = some (Int.ceil (f32 (a / b))) := by
  have hfl0 : 0 ≤ Int.floor (f32 (a / b)) := Int.floor_nonneg.mpr h0
  have hfl1 : Int.floor (f32 (a / b)) < 2 ^ 31 := by
    have h2 : ((Int.floor (f32 (a / b)) : Int) : α) < (((2 : Int) ^ 31 : Int) : α) := by
      have e : (((2 : Int) ^ 31 : Int) : α) = (2 : α) ^ 31 := by norm_num
      rw [e]
      exact lt_of_le_of_lt (Int.floor_le _) h1
    exact_mod_cast h2
  have hc := ceiling_divide_eq_ceil (f32 (a / b)) 1
  unfold ceiling_divide at hc
  simp only [div_one] at hc
  unfold ceiling_divide_f32
  simp only
  rw [c_int_cast_of_nonneg h0] at hc ⊢
  rw [c_int_cast32_intCast _ (by omega) hfl1]
  rw [c_int_cast_intCast] at hc
  simp only [hc]

/-- A value in `[0, 2 ^ 24]` is rounded to binary32 between its floor and its
ceiling. -/
lemma f32_floor_ceil (x : α) (h0 : 0 ≤ x) (h1 : x ≤ (2 : α) ^ 24) :
    ((Int.floor x : Int) : α) ≤ f32 x ∧ f32 x ≤ ((Int.ceil x : Int) : α) := by
  have hf0 : 0 ≤ Int.floor x := Int.floor_nonneg.mpr h0
  have hc0 : 0 ≤ Int.ceil x := Int.ceil_nonneg h0
  have hc1 : Int.ceil x ≤ 2 ^ 24 := by
    rw [Int.ceil_le]
    have e : (((2 : Int) ^ 24 : Int) : α) = (2 : α) ^ 24 := by norm_num
    rw [e]
    exact h1
  have hf1 : Int.floor x ≤ 2 ^ 24 := le_trans (Int.floor_le_ceil x) hc1
  constructor
  · exact le_f32_of_le _ _ (f32_intCast _ (by rw [abs_of_nonneg hf0]; exact hf1))
      (Int.floor_le x)
  · exact f32_le_of_le _ _ (f32_intCast _ (by rw [abs_of_nonneg hc0]; exact hc1))
      (Int.le_ceil x)

/-- In binary32 `ceiling_divide` of `a ≥ 0` by `b > 0` with `a / b ≤ 2 ^ 24`
returns an integer between the floor and the ceiling of the exact quotient. -/
lemma ceiling_divide_f32_bounds (a b : α) (ha : 0 ≤ a) (hb : 0 < b)
    (hab : a / b ≤ (2 : α) ^ 24) :
    ceiling_divide_f32 a b = some (Int.ceil (f32 (a / b))) ∧
    Int.floor (a / b) ≤ Int.ceil (f32 (a / b)) ∧ Int.ceil (f32 (a / b)) ≤ Int.ceil (a / b) := by
  have hq : 0 ≤ a / b := div_nonneg ha hb.le
  obtain ⟨s1, s2⟩ := f32_floor_ceil (a / b) hq hab
  have e24 : (((2 : Int) ^ 24 : Int) : α) = (2 : α) ^ 24 := by norm_num
  have hc1 : Int.ceil (a / b) ≤ 2 ^ 24 := by
    rw [Int.ceil_le, e24]
    exact hab
  have hlt : f32 (a / b) < (2 : α) ^ 31 := by
    have h3 : ((Int.ceil (a / b) : Int) : α) ≤ (((2 : Int) ^ 24 : Int) : α) := by
      exact_mod_cast hc1
    rw [e24] at h3
    have h4 : (2 : α) ^ 24 < (2 : α) ^ 31 := by norm_num
    linarith
  refine ⟨ceiling_divide_f32_eq_ceil a b (f32_nonneg _ hq) hlt, ?_, ?_⟩
  · have : ((Int.floor (a / b) : Int) : α) ≤ ((Int.ceil (f32 (a / b)) : Int) : α) :=
      le_trans s1 (Int.le_ceil _)
    exact_mod_cast this
  · rw [Int.ceil_le]
    exact s2

/-- The centre of the cell `c` along one axis is computed exactly in binary32
when the origin `B * 2 ^ k` and the cell side `S * 2 ^ k` are multiples of a
power of two and the centre has at most 24 significant bits; the index computed
from the centre is `c` again. -/
lemma center_axis_f32 (k B S c : Int) (hk : -148 ≤ k) (hS : 0 < S) (hc : 0 ≤ c)
    (hm : 2 * |B| + S * (2 * c + 1) ≤ 2 ^ 24) :
    f32 (f64 ((B : α) * (2 : α) ^ k
        + f64 ((S : α) * (2 : α) ^ k * f64 (f32 (c : α) + 1 / 2))))
      = (B : α) * (2 : α) ^ k + (S : α) * (2 : α) ^ k * ((c : α) + 1 / 2) ∧
    f32 (f32 ((B : α) * (2 : α) ^ k + (S : α) * (2 : α) ^ k * ((c : α) + 1 / 2)
        - (B : α) * (2 : α) ^ k) / ((S : α) * (2 : α) ^ k)) = (c : α) + 1 / 2 := by
  have hB0 : 0 ≤ |B| := abs_nonneg B
  have hS1 : 1 ≤ S := hS
  have h2c : 2 * c + 1 ≤ S * (2 * c + 1) := by nlinarith
  have hSm : S ≤ S * (2 * c + 1) := by nlinarith
  have hP0 : 0 ≤ S * (2 * c + 1) := by nlinarith
  have hpow : (2 : α) ^ k = 2 * (2 : α) ^ (k - 1) := by
    rw [zpow_sub_one₀ (by norm_num : (2 : α) ≠ 0)]
    field_simp
  have hpos : (0 : α) < (2 : α) ^ k := zpow_pos (by norm_num) k
  have hSpos : (0 : α) < (S : α) := by exact_mod_cast hS
  have e1 : f32 (c : α) = c := f32_intCast c (by rw [abs_of_nonneg hc]; omega)
  have e2 : f64 ((c : α) + 1 / 2) = (c : α) + 1 / 2 :=
    f64_eq _ _ (2 * c + 1) (-1) rfl (by push_cast; rw [zpow_neg_one]; ring)
      (by rw [abs_of_nonneg (by omega)]; omega) (by norm_num)
  have e3 : f64 ((S : α) * (2 : α) ^ k * ((c : α) + 1 / 2))
      = (S : α) * (2 : α) ^ k * ((c : α) + 1 / 2) :=
    f64_eq _ _ (S * (2 * c + 1)) (k - 1) rfl (by push_cast; rw [hpow]; ring)
      (by rw [abs_of_nonneg hP0]; linarith) (by omega)
  have hrep : (B : α) * (2 : α) ^ k + (S : α) * (2 : α) ^ k * ((c : α) + 1 / 2)
      = ((2 * B + S * (2 * c + 1) : Int) : α) * (2 : α) ^ (k - 1) := by
    push_cast
    rw [hpow]
    ring
  have habs : |2 * B + S * (2 * c + 1)| ≤ 2 ^ 24 := by
    have n1 := neg_abs_le B
    have n2 := le_abs_self B
    rw [abs_le]
    constructor <;> linarith
  have e4 : f64 ((B : α) * (2 : α) ^ k + (S : α) * (2 : α) ^ k * ((c : α) + 1 / 2))
      = (B : α) * (2 : α) ^ k + (S : α) * (2 : α) ^ k * ((c : α) + 1 / 2) :=
    f64_eq _ _ _ (k - 1) rfl hrep (le_trans habs (by norm_num)) (by omega)
  have e5 : f32 ((B : α) * (2 : α) ^ k + (S : α) * (2 : α) ^ k * ((c : α) + 1 / 2))
      = (B : α) * (2 : α) ^ k + (S : α) * (2 : α) ^ k * ((c : α) + 1 / 2) :=
    f32_eq _ _ _ (k - 1) rfl hrep habs (by omega)
  have e6 : f32 ((B : α) * (2 : α) ^ k + (S : α) * (2 : α) ^ k * ((c : α) + 1 / 2)
      - (B : α) * (2 : α) ^ k) = (S : α) * (2 : α) ^ k * ((c : α) + 1 / 2) :=
    f32_eq _ _ (S * (2 * c + 1)) (k - 1) (by ring) (by push_cast; rw [hpow]; ring)
      (by rw [abs_of_nonneg hP0]; linarith) (by omega)
  have e7 : f32 ((S : α) * (2 : α) ^ k * ((c : α) + 1 / 2) / ((S : α) * (2 : α) ^ k))
      = (c : α) + 1 / 2 :=
    f32_eq _ _ (2 * c + 1) (-1) (by field_simp; ring) (by push_cast; rw [zpow_neg_one]; ring)
      (by rw [abs_of_nonneg (by omega)]; omega) (by norm_num)
  constructor
  · rw [e1, e2, e3, e4, e5]
  · rw [e6, e7]

end GridBinary32

section CeilingBinary32

variable {α : Type} [LinearOrderedField α] [FloorRing α]

/-- In binary32, for `a ≥ 0`, `b > 0` and `a / b ≤ 2 ^ 24`, `ceiling_divide`
returns the ceiling `n` of the rounded quotient; `n - 1` cells do not cover `a`,
`n + 1` cells do, and `n` is the least covering count when the division is
exact. -/
lemma ceiling_divide_f32_cover (a b : α) (ha : 0 ≤ a) (hb : 0 < b)
    (hab : a / b ≤ (2 : α) ^ 24) :
    ceiling_divide_f32 a b = some (Int.ceil (f32 (a / b))) ∧
    (((Int.ceil (f32 (a / b)) - 1 : Int) : Int) : α) * b < a ∧
    a < (((Int.ceil (f32 (a / b)) + 1 : Int) : Int) : α) * b ∧
    (f32 (a / b) = a / b →
      a ≤ ((Int.ceil (f32 (a / b)) : Int) : α) * b ∧
      ∀ m : Int, a ≤ (m : α) * b → Int.ceil (f32 (a / b)) ≤ m) := by
  obtain ⟨h1, h2, h3⟩ := ceiling_divide_f32_bounds a b ha hb hab
  refine ⟨h1, ?_, ?_, ?_⟩
  · have h4 := Int.ceil_lt_add_one (a / b)
    have h5 : ((Int.ceil (f32 (a / b)) : Int) : α) ≤ ((Int.ceil (a / b) : Int) : α) := by
      exact_mod_cast h3
    have h6 : (((Int.ceil (f32 (a / b)) - 1 : Int) : Int) : α) < a / b := by
      push_cast
      linarith
    calc _ < a / b * b := by gcongr
      _ = a := by field_simp
  · have h4 := Int.lt_floor_add_one (a / b)
    have h5 : ((Int.floor (a / b) : Int) : α) ≤ ((Int.ceil (f32 (a / b)) : Int) : α) := by
      exact_mod_cast h2
    have h6 : a / b < (((Int.ceil (f32 (a / b)) + 1 : Int) : Int) : α) := by
      push_cast
      linarith
    calc a = a / b * b := by field_simp
      _ < _ := by gcongr
  · intro he
    rw [he]
    constructor
    · have := Int.le_ceil (a / b)
      calc a = a / b * b := by field_simp
        _ ≤ _ := by gcongr
    · intro m hm
      rw [Int.ceil_le]
      rwa [div_le_iff₀ hb]

/-- In binary32 `ceiling_divide (k * b) b` is `k` for `0 ≤ k ≤ 2 ^ 24`. -/
lemma ceiling_divide_f32_multiple (b : α) (k : Int) (hb : 0 < b) (hk0 : 0 ≤ k)
    (hk1 : k ≤ 2 ^ 24) : ceiling_divide_f32 ((k : α) * b) b = some k := by
  have e : (k : α) * b / b = (k : α) := by field_simp
  have hf : f32 ((k : α) * b / b) = (k : α) := by
    rw [e]
    exact f32_intCast k (by rw [abs_of_nonneg hk0]; exact hk1)
  have h0 : (0 : α) ≤ (k : α) := by exact_mod_cast hk0
  have h1 : (k : α) < (2 : α) ^ 31 := by
    have h3 : (k : α) ≤ (((2 : Int) ^ 24 : Int) : α) := by exact_mod_cast hk1
    have e24 : (((2 : Int) ^ 24 : Int) : α) = (2 : α) ^ 24 := by norm_num
    rw [e24] at h3
    have h4 : (2 : α) ^ 24 < (2 : α) ^ 31 := by norm_num
    linarith
  rw [ceiling_divide_f32_eq_ceil _ _ (by rw [hf]; exact h0) (by rw [hf]; exact h1), hf,
    Int.ceil_intCast]

end CeilingBinary32

section ErrorLemmas

variable {α : Type} [LinearOrderedField α] [FloorRing α]

/-- The rounding error of a value of magnitude at most `1` is at most
`2 ^ (-prec - 1)`, in a format with `prec` significant bits. -/
lemma fp_round_error_le_one (prec : Nat) (emin : Int) (x : α) (hp : 1 ≤ prec)
    (he : emin ≤ -1) (hx : |x| ≤ 1) :
    |x - fp_round prec emin x| ≤ (2 : α) ^ (-(prec : Int) - 1) := by
  have h2pos : ∀ n : Int, (0 : α) < (2 : α) ^ n := fun n => zpow_pos (by norm_num) n
  by_cases h0 : x = 0
  · rw [h0, fp_round_zero, sub_zero, abs_zero]
    exact (h2pos _).le
  rcases eq_or_lt_of_le hx with h1 | h1
  · have hrep : fp_round prec emin x = x := by
      rcases abs_cases x with ⟨ha, _⟩ | ⟨ha, _⟩
      · have hx1 : x = ((1 : Int) : α) * (2 : α) ^ (0 : Int) := by
          rw [← ha, h1]; simp
        rw [hx1]
        exact fp_round_of_representable prec emin 1 0 hp
          (by rw [abs_one]; exact one_le_pow₀ (by norm_num)) (by omega)
      · have hx1 : x = ((-1 : Int) : α) * (2 : α) ^ (0 : Int) := by
          have : x = -1 := by linarith
          rw [this]; simp
        rw [hx1]
        exact fp_round_of_representable prec emin (-1) 0 hp
          (by rw [abs_neg, abs_one]; exact one_le_pow₀ (by norm_num)) (by omega)
    rw [hrep, sub_self, abs_zero]
    exact (h2pos _).le
  · have h2 : ((2 : Nat) : α) = 2 := by norm_num
    have hlog : Int.log 2 |x| < 0 := by
      rw [← Int.lt_zpow_iff_log_lt (by norm_num) (abs_pos.mpr h0), h2]
      simpa using h1
    have hexp : fp_exp emin x ≤ -1 := by
      unfold fp_exp
      exact max_le (by omega) he
    have hu : fp_ulp prec emin x ≤ (2 : α) ^ (-(prec : Int)) := by
      unfold fp_ulp
      apply zpow_le_zpow_right₀ (by norm_num)
      omega
    have herr := fp_round_error prec emin x
    have e : (2 : α) ^ (-(prec : Int)) / 2 = (2 : α) ^ (-(prec : Int) - 1) := by
      rw [zpow_sub_one₀ (by norm_num : (2 : α) ≠ 0), div_eq_mul_inv]
    calc |x - fp_round prec emin x| ≤ fp_ulp prec emin x / 2 := herr
      _ ≤ (2 : α) ^ (-(prec : Int)) / 2 := by linarith
      _ = _ := e

lemma f32_error_le_one (x : α) (hx : |x| ≤ 1) : |x - f32 x| ≤ 1 / 2 ^ 25 := by
  have h := fp_round_error_le_one 24 (-126) x (by norm_num) (by norm_num) hx
  have e : (2 : α) ^ (-((24 : Nat) : Int) - 1) = 1 / 2 ^ 25 := by
    have : (-((24 : Nat) : Int) - 1) = -25 := by norm_num
    rw [this, zpow_neg]
    norm_num
  rw [e] at h
  exact h

lemma f64_error_le_one (x : α) (hx : |x| ≤ 1) : |x - f64 x| ≤ 1 / 2 ^ 54 := by
  have h := fp_round_error_le_one 53 (-1022) x (by norm_num) (by norm_num) hx
  have e : (2 : α) ^ (-((53 : Nat) : Int) - 1) = 1 / 2 ^ 54 := by
    have : (-((53 : Nat) : Int) - 1) = -54 := by norm_num
    rw [this, zpow_neg]
    norm_num
  rw [e] at h
  exact h

/-- The relative rounding error of binary32 in the normal range. -/
lemma f32_rel_error (x : α) (hx : (2 : α) ^ (-126 : Int) ≤ |x|) :
    |x - f32 x| ≤ |x| / 2 ^ 24 := by
  have h := fp_round_rel_error 24 (-126) x hx
  have e : (2 : α) ^ (-((24 : Nat) : Int)) = 1 / 2 ^ 24 := by
    rw [zpow_neg]
    norm_num
  rw [e] at h
  unfold f32
  calc _ ≤ |x| * (1 / 2 ^ 24) := h
    _ = _ := by ring

end ErrorLemmas

section RebaseBinary32

variable {α : Type} [LinearOrderedField α] [FloorRing α]

/-- The index computed in binary32 along one axis is the floor of the exact
quotient, for an origin `B * 2 ^ k`, a cell side `S * 2 ^ k` and a coordinate
`X * 2 ^ k ≥ B * 2 ^ k` with `X - B ≤ 2 ^ 22` and `S ≤ 2 ^ 21`. -/
lemma index_axis_f32 (k B S X : Int) (hk : -149 ≤ k) (hS : 0 < S) (hS1 : S ≤ 2 ^ 21)
    (hBX : B ≤ X) (hD : X - B ≤ 2 ^ 22) :
    0 ≤ Int.floor (((X - B : Int) : α) / (S : α)) ∧
    ((Int.floor (((X - B : Int) : α) / (S : α)) : Int) : α) * (S : α) ≤ ((X - B : Int) : α) ∧
    ((X - B : Int) : α) < ((Int.floor (((X - B : Int) : α) / (S : α)) : Int) : α) * (S : α)
      + (S : α) ∧
    c_int_cast32 (f32 (f32 ((X : α) * (2 : α) ^ k - (B : α) * (2 : α) ^ k)
        / ((S : α) * (2 : α) ^ k)))
      = some (Int.floor (((X - B : Int) : α) / (S : α))) := by
  have h2k : (0 : α) < (2 : α) ^ k := zpow_pos (by norm_num) k
  have hSα : (0 : α) < (S : α) := by exact_mod_cast hS
  obtain ⟨D, hDdef⟩ : ∃ D : Int, D = X - B := ⟨_, rfl⟩
  rw [← hDdef] at hD ⊢
  have hD0 : 0 ≤ D := by omega
  have hDα : (0 : α) ≤ (D : α) := by exact_mod_cast hD0
  have hDle : (D : α) ≤ 2 ^ 22 := by
    have : (D : α) ≤ (((2 : Int) ^ 22 : Int) : α) := by exact_mod_cast hD
    have e : (((2 : Int) ^ 22 : Int) : α) = (2 : α) ^ 22 := by norm_num
    rwa [e] at this
  have e1 : f32 ((X : α) * (2 : α) ^ k - (B : α) * (2 : α) ^ k) = (D : α) * (2 : α) ^ k :=
    f32_eq _ _ D k (by rw [hDdef]; push_cast; ring) rfl
      (by rw [abs_of_nonneg hD0]; omega) hk
  have e2 : (D : α) * (2 : α) ^ k / ((S : α) * (2 : α) ^ k) = (D : α) / (S : α) := by
    field_simp
    ring
  rw [e1, e2]
  obtain ⟨qe, hqe⟩ : ∃ qe : α, qe = (D : α) / (S : α) := ⟨_, rfl⟩
  rw [← hqe]
  have hqe0 : 0 ≤ qe := by rw [hqe]; exact div_nonneg hDα hSα.le
  obtain ⟨c, hc⟩ : ∃ c : Int, c = Int.floor qe := ⟨_, rfl⟩
  rw [← hc]
  have hc_le : (c : α) ≤ qe := by rw [hc]; exact Int.floor_le _
  have hc_lt : qe < (c : α) + 1 := by rw [hc]; exact Int.lt_floor_add_one _
  have hc0 : 0 ≤ c := by rw [hc]; exact Int.floor_nonneg.mpr hqe0
  have hcα : (0 : α) ≤ (c : α) := by exact_mod_cast hc0
  have hS1α : (1 : α) ≤ (S : α) := by exact_mod_cast (by omega : (1 : Int) ≤ S)
  have hcS : (c : α) * (S : α) ≤ (D : α) := by
    have := mul_le_mul_of_nonneg_right hc_le hSα.le
    rwa [hqe, div_mul_cancel₀ _ hSα.ne.symm] at this
  have hDlt : (D : α) < (c : α) * (S : α) + (S : α) := by
    have := mul_lt_mul_of_pos_right hc_lt hSα
    rw [hqe, div_mul_cancel₀ _ hSα.ne.symm] at this
    linarith
  have hcD : (c : α) ≤ (D : α) := by
    have : (c : α) * 1 ≤ (c : α) * (S : α) := mul_le_mul_of_nonneg_left hS1α hcα
    linarith
  have hc24 : c ≤ 2 ^ 24 := by
    have : c ≤ D := by exact_mod_cast hcD
    omega
  have hfc : f32 (c : α) = c := f32_intCast c (by rw [abs_of_nonneg hc0]; exact hc24)
  have hq_lo : (c : α) ≤ f32 qe := le_f32_of_le _ _ hfc hc_le
  have hq_hi : f32 qe < (c : α) + 1 := by
    by_cases hDz : D = 0
    · have hq0 : qe = 0 := by rw [hqe, hDz]; simp
      rw [hq0, f32_zero]
      linarith
    · have hD1 : (1 : α) ≤ (D : α) := by exact_mod_cast (by omega : (1 : Int) ≤ D)
      have hSle : (S : α) ≤ 2 ^ 21 := by
        have : (S : α) ≤ (((2 : Int) ^ 21 : Int) : α) := by exact_mod_cast hS1
        have e : (((2 : Int) ^ 21 : Int) : α) = (2 : α) ^ 21 := by norm_num
        rwa [e] at this
      have hqpos : 0 < qe := by rw [hqe]; exact div_pos (by linarith) hSα
      have hqlow : 1 / 2 ^ 21 ≤ qe := by
        rw [hqe]
        calc (1 : α) / 2 ^ 21 ≤ 1 / (S : α) := one_div_le_one_div_of_le hSα hSle
          _ ≤ (D : α) / (S : α) := div_le_div_of_nonneg_right hD1 hSα.le
      have hnorm : (2 : α) ^ (-126 : Int) ≤ |qe| := by
        rw [abs_of_pos hqpos]
        have h126 : (2 : α) ^ (-126 : Int) ≤ 1 / 2 ^ 21 := by
          rw [one_div, ← zpow_natCast, ← zpow_neg]
          exact zpow_le_zpow_right₀ (by norm_num) (by norm_num)
        exact le_trans h126 hqlow
      have herr := f32_rel_error qe hnorm
      rw [abs_of_pos hqpos, abs_le] at herr
      -- the integer remainder is at most S - 1
      have hint : D + 1 ≤ c * S + S := by
        have : (D : α) < ((c * S + S : Int) : α) := by push_cast; exact hDlt
        have := Int.cast_lt.mp this
        omega
      have hint2 : (D : α) + 1 ≤ (c : α) * (S : α) + (S : α) := by
        have : ((D + 1 : Int) : α) ≤ ((c * S + S : Int) : α) := by exact_mod_cast hint
        push_cast at this
        exact this
      -- qe + 1 / S ≤ c + 1
      have hq1 : qe + 1 / (S : α) ≤ (c : α) + 1 := by
        rw [hqe, ← add_div, div_le_iff₀ hSα]
        linarith
      -- the error is below 1 / S
      have herr2 : qe / 2 ^ 24 < 1 / (S : α) := by
        have hd : (D : α) / 2 ^ 24 < 1 := by
          rw [div_lt_one (by positivity)]
          have h4 : (2 : α) ^ 22 < (2 : α) ^ 24 := by norm_num
          linarith
        have e : qe / 2 ^ 24 = (D : α) / 2 ^ 24 / (S : α) := by
          rw [hqe]; ring
        rw [e]
        exact div_lt_div_of_pos_right hd hSα
      linarith [herr.1]
  have hfloor : Int.floor (f32 qe) = c := by
    rw [Int.floor_eq_iff]
    exact ⟨hq_lo, hq_hi⟩
  have hlt31 : f32 qe < (2 : α) ^ 31 := by
    have : (c : α) ≤ 2 ^ 22 := le_trans hcD hDle
    have h4 : (2 : α) ^ 22 + 1 < (2 : α) ^ 31 := by norm_num
    linarith
  refine ⟨hc0, hcS, hDlt, ?_⟩
  rw [c_int_cast32_of_nonneg _ (le_trans hcα hq_lo) hlt31, hfloor]

/-- The ratio computed in binary32 along one axis, re-based by the step
`if ratio < 0`: for a remainder `0 ≤ r < S` and `S ≤ 2 ^ 21` the exact ratio from
the cell centre is `ρ = (2r - S) / (2S)`; the re-based ratio lies in `[0, 1)`
and is within `2 ^ (-23)` of the exact re-based ratio. -/
lemma ratio_axis_f32 (S r : Int) (hS : 0 < S) (hS1 : S ≤ 2 ^ 21) (hr0 : 0 ≤ r) (hr1 : r < S) :
    0 ≤ (if f32 (((2 * r - S : Int) : α) / (2 * (S : α))) < 0
        then f32 (f64 (f32 (((2 * r - S : Int) : α) / (2 * (S : α))) + 1))
        else f32 (((2 * r - S : Int) : α) / (2 * (S : α)))) ∧
    (if f32 (((2 * r - S : Int) : α) / (2 * (S : α))) < 0
        then f32 (f64 (f32 (((2 * r - S : Int) : α) / (2 * (S : α))) + 1))
        else f32 (((2 * r - S : Int) : α) / (2 * (S : α)))) < 1 ∧
    |(if f32 (((2 * r - S : Int) : α) / (2 * (S : α))) < 0
        then ((2 * r - S : Int) : α) / (2 * (S : α)) + 1
        else ((2 * r - S : Int) : α) / (2 * (S : α)))
      - (if f32 (((2 * r - S : Int) : α) / (2 * (S : α))) < 0
        then f32 (f64 (f32 (((2 * r - S : Int) : α) / (2 * (S : α))) + 1))
        else f32 (((2 * r - S : Int) : α) / (2 * (S : α))))| ≤ 1 / 2 ^ 23 := by
  have hSα : (0 : α) < (S : α) := by exact_mod_cast hS
  have h2S : (0 : α) < 2 * (S : α) := by linarith
  have hrα0 : (0 : α) ≤ (r : α) := by exact_mod_cast hr0
  have hrα1 : (r : α) < (S : α) := by exact_mod_cast hr1
  obtain ⟨ρ, hρ⟩ : ∃ ρ : α, ρ = ((2 * r - S : Int) : α) / (2 * (S : α)) := ⟨_, rfl⟩
  rw [← hρ]
  have hρ_lo : -(1 / 2) ≤ ρ := by
    rw [hρ, le_div_iff₀ h2S]
    push_cast
    linarith
  have hρ_hi : ρ ≤ 1 / 2 := by
    rw [hρ, div_le_iff₀ h2S]
    push_cast
    linarith
  have rh : f32 ((1 : α) / 2) = 1 / 2 :=
    f32_of_repr _ 1 (-1) (by norm_num) (by norm_num) (by norm_num)
  have rhn : f32 (-((1 : α) / 2)) = -(1 / 2) := by rw [f32_neg, rh]
  have ht_lo : -(1 / 2) ≤ f32 ρ := le_f32_of_le _ _ rhn hρ_lo
  have ht_hi : f32 ρ ≤ 1 / 2 := f32_le_of_le _ _ rh hρ_hi
  have habsρ : |ρ| ≤ 1 := by
    rw [abs_le]
    constructor <;> linarith
  have herr := f32_error_le_one ρ habsρ
  rw [abs_le] at herr
  by_cases hneg : f32 ρ < 0
  · simp only [if_pos hneg]
    have hρneg : ρ < 0 := by
      by_contra h
      have := f32_nonneg ρ (not_lt.mp h)
      linarith
    have hint : 2 * r - S ≤ -1 := by
      have h1 : ((2 * r - S : Int) : α) < 0 := by
        by_contra h
        have : 0 ≤ ρ := by rw [hρ]; exact div_nonneg (not_lt.mp h) h2S.le
        linarith
      have := Int.cast_lt.mp (by simpa using h1 : ((2 * r - S : Int) : α) < ((0 : Int) : α))
      omega
    have hSle : (S : α) ≤ 2 ^ 21 := by
      have : (S : α) ≤ (((2 : Int) ^ 21 : Int) : α) := by exact_mod_cast hS1
      have e : (((2 : Int) ^ 21 : Int) : α) = (2 : α) ^ 21 := by norm_num
      rwa [e] at this
    have hρ_up : ρ ≤ -(1 / 2 ^ 22) := by
      have h1 : ((2 * r - S : Int) : α) ≤ -1 := by exact_mod_cast hint
      have h2 : ρ ≤ -1 / (2 * (S : α)) := by
        rw [hρ]
        exact div_le_div_of_nonneg_right h1 h2S.le
      have h3 : (1 : α) / 2 ^ 22 ≤ 1 / (2 * (S : α)) := by
        apply one_div_le_one_div_of_le h2S
        have : (2 : α) * 2 ^ 21 = 2 ^ 22 := by norm_num
        linarith
      have h4 : -1 / (2 * (S : α)) = -(1 / (2 * (S : α))) := by ring
      linarith
    have r22 : f32 ((1 : α) / 2 ^ 22) = 1 / 2 ^ 22 :=
      f32_of_repr _ 1 (-22) (by norm_num) (by norm_num) (by norm_num)
    have r22n : f32 (-((1 : α) / 2 ^ 22)) = -(1 / 2 ^ 22) := by rw [f32_neg, r22]
    have ht_up : f32 ρ ≤ -(1 / 2 ^ 22) := f32_le_of_le _ _ r22n hρ_up
    have rtop : f32 ((1 : α) - 1 / 2 ^ 22) = 1 - 1 / 2 ^ 22 :=
      f32_of_repr _ 4194303 (-22) (by norm_num) (by norm_num) (by norm_num)
    have rtop64 : f64 ((1 : α) - 1 / 2 ^ 22) = 1 - 1 / 2 ^ 22 := f64_of_f32 _ rtop
    have rh64 : f64 ((1 : α) / 2) = 1 / 2 := f64_of_f32 _ rh
    obtain ⟨y, hy⟩ : ∃ y : α, y = f64 (f32 ρ + 1) := ⟨_, rfl⟩
    rw [← hy]
    have y_lo : 1 / 2 ≤ y := by
      rw [hy]
      exact le_f64_of_le _ _ rh64 (by linarith)
    have y_hi : y ≤ 1 - 1 / 2 ^ 22 := by
      rw [hy]
      exact f64_le_of_le _ _ rtop64 (by linarith)
    have z_lo : 1 / 2 ≤ f32 y := le_f32_of_le _ _ rh y_lo
    have z_hi : f32 y ≤ 1 - 1 / 2 ^ 22 := f32_le_of_le _ _ rtop y_hi
    have hpos22 : (0 : α) < 1 / 2 ^ 22 := by positivity
    have erry := f64_error_le_one (f32 ρ + 1) (by
      rw [abs_le]
      constructor
      · linarith only [ht_lo]
      · linarith only [ht_up, hpos22])
    rw [← hy, abs_le] at erry
    have errz := f32_error_le_one y (by
      rw [abs_le]
      constructor
      · linarith only [y_lo]
      · linarith only [y_hi, hpos22])
    rw [abs_le] at errz
    have e54 : (1 : α) / 2 ^ 54 ≤ 1 / 2 ^ 25 := by
      apply one_div_le_one_div_of_le (by positivity)
      norm_num
    have e23 : (1 : α) / 2 ^ 25 + 1 / 2 ^ 25 + 1 / 2 ^ 25 ≤ 1 / 2 ^ 23 := by norm_num
    obtain ⟨a25, h25⟩ : ∃ a : α, a = 1 / 2 ^ 25 := ⟨_, rfl⟩
    obtain ⟨a54, h54⟩ : ∃ a : α, a = 1 / 2 ^ 54 := ⟨_, rfl⟩
    obtain ⟨a23, h23⟩ : ∃ a : α, a = 1 / 2 ^ 23 := ⟨_, rfl⟩
    rw [← h25, ← h54] at e54
    rw [← h25, ← h23] at e23
    rw [← h25] at herr errz
    rw [← h54] at erry
    rw [← h23]
    refine ⟨le_trans (by norm_num) z_lo, lt_of_le_of_lt z_hi (by linarith only [hpos22]), ?_⟩
    rw [abs_le]
    constructor
    · linarith only [herr.1, herr.2, erry.1, erry.2, errz.1, errz.2, e54, e23]
    · linarith only [herr.1, herr.2, erry.1, erry.2, errz.1, errz.2, e54, e23]
  · simp only [if_neg hneg]
    have h0 : 0 ≤ f32 ρ := not_lt.mp hneg
    have e23 : (1 : α) / 2 ^ 25 ≤ 1 / 2 ^ 23 := by
      apply one_div_le_one_div_of_le (by positivity)
      norm_num
    refine ⟨h0, lt_of_le_of_lt ht_hi (by norm_num), ?_⟩
    rw [abs_le]
    constructor
    · linarith only [herr.1, herr.2, e23]
    · linarith only [herr.1, herr.2, e23]

/-- The re-basing along one axis in binary32, for an origin `B * 2 ^ k`, a cell
side `S * 2 ^ k` and a coordinate `X * 2 ^ k` at or above the origin, with
`|B|`, `|X|` and `S` at most `2 ^ 21`: the index is computed, the cell centre is
computed exactly, the re-based ratio lies in `[0, 1)`, and the coordinate is
within `section_len * 2 ^ (-23)` of the centre of the re-based cell plus the
ratio times `section_len`. -/
lemma rebase_axis_f32 (k B S X : Int) (hk : -148 ≤ k) (hS : 0 < S) (hS1 : S ≤ 2 ^ 21)
    (hBX : B ≤ X) (hB : |B| ≤ 2 ^ 21) (hX : |X| ≤ 2 ^ 21) :
    ∃ c : Int, 0 ≤ c ∧
      c_int_cast32 (f32 (f32 ((X : α) * (2 : α) ^ k - (B : α) * (2 : α) ^ k)
        / ((S : α) * (2 : α) ^ k))) = some c ∧
      f32 (f64 ((B : α) * (2 : α) ^ k
          + f64 ((S : α) * (2 : α) ^ k * f64 (f32 (c : α) + 1 / 2))))
        = (B : α) * (2 : α) ^ k + (S : α) * (2 : α) ^ k * ((c : α) + 1 / 2) ∧
      ∃ ratio : α,
        ratio = f32 (f32 ((X : α) * (2 : α) ^ k
          - ((B : α) * (2 : α) ^ k + (S : α) * (2 : α) ^ k * ((c : α) + 1 / 2)))
          / ((S : α) * (2 : α) ^ k)) ∧
        0 ≤ (if ratio < 0 then f32 (f64 (ratio + 1)) else ratio) ∧
        (if ratio < 0 then f32 (f64 (ratio + 1)) else ratio) < 1 ∧
        |(X : α) * (2 : α) ^ k
          - ((B : α) * (2 : α) ^ k
              + (S : α) * (2 : α) ^ k * (((if ratio < 0 then c - 1 else c : Int) : α) + 1 / 2)
            + (if ratio < 0 then f32 (f64 (ratio + 1)) else ratio) * ((S : α) * (2 : α) ^ k))|
          ≤ (S : α) * (2 : α) ^ k / 2 ^ 23 := by
  have h2k : (0 : α) < (2 : α) ^ k := zpow_pos (by norm_num) k
  have hSα : (0 : α) < (S : α) := by exact_mod_cast hS
  have hsk : (0 : α) < (S : α) * (2 : α) ^ k := mul_pos hSα h2k
  have hpow : (2 : α) ^ k = 2 * (2 : α) ^ (k - 1) := by
    rw [zpow_sub_one₀ (by norm_num : (2 : α) ≠ 0)]
    field_simp
  have hXle := le_abs_self X
  have hBge := neg_abs_le B
  have hD : X - B ≤ 2 ^ 22 := by omega
  obtain ⟨i1, i2, i3, i4⟩ := index_axis_f32 (α := α) k B S X (by omega) hS hS1 hBX hD
  obtain ⟨c, hc⟩ : ∃ c : Int, c = Int.floor (((X - B : Int) : α) / (S : α)) := ⟨_, rfl⟩
  rw [← hc] at i1 i2 i3 i4
  obtain ⟨r, hr⟩ : ∃ r : Int, r = X - B - c * S := ⟨_, rfl⟩
  have hr0 : 0 ≤ r := by
    have : ((c * S : Int) : α) ≤ ((X - B : Int) : α) := by push_cast at i2 ⊢; exact i2
    have := Int.cast_le.mp this
    omega
  have hr1 : r < S := by
    have : ((X - B : Int) : α) < ((c * S + S : Int) : α) := by push_cast at i3 ⊢; exact i3
    have := Int.cast_lt.mp this
    omega
  have hcS0 : 0 ≤ c * S := mul_nonneg i1 hS.le
  have hm : 2 * |B| + S * (2 * c + 1) ≤ 2 ^ 24 := by
    have e : S * (2 * c + 1) = 2 * (c * S) + S := by ring
    rw [e]
    omega
  obtain ⟨cen, _⟩ := center_axis_f32 (α := α) k B S c hk hS i1 hm
  have e3 : f32 ((X : α) * (2 : α) ^ k
      - ((B : α) * (2 : α) ^ k + (S : α) * (2 : α) ^ k * ((c : α) + 1 / 2)))
      = ((2 * r - S : Int) : α) * (2 : α) ^ (k - 1) :=
    f32_eq _ _ (2 * r - S) (k - 1) (by rw [hr]; push_cast; rw [hpow]; ring) rfl
      (by rw [abs_le]; constructor <;> omega) (by omega)
  have e4 : ((2 * r - S : Int) : α) * (2 : α) ^ (k - 1) / ((S : α) * (2 : α) ^ k)
      = ((2 * r - S : Int) : α) / (2 * (S : α)) := by
    rw [hpow]
    have h1 : (0 : α) < (2 : α) ^ (k - 1) := zpow_pos (by norm_num) _
    field_simp
    ring
  obtain ⟨q1, q2, q3⟩ := ratio_axis_f32 (α := α) S r hS hS1 hr0 hr1
  refine ⟨c, i1, i4, cen, _, rfl, ?_⟩
  rw [e3, e4]
  refine ⟨q1, q2, ?_⟩
  obtain ⟨ρ, hρ⟩ : ∃ ρ : α, ρ = ((2 * r - S : Int) : α) / (2 * (S : α)) := ⟨_, rfl⟩
  rw [← hρ] at q3 ⊢
  have hid : (X : α) * (2 : α) ^ k
      = (B : α) * (2 : α) ^ k + (S : α) * (2 : α) ^ k * ((c : α) + 1 / 2)
        + ρ * ((S : α) * (2 : α) ^ k) := by
    rw [hρ, hr]
    push_cast
    field_simp
    ring
  have e23 : (S : α) * (2 : α) ^ k / 2 ^ 23 = 1 / 2 ^ 23 * ((S : α) * (2 : α) ^ k) := by ring
  rw [e23]
  by_cases hneg : f32 ρ < 0
  · simp only [if_pos hneg] at q3 ⊢
    have e : (X : α) * (2 : α) ^ k
        - ((B : α) * (2 : α) ^ k + (S : α) * (2 : α) ^ k * (((c - 1 : Int) : α) + 1 / 2)
          + f32 (f64 (f32 ρ + 1)) * ((S : α) * (2 : α) ^ k))
        = (ρ + 1 - f32 (f64 (f32 ρ + 1))) * ((S : α) * (2 : α) ^ k) := by
      rw [hid]
      push_cast
      ring
    rw [e, abs_mul, abs_of_pos hsk]
    exact mul_le_mul_of_nonneg_right q3 hsk.le
  · simp only [if_neg hneg] at q3 ⊢
    have e : (X : α) * (2 : α) ^ k
        - ((B : α) * (2 : α) ^ k + (S : α) * (2 : α) ^ k * ((c : α) + 1 / 2)
          + f32 ρ * ((S : α) * (2 : α) ^ k))
        = (ρ - f32 ρ) * ((S : α) * (2 : α) ^ k) := by
      rw [hid]
      ring
    rw [e, abs_mul, abs_of_pos hsk]
    exact mul_le_mul_of_nonneg_right q3 hsk.le

end RebaseBinary32

section BinningOrder

variable {α : Type} [LinearOrderedField α] [FloorRing α]

lemma bin_points_f32_rel (g : grid α) : ∀ (ps : List (lidar_point α))
    (za zb ra : List (List (List α))), cells_perm za zb → bin_points_f32 g ps za = some ra →
    ∃ rb, bin_points_f32 g ps zb = some rb ∧ cells_perm ra rb
  | [], za, zb, ra, hrel, h => by
    simp only [bin_points_f32, Option.some.injEq] at h
    subst h
    exact ⟨zb, rfl, hrel⟩
  | p :: ps, za, zb, ra, hrel, h => by
    simp only [bin_points_f32] at h
    cases hi : g.to_indices_f32 p.x p.y with
    | none => simp [hi] at h
    | some idx =>
      simp only [hi] at h
      cases hp : push_z za idx.1 idx.2 p.z with
      | none => simp [hp] at h
      | some za1 =>
        simp only [hp] at h
        obtain ⟨zb1, hb, hrel1⟩ := push_z_rel za zb za1 _ _ _ hrel hp
        obtain ⟨rb, hrb, hr⟩ := bin_points_f32_rel g ps za1 zb1 ra hrel1 h
        refine ⟨rb, ?_, hr⟩
        simp only [bin_points_f32, hi, hb]
        exact hrb

lemma bin_points_f32_perm (g : grid α) {ps qs : List (lidar_point α)} (hperm : ps.Perm qs) :
    ∀ (za zb ra : List (List (List α))), cells_perm za zb → bin_points_f32 g ps za = some ra →
    ∃ rb, bin_points_f32 g qs zb = some rb ∧ cells_perm ra rb := by
  induction hperm with
  | nil => exact bin_points_f32_rel g []
  | cons p _ ih =>
    intro za zb ra hrel h
    simp only [bin_points_f32] at h
    cases hi : g.to_indices_f32 p.x p.y with
    | none => simp [hi] at h
    | some idx =>
      simp only [hi] at h
      cases hp : push_z za idx.1 idx.2 p.z with
      | none => simp [hp] at h
      | some za1 =>
        simp only [hp] at h
        obtain ⟨zb1, hb, hrel1⟩ := push_z_rel za zb za1 _ _ _ hrel hp
        obtain ⟨rb, hrb, hr⟩ := ih za1 zb1 ra hrel1 h
        refine ⟨rb, ?_, hr⟩
        simp only [bin_points_f32, hi, hb]
        exact hrb
  | swap p q l =>
    intro za zb ra hrel h
    simp only [bin_points_f32] at h
    cases hiq : g.to_indices_f32 q.x q.y with
    | none => simp [hiq] at h
    | some iq =>
      simp only [hiq] at h
      cases hq : push_z za iq.1 iq.2 q.z with
      | none => simp [hq] at h
      | some za1 =>
        simp only [hq] at h
        cases hip : g.to_indices_f32 p.x p.y with
        | none => simp [hip] at h
        | some ip =>
          simp only [hip] at h
          cases hp : push_z za1 ip.1 ip.2 p.z with
          | none => simp [hp] at h
          | some za2 =>
            simp only [hp] at h
            obtain ⟨b1, b2, hb1, hb2, hrel2⟩ := push_z_comm za za1 za2 _ _ _ _ _ _ hq hp
            obtain ⟨c1, hc1, hrc1⟩ := push_z_rel za zb b1 _ _ _ hrel hb1
            obtain ⟨c2, hc2, hrc2⟩ := push_z_rel b1 c1 b2 _ _ _ hrc1 hb2
            obtain ⟨rb, hrb, hr⟩ :=
              bin_points_f32_rel g l za2 c2 ra (cells_perm_trans hrel2 hrc2) h
            refine ⟨rb, ?_, hr⟩
            simp only [bin_points_f32, hip, hiq, hc1, hc2]
            exact hrb
  | trans _ _ ih1 ih2 =>
    intro za zb ra hrel h
    obtain ⟨rm, hm, hr1⟩ := ih1 za za ra (cells_perm_refl za) h
    obtain ⟨rb, hb, hr2⟩ := ih2 za zb rm hrel hm
    exact ⟨rb, hb, cells_perm_trans hr1 hr2⟩

lemma push_z_natCast {β : Type} (za : List (List (List β))) (r c : Nat) (row : List (List β))
    (cell : List β) (z : β) (hr : za[r]? = some row) (hc : row[c]? = some cell) :
    push_z za (r : Int) (c : Int) z = some (za.set r (row.set c (cell ++ [z]))) := by
  simp [push_z, vec_get, hr, hc]

/-- Binning points that all fall into the cell `(r, c)` appends their heights,
in order, to that cell. -/
lemma bin_points_same_cell (g : grid α) (r c : Nat) :
    ∀ (ps : List (lidar_point α)) (za : List (List (List α))) (row : List (List α))
      (cell : List α),
      (∀ p ∈ ps, g.to_indices p.x p.y = ((r : Int), (c : Int))) →
      za[r]? = some row → row[c]? = some cell →
      bin_points g ps za = some (za.set r (row.set c (cell ++ ps.map (fun p => p.z))))
  | [], za, row, cell, _, hr, hc => by
    have e1 : row.set c cell = row := by
      apply List.ext_getElem?
      intro i
      by_cases hi : c = i
      · subst hi
        rw [hc, List.getElem?_set_self]
        simp [(List.getElem?_eq_some.mp hc).1]
      · rw [List.getElem?_set_ne hi]
    have e2 : za.set r row = za := by
      apply List.ext_getElem?
      intro i
      by_cases hi : r = i
      · subst hi
        rw [hr, List.getElem?_set_self]
        simp [(List.getElem?_eq_some.mp hr).1]
      · rw [List.getElem?_set_ne hi]
    simp [bin_points, e1, e2]
  | p :: ps, za, row, cell, hall, hr, hc => by
    have hp := hall p (List.mem_cons_self p ps)
    have hlr : r < za.length := (List.getElem?_eq_some.mp hr).1
    have hlc : c < row.length := (List.getElem?_eq_some.mp hc).1
    have ih := bin_points_same_cell g r c ps (za.set r (row.set c (cell ++ [p.z])))
      (row.set c (cell ++ [p.z])) (cell ++ [p.z])
      (fun q hq => hall q (List.mem_cons_of_mem p hq))
      (by rw [List.getElem?_set_self]; simp [hlr])
      (by rw [List.getElem?_set_self]; simp [hlc])
    simp only [bin_points, hp, push_z_natCast za r c row cell p.z hr hc, ih]
    simp [List.set_set]

lemma bin_points_f32_same_cell (g : grid α) (r c : Nat) :
    ∀ (ps : List (lidar_point α)) (za : List (List (List α))) (row : List (List α))
      (cell : List α),
      (∀ p ∈ ps, g.to_indices_f32 p.x p.y = some ((r : Int), (c : Int))) →
      za[r]? = some row → row[c]? = some cell →
      bin_points_f32 g ps za = some (za.set r (row.set c (cell ++ ps.map (fun p => p.z))))
  | [], za, row, cell, _, hr, hc => by
    have h := bin_points_same_cell g r c [] za row cell
      (fun p hp => absurd hp (List.not_mem_nil p)) hr hc
    simpa [bin_points, bin_points_f32] using h
  | p :: ps, za, row, cell, hall, hr, hc => by
    have hp := hall p (List.mem_cons_self p ps)
    have hlr : r < za.length := (List.getElem?_eq_some.mp hr).1
    have hlc : c < row.length := (List.getElem?_eq_some.mp hc).1
    have ih := bin_points_f32_same_cell g r c ps (za.set r (row.set c (cell ++ [p.z])))
      (row.set c (cell ++ [p.z])) (cell ++ [p.z])
      (fun q hq => hall q (List.mem_cons_of_mem p hq))
      (by rw [List.getElem?_set_self]; simp [hlr])
      (by rw [List.getElem?_set_self]; simp [hlc])
    simp only [bin_points_f32, hp, push_z_natCast za r c row cell p.z hr hc, ih]
    simp [List.set_set]

end BinningOrder

section RangeCell

variable {α : Type} [LinearOrderedField α]

/-- The floor height of a cell holding `0, 1, ..., n - 1` in ascending order. -/
lemma cell_floor_range (min_points divisor n : Nat) (hd : 2 ≤ divisor) (hn : n > min_points) :
    cell_floor min_points divisor ((List.range n).map (fun m : Nat => (m : α)))
      = some ((n / divisor : Nat) : α) := by
  have hk : n / divisor < n := cell_floor_index_lt min_points divisor n hd hn
  unfold cell_floor
  rw [if_pos (by simpa using hn)]
  simp only [List.length_map, List.length_range]
  rw [List.Sorted.insertionSort_eq (sorted_range_cast n)]
  simp [List.getElem?_map, List.getElem?_range hk]

end RangeCell

section SparseSample

/-- The grid stages of the flatten core in binary32 for a cloud whose bounding
box is `(0, 0, 10, 10)`, with `section_len = 20`: the grid is 1 by 1 with origin
`(0, 0)`, and a point at `(10, 10)` has the indices `(0, 0)` and the ratios
`(0, 0)`. -/
lemma single_cell_stages :
    (grid.new (20 : ℝ)).compute_grid_f32 ⟨0, 0, 10, 10⟩ = some (⟨20, 1, 1, 0, 0⟩, (1, 1)) ∧
    (alloc_z_arrays 1 1 : Option (List (List (List ℝ)))) = some [[[]]] ∧
    (grid.mk 20 1 1 0 0 : grid ℝ).to_indices_f32 10 10 = some (0, 0) ∧
    ∀ (z : ℝ) (i : Int), rebase_f32 (grid.mk 20 1 1 0 0 : grid ℝ) ⟨10, 10, z, i⟩ = some ((0, 0), (0, 0)) := by
  have a1 : f32 ((10 : ℝ) - 0) = 10 :=
    f32_eq _ _ 10 0 (by norm_num) (by norm_num) (by norm_num) (by norm_num)
  have a2 : f32 ((10 : ℝ) / 20) = 1 / 2 :=
    f32_eq _ _ 1 (-1) (by norm_num) (by norm_num) (by norm_num) (by norm_num)
  have hfl : Int.floor ((1 : ℝ) / 2) = 0 := by
    rw [Int.floor_eq_iff]; constructor <;> norm_num
  have a3 : c_int_cast32 ((1 : ℝ) / 2) = some 0 := by
    rw [c_int_cast32_of_nonneg _ (by norm_num) (by norm_num), hfl]
  have a4 : c_int_cast ((1 : ℝ) / 2) = 0 := by
    rw [c_int_cast_of_nonneg (by norm_num), hfl]
  have a5 : c_int_cast32 (((0 : Int) : ℝ)) = some 0 := by
    have h := c_int_cast32_intCast (α := ℝ) 0 (by norm_num) (by norm_num)
    simpa using h
  have hcd : ceiling_divide_f32 (10 : ℝ) 20 = some 1 := by
    have hpos : (1 : ℝ) / 2 - ((0 : Int) : ℝ) > 0 := by norm_num
    simp only [ceiling_divide_f32, a2, a4, a5, if_pos hpos]
    rfl
  have hidx : (grid.mk 20 1 1 0 0 : grid ℝ).to_indices_f32 10 10 = some (0, 0) := by
    simp only [grid.to_indices_f32, a1, a2, a3]
  have d1 : f32 (((0 : Int) : ℝ)) = 0 := by
    rw [Int.cast_zero]; exact f32_zero
  have d2 : f64 ((0 : ℝ) + 1 / 2) = 1 / 2 :=
    f64_eq _ _ 1 (-1) (by norm_num) (by norm_num) (by norm_num) (by norm_num)
  have d3 : f64 ((20 : ℝ) * (1 / 2)) = 10 :=
    f64_eq _ _ 10 0 (by norm_num) (by norm_num) (by norm_num) (by norm_num)
  have d4 : f64 ((0 : ℝ) + 10) = 10 :=
    f64_eq _ _ 10 0 (by norm_num) (by norm_num) (by norm_num) (by norm_num)
  have d5 : f32 (10 : ℝ) = 10 :=
    f32_eq _ _ 10 0 (by norm_num) (by norm_num) (by norm_num) (by norm_num)
  have n0 : ¬ ((0 : ℝ) < 0) := lt_irrefl 0
  refine ⟨?_, ?_, hidx, ?_⟩
  · simp only [grid.compute_grid_f32, grid.new, a1, hcd]
  · simp [alloc_z_arrays]
  · intro z i
    show rebase_f32 (grid.mk 20 1 1 0 0 : grid ℝ) ⟨10, 10, z, i⟩ = some ((0, 0), (0, 0))
    simp only [rebase_f32, hidx, grid.center_coords_f32, d1, d2, d3, d4, d5, sub_self, f32_zero,
      zero_div, if_neg n0]

end SparseSample

section AbsoluteError

variable {α : Type} [LinearOrderedField α] [FloorRing α]

/-- The rounding error is at most the relative error `2 ^ (-prec)` plus the
half spacing of the subnormal values. -/
lemma fp_round_abs_error (prec : Nat) (emin : Int) (x : α) :
    |x - fp_round prec emin x| ≤ |x| * (2 : α) ^ (-(prec : Int)) + (2 : α) ^ (emin - prec) := by
  have h2pos : ∀ n : Int, (0 : α) < (2 : α) ^ n := fun n => zpow_pos (by norm_num) n
  by_cases hx : x = 0
  · rw [hx, fp_round_zero, sub_zero, abs_zero, zero_mul, zero_add]
    exact (h2pos _).le
  have herr := fp_round_error prec emin x
  have hu : fp_ulp prec emin x / 2 = (2 : α) ^ fp_exp emin x * (2 : α) ^ (-(prec : Int)) := by
    unfold fp_ulp
    rw [← zpow_add₀ (by norm_num : (2 : α) ≠ 0)]
    have : fp_exp emin x - ((prec : Int) - 1) = (fp_exp emin x + -(prec : Int)) + 1 := by ring
    rw [this, zpow_add_one₀ (by norm_num : (2 : α) ≠ 0)]
    ring
  rw [hu] at herr
  have hx0 : 0 ≤ |x| * (2 : α) ^ (-(prec : Int)) := mul_nonneg (abs_nonneg x) (h2pos _).le
  rcases eq_or_lt_of_le (fp_exp_ge emin x) with he | he
  · rw [← he, ← zpow_add₀ (by norm_num : (2 : α) ≠ 0), ← sub_eq_add_neg] at herr
    linarith [h2pos (emin - prec)]
  · have hlo := zpow_fp_exp_le_abs emin x hx he
    have := mul_le_mul_of_nonneg_right hlo (h2pos (-(prec : Int))).le
    linarith [h2pos (emin - prec)]

lemma f32_abs_error (x : α) : |x - f32 x| ≤ |x| / 2 ^ 24 + (2 : α) ^ (-150 : Int) := by
  have h := fp_round_abs_error 24 (-126) x
  have e : (2 : α) ^ (-((24 : Nat) : Int)) = 1 / 2 ^ 24 := by
    rw [zpow_neg]
    norm_num
  have e2 : ((-126 : Int) - ((24 : Nat) : Int)) = -150 := by norm_num
  rw [e, e2] at h
  unfold f32
  calc _ ≤ |x| * (1 / 2 ^ 24) + (2 : α) ^ (-150 : Int) := h
    _ = _ := by ring

lemma f64_abs_error (x : α) : |x - f64 x| ≤ |x| / 2 ^ 53 + (2 : α) ^ (-1075 : Int) := by
  have h := fp_round_abs_error 53 (-1022) x
  have e : (2 : α) ^ (-((53 : Nat) : Int)) = 1 / 2 ^ 53 := by
    rw [zpow_neg]
    norm_num
  have e2 : ((-1022 : Int) - ((53 : Nat) : Int)) = -1075 := by norm_num
  rw [e, e2] at h
  unfold f64
  calc _ ≤ |x| * (1 / 2 ^ 53) + (2 : α) ^ (-1075 : Int) := h
    _ = _ := by ring

end AbsoluteError

section RoundTripBinary32

variable {α : Type} [LinearOrderedField α] [FloorRing α]

/-- The error of the centre of the cell `c` along one axis, as computed in
binary32, when `|b| + s * (c + 1) ≤ 2 ^ 20 * s`. -/
lemma center_axis_f32_err (b s : α) (c : Int) (hsf : f32 s = s)
    (hs0 : (2 : α) ^ (-100 : Int) ≤ s) (hc : 0 ≤ c)
    (hb : |b| + s * ((c : α) + 1) ≤ 2 ^ 20 * s) :
    |f32 (f64 (b + f64 (s * f64 (f32 (c : α) + 1 / 2)))) - (b + s * ((c : α) + 1 / 2))|
      ≤ (|b| + s * ((c : α) + 1)) / 2 ^ 24 + (|b| + s * ((c : α) + 1)) / 2 ^ 52
        + s / 2 ^ 48 := by
  have h2pos : ∀ n : Int, (0 : α) < (2 : α) ^ n := fun n => zpow_pos (by norm_num) n
  have hspos : 0 < s := lt_of_lt_of_le (h2pos _) hs0
  have hcα : (0 : α) ≤ (c : α) := by exact_mod_cast hc
  have hc20 : (c : α) + 1 ≤ 2 ^ 20 := by
    have h1 : s * ((c : α) + 1) ≤ 2 ^ 20 * s := by linarith [abs_nonneg b]
    have h2 : s * ((c : α) + 1) ≤ s * 2 ^ 20 := by linarith
    exact le_of_mul_le_mul_left h2 hspos
  have hcI : c + 1 ≤ 2 ^ 20 := by
    have e : (((2 : Int) ^ 20 : Int) : α) = (2 : α) ^ 20 := by norm_num
    have : ((c + 1 : Int) : α) ≤ (((2 : Int) ^ 20 : Int) : α) := by
      rw [e, Int.cast_add, Int.cast_one]
      exact hc20
    exact Int.cast_le.mp this
  have e1 : f32 ((c : Int) : α) = c := f32_intCast c (by rw [abs_of_nonneg hc]; omega)
  have e2 : f64 ((c : α) + 1 / 2) = (c : α) + 1 / 2 :=
    f64_of_repr _ (2 * c + 1) (-1) (by push_cast; rw [zpow_neg_one]; ring)
      (by rw [abs_of_nonneg (by omega)]; omega) (by norm_num)
  obtain ⟨m, k, hsm, hm, hk⟩ := f32_repr s hsf
  have e3 : f64 (s * ((c : α) + 1 / 2)) = s * ((c : α) + 1 / 2) := by
    apply f64_of_repr _ (m * (2 * c + 1)) (k - 1)
    · rw [hsm, zpow_sub_one₀ (by norm_num : (2 : α) ≠ 0)]
      push_cast
      ring
    · rw [abs_mul, abs_of_nonneg (by omega : (0 : Int) ≤ 2 * c + 1)]
      calc |m| * (2 * c + 1) ≤ 2 ^ 24 * 2 ^ 21 :=
            mul_le_mul hm (by omega) (by omega) (by norm_num)
        _ ≤ 2 ^ 53 := by norm_num
    · omega
  rw [e1, e2, e3]
  obtain ⟨C, hC⟩ : ∃ C, C = b + s * ((c : α) + 1 / 2) := ⟨_, rfl⟩
  rw [← hC]
  obtain ⟨A, hA⟩ : ∃ A, A = |b| + s * ((c : α) + 1) := ⟨_, rfl⟩
  rw [← hA]
  have hCabs : |C| ≤ A := by
    rw [hC, hA]
    calc |b + s * ((c : α) + 1 / 2)| ≤ |b| + |s * ((c : α) + 1 / 2)| := abs_add _ _
      _ = |b| + s * ((c : α) + 1 / 2) := by
          rw [abs_of_nonneg (mul_nonneg hspos.le (by linarith))]
      _ ≤ |b| + s * ((c : α) + 1) := by nlinarith
  have g1 := f64_abs_error C
  have g2 := f32_abs_error (f64 C)
  have t1 : (2 : α) ^ (-1075 : Int) ≤ (2 : α) ^ (-150 : Int) :=
    zpow_le_zpow_right₀ (by norm_num) (by norm_num)
  have t2 : (2 : α) ^ (-150 : Int) ≤ s / 2 ^ 50 := by
    have e : (2 : α) ^ (-150 : Int) = (2 : α) ^ (-100 : Int) / 2 ^ 50 := by
      rw [show (-150 : Int) = -100 - 50 by norm_num, zpow_sub₀ (by norm_num : (2 : α) ≠ 0)]
      norm_num
    rw [e]
    exact div_le_div_of_nonneg_right hs0 (by positivity)
  have g3 : |f64 C| ≤ |C| + (|C| / 2 ^ 53 + (2 : α) ^ (-1075 : Int)) := by
    have := abs_sub_abs_le_abs_sub (f64 C) C
    rw [abs_sub_comm] at this
    linarith
  have hfin : |C - f32 (f64 C)| ≤ A / 2 ^ 24 + A / 2 ^ 52 + s / 2 ^ 48 := by
    calc |C - f32 (f64 C)| = |(C - f64 C) + (f64 C - f32 (f64 C))| := by ring_nf
      _ ≤ |C - f64 C| + |f64 C - f32 (f64 C)| := abs_add _ _
      _ ≤ (|C| / 2 ^ 53 + (2 : α) ^ (-1075 : Int))
          + (|f64 C| / 2 ^ 24 + (2 : α) ^ (-150 : Int)) := add_le_add g1 g2
      _ ≤ A / 2 ^ 24 + A / 2 ^ 52 + s / 2 ^ 48 := by
          have g4 : |f64 C| / 2 ^ 24 ≤ (|C| + (|C| / 2 ^ 53 + (2 : α) ^ (-1075 : Int))) / 2 ^ 24 :=
            div_le_div_of_nonneg_right g3 (by positivity)
          have p1 := h2pos (-1075)
          have hA0 := abs_nonneg C
          generalize (2 : α) ^ (-1075 : Int) = T1 at *
          generalize (2 : α) ^ (-150 : Int) = T2 at *
          generalize |C| = AC at *
          generalize |f64 C| = B at *
          linarith only [g4, p1, hA0, t1, t2, hCabs, hspos]
  rw [abs_sub_comm]
  exact hfin

/-- The centre of the cell `c` along one axis, as computed in binary32, is within
`s / 8` of the exact centre when `|b| + s * (c + 1) ≤ 2 ^ 20 * s`. -/
lemma center_axis_f32_near (b s : α) (c : Int) (hsf : f32 s = s)
    (hs0 : (2 : α) ^ (-100 : Int) ≤ s) (hc : 0 ≤ c)
    (hb : |b| + s * ((c : α) + 1) ≤ 2 ^ 20 * s) :
    |f32 (f64 (b + f64 (s * f64 (f32 (c : α) + 1 / 2)))) - (b + s * ((c : α) + 1 / 2))|
      ≤ s / 8 := by
  have h := center_axis_f32_err b s c hsf hs0 hc hb
  have hspos : 0 < s := lt_of_lt_of_le (zpow_pos (by norm_num) _) hs0
  refine le_trans h ?_
  generalize |b| + s * ((c : α) + 1) = A at *
  linarith only [hb, hspos]

/-- The index computed in binary32 from the computed centre of the cell `c` is
`c` again, when `|b| + s * (c + 1) ≤ 2 ^ 20 * s`. -/
lemma round_trip_axis_f32 (b s : α) (c : Int) (hsf : f32 s = s)
    (hs0 : (2 : α) ^ (-100 : Int) ≤ s) (hc : 0 ≤ c)
    (hb : |b| + s * ((c : α) + 1) ≤ 2 ^ 20 * s) :
    c_int_cast32 (f32 (f32 (f32 (f64 (b + f64 (s * f64 (f32 (c : α) + 1 / 2)))) - b) / s))
      = some c := by
  have h2pos : ∀ n : Int, (0 : α) < (2 : α) ^ n := fun n => zpow_pos (by norm_num) n
  have hspos : 0 < s := lt_of_lt_of_le (h2pos _) hs0
  have hcα : (0 : α) ≤ (c : α) := by exact_mod_cast hc
  have hc20 : (c : α) + 1 ≤ 2 ^ 20 := by
    have h1 : s * ((c : α) + 1) ≤ 2 ^ 20 * s := by linarith [abs_nonneg b]
    have h2 : s * ((c : α) + 1) ≤ s * 2 ^ 20 := by linarith
    exact le_of_mul_le_mul_left h2 hspos
  have hcI : c + 1 ≤ 2 ^ 20 := by
    have e : (((2 : Int) ^ 20 : Int) : α) = (2 : α) ^ 20 := by norm_num
    have : ((c + 1 : Int) : α) ≤ (((2 : Int) ^ 20 : Int) : α) := by
      rw [e, Int.cast_add, Int.cast_one]
      exact hc20
    exact Int.cast_le.mp this
  have hnear := center_axis_f32_near b s c hsf hs0 hc hb
  obtain ⟨ctr, hctr⟩ : ∃ ctr, ctr = f32 (f64 (b + f64 (s * f64 (f32 (c : α) + 1 / 2)))) :=
    ⟨_, rfl⟩
  rw [← hctr] at hnear ⊢
  rw [abs_le] at hnear
  obtain ⟨n1, n2⟩ := hnear
  -- the offset of the centre from the origin
  have hD0 : s * ((c : α) + 3 / 8) ≤ ctr - b := by linarith only [n1]
  have hD1 : ctr - b ≤ s * ((c : α) + 5 / 8) := by linarith only [n2]
  have hDnn : 0 ≤ ctr - b := le_trans (mul_nonneg hspos.le (by linarith)) hD0
  have t2 : (2 : α) ^ (-150 : Int) ≤ s / 2 ^ 50 := by
    have e : (2 : α) ^ (-150 : Int) = (2 : α) ^ (-100 : Int) / 2 ^ 50 := by
      rw [show (-150 : Int) = -100 - 50 by norm_num, zpow_sub₀ (by norm_num : (2 : α) ≠ 0)]
      norm_num
    rw [e]
    exact div_le_div_of_nonneg_right hs0 (by positivity)
  have hsc : s * ((c : α) + 1) ≤ s * 2 ^ 20 := mul_le_mul_of_nonneg_left hc20 hspos.le
  have g := f32_abs_error (ctr - b)
  rw [abs_of_nonneg hDnn] at g
  have h58 : s * ((c : α) + 5 / 8) ≤ s * ((c : α) + 1) :=
    mul_le_mul_of_nonneg_left (by linarith) hspos.le
  have hx20 : ctr - b ≤ s * 2 ^ 20 := le_trans hD1 (le_trans h58 hsc)
  have gd : |ctr - b - f32 (ctr - b)| ≤ s / 8 := by
    have g4 : (ctr - b) / 2 ^ 24 ≤ s / 16 := by
      rw [div_le_iff₀ (by positivity)]
      linarith only [hx20]
    have g5 : s / 2 ^ 50 ≤ s / 16 :=
      div_le_div_of_nonneg_left hspos.le (by norm_num) (by norm_num)
    linarith only [g, g4, g5, t2]
  rw [abs_le] at gd
  obtain ⟨d1, d2⟩ := gd
  have hq0 : (c : α) + 1 / 4 ≤ f32 (ctr - b) / s := by
    rw [le_div_iff₀ hspos]
    linarith only [d2, hD0]
  have hq1 : f32 (ctr - b) / s ≤ (c : α) + 3 / 4 := by
    rw [div_le_iff₀ hspos]
    linarith only [d1, hD1]
  have r0 : f32 ((c : α) + 1 / 4) = (c : α) + 1 / 4 :=
    f32_of_repr _ (4 * c + 1) (-2) (by
      push_cast
      rw [show (-2 : Int) = -1 - 1 by norm_num, zpow_sub_one₀ (by norm_num : (2 : α) ≠ 0),
        zpow_neg_one]
      ring)
      (by rw [abs_of_nonneg (by omega)]; omega) (by norm_num)
  have r1 : f32 ((c : α) + 3 / 4) = (c : α) + 3 / 4 :=
    f32_of_repr _ (4 * c + 3) (-2) (by
      push_cast
      rw [show (-2 : Int) = -1 - 1 by norm_num, zpow_sub_one₀ (by norm_num : (2 : α) ≠ 0),
        zpow_neg_one]
      ring)
      (by rw [abs_of_nonneg (by omega)]; omega) (by norm_num)
  have q0 := le_f32_of_le _ _ r0 hq0
  have q1 := f32_le_of_le _ _ r1 hq1
  have hlt : f32 (f32 (ctr - b) / s) < (2 : α) ^ 31 := by
    have : (2 : α) ^ 20 < (2 : α) ^ 31 := by norm_num
    linarith only [this, q1, hc20]
  rw [c_int_cast32_of_nonneg _ (by linarith only [q0, hcα]) hlt]
  congr 1
  rw [Int.floor_eq_iff]
  constructor
  · linarith only [q0]
  · linarith only [q1]

end RoundTripBinary32

section RebaseGeneral

variable {α : Type} [LinearOrderedField α] [FloorRing α]

/-- The index along one axis in binary32, for a coordinate `x ≥ b` with
`x - b ≤ 2 ^ 18 * s`: the index `c` is computed, it is at most `2 ^ 18 + 1`, and
the offset `x - b` lies within `3/32` of a cell side of the cell `c`. -/
lemma index_axis_f32_general (b s x : α) (hs0 : (2 : α) ^ (-100 : Int) ≤ s) (hbx : b ≤ x)
    (hX : x - b ≤ 2 ^ 18 * s) :
    ∃ c : Int, 0 ≤ c ∧ (c : α) ≤ 2 ^ 18 + 1 ∧
      c_int_cast32 (f32 (f32 (x - b) / s)) = some c ∧
      s * ((c : α) - 3 / 32) ≤ x - b ∧ x - b ≤ s * ((c : α) + 1 + 3 / 32) := by
  have h2pos : ∀ n : Int, (0 : α) < (2 : α) ^ n := fun n => zpow_pos (by norm_num) n
  have hspos : 0 < s := lt_of_lt_of_le (h2pos _) hs0
  have t1 : (2 : α) ^ (-1075 : Int) ≤ (2 : α) ^ (-150 : Int) :=
    zpow_le_zpow_right₀ (by norm_num) (by norm_num)
  have t2 : (2 : α) ^ (-150 : Int) ≤ s / 2 ^ 50 := by
    have e : (2 : α) ^ (-150 : Int) = (2 : α) ^ (-100 : Int) / 2 ^ 50 := by
      rw [show (-150 : Int) = -100 - 50 by norm_num, zpow_sub₀ (by norm_num : (2 : α) ≠ 0)]
      norm_num
    rw [e]
    exact div_le_div_of_nonneg_right hs0 (by positivity)
  have t3 : (2 : α) ^ (-150 : Int) ≤ 1 / 2 ^ 50 := by
    have e : (1 : α) / 2 ^ 50 = (2 : α) ^ (-50 : Int) := by
      rw [zpow_neg]; norm_num
    rw [e]
    exact zpow_le_zpow_right₀ (by norm_num) (by norm_num)
  have p2 := h2pos (-150)
  have err32 : ∀ y : α, |y - f32 y| ≤ |y| / 2 ^ 24 + (2 : α) ^ (-150 : Int) := f32_abs_error
  have err64 : ∀ y : α, |y - f64 y| ≤ |y| / 2 ^ 53 + (2 : α) ^ (-1075 : Int) := f64_abs_error
  have hs0' := hs0
  generalize (2 : α) ^ (-1075 : Int) = T1 at t1 err64
  generalize (2 : α) ^ (-150 : Int) = T2 at t1 t2 t3 p2 err32
  -- the offset from the origin and its rounding `d`
  have hD0 : 0 ≤ x - b := by linarith only [hbx]
  have gD := err32 (x - b)
  rw [abs_of_nonneg hD0] at gD
  obtain ⟨d, hd⟩ : ∃ d, d = f32 (x - b) := ⟨_, rfl⟩
  rw [← hd] at gD ⊢
  have hd0 : 0 ≤ d := by rw [hd]; exact f32_nonneg _ hD0
  rw [abs_le] at gD
  obtain ⟨gD1, gD2⟩ := gD
  have hDs : (x - b) / 2 ^ 24 ≤ s / 2 ^ 6 := by
    rw [div_le_iff₀ (by positivity)]
    linarith only [hX]
  -- |D - d| ≤ s / 2 ^ 5
  have hd1 : x - b - s / 2 ^ 5 ≤ d := by linarith only [gD2, hDs, t2, hspos]
  have hd2 : d ≤ x - b + s / 2 ^ 5 := by linarith only [gD1, hDs, t2, hspos]
  -- the quotient `q`
  have hds0 : 0 ≤ d / s := div_nonneg hd0 hspos.le
  have hds1 : d / s ≤ 2 ^ 18 + 1 / 2 ^ 5 := by
    rw [div_le_iff₀ hspos]
    linarith only [hd2, hX]
  have gq := err32 (d / s)
  rw [abs_of_nonneg hds0] at gq
  obtain ⟨q, hq⟩ : ∃ q, q = f32 (d / s) := ⟨_, rfl⟩
  rw [← hq] at gq ⊢
  have hq0 : 0 ≤ q := by rw [hq]; exact f32_nonneg _ hds0
  have r18 : f32 ((2 : α) ^ 18 + 1) = (2 : α) ^ 18 + 1 :=
    f32_of_repr _ (2 ^ 18 + 1) 0 (by norm_num) (by norm_num) (by norm_num)
  have hq1 : q ≤ (2 : α) ^ 18 + 1 := by
    rw [hq]
    exact f32_le_of_le _ _ r18 (by linarith only [hds1])
  rw [abs_le] at gq
  obtain ⟨gq1, gq2⟩ := gq
  have hqs : d / s / 2 ^ 24 ≤ 1 / 2 ^ 5 := by
    rw [div_le_iff₀ (by positivity)]
    linarith only [hds1]
  have hq2 : d / s - 1 / 2 ^ 4 ≤ q := by linarith only [gq2, hqs, t3]
  have hq3 : q ≤ d / s + 1 / 2 ^ 4 := by linarith only [gq1, hqs, t3]
  -- in units of `s`
  have hu1 : (x - b) / s - 1 / 2 ^ 5 ≤ d / s := by
    rw [le_div_iff₀ hspos, sub_mul, div_mul_cancel₀ _ (ne_of_gt hspos)]
    linarith only [hd1]
  have hu2 : d / s ≤ (x - b) / s + 1 / 2 ^ 5 := by
    rw [div_le_iff₀ hspos, add_mul, div_mul_cancel₀ _ (ne_of_gt hspos)]
    linarith only [hd2]
  -- the index
  obtain ⟨c, hc⟩ : ∃ c : Int, c = Int.floor q := ⟨_, rfl⟩
  have hc0 : 0 ≤ c := by rw [hc]; exact Int.floor_nonneg.mpr hq0
  have hcq : (c : α) ≤ q := by rw [hc]; exact Int.floor_le q
  have hqc : q < (c : α) + 1 := by rw [hc]; exact Int.lt_floor_add_one q
  have hcα : (0 : α) ≤ (c : α) := by exact_mod_cast hc0
  have hidx : c_int_cast32 q = some c := by
    rw [hc]
    exact c_int_cast32_of_nonneg q hq0 (by
      have : (2 : α) ^ 18 + 1 < (2 : α) ^ 31 := by norm_num
      linarith only [this, hq1])
  -- the index is right up to rounding
  have hxc1 : s * ((c : α) - 3 / 32) ≤ x - b := by
    have h := mul_le_mul_of_nonneg_left (le_trans hcq (le_trans hq3 (by linarith only [hu2] :
      d / s + 1 / 2 ^ 4 ≤ (x - b) / s + 3 / 32))) hspos.le
    rw [mul_add, mul_div_cancel₀ _ (ne_of_gt hspos)] at h
    linarith only [h]
  have hxc2 : x - b ≤ s * ((c : α) + 1 + 3 / 32) := by
    have h1 : (x - b) / s ≤ (c : α) + 1 + 3 / 32 := by linarith only [hqc, hq2, hu1]
    rw [div_le_iff₀ hspos] at h1
    linarith only [h1]
  exact ⟨c, hc0, le_trans hcq hq1, hidx, hxc1, hxc2⟩

/-- The re-based ratio along one axis in binary32, for a coordinate `x` whose
offset `x - b` lies within `3/32` of a cell side of the cell `c`, with
`|b| + s * (c + 1) ≤ 2 ^ 20 * s`: the ratio lies in `[0, 1]`, and the coordinate
is recovered from the centre of the possibly decremented cell up to a relative
error of `2 ^ (-21)`. -/
lemma ratio_axis_f32_general (b s x : α) (c : Int) (hsf : f32 s = s)
    (hs0 : (2 : α) ^ (-100 : Int) ≤ s) (hc0 : 0 ≤ c)
    (hb : |b| + s * ((c : α) + 1) ≤ 2 ^ 20 * s)
    (hxc1 : s * ((c : α) - 3 / 32) ≤ x - b) (hxc2 : x - b ≤ s * ((c : α) + 1 + 3 / 32)) :
    ∃ ratio : α,
      ratio = f32 (f32 (x - f32 (f64 (b + f64 (s * f64 (f32 (c : α) + 1 / 2))))) / s) ∧
      0 ≤ (if ratio < 0 then f32 (f64 (ratio + 1)) else ratio) ∧
      (if ratio < 0 then f32 (f64 (ratio + 1)) else ratio) ≤ 1 ∧
      |x - (b + s * (((if ratio < 0 then c - 1 else c : Int) : α) + 1 / 2)
          + (if ratio < 0 then f32 (f64 (ratio + 1)) else ratio) * s)|
        ≤ (|b| + |x| + s) / 2 ^ 21 := by
  have h2pos : ∀ n : Int, (0 : α) < (2 : α) ^ n := fun n => zpow_pos (by norm_num) n
  have hspos : 0 < s := lt_of_lt_of_le (h2pos _) hs0
  have t1 : (2 : α) ^ (-1075 : Int) ≤ (2 : α) ^ (-150 : Int) :=
    zpow_le_zpow_right₀ (by norm_num) (by norm_num)
  have t2 : (2 : α) ^ (-150 : Int) ≤ s / 2 ^ 50 := by
    have e : (2 : α) ^ (-150 : Int) = (2 : α) ^ (-100 : Int) / 2 ^ 50 := by
      rw [show (-150 : Int) = -100 - 50 by norm_num, zpow_sub₀ (by norm_num : (2 : α) ≠ 0)]
      norm_num
    rw [e]
    exact div_le_div_of_nonneg_right hs0 (by positivity)
  have t3 : (2 : α) ^ (-150 : Int) ≤ 1 / 2 ^ 50 := by
    have e : (1 : α) / 2 ^ 50 = (2 : α) ^ (-50 : Int) := by
      rw [zpow_neg]; norm_num
    rw [e]
    exact zpow_le_zpow_right₀ (by norm_num) (by norm_num)
  have p2 := h2pos (-150)
  have err32 : ∀ y : α, |y - f32 y| ≤ |y| / 2 ^ 24 + (2 : α) ^ (-150 : Int) := f32_abs_error
  have err64 : ∀ y : α, |y - f64 y| ≤ |y| / 2 ^ 53 + (2 : α) ^ (-1075 : Int) := f64_abs_error
  have hs0' := hs0
  generalize (2 : α) ^ (-1075 : Int) = T1 at t1 err64
  generalize (2 : α) ^ (-150 : Int) = T2 at t1 t2 t3 p2 err32
  -- the centre
  have herr := center_axis_f32_err b s c hsf hs0' hc0 hb
  obtain ⟨ctr, hctr⟩ : ∃ ctr, ctr = f32 (f64 (b + f64 (s * f64 (f32 (c : α) + 1 / 2)))) :=
    ⟨_, rfl⟩
  rw [← hctr] at herr ⊢
  obtain ⟨A, hA⟩ : ∃ A, A = |b| + s * ((c : α) + 1) := ⟨_, rfl⟩
  rw [← hA] at herr hb
  rw [abs_le] at herr
  obtain ⟨ce1, ce2⟩ := herr
  have hA2 : A ≤ 2 * (|b| + |x| + s) := by
    rw [hA]
    linarith only [hxc1, le_abs_self x, neg_abs_le b, abs_nonneg b, abs_nonneg x, hspos]
  have hM0 : 0 ≤ |b| + |x| := add_nonneg (abs_nonneg b) (abs_nonneg x)
  -- the offset from the centre and its rounding `e`
  have hE1 : -(s * (23 / 32)) ≤ x - ctr := by linarith only [hxc1, ce2, hb, hspos]
  have hE2 : x - ctr ≤ s * (23 / 32) := by linarith only [hxc2, ce1, hb, hspos]
  have hEabs : |x - ctr| ≤ s * (23 / 32) := abs_le.mpr ⟨hE1, hE2⟩
  have ge := err32 (x - ctr)
  obtain ⟨e, he⟩ : ∃ e, e = f32 (x - ctr) := ⟨_, rfl⟩
  rw [← he] at ge ⊢
  have ge' : |x - ctr - e| ≤ s / 2 ^ 24 + s / 2 ^ 50 := by
    have : |x - ctr| / 2 ^ 24 ≤ s / 2 ^ 24 :=
      div_le_div_of_nonneg_right (by linarith only [hEabs, hspos]) (by positivity)
    linarith only [ge, this, t2]
  rw [abs_le] at ge'
  obtain ⟨ge1, ge2⟩ := ge'
  have hes1 : -(3 / 4 : α) ≤ e / s := by
    rw [le_div_iff₀ hspos]
    linarith only [ge2, hE1, hspos]
  have hes2 : e / s ≤ (3 / 4 : α) := by
    rw [div_le_iff₀ hspos]
    linarith only [ge1, hE2, hspos]
  have hesabs : |e / s| ≤ 1 := abs_le.mpr ⟨by linarith only [hes1], by linarith only [hes2]⟩
  -- the ratio
  have gr := err32 (e / s)
  obtain ⟨r0, hr0⟩ : ∃ r0, r0 = f32 (e / s) := ⟨_, rfl⟩
  rw [← hr0] at gr
  have r34 : f32 ((3 : α) / 4) = 3 / 4 :=
    f32_of_repr _ 3 (-2) (by
      rw [show (-2 : Int) = -1 - 1 by norm_num, zpow_sub_one₀ (by norm_num : (2 : α) ≠ 0),
        zpow_neg_one]
      norm_num) (by norm_num) (by norm_num)
  have r34n : f32 (-((3 : α) / 4)) = -(3 / 4) := by rw [f32_neg, r34]
  have hr1 : -(3 / 4 : α) ≤ r0 := by rw [hr0]; exact le_f32_of_le _ _ r34n hes1
  have hr2 : r0 ≤ (3 / 4 : α) := by rw [hr0]; exact f32_le_of_le _ _ r34 hes2
  have gr' : |e / s - r0| ≤ 1 / 2 ^ 24 + 1 / 2 ^ 50 := by
    have : |e / s| / 2 ^ 24 ≤ 1 / 2 ^ 24 := div_le_div_of_nonneg_right hesabs (by positivity)
    linarith only [gr, this, t3]
  rw [abs_le] at gr'
  obtain ⟨gr1, gr2⟩ := gr'
  have hers1 : -(s / 2 ^ 24 + s / 2 ^ 50) ≤ e - r0 * s := by
    have h := mul_le_mul_of_nonneg_left gr1 hspos.le
    rw [mul_sub, mul_div_cancel₀ _ (ne_of_gt hspos)] at h
    linarith only [h]
  have hers2 : e - r0 * s ≤ s / 2 ^ 24 + s / 2 ^ 50 := by
    have h := mul_le_mul_of_nonneg_left gr2 hspos.le
    rw [mul_sub, mul_div_cancel₀ _ (ne_of_gt hspos)] at h
    linarith only [h]
  refine ⟨r0, hr0, ?_⟩
  obtain ⟨M, hM⟩ : ∃ M, M = |b| + |x| + s := ⟨_, rfl⟩
  rw [← hM] at hA2 ⊢
  have hsM : s ≤ M := by rw [hM]; linarith only [hM0]
  have hce : A / 2 ^ 24 + A / 2 ^ 52 + s / 2 ^ 48 ≤ M / 2 ^ 22 := by
    linarith only [hA2, hsM, hspos]
  by_cases hneg : r0 < 0
  · -- the ratio is negative: the index is decremented and `1.0` is added
    simp only [if_pos hneg]
    have w1 : (1 / 4 : α) ≤ r0 + 1 := by linarith only [hr1]
    have w2 : r0 + 1 ≤ 1 := by linarith only [hneg]
    have q14 : f64 ((1 : α) / 4) = 1 / 4 :=
      f64_of_repr _ 1 (-2) (by
        rw [show (-2 : Int) = -1 - 1 by norm_num, zpow_sub_one₀ (by norm_num : (2 : α) ≠ 0),
          zpow_neg_one]
        norm_num) (by norm_num) (by norm_num)
    have q1 : f64 (1 : α) = 1 := f64_of_f32 1 f32_one
    have f14 : f32 ((1 : α) / 4) = 1 / 4 :=
      f32_of_repr _ 1 (-2) (by
        rw [show (-2 : Int) = -1 - 1 by norm_num, zpow_sub_one₀ (by norm_num : (2 : α) ≠ 0),
          zpow_neg_one]
        norm_num) (by norm_num) (by norm_num)
    have v1 : (1 / 4 : α) ≤ f64 (r0 + 1) := le_f64_of_le _ _ q14 w1
    have v2 : f64 (r0 + 1) ≤ 1 := f64_le_of_le _ _ q1 w2
    have u1 : (1 / 4 : α) ≤ f32 (f64 (r0 + 1)) := le_f32_of_le _ _ f14 v1
    have u2 : f32 (f64 (r0 + 1)) ≤ 1 := f32_le_of_le _ _ f32_one v2
    have gw := err64 (r0 + 1)
    rw [abs_of_nonneg (show (0 : α) ≤ r0 + 1 by linarith only [w1])] at gw
    have gv := err32 (f64 (r0 + 1))
    rw [abs_of_nonneg (show (0 : α) ≤ f64 (r0 + 1) by linarith only [v1])] at gv
    rw [abs_le] at gw gv
    refine ⟨le_trans (by norm_num) u1, u2, ?_⟩
    have hw : (r0 + 1) / 2 ^ 53 ≤ 1 / 2 ^ 53 := div_le_div_of_nonneg_right w2 (by positivity)
    have hv : f64 (r0 + 1) / 2 ^ 24 ≤ 1 / 2 ^ 24 := div_le_div_of_nonneg_right v2 (by positivity)
    have k1 : -(1 / 2 ^ 24 + 1 / 2 ^ 48) ≤ r0 + 1 - f32 (f64 (r0 + 1)) := by
      linarith only [gw.1, gv.1, hw, hv, t1, t3]
    have k2 : r0 + 1 - f32 (f64 (r0 + 1)) ≤ 1 / 2 ^ 24 + 1 / 2 ^ 48 := by
      linarith only [gw.2, gv.2, hw, hv, t1, t3]
    have k1s := mul_le_mul_of_nonneg_left k1 hspos.le
    have k2s := mul_le_mul_of_nonneg_left k2 hspos.le
    have hrest : 2 * (s / 2 ^ 24 + s / 2 ^ 50) + s * (1 / 2 ^ 24 + 1 / 2 ^ 48) ≤ M / 2 ^ 22 := by
      linarith only [hsM, hspos]
    push_cast
    generalize f32 (f64 (r0 + 1)) = r1 at *
    generalize A / 2 ^ 24 + A / 2 ^ 52 + s / 2 ^ 48 = E at *
    rw [abs_le]
    constructor
    · linarith only [ce1, ce2, ge1, ge2, hers1, hers2, k1s, k2s, hce, hrest]
    · linarith only [ce1, ce2, ge1, ge2, hers1, hers2, k1s, k2s, hce, hrest]
  · simp only [if_neg hneg]
    push_neg at hneg
    refine ⟨hneg, le_trans hr2 (by norm_num), ?_⟩
    have hrest : 2 * (s / 2 ^ 24 + s / 2 ^ 50) ≤ M / 2 ^ 22 := by
      linarith only [hsM, hspos]
    generalize A / 2 ^ 24 + A / 2 ^ 52 + s / 2 ^ 48 = E at *
    rw [abs_le]
    constructor
    · linarith only [ce1, ce2, ge1, ge2, hers1, hers2, hce, hrest]
    · linarith only [ce1, ce2, ge1, ge2, hers1, hers2, hce, hrest]

/-- Re-basing along one axis in binary32, for a coordinate `x ≥ b` with
`|b| ≤ 2 ^ 18 * s` and `x - b ≤ 2 ^ 18 * s`: the index is computed, the re-based
ratio lies in `[0, 1]`, and the coordinate is recovered from the centre of the
possibly decremented cell up to a relative error of `2 ^ (-21)`. -/
lemma rebase_axis_f32_general (b s x : α) (hsf : f32 s = s)
    (hs0 : (2 : α) ^ (-100 : Int) ≤ s) (hbx : b ≤ x)
    (hB : |b| ≤ 2 ^ 18 * s) (hX : x - b ≤ 2 ^ 18 * s) :
    ∃ c : Int, 0 ≤ c ∧ c_int_cast32 (f32 (f32 (x - b) / s)) = some c ∧
      ∃ ratio : α,
        ratio = f32 (f32 (x - f32 (f64 (b + f64 (s * f64 (f32 (c : α) + 1 / 2))))) / s) ∧
        0 ≤ (if ratio < 0 then f32 (f64 (ratio + 1)) else ratio) ∧
        (if ratio < 0 then f32 (f64 (ratio + 1)) else ratio) ≤ 1 ∧
        |x - (b + s * (((if ratio < 0 then c - 1 else c : Int) : α) + 1 / 2)
            + (if ratio < 0 then f32 (f64 (ratio + 1)) else ratio) * s)|
          ≤ (|b| + |x| + s) / 2 ^ 21 := by
  obtain ⟨c, hc0, hc1, hidx, hxc1, hxc2⟩ := index_axis_f32_general b s x hs0 hbx hX
  have hspos : 0 < s := lt_of_lt_of_le (zpow_pos (by norm_num) _) hs0
  have hb : |b| + s * ((c : α) + 1) ≤ 2 ^ 20 * s := by
    have : s * ((c : α) + 1) ≤ s * ((2 : α) ^ 18 + 2) :=
      mul_le_mul_of_nonneg_left (by linarith only [hc1]) hspos.le
    linarith only [this, hB, hspos]
  exact ⟨c, hc0, hidx, ratio_axis_f32_general b s x c hsf hs0 hc0 hb hxc1 hxc2⟩

/-- Re-basing in binary32 for inputs aligned to a power of two: the ratios lie in
`[0, 1)` and the point is recovered up to `section_len * 2 ^ (-23)`. -/
lemma rebase_f32_aligned (g : grid α) (p : lidar_point α) (k Bx By S X Y : Int)
    (hk : -148 ≤ k) (hS : 0 < S) (hS1 : S ≤ 2 ^ 21)
    (hs : g.section_len = (S : α) * (2 : α) ^ k)
    (hbx : g.base_x = (Bx : α) * (2 : α) ^ k) (hby : g.base_y = (By : α) * (2 : α) ^ k)
    (hpx : p.x = (X : α) * (2 : α) ^ k) (hpy : p.y = (Y : α) * (2 : α) ^ k)
    (hx : Bx ≤ X) (hy : By ≤ Y)
    (hBx : |Bx| ≤ 2 ^ 21) (hX : |X| ≤ 2 ^ 21) (hBy : |By| ≤ 2 ^ 21) (hY : |Y| ≤ 2 ^ 21) :
    ∃ (row col : Int) (dx_ratio dy_ratio : α),
      rebase_f32 g p = some ((row, col), (dx_ratio, dy_ratio)) ∧
      (0 ≤ dx_ratio ∧ dx_ratio < 1) ∧ (0 ≤ dy_ratio ∧ dy_ratio < 1) ∧
      |p.x - ((g.center_coords row col).1 + dx_ratio * g.section_len)|
        ≤ g.section_len / 2 ^ 23 ∧
      |p.y - ((g.center_coords row col).2 + dy_ratio * g.section_len)|
        ≤ g.section_len / 2 ^ 23 := by
  obtain ⟨cx, _, x2, x3, rx, x4, x5, x6, x7⟩ :=
    rebase_axis_f32 (α := α) k Bx S X hk hS hS1 hx hBx hX
  obtain ⟨cy, _, y2, y3, ry, y4, y5, y6, y7⟩ :=
    rebase_axis_f32 (α := α) k By S Y hk hS hS1 hy hBy hY
  have hreb : rebase_f32 g p = some
      ((if ry < 0 then cy - 1 else cy, if rx < 0 then cx - 1 else cx),
       (if rx < 0 then f32 (f64 (rx + 1)) else rx,
        if ry < 0 then f32 (f64 (ry + 1)) else ry)) := by
    simp only [rebase_f32, grid.to_indices_f32, grid.center_coords_f32, hs, hbx, hby, hpx, hpy,
      x2, y2, x3, y3, ← x4, ← y4]
  refine ⟨_, _, _, _, hreb, ⟨x5, x6⟩, ⟨y5, y6⟩, ?_, ?_⟩
  · simp only [grid.center_coords, hs, hbx, hpx]
    exact x7
  · simp only [grid.center_coords, hs, hby, hpy]
    exact y7

/-- Re-basing in binary32 for a point at or above the origin and less than
`2 ^ 18` cell sides away from it and from zero: the ratios lie in `[0, 1]` and
the point is recovered up to a relative error of `2 ^ (-21)`. -/
lemma rebase_f32_general (g : grid α) (p : lidar_point α)
    (hsf : f32 g.section_len = g.section_len)
    (hs0 : (2 : α) ^ (-100 : Int) ≤ g.section_len)
    (hx : g.base_x ≤ p.x) (hy : g.base_y ≤ p.y)
    (hBx : |g.base_x| ≤ 2 ^ 18 * g.section_len) (hBy : |g.base_y| ≤ 2 ^ 18 * g.section_len)
    (hXx : p.x - g.base_x ≤ 2 ^ 18 * g.section_len)
    (hXy : p.y - g.base_y ≤ 2 ^ 18 * g.section_len) :
    ∃ (row col : Int) (dx_ratio dy_ratio : α),
      rebase_f32 g p = some ((row, col), (dx_ratio, dy_ratio)) ∧
      (0 ≤ dx_ratio ∧ dx_ratio ≤ 1) ∧ (0 ≤ dy_ratio ∧ dy_ratio ≤ 1) ∧
      |p.x - ((g.center_coords row col).1 + dx_ratio * g.section_len)|
        ≤ (|g.base_x| + |p.x| + g.section_len) / 2 ^ 21 ∧
      |p.y - ((g.center_coords row col).2 + dy_ratio * g.section_len)|
        ≤ (|g.base_y| + |p.y| + g.section_len) / 2 ^ 21 := by
  obtain ⟨cx, _, x2, rx, x4, x5, x6, x7⟩ :=
    rebase_axis_f32_general g.base_x g.section_len p.x hsf hs0 hx hBx hXx
  obtain ⟨cy, _, y2, ry, y4, y5, y6, y7⟩ :=
    rebase_axis_f32_general g.base_y g.section_len p.y hsf hs0 hy hBy hXy
  have hreb : rebase_f32 g p = some
      ((if ry < 0 then cy - 1 else cy, if rx < 0 then cx - 1 else cx),
       (if rx < 0 then f32 (f64 (rx + 1)) else rx,
        if ry < 0 then f32 (f64 (ry + 1)) else ry)) := by
    simp only [rebase_f32, grid.to_indices_f32, grid.center_coords_f32, x2, y2, ← x4, ← y4]
  refine ⟨_, _, _, _, hreb, ⟨x5, x6⟩, ⟨y5, y6⟩, ?_, ?_⟩
  · simp only [grid.center_coords]
    exact x7
  · simp only [grid.center_coords]
    exact y7

end RebaseGeneral

section ConstantLerp

variable {α : Type} [LinearOrderedField α] [FloorRing α]

/-- The binary32 interpolation between two equal values `h`, at a ratio in
`[0, 1]`, is `h` up to a relative error of `9 * 2 ^ (-25)` and four half
spacings of the subnormal values. -/
lemma lerp_f32_const_err (h r : α) (hr0 : 0 ≤ r) (hr1 : r ≤ 1) :
    |lerp_f32 h h r - h| ≤ |h| * (9 / 2 ^ 25) + 4 * (2 : α) ^ (-150 : Int) := by
  have p2 : (0 : α) < (2 : α) ^ (-150 : Int) := zpow_pos (by norm_num) _
  have err32 : ∀ y : α, |y - f32 y| ≤ |y| / 2 ^ 24 + (2 : α) ^ (-150 : Int) := f32_abs_error
  generalize (2 : α) ^ (-150 : Int) = T at p2 err32 ⊢
  have hH := abs_nonneg h
  -- u = f32 (1 - r)
  have hu := f32_error_le_one (1 - r) (abs_le.mpr ⟨by linarith only [hr1], by linarith only [hr0]⟩)
  have hu0 : 0 ≤ f32 (1 - r) := f32_nonneg _ (by linarith only [hr1])
  have hu1 : f32 (1 - r) ≤ 1 := f32_le_of_le _ _ f32_one (by linarith only [hr0])
  obtain ⟨u, hudef⟩ : ∃ u, u = f32 (1 - r) := ⟨_, rfl⟩
  rw [← hudef] at hu hu0 hu1
  rw [abs_le] at hu
  -- a = f32 (h * u), b = f32 (h * r)
  have ga := err32 (h * u)
  have gb := err32 (h * r)
  rw [abs_mul, abs_of_nonneg hu0] at ga
  rw [abs_mul, abs_of_nonneg hr0] at gb
  have ha1 : |h| * u ≤ |h| := mul_le_of_le_one_right hH hu1
  have hb1 : |h| * r ≤ |h| := mul_le_of_le_one_right hH hr1
  obtain ⟨a, hadef⟩ : ∃ a, a = f32 (h * u) := ⟨_, rfl⟩
  obtain ⟨b, hbdef⟩ : ∃ b, b = f32 (h * r) := ⟨_, rfl⟩
  rw [← hadef] at ga
  rw [← hbdef] at gb
  have ga' : |h * u - a| ≤ |h| / 2 ^ 24 + T := by
    have : |h| * u / 2 ^ 24 ≤ |h| / 2 ^ 24 := div_le_div_of_nonneg_right ha1 (by positivity)
    linarith only [ga, this]
  have gb' : |h * r - b| ≤ |h| / 2 ^ 24 + T := by
    have : |h| * r / 2 ^ 24 ≤ |h| / 2 ^ 24 := div_le_div_of_nonneg_right hb1 (by positivity)
    linarith only [gb, this]
  rw [abs_le] at ga' gb'
  -- h * (u + r) is close to h
  have hε : |h * (u + r) - h| ≤ |h| / 2 ^ 25 := by
    have e : h * (u + r) - h = h * (u - (1 - r)) := by ring
    rw [e, abs_mul]
    have : |u - (1 - r)| ≤ 1 / 2 ^ 25 := abs_le.mpr ⟨by linarith only [hu.2], by linarith only [hu.1]⟩
    calc |h| * |u - (1 - r)| ≤ |h| * (1 / 2 ^ 25) := mul_le_mul_of_nonneg_left this hH
      _ = |h| / 2 ^ 25 := by ring
  rw [abs_le] at hε
  -- the sum
  have hsum1 : -(|h| * (5 / 2 ^ 25) + 2 * T) ≤ a + b - h := by
    linarith only [ga'.2, gb'.2, hε.1]
  have hsum2 : a + b - h ≤ |h| * (5 / 2 ^ 25) + 2 * T := by
    linarith only [ga'.1, gb'.1, hε.2]
  have hab : |a + b| ≤ 2 * |h| + 2 * T := by
    rw [abs_le]
    constructor
    · linarith only [hsum1, neg_abs_le h, hH]
    · linarith only [hsum2, le_abs_self h, hH]
  have gc := err32 (a + b)
  have gc' : |a + b - f32 (a + b)| ≤ |h| / 2 ^ 23 + 2 * T := by
    have : |a + b| / 2 ^ 24 ≤ (2 * |h| + 2 * T) / 2 ^ 24 :=
      div_le_div_of_nonneg_right hab (by positivity)
    linarith only [gc, this, p2]
  rw [abs_le] at gc'
  have e : lerp_f32 h h r = f32 (a + b) := by
    simp only [lerp_f32, hadef, hbdef, hudef]
  rw [e, abs_le]
  constructor
  · linarith only [hsum1, gc'.2, hH]
  · linarith only [hsum2, gc'.1, hH]

/-- The binary32 bilinear interpolation between four equal values `h`, at ratios
in `[0, 1]`, is `h` up to a relative error of `2 ^ (-20)`, for `|h| ≥ 2 ^ (-100)`;
and so is the difference `h - lerp_2d(h, h, h, h, x, y)` as computed. -/
lemma lerp_2d_f32_const_err (h x y : α) (hx0 : 0 ≤ x) (hx1 : x ≤ 1) (hy0 : 0 ≤ y) (hy1 : y ≤ 1)
    (hh : (2 : α) ^ (-100 : Int) ≤ |h|) :
    |lerp_2d_f32 h h h h x y - h| ≤ |h| * (19 / 2 ^ 25) + 9 * (2 : α) ^ (-150 : Int) ∧
    |lerp_2d_f32 h h h h x y - h| ≤ |h| / 2 ^ 20 ∧
    |f32 (h - lerp_2d_f32 h h h h x y)| ≤ |h| / 2 ^ 20 := by
  have p2 : (0 : α) < (2 : α) ^ (-150 : Int) := zpow_pos (by norm_num) _
  have t2 : (2 : α) ^ (-150 : Int) ≤ |h| / 2 ^ 50 := by
    have e : (2 : α) ^ (-150 : Int) = (2 : α) ^ (-100 : Int) / 2 ^ 50 := by
      rw [show (-150 : Int) = -100 - 50 by norm_num, zpow_sub₀ (by norm_num : (2 : α) ≠ 0)]
      norm_num
    rw [e]
    exact div_le_div_of_nonneg_right hh (by positivity)
  have g1 := lerp_f32_const_err h x hx0 hx1
  have g2 := lerp_f32_const_err (lerp_f32 h h x) y hy0 hy1
  have gd := f32_abs_error (h - lerp_2d_f32 h h h h x y)
  have e : lerp_2d_f32 h h h h x y = lerp_f32 (lerp_f32 h h x) (lerp_f32 h h x) y := rfl
  rw [e] at gd ⊢
  obtain ⟨t, ht⟩ : ∃ t, t = lerp_f32 h h x := ⟨_, rfl⟩
  rw [← ht] at g1 g2 gd ⊢
  obtain ⟨fl, hfl⟩ : ∃ fl, fl = lerp_f32 t t y := ⟨_, rfl⟩
  rw [← hfl] at g2 gd ⊢
  have hH := abs_nonneg h
  generalize (2 : α) ^ (-150 : Int) = T at p2 t2 g1 g2 gd ⊢
  have ht1 : |t| ≤ |h| + (|h| * (9 / 2 ^ 25) + 4 * T) := by
    have := abs_sub_abs_le_abs_sub t h
    linarith only [this, g1]
  have hmain : |fl - h| ≤ |h| * (19 / 2 ^ 25) + 9 * T := by
    have h3 : |fl - h| ≤ |fl - t| + |t - h| := by
      have := abs_add (fl - t) (t - h)
      rwa [sub_add_sub_cancel] at this
    have h4 : |t| * (9 / 2 ^ 25) ≤ (|h| + (|h| * (9 / 2 ^ 25) + 4 * T)) * (9 / 2 ^ 25) :=
      mul_le_mul_of_nonneg_right ht1 (by positivity)
    linarith only [h3, h4, g1, g2, hH, p2]
  have hmain2 : |fl - h| ≤ |h| / 2 ^ 20 := by linarith only [hmain, t2, hH]
  refine ⟨hmain, hmain2, ?_⟩
  have h5 : |h - fl| ≤ |h| * (19 / 2 ^ 25) + 9 * T := by rw [abs_sub_comm]; exact hmain
  have h6 : |f32 (h - fl)| ≤ |h - fl| + (|h - fl| / 2 ^ 24 + T) := by
    have := abs_sub_abs_le_abs_sub (f32 (h - fl)) (h - fl)
    rw [abs_sub_comm (f32 (h - fl))] at this
    linarith only [this, gd]
  have h7 : |h - fl| / 2 ^ 24 ≤ (|h| * (19 / 2 ^ 25) + 9 * T) / 2 ^ 24 :=
    div_le_div_of_nonneg_right h5 (by positivity)
  linarith only [h5, h6, h7, t2, hH, p2]

end ConstantLerp

/-! ## Theorems -/

section BboxTheorems

variable {α : Type} [LinearOrderedField α]

/-- C3. Bbox inclusion: for every list of points, the box returned by
`compute_full_bbox` contains every point of the list and the origin, and hence
has `minx ≤ maxx` and `miny ≤ maxy`. -/
theorem compute_full_bbox_inclusion (points : List (lidar_point α)) :
    (∀ p ∈ points,
      (compute_full_bbox points).minx ≤ p.x ∧ p.x ≤ (compute_full_bbox points).maxx ∧
      (compute_full_bbox points).miny ≤ p.y ∧ p.y ≤ (compute_full_bbox points).maxy) ∧
    ((compute_full_bbox points).minx ≤ 0 ∧ 0 ≤ (compute_full_bbox points).maxx ∧
      (compute_full_bbox points).miny ≤ 0 ∧ 0 ≤ (compute_full_bbox points).maxy) ∧
    (compute_full_bbox points).minx ≤ (compute_full_bbox points).maxx ∧
    (compute_full_bbox points).miny ≤ (compute_full_bbox points).maxy := by
  obtain ⟨⟨h1, h2, h3, h4⟩, hp⟩ :=
    bbox_foldl_bounds points ({ minx := 0, miny := 0, maxx := 0, maxy := 0 } : bbox α)
  simp only at h1 h2 h3 h4
  refine ⟨hp, ⟨h1, h2, h3, h4⟩, ?_, ?_⟩
  · exact le_trans h1 h2
  · exact le_trans h3 h4

end BboxTheorems

section GridTheorems

variable {α : Type} [LinearOrderedField α] [FloorRing α]

/-- C1 (the code does not satisfy the claim). A point on the upper edge of a box
whose extent is an exact multiple of `section_len` is indexed outside the grid:
for the single point `(20, 20)` and `section_len = 20` the box is
`(0, 0, 20, 20)`, `compute_grid` returns `(1, 1)`, `to_indices 20 20` is
`(1, 1)`, and the binning lookup `z_arrays[1][1]` fails. -/
theorem to_indices_out_of_grid_at_max_edge :
    compute_full_bbox ([⟨20, 20, 1, 7⟩] : List (lidar_point ℚ)) = ⟨0, 0, 20, 20⟩ ∧
    ((grid.new (20 : ℚ)).compute_grid ⟨0, 0, 20, 20⟩).2 = (1, 1) ∧
    ((grid.new (20 : ℚ)).compute_grid ⟨0, 0, 20, 20⟩).1.to_indices 20 20 = (1, 1) ∧
    flatten_floors (20 : ℚ) MIN_POINTS_PER_BLOCK PERCENTILE_DIVISOR [⟨20, 20, 1, 7⟩] = none := by
  have hb : compute_full_bbox ([⟨20, 20, 1, 7⟩] : List (lidar_point ℚ)) = ⟨0, 0, 20, 20⟩ := by
    simp [compute_full_bbox, bbox_step]
  have hg : ((grid.new (20 : ℚ)).compute_grid ⟨0, 0, 20, 20⟩).2 = (1, 1) := by
    simp [grid.compute_grid, grid.new, ceiling_divide_eq_ceil]
  have hi : ((grid.new (20 : ℚ)).compute_grid ⟨0, 0, 20, 20⟩).1.to_indices 20 20 = (1, 1) := by
    simp [grid.compute_grid, grid.new, grid.to_indices, c_int_cast]
  refine ⟨hb, hg, hi, ?_⟩
  simp [flatten_floors, hb, grid.compute_grid, grid.new, ceiling_divide_eq_ceil, alloc_z_arrays,
    bin_points, push_z, vec_get, grid.to_indices, c_int_cast]

/-- C2 (the code does not satisfy the claim). On the three points `(0,0,5,10)`,
`(0,0,5,20)`, `(0,0,15,30)` with `section_len = 20`, threshold 2 and divisor 20,
the box is `(0, 0, 0, 0)`, the grid has dimensions `(0, 0)`, and the binning
lookup `z_arrays[0][0]` fails, so no floor height and no adjusted point is
produced. -/
theorem flatten_scenario_origin_fails :
    compute_full_bbox ([⟨0, 0, 5, 10⟩, ⟨0, 0, 5, 20⟩, ⟨0, 0, 15, 30⟩] : List (lidar_point ℝ))
      = ⟨0, 0, 0, 0⟩ ∧
    ((grid.new (20 : ℝ)).compute_grid ⟨0, 0, 0, 0⟩).2 = (0, 0) ∧
    flatten_floors (20 : ℝ) 2 20 [⟨0, 0, 5, 10⟩, ⟨0, 0, 5, 20⟩, ⟨0, 0, 15, 30⟩] = none ∧
    flatten_core Real.sqrt Real.tan Real.arctan (20 : ℝ) 2 20
      [⟨0, 0, 5, 10⟩, ⟨0, 0, 5, 20⟩, ⟨0, 0, 15, 30⟩] = none := by
  have hb : compute_full_bbox
      ([⟨0, 0, 5, 10⟩, ⟨0, 0, 5, 20⟩, ⟨0, 0, 15, 30⟩] : List (lidar_point ℝ))
      = ⟨0, 0, 0, 0⟩ := by
    simp [compute_full_bbox, bbox_step]
  have hg : ((grid.new (20 : ℝ)).compute_grid ⟨0, 0, 0, 0⟩).2 = (0, 0) := by
    simp [grid.compute_grid, grid.new, ceiling_divide_eq_ceil]
  have hf : flatten_floors (20 : ℝ) 2 20
      [⟨0, 0, 5, 10⟩, ⟨0, 0, 5, 20⟩, ⟨0, 0, 15, 30⟩] = none := by
    simp [flatten_floors, hb, grid.compute_grid, grid.new, ceiling_divide_eq_ceil, alloc_z_arrays,
      bin_points, push_z, vec_get]
  refine ⟨hb, hg, hf, ?_⟩
  simp [flatten_core, hf]

end GridTheorems

section FloorTheorems

variable {α : Type} [LinearOrderedField α]

/-- C7. Skip rule (strict threshold): in the floor grid computed with
`MIN_POINTS_PER_BLOCK = 100`, every cell whose z-list has at most 100 entries
(exactly 100 included) has floor height 0 whatever its values, and a cell with
101 entries all equal to `v` has floor height `v`. -/
theorem floor_skip_rule (z_arrays : List (List (List α))) (i j : Nat)
    (row : List (List α)) (cell : List α) (v : α)
    (hi : z_arrays[i]? = some row) (hj : row[j]? = some cell) :
    ∃ floor_zs floor_row,
      compute_floor_zs MIN_POINTS_PER_BLOCK PERCENTILE_DIVISOR z_arrays = some floor_zs ∧
      floor_zs[i]? = some floor_row ∧
      (cell.length ≤ MIN_POINTS_PER_BLOCK → floor_row[j]? = some 0) ∧
      (cell = List.replicate (MIN_POINTS_PER_BLOCK + 1) v → floor_row[j]? = some v) := by
  obtain ⟨fz, fr, h1, h2, h3⟩ :=
    floor_zs_cell MIN_POINTS_PER_BLOCK PERCENTILE_DIVISOR (by decide) z_arrays i j row cell hi hj
  refine ⟨fz, fr, h1, h2, ?_, ?_⟩
  · intro hle
    rw [h3]
    simp [cell_floor, Nat.not_lt.mpr hle]
  · intro hc
    rw [h3, hc]
    exact cell_floor_replicate _ _ _ (by decide) (Nat.lt_succ_self _) v

theorem floor_skip_rule_witness :
    ([[[1, 2, 3]]] : List (List (List ℚ)))[0]? = some [[1, 2, 3]] ∧
    ([[1, 2, 3]] : List (List ℚ))[0]? = some [1, 2, 3] ∧
    ∃ floor_zs floor_row,
      compute_floor_zs MIN_POINTS_PER_BLOCK PERCENTILE_DIVISOR
        ([[[1, 2, 3]]] : List (List (List ℚ))) = some floor_zs ∧
      floor_zs[0]? = some floor_row ∧
      (([1, 2, 3] : List ℚ).length ≤ MIN_POINTS_PER_BLOCK → floor_row[0]? = some 0) ∧
      (([1, 2, 3] : List ℚ) = List.replicate (MIN_POINTS_PER_BLOCK + 1) 7 →
        floor_row[0]? = some 7) :=
  ⟨rfl, rfl, floor_skip_rule [[[1, 2, 3]]] 0 0 [[1, 2, 3]] [1, 2, 3] 7 rfl rfl⟩

/-- C8. Percentile selection: in the floor grid computed with the threshold 100
and the divisor 20, the floor height of every cell with `count > 100` entries is
the element at 0-based index `k = count / 20` of the cell's list sorted
ascending (`s` is any ascending arrangement of the cell's values), and `k` is a
valid index; for the 200 values `0, 1, ..., 199` the floor height is 10. -/
theorem floor_percentile_selection (z_arrays : List (List (List α))) (i j : Nat)
    (row : List (List α)) (cell s : List α)
    (hi : z_arrays[i]? = some row) (hj : row[j]? = some cell)
    (hlen : cell.length > MIN_POINTS_PER_BLOCK)
    (hperm : s.Perm cell) (hs : s.Sorted (fun a b => a ≤ b)) :
    ∃ floor_zs floor_row,
      compute_floor_zs MIN_POINTS_PER_BLOCK PERCENTILE_DIVISOR z_arrays = some floor_zs ∧
      floor_zs[i]? = some floor_row ∧
      cell.length / 20 < s.length ∧
      floor_row[j]? = s[cell.length / 20]? ∧
      (cell = (List.range 200).map (fun n : Nat => (n : α)) → floor_row[j]? = some 10) := by
  obtain ⟨fz, fr, h1, h2, h3⟩ :=
    floor_zs_cell MIN_POINTS_PER_BLOCK PERCENTILE_DIVISOR (by decide) z_arrays i j row cell hi hj
  refine ⟨fz, fr, h1, h2, ?_, ?_, ?_⟩
  · rw [hperm.length_eq]
    exact cell_floor_index_lt MIN_POINTS_PER_BLOCK 20 _ (by decide) hlen
  · rw [h3]
    exact cell_floor_of_sorted_perm _ _ cell s hlen hperm hs
  · intro hc
    rw [h3, hc]
    exact cell_floor_range_200

theorem floor_percentile_selection_witness :
    ([[sample_cell]] : List (List (List ℚ)))[0]? = some [sample_cell] ∧
    ([sample_cell] : List (List ℚ))[0]? = some sample_cell ∧
    sample_cell.length > MIN_POINTS_PER_BLOCK ∧
    sample_cell.Perm sample_cell ∧ sample_cell.Sorted (fun a b => a ≤ b) ∧
    ∃ floor_zs floor_row,
      compute_floor_zs MIN_POINTS_PER_BLOCK PERCENTILE_DIVISOR
        ([[sample_cell]] : List (List (List ℚ))) = some floor_zs ∧
      floor_zs[0]? = some floor_row ∧
      sample_cell.length / 20 < sample_cell.length ∧
      floor_row[0]? = sample_cell[sample_cell.length / 20]? ∧
      (sample_cell = (List.range 200).map (fun n : Nat => (n : ℚ)) →
        floor_row[0]? = some 10) :=
  ⟨rfl, rfl, by simp [sample_cell, MIN_POINTS_PER_BLOCK], List.Perm.refl _,
    sorted_range_cast 200,
    floor_percentile_selection [[sample_cell]] 0 0 [sample_cell] sample_cell sample_cell rfl rfl
      (by simp [sample_cell, MIN_POINTS_PER_BLOCK]) (List.Perm.refl _) (sorted_range_cast 200)⟩

end FloorTheorems

section AdjustTheorems

variable {α : Type} [LinearOrderedField α]

/-- C10. `adjust_point` is the sequential two-stage transform: for every point,
heights, ratios and `grid_scale ≠ 0` it returns the point of
`adjust_point_two_stage`, that is `x - dx`, `y - dy` and `sqrt(z1^2 + dy^2)` with
`z0 = z - lerp_2d(..)`, `dx = -z0 * tan x_theta`, `z1 = sqrt(z0^2 + dx^2)` and
`dy = -z1 * tan y_theta` (the updated `z1`, not `z0`), intensity unchanged. -/
theorem adjust_point_sequential (sqrt tan atan : α → α) (p : lidar_point α)
    (bl br tl tr x_ratio y_ratio grid_scale : α) (_hscale : grid_scale ≠ 0) :
    adjust_point sqrt tan atan p bl br tl tr x_ratio y_ratio grid_scale =
      adjust_point_two_stage sqrt tan atan p bl br tl tr x_ratio y_ratio grid_scale := by
  simp only [adjust_point, adjust_point_two_stage, neg_one_mul, sq]

theorem adjust_point_sequential_witness :
    (20 : ℝ) ≠ 0 ∧
    adjust_point Real.sqrt Real.tan Real.arctan ⟨3, 4, 5, 9⟩ 0 1 2 4 (1 / 4) (3 / 4) 20 =
      adjust_point_two_stage Real.sqrt Real.tan Real.arctan ⟨3, 4, 5, 9⟩ 0 1 2 4
        (1 / 4) (3 / 4) 20 :=
  ⟨by norm_num,
    adjust_point_sequential Real.sqrt Real.tan Real.arctan ⟨3, 4, 5, 9⟩ 0 1 2 4
      (1 / 4) (3 / 4) 20 (by norm_num)⟩

end AdjustTheorems

section InterpTheorems

variable {α : Type} [LinearOrderedField α]

/-- C13. The two lerps of bilinear interpolation commute: what `lerp_2d`
computes (horizontal lerps first, then the vertical one) equals the vertical
lerps along the left and right edges followed by the horizontal one. -/
theorem lerp_2d_commutes (bl br tl tr x y : α) :
    lerp_2d bl br tl tr x y = lerp (lerp bl br x) (lerp tl tr x) y ∧
    lerp (lerp bl br x) (lerp tl tr x) y = lerp (lerp bl tl y) (lerp br tr y) x := by
  refine ⟨rfl, ?_⟩
  simp only [lerp]
  ring

/-- C15. For `scale ≠ 0`, `interp_angles` returns
`x_theta = atan((lerp br tr y - lerp bl tl y) / scale)` (left and right edges at
the y ratio) and `y_theta = atan((lerp tl tr x - lerp bl br x) / scale)` (bottom
and top edges at the x ratio). -/
theorem interp_angles_edges (atan : α → α) (bl br tl tr x y scale : α) (_hscale : scale ≠ 0) :
    (interp_angles atan bl br tl tr x y scale).1 =
      atan ((lerp br tr y - lerp bl tl y) / scale) ∧
    (interp_angles atan bl br tl tr x y scale).2 =
      atan ((lerp tl tr x - lerp bl br x) / scale) ∧
    (interp_angles atan bl br tl tr x y scale).1 =
      atan (((br - bl) * (1 - y) + (tr - tl) * y) / scale) ∧
    (interp_angles atan bl br tl tr x y scale).2 =
      atan (((tl - bl) * (1 - x) + (tr - br) * x) / scale) := by
  refine ⟨rfl, rfl, ?_, ?_⟩
  · simp only [interp_angles, lerp]
    congr 2
    ring
  · simp only [interp_angles, lerp]
    congr 2
    ring

theorem interp_angles_edges_witness :
    (20 : ℝ) ≠ 0 ∧
    ((interp_angles Real.arctan 0 1 2 4 (1 / 4) (3 / 4) (20 : ℝ)).1 =
      Real.arctan ((lerp 1 4 (3 / 4) - lerp 0 2 (3 / 4)) / 20) ∧
    (interp_angles Real.arctan 0 1 2 4 (1 / 4) (3 / 4) (20 : ℝ)).2 =
      Real.arctan ((lerp 2 4 (1 / 4) - lerp 0 1 (1 / 4)) / 20) ∧
    (interp_angles Real.arctan 0 1 2 4 (1 / 4) (3 / 4) (20 : ℝ)).1 =
      Real.arctan (((1 - 0) * (1 - 3 / 4) + (4 - 2) * (3 / 4)) / 20) ∧
    (interp_angles Real.arctan 0 1 2 4 (1 / 4) (3 / 4) (20 : ℝ)).2 =
      Real.arctan (((2 - 0) * (1 - 1 / 4) + (4 - 1) * (1 / 4)) / 20)) :=
  ⟨by norm_num, interp_angles_edges Real.arctan 0 1 2 4 (1 / 4) (3 / 4) 20 (by norm_num)⟩

/-- C17. `int_clamp` is the standard integer clamp: for `low ≤ high` it returns
`low` when `val < low`, `high` when `val > high` and `val` otherwise; the result
lies in `[low, high]` and clamping twice is clamping once. -/
theorem int_clamp_standard (val low high : Int) (h : low ≤ high) :
    (val < low → int_clamp val low high = low) ∧
    (val > high → int_clamp val low high = high) ∧
    (low ≤ val → val ≤ high → int_clamp val low high = val) ∧
    low ≤ int_clamp val low high ∧ int_clamp val low high ≤ high ∧
    int_clamp (int_clamp val low high) low high = int_clamp val low high := by
  simp only [int_clamp]
  omega

theorem int_clamp_standard_witness :
    (0 : Int) ≤ 3 ∧
    ((7 < (0 : Int) → int_clamp 7 0 3 = 0) ∧
    (7 > (3 : Int) → int_clamp 7 0 3 = 3) ∧
    ((0 : Int) ≤ 7 → (7 : Int) ≤ 3 → int_clamp 7 0 3 = 7) ∧
    0 ≤ int_clamp 7 0 3 ∧ int_clamp 7 0 3 ≤ 3 ∧
    int_clamp (int_clamp 7 0 3) 0 3 = int_clamp 7 0 3) :=
  ⟨by decide, int_clamp_standard 7 0 3 (by decide)⟩

end InterpTheorems

section PipelineTheorems

variable {α : Type} [LinearOrderedField α] [FloorRing α]

/-- C16. Edge policy of the point adjuster: for a grid with `height ≥ 1` and
`width ≥ 1`, a floor grid of those dimensions and every integer `(row, col)`,
the clamped indices satisfy `0 ≤ bottom ≤ top ≤ height - 1` and
`0 ≤ left ≤ right ≤ width - 1`, the four `floor_zs` lookups succeed, and the
adjustment of any point finds its four neighbours. -/
theorem neighbour_lookups_in_bounds (sqrt tan atan : α → α) (g : grid α)
    (floor_zs : List (List α)) (p : lidar_point α) (row col : Int)
    (hh : 1 ≤ g._h) (hw : 1 ≤ g._w) (hlen : (floor_zs.length : Int) = g._h)
    (hrows : ∀ r ∈ floor_zs, (r.length : Int) = g._w) :
    (0 ≤ int_clamp row 0 (g._h - 1) ∧
      int_clamp row 0 (g._h - 1) ≤ int_clamp (row + 1) 0 (g._h - 1) ∧
      int_clamp (row + 1) 0 (g._h - 1) ≤ g._h - 1) ∧
    (0 ≤ int_clamp col 0 (g._w - 1) ∧
      int_clamp col 0 (g._w - 1) ≤ int_clamp (col + 1) 0 (g._w - 1) ∧
      int_clamp (col + 1) 0 (g._w - 1) ≤ g._w - 1) ∧
    (∃ bot_row top_row z_bl z_br z_tl z_tr,
      vec_get floor_zs (int_clamp row 0 (g._h - 1)) = some bot_row ∧
      vec_get floor_zs (int_clamp (row + 1) 0 (g._h - 1)) = some top_row ∧
      vec_get bot_row (int_clamp col 0 (g._w - 1)) = some z_bl ∧
      vec_get bot_row (int_clamp (col + 1) 0 (g._w - 1)) = some z_br ∧
      vec_get top_row (int_clamp col 0 (g._w - 1)) = some z_tl ∧
      vec_get top_row (int_clamp (col + 1) 0 (g._w - 1)) = some z_tr) ∧
    ∃ q, adjust_one sqrt tan atan g floor_zs p = some q := by
  refine ⟨?_, ?_, ?_, adjust_one_isSome sqrt tan atan g floor_zs p hh hw hlen hrows⟩
  · simp only [int_clamp]; omega
  · simp only [int_clamp]; omega
  · have get_row : ∀ v : Int, ∃ r, vec_get floor_zs (int_clamp v 0 (g._h - 1)) = some r ∧
        (r.length : Int) = g._w := by
      intro v
      obtain ⟨b0, b1⟩ := int_clamp_bounds v (g._h - 1) (by omega)
      obtain ⟨r, hr, hmem⟩ := vec_get_of_lt floor_zs _ b0 (by omega)
      exact ⟨r, hr, hrows r hmem⟩
    have get_cell : ∀ (r : List α), (r.length : Int) = g._w → ∀ v : Int,
        ∃ c, vec_get r (int_clamp v 0 (g._w - 1)) = some c := by
      intro r hr v
      obtain ⟨b0, b1⟩ := int_clamp_bounds v (g._w - 1) (by omega)
      obtain ⟨c, hc, _⟩ := vec_get_of_lt r _ b0 (by omega)
      exact ⟨c, hc⟩
    obtain ⟨rb, hrb, lb⟩ := get_row row
    obtain ⟨rt, hrt, lt⟩ := get_row (row + 1)
    obtain ⟨c1, hc1⟩ := get_cell rb lb col
    obtain ⟨c2, hc2⟩ := get_cell rb lb (col + 1)
    obtain ⟨c3, hc3⟩ := get_cell rt lt col
    obtain ⟨c4, hc4⟩ := get_cell rt lt (col + 1)
    exact ⟨rb, rt, c1, c2, c3, c4, hrb, hrt, hc1, hc2, hc3, hc4⟩

theorem neighbour_lookups_in_bounds_witness :
    1 ≤ sample_grid._h ∧ 1 ≤ sample_grid._w ∧
    (sample_floor_zs.length : Int) = sample_grid._h ∧
    (∀ r ∈ sample_floor_zs, (r.length : Int) = sample_grid._w) ∧
    ((0 ≤ int_clamp (-1) 0 (sample_grid._h - 1) ∧
      int_clamp (-1) 0 (sample_grid._h - 1) ≤ int_clamp (-1 + 1) 0 (sample_grid._h - 1) ∧
      int_clamp (-1 + 1) 0 (sample_grid._h - 1) ≤ sample_grid._h - 1) ∧
    (0 ≤ int_clamp 5 0 (sample_grid._w - 1) ∧
      int_clamp 5 0 (sample_grid._w - 1) ≤ int_clamp (5 + 1) 0 (sample_grid._w - 1) ∧
      int_clamp (5 + 1) 0 (sample_grid._w - 1) ≤ sample_grid._w - 1) ∧
    (∃ bot_row top_row z_bl z_br z_tl z_tr,
      vec_get sample_floor_zs (int_clamp (-1) 0 (sample_grid._h - 1)) = some bot_row ∧
      vec_get sample_floor_zs (int_clamp (-1 + 1) 0 (sample_grid._h - 1)) = some top_row ∧
      vec_get bot_row (int_clamp 5 0 (sample_grid._w - 1)) = some z_bl ∧
      vec_get bot_row (int_clamp (5 + 1) 0 (sample_grid._w - 1)) = some z_br ∧
      vec_get top_row (int_clamp 5 0 (sample_grid._w - 1)) = some z_tl ∧
      vec_get top_row (int_clamp (5 + 1) 0 (sample_grid._w - 1)) = some z_tr) ∧
    ∃ q, adjust_one id id id sample_grid sample_floor_zs sample_point = some q) :=
  ⟨by decide, by decide, rfl, sample_floor_zs_rows,
    neighbour_lookups_in_bounds id id id sample_grid sample_floor_zs sample_point (-1) 5
      (by decide) (by decide) rfl sample_floor_zs_rows⟩

/-- C18. Empty point cloud: for the empty point list `compute_full_bbox` returns
the box `(0, 0, 0, 0)`, `compute_grid` returns the dimensions `(0, 0)` of that
box, the floor grid is empty, and the flatten core completes without a failing
index access and returns the empty point list. -/
theorem flatten_empty_cloud (sqrt tan atan : α → α) (section_len : α)
    (min_points divisor : Nat) (_hs : section_len ≠ 0) :
    compute_full_bbox ([] : List (lidar_point α)) = ⟨0, 0, 0, 0⟩ ∧
    ((grid.new section_len).compute_grid (compute_full_bbox ([] : List (lidar_point α)))).2
      = (0, 0) ∧
    (flatten_floors section_len min_points divisor []).map (fun r => r.2) = some [] ∧
    flatten_core sqrt tan atan section_len min_points divisor [] = some [] := by
  have hf : flatten_floors section_len min_points divisor [] =
      some (⟨section_len, 0, 0, 0, 0⟩, []) := by
    simp [flatten_floors, compute_full_bbox, grid.compute_grid, grid.new,
      ceiling_divide_eq_ceil, alloc_z_arrays, bin_points, compute_floor_zs, collect]
  refine ⟨rfl, ?_, ?_, ?_⟩
  · simp [compute_full_bbox, grid.compute_grid, grid.new, ceiling_divide_eq_ceil]
  · simp [hf]
  · simp [flatten_core, hf, adjust_all, collect]

theorem flatten_empty_cloud_witness :
    (GRID_SIDE_LEN : ℝ) ≠ 0 ∧
    (compute_full_bbox ([] : List (lidar_point ℝ)) = ⟨0, 0, 0, 0⟩ ∧
    ((grid.new (GRID_SIDE_LEN : ℝ)).compute_grid
      (compute_full_bbox ([] : List (lidar_point ℝ)))).2 = (0, 0) ∧
    (flatten_floors (GRID_SIDE_LEN : ℝ) MIN_POINTS_PER_BLOCK PERCENTILE_DIVISOR []).map
      (fun r => r.2) = some [] ∧
    flatten_core Real.sqrt Real.tan Real.arctan (GRID_SIDE_LEN : ℝ) MIN_POINTS_PER_BLOCK
      PERCENTILE_DIVISOR [] = some []) :=
  ⟨by norm_num [GRID_SIDE_LEN],
    flatten_empty_cloud Real.sqrt Real.tan Real.arctan GRID_SIDE_LEN MIN_POINTS_PER_BLOCK
      PERCENTILE_DIVISOR (by norm_num [GRID_SIDE_LEN])⟩

/-- C19. Frame of the flatten operation: whenever the flatten core completes, the
output list has the length of the input list and the i-th output point has the
intensity of the i-th input point; `adjust_point` never changes the intensity. -/
theorem flatten_core_frame (sqrt tan atan : α → α) (section_len : α)
    (min_points divisor : Nat) (points out : List (lidar_point α))
    (h : flatten_core sqrt tan atan section_len min_points divisor points = some out) :
    out.length = points.length ∧
    (∀ (i : Nat) (p : lidar_point α), points[i]? = some p →
      ∃ q, out[i]? = some q ∧ q.intensity = p.intensity) ∧
    (∀ (p : lidar_point α) (bl br tl tr x_ratio y_ratio scale : α),
      (adjust_point sqrt tan atan p bl br tl tr x_ratio y_ratio scale).intensity
        = p.intensity) := by
  have hrel : List.Forall₂ (fun p q : lidar_point α => q.intensity = p.intensity) points out := by
    simp only [flatten_core] at h
    split at h
    · exact absurd h (by simp)
    · rename_i g fz _
      exact forall2_of_map_eq _ _ (adjust_one_intensity sqrt tan atan g fz) points out
        (collect_eq_some _ _ h)
  refine ⟨hrel.length_eq.symm, ?_, fun _ _ _ _ _ _ _ _ => rfl⟩
  intro i p hp
  exact forall2_getElem_some hrel i p hp

theorem flatten_core_frame_witness :
    flatten_core Real.sqrt Real.tan Real.arctan (20 : ℝ) 2 20
      [⟨10, 10, 5, 10⟩, ⟨10, 10, 5, 20⟩, ⟨10, 10, 15, 30⟩] =
      some [⟨10, 10, 0, 10⟩, ⟨10, 10, 0, 20⟩, ⟨10, 10, 10, 30⟩] ∧
    (([⟨10, 10, 0, 10⟩, ⟨10, 10, 0, 20⟩, ⟨10, 10, 10, 30⟩] : List (lidar_point ℝ)).length =
      ([⟨10, 10, 5, 10⟩, ⟨10, 10, 5, 20⟩, ⟨10, 10, 15, 30⟩] : List (lidar_point ℝ)).length ∧
    (∀ (i : Nat) (p : lidar_point ℝ),
      ([⟨10, 10, 5, 10⟩, ⟨10, 10, 5, 20⟩, ⟨10, 10, 15, 30⟩] : List (lidar_point ℝ))[i]? = some p →
      ∃ q, ([⟨10, 10, 0, 10⟩, ⟨10, 10, 0, 20⟩, ⟨10, 10, 10, 30⟩] : List (lidar_point ℝ))[i]?
        = some q ∧ q.intensity = p.intensity) ∧
    (∀ (p : lidar_point ℝ) (bl br tl tr x_ratio y_ratio scale : ℝ),
      (adjust_point Real.sqrt Real.tan Real.arctan p bl br tl tr x_ratio y_ratio scale).intensity
        = p.intensity)) :=
  ⟨flatten_shifted_scenario.2,
    flatten_core_frame Real.sqrt Real.tan Real.arctan 20 2 20 _ _ flatten_shifted_scenario.2⟩

end PipelineTheorems

section CircularArrayTheorems

variable {T : Type}

/-- C22. `circular_array` keeps the most recent elements: for every capacity
`c ≥ 1` and every sequence `xs` inserted one by one into a fresh
`circular_array(c)`, all insertions succeed, `size()` is `min(|xs|, c)` and
`as_vec()` is the last `min(|xs|, c)` elements of `xs` in insertion order; the
counters satisfy `start_index + num_els = |xs|`. Capacity 10 after inserting
`0..11` gives `[2, ..., 11]`. -/
theorem circular_array_keeps_recent (c : Int) (raw xs : List T) (hc : 1 ≤ c)
    (hraw : (raw.length : Int) = c) :
    (∃ ca, (circular_array.new c raw).insert_all xs = some ca ∧
      ca.size = min (xs.length : Int) c ∧
      ca.as_vec = some (xs.drop (xs.length - min xs.length c.toNat)) ∧
      (xs.drop (xs.length - min xs.length c.toNat)).length = min xs.length c.toNat ∧
      ca.start_index + ca.num_els = (xs.length : Int)) ∧
    ((circular_array.new 10 (List.replicate 10 (77 : Int))).insert_all
      [0, 1, 2, 3, 4, 5, 6, 7, 8, 9, 10, 11]).bind circular_array.as_vec =
      some [2, 3, 4, 5, 6, 7, 8, 9, 10, 11] := by
  refine ⟨?_, by decide⟩
  have hcn : c = ((c.toNat : Nat) : Int) := (Int.toNat_of_nonneg (by omega)).symm
  have hn : 1 ≤ c.toNat := by omega
  have h0 := ca_inv_new c.toNat raw (by omega)
  rw [← hcn] at h0
  obtain ⟨ca, hca, hinv⟩ := ca_inv_insert_all c.toNat hn xs _ [] h0
  rw [List.nil_append] at hinv
  refine ⟨ca, hca, ?_, ca_inv_as_vec c.toNat hn ca xs hinv, ?_, ?_⟩
  · obtain ⟨_, _, hnum, _, _⟩ := hinv
    simp only [circular_array.size, hnum]
    omega
  · rw [List.length_drop]; omega
  · obtain ⟨_, _, hnum, hstart, _⟩ := hinv
    rw [hnum, hstart]
    omega

theorem circular_array_keeps_recent_witness :
    (1 : Int) ≤ 3 ∧ (([7, 7, 7] : List Int).length : Int) = 3 ∧
    ((∃ ca, (circular_array.new 3 ([7, 7, 7] : List Int)).insert_all [1, 2, 3, 4, 5]
        = some ca ∧
      ca.size = min (([1, 2, 3, 4, 5] : List Int).length : Int) 3 ∧
      ca.as_vec = some (([1, 2, 3, 4, 5] : List Int).drop
        (([1, 2, 3, 4, 5] : List Int).length
          - min ([1, 2, 3, 4, 5] : List Int).length (3 : Int).toNat)) ∧
      (([1, 2, 3, 4, 5] : List Int).drop
        (([1, 2, 3, 4, 5] : List Int).length
          - min ([1, 2, 3, 4, 5] : List Int).length (3 : Int).toNat)).length
        = min ([1, 2, 3, 4, 5] : List Int).length (3 : Int).toNat ∧
      ca.start_index + ca.num_els = (([1, 2, 3, 4, 5] : List Int).length : Int)) ∧
    ((circular_array.new 10 (List.replicate 10 (77 : Int))).insert_all
      [0, 1, 2, 3, 4, 5, 6, 7, 8, 9, 10, 11]).bind circular_array.as_vec =
      some [2, 3, 4, 5, 6, 7, 8, 9, 10, 11]) :=
  ⟨by decide, by decide,
    circular_array_keeps_recent 3 [7, 7, 7] [1, 2, 3, 4, 5] (by decide) (by decide)⟩

/-- C23. `circular_array::min_value` is the minimum of the retained window: for
every capacity `c ≥ 1` and every non-empty insertion sequence, `min_value()`
is an element of `as_vec()` that is below every element of `as_vec()`, although
the running minimum starts from the raw slot 0. Capacity 10 after inserting
`0..11` gives 2. -/
theorem circular_array_min_value [LinearOrder T] (c : Int) (raw xs : List T) (hc : 1 ≤ c)
    (hraw : (raw.length : Int) = c) (hne : xs ≠ []) :
    (∃ ca m v, (circular_array.new c raw).insert_all xs = some ca ∧
      ca.min_value = some m ∧ ca.as_vec = some v ∧ m ∈ v ∧ ∀ e ∈ v, m ≤ e) ∧
    ((circular_array.new 10 (List.replicate 10 (77 : Int))).insert_all
      [0, 1, 2, 3, 4, 5, 6, 7, 8, 9, 10, 11]).bind circular_array.min_value = some 2 := by
  refine ⟨?_, by decide⟩
  have hcn : c = ((c.toNat : Nat) : Int) := (Int.toNat_of_nonneg (by omega)).symm
  have hn : 1 ≤ c.toNat := by omega
  have h0 := ca_inv_new c.toNat raw (by omega)
  rw [← hcn] at h0
  obtain ⟨ca, hca, hinv⟩ := ca_inv_insert_all c.toNat hn xs _ [] h0
  rw [List.nil_append] at hinv
  obtain ⟨m, hm, hmem, hmin⟩ := ca_min_value_of_inv c.toNat hn ca xs hne hinv
  exact ⟨ca, m, _, hca, hm, ca_inv_as_vec c.toNat hn ca xs hinv, hmem, hmin⟩

theorem circular_array_min_value_witness :
    (1 : Int) ≤ 3 ∧ (([7, 7, 7] : List Int).length : Int) = 3 ∧
    ([4, 2, 9, 6, 8] : List Int) ≠ [] ∧
    ((∃ ca m v, (circular_array.new 3 ([7, 7, 7] : List Int)).insert_all [4, 2, 9, 6, 8]
        = some ca ∧
      ca.min_value = some m ∧ ca.as_vec = some v ∧ m ∈ v ∧ ∀ e ∈ v, m ≤ e) ∧
    ((circular_array.new 10 (List.replicate 10 (77 : Int))).insert_all
      [0, 1, 2, 3, 4, 5, 6, 7, 8, 9, 10, 11]).bind circular_array.min_value = some 2) :=
  ⟨by decide, by decide, by decide,
    circular_array_min_value 3 [7, 7, 7] [4, 2, 9, 6, 8] (by decide) (by decide) (by decide)⟩

end CircularArrayTheorems

section SelectionTheorems

variable {α : Type} [LinearOrderedField α]

/-- C26. Floor selection is in bounds and bounded by the data: for a cell with
`count > min_points` values, `k = count / 20` is below `count`, the sorted lookup
succeeds, the selected floor height is one of the cell's values, lies between
the cell's minimum and maximum, and at least `k + 1` of the values are `≤` it
while at least `count - k` are `≥` it. -/
theorem floor_selection_in_bounds (min_points : Nat) (cell : List α)
    (hlen : cell.length > min_points) :
    cell.length / 20 < cell.length ∧
    ∃ v, cell_floor min_points PERCENTILE_DIVISOR cell = some v ∧ v ∈ cell ∧
      (∃ mn ∈ cell, ∃ mx ∈ cell,
        (∀ e ∈ cell, mn ≤ e) ∧ (∀ e ∈ cell, e ≤ mx) ∧ mn ≤ v ∧ v ≤ mx) ∧
      cell.length / 20 + 1 ≤ cell.countP (fun e => decide (e ≤ v)) ∧
      cell.length - cell.length / 20 ≤ cell.countP (fun e => decide (v ≤ e)) := by
  have hk : cell.length / 20 < cell.length :=
    cell_floor_index_lt min_points 20 cell.length (by decide) hlen
  have hperm := List.perm_insertionSort (fun a b : α => a ≤ b) cell
  have hsorted := List.sorted_insertionSort (fun a b : α => a ≤ b) cell
  have hk2 : cell.length / 20 < (cell.insertionSort (fun a b => a ≤ b)).length := by
    rw [hperm.length_eq]; exact hk
  have hv_mem : (cell.insertionSort (fun a b => a ≤ b))[cell.length / 20] ∈ cell :=
    hperm.mem_iff.mp (List.getElem_mem hk2)
  have hne : cell ≠ [] := by
    intro h; rw [h] at hk; simp at hk
  obtain ⟨mn, hmn, hmin⟩ := exists_min_mem cell hne
  obtain ⟨mx, hmx, hmax⟩ := exists_max_mem cell hne
  obtain ⟨c1, c2⟩ := sorted_rank_counts _ hsorted (cell.length / 20) hk2
  refine ⟨hk, (cell.insertionSort (fun a b => a ≤ b))[cell.length / 20], ?_, hv_mem,
    ⟨mn, hmn, mx, hmx, hmin, hmax, hmin _ hv_mem, hmax _ hv_mem⟩, ?_, ?_⟩
  · simp only [cell_floor, hlen, if_true, PERCENTILE_DIVISOR]
    exact List.getElem?_eq_getElem hk2
  · rw [← hperm.countP_eq]
    exact c1
  · rw [← hperm.countP_eq]
    have hl := hperm.length_eq
    omega

theorem floor_selection_in_bounds_witness :
    sample_cell.length > MIN_POINTS_PER_BLOCK ∧
    (sample_cell.length / 20 < sample_cell.length ∧
    ∃ v, cell_floor MIN_POINTS_PER_BLOCK PERCENTILE_DIVISOR sample_cell = some v ∧
      v ∈ sample_cell ∧
      (∃ mn ∈ sample_cell, ∃ mx ∈ sample_cell,
        (∀ e ∈ sample_cell, mn ≤ e) ∧ (∀ e ∈ sample_cell, e ≤ mx) ∧ mn ≤ v ∧ v ≤ mx) ∧
      sample_cell.length / 20 + 1 ≤ sample_cell.countP (fun e => decide (e ≤ v)) ∧
      sample_cell.length - sample_cell.length / 20 ≤
        sample_cell.countP (fun e => decide (v ≤ e))) :=
  ⟨by simp [sample_cell, MIN_POINTS_PER_BLOCK],
    floor_selection_in_bounds MIN_POINTS_PER_BLOCK sample_cell
      (by simp [sample_cell, MIN_POINTS_PER_BLOCK])⟩

end SelectionTheorems

section FilenameTheorems

/-- C27. `filename_append` splits at the first dot: for a file name `f` that
contains a `'.'`, with `i` the index of its first `'.'`, the result is
`f[0..i) ++ suffix ++ f[i..]`; removing the `|suffix|` characters at position
`i` restores `f`, and `f` is a subsequence of the result. `scan.pcd` with
`_flat` gives `scan_flat.pcd`. -/
theorem filename_append_first_dot (f suffix : List Char) (h : '.' ∈ f) :
    ∃ i : Nat, string_find f '.' = (i : Int) ∧ f[i]? = some '.' ∧ '.' ∉ f.take i ∧
      filename_append f suffix = some (f.take i ++ suffix ++ f.drop i) ∧
      (f.take i ++ suffix ++ f.drop i).take i ++
        (f.take i ++ suffix ++ f.drop i).drop (i + suffix.length) = f ∧
      f.Sublist (f.take i ++ suffix ++ f.drop i) ∧
      filename_append ['s', 'c', 'a', 'n', '.', 'p', 'c', 'd'] ['_', 'f', 'l', 'a', 't'] =
        some ['s', 'c', 'a', 'n', '_', 'f', 'l', 'a', 't', '.', 'p', 'c', 'd'] := by
  obtain ⟨i, h1, h2, h3, h4⟩ := find_first_of_mem '.' f h
  have hfind : string_find f '.' = (i : Int) := by simp [string_find, h1]
  have hlen : (f.take i).length = i := by rw [List.length_take]; omega
  refine ⟨i, hfind, h3, h4, ?_, ?_, ?_, by decide⟩
  · have hb : string_slice f 0 (i : Int) = some (f.take i) := by
      simp [string_slice, string_substr]
    have he : string_slice f (i : Int) (f.length : Int) = some (f.drop i) := by
      have h5 : ¬ ((f.length : Int) < (i : Int)) := by omega
      have h6 : ¬ ((f.length : Int) - (i : Int) < 0) := by omega
      have h7 : ((f.length : Int) - (i : Int)).toNat = f.length - i := by omega
      simp only [string_slice, string_substr, h5, h6, h7, Int.toNat_ofNat, or_false,
        if_false, Int.natCast_nonneg, not_lt.mpr]
      rw [List.take_of_length_le (by simp)]
    simp only [filename_append, hfind, hb, he]
  · rw [List.append_assoc, List.take_left' hlen]
    have : i + suffix.length = (f.take i ++ suffix).length := by
      rw [List.length_append, hlen]
    rw [← List.append_assoc, this, List.drop_left, List.take_append_drop]
  · conv_lhs => rw [← List.take_append_drop i f]
    exact List.Sublist.append (List.sublist_append_left _ _) (List.Sublist.refl _)

theorem filename_append_first_dot_witness :
    '.' ∈ ['a', '.', 'b', '.', 'c'] ∧
    ∃ i : Nat, string_find ['a', '.', 'b', '.', 'c'] '.' = (i : Int) ∧
      (['a', '.', 'b', '.', 'c'] : List Char)[i]? = some '.' ∧
      '.' ∉ (['a', '.', 'b', '.', 'c'] : List Char).take i ∧
      filename_append ['a', '.', 'b', '.', 'c'] ['_', 'x'] =
        some ((['a', '.', 'b', '.', 'c'] : List Char).take i ++ ['_', 'x']
          ++ (['a', '.', 'b', '.', 'c'] : List Char).drop i) ∧
      ((['a', '.', 'b', '.', 'c'] : List Char).take i ++ ['_', 'x']
          ++ (['a', '.', 'b', '.', 'c'] : List Char).drop i).take i ++
        ((['a', '.', 'b', '.', 'c'] : List Char).take i ++ ['_', 'x']
          ++ (['a', '.', 'b', '.', 'c'] : List Char).drop i).drop
            (i + (['_', 'x'] : List Char).length) = ['a', '.', 'b', '.', 'c'] ∧
      (['a', '.', 'b', '.', 'c'] : List Char).Sublist
        ((['a', '.', 'b', '.', 'c'] : List Char).take i ++ ['_', 'x']
          ++ (['a', '.', 'b', '.', 'c'] : List Char).drop i) ∧
      filename_append ['s', 'c', 'a', 'n', '.', 'p', 'c', 'd'] ['_', 'f', 'l', 'a', 't'] =
        some ['s', 'c', 'a', 'n', '_', 'f', 'l', 'a', 't', '.', 'p', 'c', 'd'] :=
  ⟨by decide, filename_append_first_dot ['a', '.', 'b', '.', 'c'] ['_', 'x'] (by decide)⟩

end FilenameTheorems

/-! ## Theorems of the binary32 layer -/

section CoverageTheorems

variable {α : Type} [LinearOrderedField α] [FloorRing α]

/-- C4 (amended). Grid coverage in binary32: for `a ≥ 0`, `b > 0` and
`a / b ≤ 2 ^ 24`, `ceiling_divide a b` is the ceiling `n` of the rounded
quotient; `(n - 1) * b < a < (n + 1) * b`, so `n` cells are minimal and fall
short of covering `a` by less than one cell; `n` is the least integer with
`n * b ≥ a` when the division is exact, in particular `ceiling_divide (k * b) b`
is `k` for `0 ≤ k ≤ 2 ^ 24`. Hence for a box with `minx ≤ maxx`, `miny ≤ maxy`
and `section_len > 0`, `compute_grid` returns `(height, width)` with the same
bounds for the rounded extents `dy = maxy - miny` and `dx = maxx - minx`, and
the grid covers the box, minimally, when the subtractions and the divisions are
exact. -/
theorem ceiling_divide_least_grid_coverage (a b : α) (k : Int) (g : grid α) (box : bbox α)
    (ha : 0 ≤ a) (hb : 0 < b) (hab : a / b ≤ (2 : α) ^ 24)
    (hk0 : 0 ≤ k) (hk1 : k ≤ 2 ^ 24)
    (hx : box.minx ≤ box.maxx) (hy : box.miny ≤ box.maxy) (hs : 0 < g.section_len)
    (hdx : f32 (box.maxx - box.minx) / g.section_len ≤ (2 : α) ^ 24)
    (hdy : f32 (box.maxy - box.miny) / g.section_len ≤ (2 : α) ^ 24) :
    (∃ n : Int, ceiling_divide_f32 a b = some n ∧ n = Int.ceil (f32 (a / b)) ∧
      (((n - 1 : Int) : Int) : α) * b < a ∧ a < (((n + 1 : Int) : Int) : α) * b ∧
      (f32 (a / b) = a / b → a ≤ (n : α) * b ∧ ∀ m : Int, a ≤ (m : α) * b → n ≤ m)) ∧
    ceiling_divide_f32 ((k : α) * b) b = some k ∧
    (∃ h w : Int, (g.compute_grid_f32 box).map (fun r => r.2) = some (h, w) ∧
      ((((h - 1 : Int) : Int) : α) * g.section_len < f32 (box.maxy - box.miny) ∧
        f32 (box.maxy - box.miny) < (((h + 1 : Int) : Int) : α) * g.section_len) ∧
      ((((w - 1 : Int) : Int) : α) * g.section_len < f32 (box.maxx - box.minx) ∧
        f32 (box.maxx - box.minx) < (((w + 1 : Int) : Int) : α) * g.section_len) ∧
      (f32 (box.maxy - box.miny) = box.maxy - box.miny →
        f32 ((box.maxy - box.miny) / g.section_len) = (box.maxy - box.miny) / g.section_len →
        (h : α) * g.section_len ≥ box.maxy - box.miny ∧
        (((h - 1 : Int) : Int) : α) * g.section_len < box.maxy - box.miny) ∧
      (f32 (box.maxx - box.minx) = box.maxx - box.minx →
        f32 ((box.maxx - box.minx) / g.section_len) = (box.maxx - box.minx) / g.section_len →
        (w : α) * g.section_len ≥ box.maxx - box.minx ∧
        (((w - 1 : Int) : Int) : α) * g.section_len < box.maxx - box.minx)) := by
  obtain ⟨c1, c2, c3, c4⟩ := ceiling_divide_f32_cover a b ha hb hab
  have hdx0 : 0 ≤ f32 (box.maxx - box.minx) := f32_nonneg _ (by linarith)
  have hdy0 : 0 ≤ f32 (box.maxy - box.miny) := f32_nonneg _ (by linarith)
  obtain ⟨x1, x2, x3, x4⟩ := ceiling_divide_f32_cover _ g.section_len hdx0 hs hdx
  obtain ⟨y1, y2, y3, y4⟩ := ceiling_divide_f32_cover _ g.section_len hdy0 hs hdy
  refine ⟨⟨_, c1, rfl, c2, c3, c4⟩, ceiling_divide_f32_multiple b k hb hk0 hk1,
    ⟨_, _, ?_, ⟨y2, y3⟩, ⟨x2, x3⟩, ?_, ?_⟩⟩
  · simp only [grid.compute_grid_f32, x1, y1, Option.map_some']
  · intro e1 e2
    have h := (y4 (by rw [e1]; exact e2)).1
    constructor
    · calc box.maxy - box.miny = f32 (box.maxy - box.miny) := e1.symm
        _ ≤ _ := h
    · calc _ < f32 (box.maxy - box.miny) := y2
        _ = _ := e1
  · intro e1 e2
    have h := (x4 (by rw [e1]; exact e2)).1
    constructor
    · calc box.maxx - box.minx = f32 (box.maxx - box.minx) := e1.symm
        _ ≤ _ := h
    · calc _ < f32 (box.maxx - box.minx) := x2
        _ = _ := e1

theorem ceiling_divide_least_grid_coverage_witness :
    (0 : ℚ) ≤ 41 ∧ (0 : ℚ) < 20 ∧ (41 : ℚ) / 20 ≤ 2 ^ 24 ∧ (0 : Int) ≤ 2 ∧ (2 : Int) ≤ 2 ^ 24 ∧
    sample_box.minx ≤ sample_box.maxx ∧ sample_box.miny ≤ sample_box.maxy ∧
    0 < sample_grid.section_len ∧
    f32 (sample_box.maxx - sample_box.minx) / sample_grid.section_len ≤ (2 : ℚ) ^ 24 ∧
    f32 (sample_box.maxy - sample_box.miny) / sample_grid.section_len ≤ (2 : ℚ) ^ 24 ∧
    ceiling_divide_f32 (41 : ℚ) 20 = some 3 ∧
    ceiling_divide_f32 (((2 : Int) : ℚ) * 20) 20 = some 2 ∧
    (sample_grid.compute_grid_f32 sample_box).map (fun r => r.2) = some (1, 3) := by
  have d1 : f32 (sample_box.maxx - sample_box.minx) = 41 :=
    f32_eq _ _ 41 0 (by norm_num [sample_box]) (by norm_num) (by norm_num) (by norm_num)
  have d2 : f32 (sample_box.maxy - sample_box.miny) = 20 :=
    f32_eq _ _ 20 0 (by norm_num [sample_box]) (by norm_num) (by norm_num) (by norm_num)
  have q1 : f32 ((41 : ℚ) / 20) = 8598323 / 4194304 :=
    f32_eval _ _ (1) 8598323 (by norm_num) (by norm_num) (Or.inr (by norm_num)) (by norm_num)
      (by norm_num) (by norm_num)
  have q2 : f32 ((20 : ℚ) / 20) = 1 :=
    f32_eq _ _ 1 0 (by norm_num) (by norm_num) (by norm_num) (by norm_num)
  have cl1 : Int.ceil ((8598323 : ℚ) / 4194304) = 3 := by
    rw [Int.ceil_eq_iff]
    constructor <;> norm_num
  have hsl : sample_grid.section_len = 20 := rfl
  have hdx : f32 (sample_box.maxx - sample_box.minx) / sample_grid.section_len
      ≤ (2 : ℚ) ^ 24 := by
    rw [d1, hsl]; norm_num
  have hdy : f32 (sample_box.maxy - sample_box.miny) / sample_grid.section_len
      ≤ (2 : ℚ) ^ 24 := by
    rw [d2, hsl]; norm_num
  have key := ceiling_divide_least_grid_coverage (41 : ℚ) 20 2 sample_grid sample_box
    (by norm_num) (by norm_num) (by norm_num) (by norm_num) (by norm_num)
    (by norm_num [sample_box]) (by norm_num [sample_box]) (by norm_num [sample_grid]) hdx hdy
  obtain ⟨⟨n, hn1, hn2, _⟩, hk, ⟨h, w, hg, _⟩⟩ := key
  refine ⟨by norm_num, by norm_num, by norm_num, by norm_num, by norm_num,
    by norm_num [sample_box], by norm_num [sample_box], by norm_num [sample_grid], hdx, hdy,
    ?_, hk, ?_⟩
  · rw [hn1, hn2, q1, cl1]
  · have y1 := (ceiling_divide_f32_cover (f32 (sample_box.maxy - sample_box.miny))
      sample_grid.section_len (by rw [d2]; norm_num) (by norm_num [sample_grid]) hdy).1
    have x1 := (ceiling_divide_f32_cover (f32 (sample_box.maxx - sample_box.minx))
      sample_grid.section_len (by rw [d1]; norm_num) (by norm_num [sample_grid]) hdx).1
    rw [d2, hsl, q2] at y1
    rw [d1, hsl, q1, cl1] at x1
    rw [Int.ceil_one] at y1
    simp only [grid.compute_grid_f32, hsl, d1, d2, x1, y1, Option.map_some']

/-- C4 (counterexample). In binary32, for `a = 0.6f` and `b = 0.2f` the rounded
quotient is `3`, so `ceiling_divide a b` is `3` although `3 * b < a`: the least
integer `n` with `n * b ≥ a` is `4`. And for the box
`(minx, miny, maxx, maxy) = (-2 ^ (-21), 0, 20, 0)` and `section_len = 20`,
`compute_grid` returns the width `1` although `1 * 20 < maxx - minx`. -/
theorem ceiling_divide_f32_short_of_cover :
    (0 : ℚ) ≤ 5033165 / 8388608 ∧ (0 : ℚ) < 13421773 / 67108864 ∧
    f32 ((5033165 : ℚ) / 8388608) = 5033165 / 8388608 ∧
    f32 ((13421773 : ℚ) / 67108864) = 13421773 / 67108864 ∧
    ceiling_divide_f32 ((5033165 : ℚ) / 8388608) (13421773 / 67108864) = some 3 ∧
    ((3 : Int) : ℚ) * (13421773 / 67108864) < 5033165 / 8388608 ∧
    (-(1 / 2097152) : ℚ) ≤ 20 ∧
    ((grid.new (20 : ℚ)).compute_grid_f32 ⟨-(1 / 2097152), 0, 20, 0⟩).map (fun r => r.2)
      = some (0, 1) ∧
    ((1 : Int) : ℚ) * (grid.new (20 : ℚ)).section_len < 20 - -(1 / 2097152) := by
  have q1 : f32 ((5033165 : ℚ) / 8388608 / (13421773 / 67108864)) = 3 :=
    f32_eval _ _ (1) 12582912 (by norm_num) (by norm_num) (Or.inr (by norm_num)) (by norm_num)
      (by norm_num) (by norm_num)
  have c1 : ceiling_divide_f32 ((5033165 : ℚ) / 8388608) (13421773 / 67108864) = some 3 := by
    rw [ceiling_divide_f32_eq_ceil _ _ (by rw [q1]; norm_num) (by rw [q1]; norm_num), q1]
    norm_num
  have d1 : f32 ((20 : ℚ) - -(1 / 2097152)) = 20 :=
    f32_eval _ _ (4) 10485760 (by norm_num) (by norm_num) (Or.inr (by norm_num)) (by norm_num)
      (by norm_num) (by norm_num)
  have d2 : f32 ((0 : ℚ) - 0) = 0 := by rw [sub_zero]; exact f32_zero
  have q2 : f32 ((20 : ℚ) / 20) = 1 :=
    f32_eq _ _ 1 0 (by norm_num) (by norm_num) (by norm_num) (by norm_num)
  have q3 : f32 ((0 : ℚ) / 20) = 0 := by rw [zero_div]; exact f32_zero
  have c2 : ceiling_divide_f32 (20 : ℚ) 20 = some 1 := by
    rw [ceiling_divide_f32_eq_ceil _ _ (by rw [q2]; norm_num) (by rw [q2]; norm_num), q2]
    norm_num
  have c3 : ceiling_divide_f32 (0 : ℚ) 20 = some 0 := by
    rw [ceiling_divide_f32_eq_ceil _ _ (by rw [q3]) (by rw [q3]; norm_num), q3]
    norm_num
  refine ⟨by norm_num, by norm_num,
    f32_eq _ _ 5033165 (-23) (by norm_num) (by norm_num) (by norm_num) (by norm_num),
    f32_eq _ _ 13421773 (-26) (by norm_num) (by norm_num) (by norm_num) (by norm_num),
    c1, by norm_num, by norm_num, ?_, by norm_num [grid.new]⟩
  simp only [grid.compute_grid_f32, grid.new, d1, d2, c2, c3, Option.map_some']

end CoverageTheorems

section IndexTheorems

variable {α : Type} [LinearOrderedField α] [FloorRing α]

/-- C5 (amended). In binary32, with `qx` the rounded quotient
`(x - base_x)/section_len` and `qy` the rounded quotient
`(y - base_y)/section_len` (each computed with a rounded subtraction and a
rounded division), whenever both fit a 32-bit `int`, `to_indices` returns
`(row, col)` with each index the truncation toward zero of its quotient and no
clamping; on each axis separately, for `x ≥ base_x` the column is
`floor(qx) ≥ 0` and for `y ≥ base_y` the row is `floor(qy) ≥ 0`; the index is
the floor of the exact quotient when the subtraction and the division on that
axis are exact, and also when the coordinate, the origin and `section_len` are
the multiples `X * u ≥ B * u` and `S * u` of a power of two `u = 2 ^ k`,
`-149 ≤ k ≤ 100`, with `0 < S ≤ 2 ^ 21`, `|B| ≤ 2 ^ 24`, `|X| ≤ 2 ^ 24` and
`X - B ≤ 2 ^ 22`. -/
theorem to_indices_floor_of_ge (g : grid α) (x y : α) (hs : 0 < g.section_len)
    (hrx : -(2 : α) ^ 31 - 1 < f32 (f32 (x - g.base_x) / g.section_len) ∧
      f32 (f32 (x - g.base_x) / g.section_len) < (2 : α) ^ 31)
    (hry : -(2 : α) ^ 31 - 1 < f32 (f32 (y - g.base_y) / g.section_len) ∧
      f32 (f32 (y - g.base_y) / g.section_len) < (2 : α) ^ 31) :
    g.to_indices_f32 x y =
      some (c_int_cast (f32 (f32 (y - g.base_y) / g.section_len)),
        c_int_cast (f32 (f32 (x - g.base_x) / g.section_len))) ∧
    (g.base_x ≤ x →
      c_int_cast (f32 (f32 (x - g.base_x) / g.section_len))
        = Int.floor (f32 (f32 (x - g.base_x) / g.section_len)) ∧
      0 ≤ Int.floor (f32 (f32 (x - g.base_x) / g.section_len)) ∧
      (f32 (x - g.base_x) = x - g.base_x →
        f32 ((x - g.base_x) / g.section_len) = (x - g.base_x) / g.section_len →
        c_int_cast (f32 (f32 (x - g.base_x) / g.section_len))
          = Int.floor ((x - g.base_x) / g.section_len))) ∧
    (g.base_y ≤ y →
      c_int_cast (f32 (f32 (y - g.base_y) / g.section_len))
        = Int.floor (f32 (f32 (y - g.base_y) / g.section_len)) ∧
      0 ≤ Int.floor (f32 (f32 (y - g.base_y) / g.section_len)) ∧
      (f32 (y - g.base_y) = y - g.base_y →
        f32 ((y - g.base_y) / g.section_len) = (y - g.base_y) / g.section_len →
        c_int_cast (f32 (f32 (y - g.base_y) / g.section_len))
          = Int.floor ((y - g.base_y) / g.section_len))) ∧
    (∀ k B S X : Int, -149 ≤ k → k ≤ 100 → 0 < S → S ≤ 2 ^ 21 →
      |B| ≤ 2 ^ 24 → |X| ≤ 2 ^ 24 → B ≤ X → X - B ≤ 2 ^ 22 →
      g.section_len = (S : α) * (2 : α) ^ k → g.base_x = (B : α) * (2 : α) ^ k →
      x = (X : α) * (2 : α) ^ k →
      c_int_cast (f32 (f32 (x - g.base_x) / g.section_len))
        = Int.floor ((x - g.base_x) / g.section_len)) ∧
    (∀ k B S Y : Int, -149 ≤ k → k ≤ 100 → 0 < S → S ≤ 2 ^ 21 →
      |B| ≤ 2 ^ 24 → |Y| ≤ 2 ^ 24 → B ≤ Y → Y - B ≤ 2 ^ 22 →
      g.section_len = (S : α) * (2 : α) ^ k → g.base_y = (B : α) * (2 : α) ^ k →
      y = (Y : α) * (2 : α) ^ k →
      c_int_cast (f32 (f32 (y - g.base_y) / g.section_len))
        = Int.floor ((y - g.base_y) / g.section_len)) := by
  have aligned : ∀ (base v : α) (k B S X : Int), -149 ≤ k → 0 < S → S ≤ 2 ^ 21 → B ≤ X →
      X - B ≤ 2 ^ 22 → g.section_len = (S : α) * (2 : α) ^ k → base = (B : α) * (2 : α) ^ k →
      v = (X : α) * (2 : α) ^ k →
      -(2 : α) ^ 31 - 1 < f32 (f32 (v - base) / g.section_len) ∧
        f32 (f32 (v - base) / g.section_len) < (2 : α) ^ 31 →
      c_int_cast (f32 (f32 (v - base) / g.section_len))
        = Int.floor ((v - base) / g.section_len) := by
    intro base v k B S X hk hS hS1 hBX hD es eb ev hr
    obtain ⟨_, _, _, h4⟩ := index_axis_f32 (α := α) k B S X hk hS hS1 hBX hD
    have h2k : (2 : α) ^ k ≠ 0 := ne_of_gt (zpow_pos (by norm_num) k)
    have hSα : (S : α) ≠ 0 := by
      have : (0 : α) < (S : α) := by exact_mod_cast hS
      exact ne_of_gt this
    have eq : (v - base) / g.section_len = ((X - B : Int) : α) / (S : α) := by
      rw [es, eb, ev]
      push_cast
      field_simp
      ring
    rw [← es, ← eb, ← ev] at h4
    simp only [c_int_cast32, if_pos hr, Option.some.injEq] at h4
    rw [h4, eq]
  have axis : ∀ (base v : α), base ≤ v →
      c_int_cast (f32 (f32 (v - base) / g.section_len))
        = Int.floor (f32 (f32 (v - base) / g.section_len)) ∧
      0 ≤ Int.floor (f32 (f32 (v - base) / g.section_len)) ∧
      (f32 (v - base) = v - base →
        f32 ((v - base) / g.section_len) = (v - base) / g.section_len →
        c_int_cast (f32 (f32 (v - base) / g.section_len))
          = Int.floor ((v - base) / g.section_len)) := by
    intro base v hv
    have h1 : 0 ≤ f32 (v - base) := f32_nonneg _ (by linarith)
    have h2 : 0 ≤ f32 (f32 (v - base) / g.section_len) := f32_nonneg _ (div_nonneg h1 hs.le)
    refine ⟨c_int_cast_of_nonneg h2, Int.floor_nonneg.mpr h2, ?_⟩
    intro e1 e2
    rw [c_int_cast_of_nonneg h2, e1, e2]
  refine ⟨?_, axis g.base_x x, axis g.base_y y, ?_, ?_⟩
  · simp only [grid.to_indices_f32, c_int_cast32, if_pos hrx, if_pos hry]
  · intro k B S X hk _ hS hS1 _ _ hBX hD es eb ev
    exact aligned g.base_x x k B S X hk hS hS1 hBX hD es eb ev hrx
  · intro k B S Y hk _ hS hS1 _ _ hBY hD es eb ev
    exact aligned g.base_y y k B S Y hk hS hS1 hBY hD es eb ev hry

theorem to_indices_floor_of_ge_witness :
    0 < sample_grid.section_len ∧
    (-(2 : ℚ) ^ 31 - 1 < f32 (f32 (47 - sample_grid.base_x) / sample_grid.section_len) ∧
      f32 (f32 (47 - sample_grid.base_x) / sample_grid.section_len) < (2 : ℚ) ^ 31) ∧
    (-(2 : ℚ) ^ 31 - 1 < f32 (f32 (3 - sample_grid.base_y) / sample_grid.section_len) ∧
      f32 (f32 (3 - sample_grid.base_y) / sample_grid.section_len) < (2 : ℚ) ^ 31) ∧
    sample_grid.base_x ≤ 47 ∧ sample_grid.base_y ≤ 3 ∧
    sample_grid.to_indices_f32 47 3 = some (0, 2) ∧
    Int.floor (((47 : ℚ) - sample_grid.base_x) / sample_grid.section_len) = 2 ∧
    Int.floor (((3 : ℚ) - sample_grid.base_y) / sample_grid.section_len) = 0 := by
  have a1 : f32 ((47 : ℚ) - sample_grid.base_x) = 52 :=
    f32_eq _ _ 52 0 (by norm_num [sample_grid]) (by norm_num) (by norm_num) (by norm_num)
  have a2 : f32 ((52 : ℚ) / sample_grid.section_len) = 5452595 / 2097152 :=
    f32_eval _ _ (1) 10905190 (by norm_num [sample_grid]) (by norm_num)
      (Or.inr (by norm_num [sample_grid])) (by norm_num [sample_grid])
      (by norm_num [sample_grid]) (by norm_num)
  have b1 : f32 ((3 : ℚ) - sample_grid.base_y) = 8 :=
    f32_eq _ _ 8 0 (by norm_num [sample_grid]) (by norm_num) (by norm_num) (by norm_num)
  have b2 : f32 ((8 : ℚ) / sample_grid.section_len) = 13421773 / 33554432 :=
    f32_eval _ _ (-2) 13421773 (by norm_num [sample_grid]) (by norm_num)
      (Or.inr (by norm_num [sample_grid])) (by norm_num [sample_grid])
      (by norm_num [sample_grid]) (by norm_num)
  have hs : 0 < sample_grid.section_len := by norm_num [sample_grid]
  have hrx : -(2 : ℚ) ^ 31 - 1 < f32 (f32 (47 - sample_grid.base_x) / sample_grid.section_len) ∧
      f32 (f32 (47 - sample_grid.base_x) / sample_grid.section_len) < (2 : ℚ) ^ 31 := by
    rw [a1, a2]
    constructor <;> norm_num
  have hry : -(2 : ℚ) ^ 31 - 1 < f32 (f32 (3 - sample_grid.base_y) / sample_grid.section_len) ∧
      f32 (f32 (3 - sample_grid.base_y) / sample_grid.section_len) < (2 : ℚ) ^ 31 := by
    rw [b1, b2]
    constructor <;> norm_num
  have hx : sample_grid.base_x ≤ 47 := by norm_num [sample_grid]
  have hy : sample_grid.base_y ≤ 3 := by norm_num [sample_grid]
  have key := to_indices_floor_of_ge sample_grid 47 3 hs hrx hry
  have fx : Int.floor ((5452595 : ℚ) / 2097152) = 2 := by
    rw [Int.floor_eq_iff]
    constructor <;> norm_num
  have fy : Int.floor ((13421773 : ℚ) / 33554432) = 0 := by
    rw [Int.floor_eq_iff]
    constructor <;> norm_num
  have ex := key.2.2.2.1 0 (-5) 20 47 (by norm_num) (by norm_num) (by norm_num) (by norm_num)
    (by norm_num) (by norm_num) (by norm_num) (by norm_num) (by norm_num [sample_grid])
    (by norm_num [sample_grid]) (by norm_num)
  have ey := key.2.2.2.2 0 (-5) 20 3 (by norm_num) (by norm_num) (by norm_num) (by norm_num)
    (by norm_num) (by norm_num) (by norm_num) (by norm_num) (by norm_num [sample_grid])
    (by norm_num [sample_grid]) (by norm_num)
  have cx : c_int_cast (f32 (f32 (47 - sample_grid.base_x) / sample_grid.section_len)) = 2 := by
    rw [(key.2.1 hx).1, a1, a2, fx]
  have cy : c_int_cast (f32 (f32 (3 - sample_grid.base_y) / sample_grid.section_len)) = 0 := by
    rw [(key.2.2.1 hy).1, b1, b2, fy]
  refine ⟨hs, hrx, hry, hx, hy, ?_, ?_, ?_⟩
  · rw [key.1, cx, cy]
  · rw [← ex, cx]
  · rw [← ey, cy]

/-- C5 (counterexample). For the grid with origin `(0, 0)` and
`section_len = 20`, `to_indices (-10) (-10)` is `(0, 0)` while the floors of
`-10/20` are `(-1, -1)`: below the origin the conversion truncates toward zero,
in exact arithmetic and in binary32 alike. And in binary32, for the grid with
origin `base_x = -3 * 2 ^ (-21)` and `section_len = 20`, the point
`x = 20 - 2 ^ (-19) ≥ base_x` gets the column `1` while the floor of the exact
quotient is `0`: the subtraction `x - base_x` rounds up to `20`. -/
theorem to_indices_not_floor_below_origin :
    (grid.mk 20 1 1 0 0 : grid ℚ).to_indices (-10) (-10) = (0, 0) ∧
    (Int.floor (((-10 : ℚ) - 0) / 20), Int.floor (((-10 : ℚ) - 0) / 20)) = (-1, -1) ∧
    (grid.mk 20 1 1 0 0 : grid ℚ).to_indices (-10) (-10) ≠
      (Int.floor (((-10 : ℚ) - (grid.mk 20 1 1 0 0 : grid ℚ).base_y)
          / (grid.mk 20 1 1 0 0 : grid ℚ).section_len),
       Int.floor (((-10 : ℚ) - (grid.mk 20 1 1 0 0 : grid ℚ).base_x)
          / (grid.mk 20 1 1 0 0 : grid ℚ).section_len)) ∧
    (grid.mk 20 1 1 0 0 : grid ℚ).to_indices_f32 (-10) (-10) = some (0, 0) ∧
    (grid.mk 20 1 2 (-(3 / 2097152)) 0 : grid ℚ).base_x ≤ 10485759 / 524288 ∧
    (grid.mk 20 1 2 (-(3 / 2097152)) 0 : grid ℚ).to_indices_f32 (10485759 / 524288) 0
      = some (0, 1) ∧
    Int.floor (((10485759 / 524288 : ℚ) - (grid.mk 20 1 2 (-(3 / 2097152)) 0 : grid ℚ).base_x)
      / (grid.mk 20 1 2 (-(3 / 2097152)) 0 : grid ℚ).section_len) = 0 := by
  have h1 : Int.ceil ((-10 : ℚ) / 20) = 0 := by
    rw [Int.ceil_eq_iff]; norm_num
  have h2 : Int.floor ((-10 : ℚ) / 20) = -1 := by
    rw [Int.floor_eq_iff]; norm_num
  have h3 : ¬ (0 : ℚ) ≤ -10 / 20 := by norm_num
  have e1 : (grid.mk 20 1 1 0 0 : grid ℚ).to_indices (-10) (-10) = (0, 0) := by
    simp only [grid.to_indices, c_int_cast, sub_zero, h1, h3, if_false]
  have a1 : f32 ((-10 : ℚ) - 0) = -10 :=
    f32_eq _ _ (-10) 0 (by norm_num) (by norm_num) (by norm_num) (by norm_num)
  have a2 : f32 ((-10 : ℚ) / 20) = -(1 / 2) :=
    f32_eq _ _ (-1) (-1) (by norm_num) (by norm_num) (by norm_num) (by norm_num)
  have a3 : c_int_cast32 (-(1 / 2) : ℚ) = some 0 := by
    have h4 : Int.ceil (-(1 / 2) : ℚ) = 0 := by
      rw [Int.ceil_eq_iff]; norm_num
    have h5 : ¬ (0 : ℚ) ≤ -(1 / 2) := by norm_num
    have h6 : -(2 : ℚ) ^ 31 - 1 < -(1 / 2) ∧ (-(1 / 2) : ℚ) < 2 ^ 31 := by
      constructor <;> norm_num
    simp only [c_int_cast32, if_pos h6, c_int_cast, if_neg h5, h4]
  have e2 : (grid.mk 20 1 1 0 0 : grid ℚ).to_indices_f32 (-10) (-10) = some (0, 0) := by
    simp only [grid.to_indices_f32, a1, a2, a3]
  have b1 : f32 ((10485759 / 524288 : ℚ) - -(3 / 2097152)) = 20 :=
    f32_eval _ _ (4) 10485760 (by norm_num) (by norm_num) (Or.inr (by norm_num)) (by norm_num)
      (by norm_num) (by norm_num)
  have b2 : f32 ((20 : ℚ) / 20) = 1 :=
    f32_eq _ _ 1 0 (by norm_num) (by norm_num) (by norm_num) (by norm_num)
  have b3 : c_int_cast32 (1 : ℚ) = some 1 := by
    have := c_int_cast32_intCast (α := ℚ) 1 (by norm_num) (by norm_num)
    simpa using this
  have b4 : f32 ((0 : ℚ) - 0) = 0 := by rw [sub_zero]; exact f32_zero
  have b5 : f32 ((0 : ℚ) / 20) = 0 := by rw [zero_div]; exact f32_zero
  have b6 : c_int_cast32 (0 : ℚ) = some 0 := by
    have := c_int_cast32_intCast (α := ℚ) 0 (by norm_num) (by norm_num)
    simpa using this
  have e3 : (grid.mk 20 1 2 (-(3 / 2097152)) 0 : grid ℚ).to_indices_f32 (10485759 / 524288) 0
      = some (0, 1) := by
    simp only [grid.to_indices_f32, b1, b2, b3, b4, b5, b6]
  refine ⟨e1, ?_, ?_, e2, by norm_num, e3, ?_⟩
  · simp only [sub_zero, h2]
  · rw [e1]
    simp only [sub_zero, h2]
    decide
  · rw [Int.floor_eq_iff]
    constructor <;> norm_num

end IndexTheorems

section RoundTripTheorems

variable {α : Type} [LinearOrderedField α] [FloorRing α]

/-- C6 (amended). Cell index round-trip in binary32: for a grid with a binary32
`section_len` in `[2 ^ (-100), 2 ^ 100]` and every valid cell `(r, c)` that is
less than `2 ^ 20` cell sides away from zero on each axis
(`|base_x| + section_len * (c + 1) ≤ 2 ^ 20 * section_len` and
`|base_y| + section_len * (r + 1) ≤ 2 ^ 20 * section_len`), `to_indices` applied
to `center_coords r c` returns `(r, c)`, and each computed centre coordinate is
within `section_len / 8` of the exact one. Moreover, when the origin
`(Bx * u, By * u)` and the cell side `S * u` are integer multiples of a power of
two `u = 2 ^ k`, `-148 ≤ k ≤ 100`, and the centre has at most 24 significant
bits (`2|Bx| + S(2c + 1) ≤ 2 ^ 24` and `2|By| + S(2r + 1) ≤ 2 ^ 24`),
`center_coords` is computed exactly and the round trip holds. -/
theorem to_indices_center_coords (g : grid α) (r c : Int)
    (hsf : f32 g.section_len = g.section_len)
    (hs0 : (2 : α) ^ (-100 : Int) ≤ g.section_len)
    (_hs1 : g.section_len ≤ (2 : α) ^ (100 : Int))
    (hr0 : 0 ≤ r) (_hr : r < g._h) (hc0 : 0 ≤ c) (_hc : c < g._w)
    (hmx : |g.base_x| + g.section_len * ((c : α) + 1) ≤ 2 ^ 20 * g.section_len)
    (hmy : |g.base_y| + g.section_len * ((r : α) + 1) ≤ 2 ^ 20 * g.section_len) :
    g.to_indices_f32 (g.center_coords_f32 r c).1 (g.center_coords_f32 r c).2 = some (r, c) ∧
    |(g.center_coords_f32 r c).1 - (g.center_coords r c).1| ≤ g.section_len / 8 ∧
    |(g.center_coords_f32 r c).2 - (g.center_coords r c).2| ≤ g.section_len / 8 ∧
    (∀ k Bx By S : Int, -148 ≤ k → k ≤ 100 → 0 < S →
      g.section_len = (S : α) * (2 : α) ^ k →
      g.base_x = (Bx : α) * (2 : α) ^ k → g.base_y = (By : α) * (2 : α) ^ k →
      2 * |Bx| + S * (2 * c + 1) ≤ 2 ^ 24 → 2 * |By| + S * (2 * r + 1) ≤ 2 ^ 24 →
      g.center_coords_f32 r c = g.center_coords r c ∧
      g.to_indices_f32 (g.center_coords_f32 r c).1 (g.center_coords_f32 r c).2
        = some (r, c)) := by
  have gx := round_trip_axis_f32 g.base_x g.section_len c hsf hs0 hc0 hmx
  have gy := round_trip_axis_f32 g.base_y g.section_len r hsf hs0 hr0 hmy
  refine ⟨?_, center_axis_f32_near g.base_x g.section_len c hsf hs0 hc0 hmx,
    center_axis_f32_near g.base_y g.section_len r hsf hs0 hr0 hmy, ?_⟩
  · simp only [grid.to_indices_f32, grid.center_coords_f32, gx, gy]
  intro k Bx By S hk _ hS hs hbx hby hmx hmy
  obtain ⟨x1, x2⟩ := center_axis_f32 (α := α) k Bx S c hk hS hc0 hmx
  obtain ⟨y1, y2⟩ := center_axis_f32 (α := α) k By S r hk hS hr0 hmy
  have hcen : g.center_coords_f32 r c = g.center_coords r c := by
    simp only [grid.center_coords_f32, grid.center_coords, hs, hbx, hby, x1, y1]
  refine ⟨hcen, ?_⟩
  have hcc : (0 : α) ≤ (c : α) := by exact_mod_cast hc0
  have hrr : (0 : α) ≤ (r : α) := by exact_mod_cast hr0
  have hfc : Int.floor ((c : α) + 1 / 2) = c := by
    rw [Int.floor_eq_iff]
    constructor <;> linarith
  have hfr : Int.floor ((r : α) + 1 / 2) = r := by
    rw [Int.floor_eq_iff]
    constructor <;> linarith
  have hbound : ∀ n : Int, 0 ≤ n → 2 * n + 1 ≤ 2 ^ 24 → (n : α) + 1 / 2 < (2 : α) ^ 31 := by
    intro n _ h2
    have h3 : (n : α) ≤ (((2 : Int) ^ 24 : Int) : α) := by exact_mod_cast (by omega : n ≤ 2 ^ 24)
    have e : (((2 : Int) ^ 24 : Int) : α) = (2 : α) ^ 24 := by norm_num
    rw [e] at h3
    have h4 : (2 : α) ^ 24 + 1 / 2 < (2 : α) ^ 31 := by norm_num
    linarith
  have hc24 : 2 * c + 1 ≤ 2 ^ 24 := by
    have : 2 * c + 1 ≤ S * (2 * c + 1) := by nlinarith
    have := abs_nonneg Bx
    omega
  have hr24 : 2 * r + 1 ≤ 2 ^ 24 := by
    have : 2 * r + 1 ≤ S * (2 * r + 1) := by nlinarith
    have := abs_nonneg By
    omega
  rw [hcen]
  simp only [grid.to_indices_f32, grid.center_coords, hs, hbx, hby, x2, y2,
    c_int_cast32_of_nonneg _ (by linarith : (0 : α) ≤ (c : α) + 1 / 2) (hbound c hc0 hc24),
    c_int_cast32_of_nonneg _ (by linarith : (0 : α) ≤ (r : α) + 1 / 2) (hbound r hr0 hr24),
    hfc, hfr]

theorem to_indices_center_coords_witness :
    f32 sample_grid.section_len = sample_grid.section_len ∧
    (2 : ℚ) ^ (-100 : Int) ≤ sample_grid.section_len ∧
    sample_grid.section_len ≤ (2 : ℚ) ^ (100 : Int) ∧
    (0 : Int) ≤ 1 ∧ 1 < sample_grid._h ∧ (0 : Int) ≤ 2 ∧ 2 < sample_grid._w ∧
    |sample_grid.base_x| + sample_grid.section_len * (((2 : Int) : ℚ) + 1)
      ≤ 2 ^ 20 * sample_grid.section_len ∧
    |sample_grid.base_y| + sample_grid.section_len * (((1 : Int) : ℚ) + 1)
      ≤ 2 ^ 20 * sample_grid.section_len ∧
    sample_grid.to_indices_f32 (sample_grid.center_coords_f32 1 2).1
      (sample_grid.center_coords_f32 1 2).2 = some (1, 2) ∧
    sample_grid.center_coords_f32 1 2 = (45, 25) ∧
    sample_grid.center_coords 1 2 = (45, 25) := by
  have hsf : f32 sample_grid.section_len = sample_grid.section_len :=
    f32_eq _ _ 20 0 rfl (by norm_num [sample_grid]) (by norm_num) (by norm_num)
  have hs0 : (2 : ℚ) ^ (-100 : Int) ≤ sample_grid.section_len := by
    norm_num [sample_grid]
  have hs1 : sample_grid.section_len ≤ (2 : ℚ) ^ (100 : Int) := by
    norm_num [sample_grid]
  have hmx : |sample_grid.base_x| + sample_grid.section_len * (((2 : Int) : ℚ) + 1)
      ≤ 2 ^ 20 * sample_grid.section_len := by
    norm_num [sample_grid, abs_of_pos]
  have hmy : |sample_grid.base_y| + sample_grid.section_len * (((1 : Int) : ℚ) + 1)
      ≤ 2 ^ 20 * sample_grid.section_len := by
    norm_num [sample_grid, abs_of_pos]
  have key := to_indices_center_coords sample_grid 1 2 hsf hs0 hs1 (by norm_num)
    (by norm_num [sample_grid]) (by norm_num) (by norm_num [sample_grid]) hmx hmy
  have hal := key.2.2.2 0 (-5) (-5) 20 (by norm_num) (by norm_num) (by norm_num)
    (by norm_num [sample_grid]) (by norm_num [sample_grid]) (by norm_num [sample_grid])
    (by norm_num) (by norm_num)
  have hex : sample_grid.center_coords 1 2 = (45, 25) := by
    norm_num [sample_grid, grid.center_coords]
  exact ⟨hsf, hs0, hs1, by norm_num, by norm_num [sample_grid], by norm_num,
    by norm_num [sample_grid], hmx, hmy, key.1, hal.1.trans hex, hex⟩

/-- C6 (counterexample). In binary32, for the grid of 3 by 3 cells with origin
`(2 ^ 24, 2 ^ 24)` and `section_len = 1`, the centre of the valid cell `(0, 1)`
is computed as `(16777218, 16777216)` (the exact centre `16777217.5` is not a
binary32 value), and `to_indices` of it is `(0, 2)`, not `(0, 1)`. -/
theorem center_coords_f32_round_trip_fails :
    (0 : ℚ) < (grid.mk 1 3 3 16777216 16777216 : grid ℚ).section_len ∧
    (0 : Int) ≤ 0 ∧ 0 < (grid.mk 1 3 3 16777216 16777216 : grid ℚ)._h ∧
    (0 : Int) ≤ 1 ∧ 1 < (grid.mk 1 3 3 16777216 16777216 : grid ℚ)._w ∧
    (grid.mk 1 3 3 16777216 16777216 : grid ℚ).center_coords_f32 0 1 = (16777218, 16777216) ∧
    (grid.mk 1 3 3 16777216 16777216 : grid ℚ).to_indices_f32 16777218 16777216
      = some (0, 2) ∧
    (grid.mk 1 3 3 16777216 16777216 : grid ℚ).to_indices_f32
        ((grid.mk 1 3 3 16777216 16777216 : grid ℚ).center_coords_f32 0 1).1
        ((grid.mk 1 3 3 16777216 16777216 : grid ℚ).center_coords_f32 0 1).2
      ≠ some (0, 1) := by
  have a1 : f32 (1 : ℚ) = 1 := f32_one
  have a2 : f64 ((1 : ℚ) + 1 / 2) = 3 / 2 :=
    f64_eq _ _ 3 (-1) (by norm_num) (by norm_num) (by norm_num) (by norm_num)
  have a3 : f64 ((1 : ℚ) * (3 / 2)) = 3 / 2 :=
    f64_eq _ _ 3 (-1) (by norm_num) (by norm_num) (by norm_num) (by norm_num)
  have a4 : f64 ((16777216 : ℚ) + 3 / 2) = 33554435 / 2 :=
    f64_eq _ _ 33554435 (-1) (by norm_num) (by norm_num) (by norm_num) (by norm_num)
  have a5 : f32 ((33554435 : ℚ) / 2) = 16777218 :=
    f32_eval _ _ 24 8388609 (by norm_num) (by norm_num) (Or.inr (by norm_num)) (by norm_num)
      (by norm_num) (by norm_num)
  have b1 : f32 (0 : ℚ) = 0 := f32_zero
  have b2 : f64 ((0 : ℚ) + 1 / 2) = 1 / 2 :=
    f64_eq _ _ 1 (-1) (by norm_num) (by norm_num) (by norm_num) (by norm_num)
  have b3 : f64 ((1 : ℚ) * (1 / 2)) = 1 / 2 :=
    f64_eq _ _ 1 (-1) (by norm_num) (by norm_num) (by norm_num) (by norm_num)
  have b4 : f64 ((16777216 : ℚ) + 1 / 2) = 33554433 / 2 :=
    f64_eq _ _ 33554433 (-1) (by norm_num) (by norm_num) (by norm_num) (by norm_num)
  have b5 : f32 ((33554433 : ℚ) / 2) = 16777216 :=
    f32_eval _ _ 24 8388608 (by norm_num) (by norm_num) (Or.inr (by norm_num)) (by norm_num)
      (by norm_num) (by norm_num)
  have hcen : (grid.mk 1 3 3 16777216 16777216 : grid ℚ).center_coords_f32 0 1
      = (16777218, 16777216) := by
    simp only [grid.center_coords_f32, Int.cast_one, Int.cast_zero, a1, a2, a3, a4, a5,
      b1, b2, b3, b4, b5]
  have c1 : f32 ((16777218 : ℚ) - 16777216) = 2 :=
    f32_eq _ _ 2 0 (by norm_num) (by norm_num) (by norm_num) (by norm_num)
  have c2 : f32 ((2 : ℚ) / 1) = 2 :=
    f32_eq _ _ 2 0 (by norm_num) (by norm_num) (by norm_num) (by norm_num)
  have c3 : c_int_cast32 (2 : ℚ) = some 2 := by
    have := c_int_cast32_intCast (α := ℚ) 2 (by norm_num) (by norm_num)
    simpa using this
  have d1 : f32 ((16777216 : ℚ) - 16777216) = 0 := by
    rw [sub_self]; exact f32_zero
  have d2 : f32 ((0 : ℚ) / 1) = 0 := by
    rw [zero_div]; exact f32_zero
  have d3 : c_int_cast32 (0 : ℚ) = some 0 := by
    have := c_int_cast32_intCast (α := ℚ) 0 (by norm_num) (by norm_num)
    simpa using this
  have hidx : (grid.mk 1 3 3 16777216 16777216 : grid ℚ).to_indices_f32 16777218 16777216
      = some (0, 2) := by
    simp only [grid.to_indices_f32, c1, c2, c3, d1, d2, d3]
  refine ⟨by norm_num, by norm_num, by norm_num, by norm_num, by norm_num, hcen, hidx, ?_⟩
  rw [hcen, hidx]
  decide

end RoundTripTheorems

section FlatGroundTheorems

/-- C9 (amended). Adjustment of flat ground in binary32 (correctly rounded
`sqrt`, library functions with `tan 0 = 0` and `atan 0 = 0`): for a point
`(x, y, z = h)` with binary32 coordinates and the four neighbour heights equal
to `h`, `adjust_point` leaves `x` and `y` unchanged and yields `z = |d|`, where
`d = h - lerp_2d(h, h, h, h, x_ratio, y_ratio)` as computed (provided `d = 0` or
`2 ^ (-63) ≤ |d| < 2 ^ 63`, so that the square of `d` neither underflows nor
overflows). For ratios in `[0, 1]` and `|h| ≥ 2 ^ (-100)` this `z` is at most
`|h| * 2 ^ (-20)`; it is `0` whenever the computed floor equals `h`, as it does
at the ratios `(0, 0)` and `(1, 1)`. -/
theorem adjust_point_flat_ground (tan atan : ℝ → ℝ)
    (x y h x_ratio y_ratio grid_scale : ℝ) (intensity : Int)
    (_hscale : grid_scale ≠ 0) (htan : tan 0 = 0) (hatan : atan 0 = 0)
    (hx : f32 x = x) (hy : f32 y = y)
    (hd : f32 (h - lerp_2d_f32 h h h h x_ratio y_ratio) = 0 ∨
      ((2 : ℝ) ^ (-63 : Int) ≤ |f32 (h - lerp_2d_f32 h h h h x_ratio y_ratio)| ∧
        |f32 (h - lerp_2d_f32 h h h h x_ratio y_ratio)| < (2 : ℝ) ^ (63 : Int))) :
    adjust_point_f32 (fun t => f32 (Real.sqrt t)) tan atan ⟨x, y, h, intensity⟩
        h h h h x_ratio y_ratio grid_scale
      = ⟨x, y, |f32 (h - lerp_2d_f32 h h h h x_ratio y_ratio)|, intensity⟩ ∧
    (0 ≤ x_ratio → x_ratio ≤ 1 → 0 ≤ y_ratio → y_ratio ≤ 1 → (2 : ℝ) ^ (-100 : Int) ≤ |h| →
      |f32 (h - lerp_2d_f32 h h h h x_ratio y_ratio)| ≤ |h| / 2 ^ 20) ∧
    (lerp_2d_f32 h h h h x_ratio y_ratio = h →
      adjust_point_f32 (fun t => f32 (Real.sqrt t)) tan atan ⟨x, y, h, intensity⟩
        h h h h x_ratio y_ratio grid_scale = ⟨x, y, 0, intensity⟩) ∧
    (f32 h = h → lerp_2d_f32 h h h h 0 0 = h ∧ lerp_2d_f32 h h h h 1 1 = h) := by
  have key := adjust_point_f32_level tan atan htan hatan ⟨x, y, h, intensity⟩
    h h h h x_ratio y_ratio grid_scale rfl rfl hx hy (hd.imp id (fun h1 => h1.1))
  refine ⟨key, ?_, ?_, ?_⟩
  · intro hx0 hx1 hy0 hy1 hh
    exact (lerp_2d_f32_const_err h x_ratio y_ratio hx0 hx1 hy0 hy1 hh).2.2
  · intro hfl
    rw [key, hfl, sub_self, f32_zero, abs_zero]
  · intro hh
    constructor
    · simp only [lerp_2d_f32, lerp_f32_at_zero h h hh]
    · simp only [lerp_2d_f32, lerp_f32_at_one h h hh]

theorem adjust_point_flat_ground_witness :
    (20 : ℝ) ≠ 0 ∧ (fun t : ℝ => f32 (Real.tan t)) 0 = 0 ∧ Real.arctan 0 = 0 ∧
    f32 (3 : ℝ) = 3 ∧ f32 (4 : ℝ) = 4 ∧
    (f32 ((3 : ℝ) - lerp_2d_f32 3 3 3 3 (5033165 / 16777216) (13421773 / 134217728)) = 0 ∨
      ((2 : ℝ) ^ (-63 : Int) ≤ |f32 ((3 : ℝ) - lerp_2d_f32 3 3 3 3 (5033165 / 16777216) (13421773 / 134217728))| ∧
        |f32 ((3 : ℝ) - lerp_2d_f32 3 3 3 3 (5033165 / 16777216) (13421773 / 134217728))| < (2 : ℝ) ^ (63 : Int))) ∧
    (adjust_point_f32 (fun t => f32 (Real.sqrt t)) (fun t => f32 (Real.tan t)) Real.arctan
        ⟨3, 4, 3, 9⟩ 3 3 3 3 (5033165 / 16777216) (13421773 / 134217728) 20
      = ⟨3, 4, |f32 ((3 : ℝ) - lerp_2d_f32 3 3 3 3 (5033165 / 16777216) (13421773 / 134217728))|, 9⟩ ∧
    ((0 : ℝ) ≤ 5033165 / 16777216 → (5033165 / 16777216 : ℝ) ≤ 1 → (0 : ℝ) ≤ 13421773 / 134217728 → (13421773 / 134217728 : ℝ) ≤ 1 →
      (2 : ℝ) ^ (-100 : Int) ≤ |(3 : ℝ)| →
      |f32 ((3 : ℝ) - lerp_2d_f32 3 3 3 3 (5033165 / 16777216) (13421773 / 134217728))| ≤ |(3 : ℝ)| / 2 ^ 20) ∧
    (lerp_2d_f32 (3 : ℝ) 3 3 3 (5033165 / 16777216) (13421773 / 134217728) = 3 →
      adjust_point_f32 (fun t => f32 (Real.sqrt t)) (fun t => f32 (Real.tan t)) Real.arctan
        ⟨3, 4, 3, 9⟩ 3 3 3 3 (5033165 / 16777216) (13421773 / 134217728) 20 = ⟨3, 4, 0, 9⟩) ∧
    (f32 (3 : ℝ) = 3 →
      lerp_2d_f32 (3 : ℝ) 3 3 3 0 0 = 3 ∧ lerp_2d_f32 (3 : ℝ) 3 3 3 1 1 = 3)) ∧
    |f32 ((3 : ℝ) - lerp_2d_f32 3 3 3 3 (5033165 / 16777216) (13421773 / 134217728))| = 1 / 4194304 ∧
    adjust_point_f32 (fun t => f32 (Real.sqrt t)) (fun t => f32 (Real.tan t)) Real.arctan
      ⟨3, 4, 5, 9⟩ 5 5 5 5 (1 / 4) (3 / 4) 20 = ⟨3, 4, 0, 9⟩ ∧
    adjust_point_f32 (fun t => f32 (Real.sqrt t)) (fun t => f32 (Real.tan t)) Real.arctan
      ⟨3, 4, 3, 9⟩ 3 3 3 3 0 0 20 = ⟨3, 4, 0, 9⟩ := by
  have htan : (fun t : ℝ => f32 (Real.tan t)) 0 = 0 := by
    simp only [Real.tan_zero, f32_zero]
  have h3 : f32 (3 : ℝ) = 3 :=
    f32_eq _ _ (3) 0 (by norm_num) (by norm_num) (by norm_num) (by norm_num)
  have h4 : f32 (4 : ℝ) = 4 :=
    f32_eq _ _ (4) 0 (by norm_num) (by norm_num) (by norm_num) (by norm_num)
  have hfl3 := lerp_2d_f32_three (α := ℝ)
  have hd3 : f32 ((3 : ℝ) - lerp_2d_f32 3 3 3 3 (5033165 / 16777216) (13421773 / 134217728)) = 1 / 4194304 := by
    rw [hfl3]
    exact f32_eq _ _ 1 (-22) (by norm_num) (by norm_num) (by norm_num) (by norm_num)
  have habs : |(1 : ℝ) / 4194304| = 1 / 4194304 := abs_of_pos (by norm_num)
  have hd : f32 ((3 : ℝ) - lerp_2d_f32 3 3 3 3 (5033165 / 16777216) (13421773 / 134217728)) = 0 ∨
      ((2 : ℝ) ^ (-63 : Int) ≤ |f32 ((3 : ℝ) - lerp_2d_f32 3 3 3 3 (5033165 / 16777216) (13421773 / 134217728))| ∧
        |f32 ((3 : ℝ) - lerp_2d_f32 3 3 3 3 (5033165 / 16777216) (13421773 / 134217728))| < (2 : ℝ) ^ (63 : Int)) := by
    right
    rw [hd3, habs]
    constructor <;> norm_num
  have key := adjust_point_flat_ground (fun t => f32 (Real.tan t)) Real.arctan 3 4 3
    (5033165 / 16777216) (13421773 / 134217728) 20 9 (by norm_num) htan Real.arctan_zero h3 h4 hd
  -- the same grid at a height and ratios where the floor is exact
  have hfl5 : lerp_2d_f32 (5 : ℝ) 5 5 5 (1 / 4) (3 / 4) = 5 := lerp_2d_f32_five
  have hd5 : f32 ((5 : ℝ) - lerp_2d_f32 5 5 5 5 (1 / 4) (3 / 4)) = 0 ∨
      ((2 : ℝ) ^ (-63 : Int) ≤ |f32 ((5 : ℝ) - lerp_2d_f32 5 5 5 5 (1 / 4) (3 / 4))| ∧
        |f32 ((5 : ℝ) - lerp_2d_f32 5 5 5 5 (1 / 4) (3 / 4))| < (2 : ℝ) ^ (63 : Int)) := by
    left
    rw [hfl5, sub_self, f32_zero]
  have key5 := adjust_point_flat_ground (fun t => f32 (Real.tan t)) Real.arctan 3 4 5 (1 / 4)
    (3 / 4) 20 9 (by norm_num) htan Real.arctan_zero h3 h4 hd5
  have hfl0 : lerp_2d_f32 (3 : ℝ) 3 3 3 0 0 = 3 := (key.2.2.2 h3).1
  have hd0 : f32 ((3 : ℝ) - lerp_2d_f32 3 3 3 3 0 0) = 0 ∨
      ((2 : ℝ) ^ (-63 : Int) ≤ |f32 ((3 : ℝ) - lerp_2d_f32 3 3 3 3 0 0)| ∧
        |f32 ((3 : ℝ) - lerp_2d_f32 3 3 3 3 0 0)| < (2 : ℝ) ^ (63 : Int)) := by
    left
    rw [hfl0, sub_self, f32_zero]
  have key0 := adjust_point_flat_ground (fun t => f32 (Real.tan t)) Real.arctan 3 4 3 0 0 20 9
    (by norm_num) htan Real.arctan_zero h3 h4 hd0
  exact ⟨by norm_num, htan, Real.arctan_zero, h3, h4, hd, key, by rw [hd3, habs],
    key5.2.2.1 hfl5, key0.2.2.1 hfl0⟩

/-- C9 (counterexample). In binary32, for `h = 3`, the ratios `0.3f` and `0.1f`
and `grid_scale = 20`, the point `(3, 4, z = 3)` with the four neighbour heights
equal to `3` comes out with `z = 2 ^ (-22)`, not `0`: the interpolated floor is
`3 - 2 ^ (-22)`. -/
theorem adjust_point_f32_flat_ground_residue :
    (20 : ℝ) ≠ 0 ∧
    lerp_2d_f32 (3 : ℝ) 3 3 3 (5033165 / 16777216) (13421773 / 134217728)
      = 12582911 / 4194304 ∧
    adjust_point_f32 (fun t => f32 (Real.sqrt t)) (fun t => f32 (Real.tan t)) Real.arctan
        ⟨3, 4, 3, 9⟩ 3 3 3 3 (5033165 / 16777216) (13421773 / 134217728) 20
      = ⟨3, 4, 1 / 4194304, 9⟩ ∧
    (adjust_point_f32 (fun t => f32 (Real.sqrt t)) (fun t => f32 (Real.tan t)) Real.arctan
        ⟨3, 4, 3, 9⟩ 3 3 3 3 (5033165 / 16777216) (13421773 / 134217728) 20).z ≠ 0 := by
  have htan : (fun t : ℝ => f32 (Real.tan t)) 0 = 0 := by
    simp only [Real.tan_zero, f32_zero]
  have h3 : f32 (3 : ℝ) = 3 :=
    f32_eq _ _ (3) 0 (by norm_num) (by norm_num) (by norm_num) (by norm_num)
  have h4 : f32 (4 : ℝ) = 4 :=
    f32_eq _ _ (4) 0 (by norm_num) (by norm_num) (by norm_num) (by norm_num)
  have hfl := lerp_2d_f32_three (α := ℝ)
  have hd : f32 ((3 : ℝ) - lerp_2d_f32 3 3 3 3 (5033165 / 16777216) (13421773 / 134217728))
      = 1 / 4194304 := by
    rw [hfl]
    exact f32_eq _ _ 1 (-22) (by norm_num) (by norm_num) (by norm_num) (by norm_num)
  have key := adjust_point_f32_level (fun t => f32 (Real.tan t)) Real.arctan htan
    Real.arctan_zero ⟨3, 4, 3, 9⟩ 3 3 3 3 (5033165 / 16777216) (13421773 / 134217728) 20
    rfl rfl h3 h4 (by right; rw [hd, abs_of_pos (by norm_num)]; norm_num)
  rw [hd] at key
  have habs : |(1 : ℝ) / 4194304| = 1 / 4194304 := abs_of_pos (by norm_num)
  rw [habs] at key
  refine ⟨by norm_num, hfl, key, ?_⟩
  rw [key]
  norm_num

end FlatGroundTheorems

section NonnegTheorems

/-- C11 (amended). In binary32 (correctly rounded `sqrt`, any library `tan` and
`atan`), for every point, neighbour heights, ratios and `grid_scale ≠ 0`, with
`d = z - floor_z` as computed and `|d| < 2 ^ 63` (the square of `d` does not
overflow): the `z` produced by `adjust_point` is non-negative; it is at least
`|d|`, hence positive, when `|d| ≥ 2 ^ (-63)` (the square of `d` does not
underflow), so such a point below the floor comes out above `z = 0`; and the
sign of `d` is discarded: two points whose computed heights `d` are opposite
get the same `z`. -/
theorem adjust_point_z_nonneg (tan atan : ℝ → ℝ) (p q : lidar_point ℝ)
    (bl br tl tr x_ratio y_ratio grid_scale : ℝ) (_hscale : grid_scale ≠ 0)
    (_hfin : |f32 (p.z - lerp_2d_f32 bl br tl tr x_ratio y_ratio)| < (2 : ℝ) ^ (63 : Int)) :
    0 ≤ (adjust_point_f32 (fun t => f32 (Real.sqrt t)) tan atan p bl br tl tr
        x_ratio y_ratio grid_scale).z ∧
    ((2 : ℝ) ^ (-63 : Int) ≤ |f32 (p.z - lerp_2d_f32 bl br tl tr x_ratio y_ratio)| →
      |f32 (p.z - lerp_2d_f32 bl br tl tr x_ratio y_ratio)| ≤
        (adjust_point_f32 (fun t => f32 (Real.sqrt t)) tan atan p bl br tl tr
          x_ratio y_ratio grid_scale).z ∧
      0 < (adjust_point_f32 (fun t => f32 (Real.sqrt t)) tan atan p bl br tl tr
          x_ratio y_ratio grid_scale).z) ∧
    (f32 (q.z - lerp_2d_f32 bl br tl tr x_ratio y_ratio)
        = -f32 (p.z - lerp_2d_f32 bl br tl tr x_ratio y_ratio) →
      (adjust_point_f32 (fun t => f32 (Real.sqrt t)) tan atan q bl br tl tr
          x_ratio y_ratio grid_scale).z =
        (adjust_point_f32 (fun t => f32 (Real.sqrt t)) tan atan p bl br tl tr
          x_ratio y_ratio grid_scale).z) := by
  refine ⟨adjust_point_f32_z_nonneg tan atan p bl br tl tr x_ratio y_ratio grid_scale, ?_,
    adjust_point_f32_z_mirror _ tan atan p q bl br tl tr x_ratio y_ratio grid_scale⟩
  intro hd
  have h := adjust_point_f32_z_ge tan atan p bl br tl tr x_ratio y_ratio grid_scale hd
  have hpos : (0 : ℝ) < (2 : ℝ) ^ (-63 : Int) := zpow_pos (by norm_num) _
  exact ⟨h, lt_of_lt_of_le hpos (le_trans hd h)⟩

theorem adjust_point_z_nonneg_witness :
    (20 : ℝ) ≠ 0 ∧
    |f32 ((-5 : ℝ) - lerp_2d_f32 0 1 2 4 (1 / 4) (3 / 4))| < (2 : ℝ) ^ (63 : Int) ∧
    (0 ≤ (adjust_point_f32 (fun t => f32 (Real.sqrt t)) (fun t => f32 (Real.tan t))
        Real.arctan ⟨3, 4, -5, 9⟩ 0 1 2 4 (1 / 4) (3 / 4) 20).z ∧
      ((2 : ℝ) ^ (-63 : Int) ≤ |f32 ((-5 : ℝ) - lerp_2d_f32 0 1 2 4 (1 / 4) (3 / 4))| →
        |f32 ((-5 : ℝ) - lerp_2d_f32 0 1 2 4 (1 / 4) (3 / 4))| ≤
          (adjust_point_f32 (fun t => f32 (Real.sqrt t)) (fun t => f32 (Real.tan t))
            Real.arctan ⟨3, 4, -5, 9⟩ 0 1 2 4 (1 / 4) (3 / 4) 20).z ∧
        0 < (adjust_point_f32 (fun t => f32 (Real.sqrt t)) (fun t => f32 (Real.tan t))
            Real.arctan ⟨3, 4, -5, 9⟩ 0 1 2 4 (1 / 4) (3 / 4) 20).z) ∧
      (f32 ((71 / 8 : ℝ) - lerp_2d_f32 0 1 2 4 (1 / 4) (3 / 4))
          = -f32 ((-5 : ℝ) - lerp_2d_f32 0 1 2 4 (1 / 4) (3 / 4)) →
        (adjust_point_f32 (fun t => f32 (Real.sqrt t)) (fun t => f32 (Real.tan t))
            Real.arctan ⟨3, 4, 71 / 8, 9⟩ 0 1 2 4 (1 / 4) (3 / 4) 20).z =
          (adjust_point_f32 (fun t => f32 (Real.sqrt t)) (fun t => f32 (Real.tan t))
            Real.arctan ⟨3, 4, -5, 9⟩ 0 1 2 4 (1 / 4) (3 / 4) 20).z)) ∧
    lerp_2d_f32 (0 : ℝ) 1 2 4 (1 / 4) (3 / 4) = 31 / 16 ∧
    (111 / 16 : ℝ) ≤ (adjust_point_f32 (fun t => f32 (Real.sqrt t)) (fun t => f32 (Real.tan t))
        Real.arctan ⟨3, 4, -5, 9⟩ 0 1 2 4 (1 / 4) (3 / 4) 20).z ∧
    (adjust_point_f32 (fun t => f32 (Real.sqrt t)) (fun t => f32 (Real.tan t))
        Real.arctan ⟨3, 4, 71 / 8, 9⟩ 0 1 2 4 (1 / 4) (3 / 4) 20).z =
      (adjust_point_f32 (fun t => f32 (Real.sqrt t)) (fun t => f32 (Real.tan t))
        Real.arctan ⟨3, 4, -5, 9⟩ 0 1 2 4 (1 / 4) (3 / 4) 20).z := by
  have hfl := lerp_2d_f32_sample (α := ℝ)
  have hd : f32 ((-5 : ℝ) - lerp_2d_f32 0 1 2 4 (1 / 4) (3 / 4)) = -(111 / 16) := by
    rw [hfl]
    exact f32_eq _ _ (-111) (-4) (by norm_num) (by norm_num) (by norm_num) (by norm_num)
  have hq : f32 ((71 / 8 : ℝ) - lerp_2d_f32 0 1 2 4 (1 / 4) (3 / 4)) = 111 / 16 := by
    rw [hfl]
    exact f32_eq _ _ 111 (-4) (by norm_num) (by norm_num) (by norm_num) (by norm_num)
  have habs : |(-(111 / 16) : ℝ)| = 111 / 16 := by
    rw [abs_neg, abs_of_pos (by norm_num)]
  have hfin : |f32 ((-5 : ℝ) - lerp_2d_f32 0 1 2 4 (1 / 4) (3 / 4))| < (2 : ℝ) ^ (63 : Int) := by
    rw [hd, habs]
    norm_num
  have key := adjust_point_z_nonneg (fun t => f32 (Real.tan t)) Real.arctan
    ⟨3, 4, -5, 9⟩ ⟨3, 4, 71 / 8, 9⟩ 0 1 2 4 (1 / 4) (3 / 4) 20 (by norm_num) hfin
  refine ⟨by norm_num, hfin, key, hfl, ?_, ?_⟩
  · have h := (key.2.1 (by
      show (2 : ℝ) ^ (-63 : Int)
        ≤ |f32 ((-5 : ℝ) - lerp_2d_f32 0 1 2 4 (1 / 4) (3 / 4))|
      rw [hd, habs]
      norm_num)).1
    have e : |f32 ((-5 : ℝ) - lerp_2d_f32 0 1 2 4 (1 / 4) (3 / 4))| = 111 / 16 := by
      rw [hd, habs]
    exact e ▸ h
  · apply key.2.2
    show f32 ((71 / 8 : ℝ) - lerp_2d_f32 0 1 2 4 (1 / 4) (3 / 4))
      = -f32 ((-5 : ℝ) - lerp_2d_f32 0 1 2 4 (1 / 4) (3 / 4))
    rw [hd, hq, neg_neg]

/-- C11 (counterexample). In binary32, for the point `(3, 4, z = -2 ^ (-80))`,
the four neighbour heights `0`, the ratios `(1/4, 3/4)` and `grid_scale = 20`:
the interpolated floor is `0`, so the point is below the floor, and the square
of `z - floor_z` underflows to `0`; `adjust_point` returns `z = 0`: the point
does not come out above `z = 0`. -/
theorem adjust_point_f32_below_floor_at_zero :
    (20 : ℝ) ≠ 0 ∧
    f32 (-(1 / 1208925819614629174706176) : ℝ) = -(1 / 1208925819614629174706176) ∧
    lerp_2d_f32 (0 : ℝ) 0 0 0 (1 / 4) (3 / 4) = 0 ∧
    (-(1 / 1208925819614629174706176) : ℝ) < lerp_2d_f32 (0 : ℝ) 0 0 0 (1 / 4) (3 / 4) ∧
    adjust_point_f32 (fun t => f32 (Real.sqrt t)) (fun t => f32 (Real.tan t)) Real.arctan
      ⟨3, 4, -(1 / 1208925819614629174706176), 9⟩ 0 0 0 0 (1 / 4) (3 / 4) 20 = ⟨3, 4, 0, 9⟩ ∧
    ¬ (0 < (adjust_point_f32 (fun t => f32 (Real.sqrt t)) (fun t => f32 (Real.tan t)) Real.arctan
      ⟨3, 4, -(1 / 1208925819614629174706176), 9⟩ 0 0 0 0 (1 / 4) (3 / 4) 20).z) := by
  have hz : f32 (-(1 / 1208925819614629174706176) : ℝ) = -(1 / 1208925819614629174706176) :=
    f32_eq _ _ (-1) (-80) (by norm_num) (by norm_num) (by norm_num) (by norm_num)
  have hfl : lerp_2d_f32 (0 : ℝ) 0 0 0 (1 / 4) (3 / 4) = 0 := lerp_2d_f32_zero _ _
  have hsq : f32 ((-(1 / 1208925819614629174706176) : ℝ) * (-(1 / 1208925819614629174706176))) = 0 :=
    f32_eval _ 0 (-126) 0 (by norm_num) (by norm_num) (Or.inl rfl) (by norm_num)
      (by constructor <;> norm_num) (by norm_num)
  have htan : f32 (Real.tan 0) = 0 := by rw [Real.tan_zero]; exact f32_zero
  have hsqrt : f32 (Real.sqrt 0) = 0 := by rw [Real.sqrt_zero]; exact f32_zero
  have h3 : f32 (3 : ℝ) = 3 :=
    f32_eq _ _ 3 0 (by norm_num) (by norm_num) (by norm_num) (by norm_num)
  have h4 : f32 (4 : ℝ) = 4 :=
    f32_eq _ _ 4 0 (by norm_num) (by norm_num) (by norm_num) (by norm_num)
  have hadj : adjust_point_f32 (fun t => f32 (Real.sqrt t)) (fun t => f32 (Real.tan t)) Real.arctan
      ⟨3, 4, -(1 / 1208925819614629174706176), 9⟩ 0 0 0 0 (1 / 4) (3 / 4) 20 = ⟨3, 4, 0, 9⟩ := by
    simp only [adjust_point_f32, interp_angles_f32, lerp_2d_f32_zero, lerp_f32_zero, sub_zero,
      sub_self, f32_zero, f64_zero, zero_div, Real.arctan_zero, htan, mul_zero, add_zero, hz,
      hsq, hsqrt, h3, h4]
  refine ⟨by norm_num, hz, hfl, ?_, hadj, ?_⟩
  · rw [hfl]
    norm_num
  · rw [hadj]
    exact lt_irrefl 0

end NonnegTheorems

section LerpExactnessTheorems

variable {α : Type} [LinearOrderedField α] [FloorRing α]

/-- C12 (amended). Bilinear interpolation in binary32, for ratios `x`, `y`, `t`
in `[0, 1]`: `lerp_2d c c c c x y` is `c` up to a relative error of `2 ^ (-20)`
for every constant `c` with `|c| ≥ 2 ^ (-100)`, and it is exactly `c` for the
constants `c = 1` and `c = 0` (and binary32 ratios); on the top edge
`lerp_2d 0 0 10 10 t 1` is the binary32 `lerp(10, 10, t)`, which is within
`10 * 2 ^ (-20)` of `10`, and exactly `10` at `t = 1/2`. -/
theorem lerp_2d_exactness (c x y t : α)
    (hx0 : 0 ≤ x) (hx1 : x ≤ 1) (hy0 : 0 ≤ y) (hy1 : y ≤ 1) (ht0 : 0 ≤ t) (ht1 : t ≤ 1)
    (hx : f32 x = x) (hy : f32 y = y) (hc : (2 : α) ^ (-100 : Int) ≤ |c|) :
    |lerp_2d_f32 c c c c x y - c| ≤ |c| / 2 ^ 20 ∧
    lerp_2d_f32 1 1 1 1 x y = 1 ∧
    lerp_2d_f32 0 0 0 0 x y = 0 ∧
    lerp_2d_f32 0 0 10 10 t 1 = lerp_f32 10 10 t ∧
    |lerp_2d_f32 0 0 10 10 t 1 - 10| ≤ 10 / 2 ^ 20 ∧
    lerp_2d_f32 (0 : α) 0 10 10 (1 / 2) 1 = 10 := by
  refine ⟨(lerp_2d_f32_const_err c x y hx0 hx1 hy0 hy1 hc).2.1,
    lerp_2d_f32_one x y hx hy hx0 hx1 hy0 hy1, lerp_2d_f32_zero x y,
    lerp_2d_f32_top_edge 10 10 t, ?_, ?_⟩
  · rw [lerp_2d_f32_top_edge]
    have h := lerp_f32_const_err (10 : α) t ht0 ht1
    have e : |(10 : α)| = 10 := abs_of_pos (by norm_num)
    rw [e] at h
    have t3 : (2 : α) ^ (-150 : Int) ≤ 1 / 2 ^ 50 := by
      have e : (1 : α) / 2 ^ 50 = (2 : α) ^ (-50 : Int) := by
        rw [zpow_neg]; norm_num
      rw [e]
      exact zpow_le_zpow_right₀ (by norm_num) (by norm_num)
    generalize (2 : α) ^ (-150 : Int) = T at h t3
    linarith only [h, t3]
  · rw [lerp_2d_f32_top_edge, lerp_f32_ten_half]

theorem lerp_2d_exactness_witness :
    (0 : ℚ) ≤ 5033165 / 16777216 ∧ (5033165 / 16777216 : ℚ) ≤ 1 ∧
    (0 : ℚ) ≤ 13421773 / 134217728 ∧ (13421773 / 134217728 : ℚ) ≤ 1 ∧
    (0 : ℚ) ≤ 7990127 / 67108864 ∧ (7990127 / 67108864 : ℚ) ≤ 1 ∧
    f32 ((5033165 : ℚ) / 16777216) = 5033165 / 16777216 ∧
    f32 ((13421773 : ℚ) / 134217728) = 13421773 / 134217728 ∧
    (2 : ℚ) ^ (-100 : Int) ≤ |(3 : ℚ)| ∧
    (|lerp_2d_f32 (3 : ℚ) 3 3 3 (5033165 / 16777216) (13421773 / 134217728) - 3|
      ≤ |(3 : ℚ)| / 2 ^ 20 ∧
    lerp_2d_f32 (1 : ℚ) 1 1 1 (5033165 / 16777216) (13421773 / 134217728) = 1 ∧
    lerp_2d_f32 (0 : ℚ) 0 0 0 (5033165 / 16777216) (13421773 / 134217728) = 0 ∧
    lerp_2d_f32 (0 : ℚ) 0 10 10 (7990127 / 67108864) 1
      = lerp_f32 10 10 (7990127 / 67108864) ∧
    |lerp_2d_f32 (0 : ℚ) 0 10 10 (7990127 / 67108864) 1 - 10| ≤ 10 / 2 ^ 20 ∧
    lerp_2d_f32 (0 : ℚ) 0 10 10 (1 / 2) 1 = 10) ∧
    lerp_2d_f32 (3 : ℚ) 3 3 3 (5033165 / 16777216) (13421773 / 134217728)
      = 12582911 / 4194304 ∧
    lerp_2d_f32 (0 : ℚ) 0 10 10 (7990127 / 67108864) 1 = 10485759 / 1048576 := by
  have h3 : (2 : ℚ) ^ (-100 : Int) ≤ |(3 : ℚ)| := by
    rw [abs_of_pos (by norm_num)]
    norm_num
  have h2 : lerp_2d_f32 (0 : ℚ) 0 10 10 (7990127 / 67108864) 1 = 10485759 / 1048576 := by
    rw [lerp_2d_f32_top_edge, lerp_f32_ten_off]
  exact ⟨by norm_num, by norm_num, by norm_num, by norm_num, by norm_num, by norm_num,
    f32_three_tenths, f32_one_tenth, h3,
    lerp_2d_exactness 3 (5033165 / 16777216) (13421773 / 134217728) (7990127 / 67108864)
      (by norm_num) (by norm_num) (by norm_num) (by norm_num) (by norm_num) (by norm_num)
      f32_three_tenths f32_one_tenth h3,
    lerp_2d_f32_three, h2⟩

/-- C12 (counterexample). In binary32, for the constant `3` and the ratios
`x = 0.3f`, `y = 0.1f` (binary32 values in `[0, 1]`),
`lerp_2d(3, 3, 3, 3, x, y)` is `3 - 2 ^ (-22)`, not `3`; and on the top edge
`lerp_2d(0, 0, 10, 10, x, 1)` is `10 - 2 ^ (-20)`, not `10`, at the binary32
value `x = 7990127 / 2 ^ 26`. -/
theorem lerp_2d_f32_not_exact :
    f32 ((5033165 : ℚ) / 16777216) = 5033165 / 16777216 ∧
    f32 ((13421773 : ℚ) / 134217728) = 13421773 / 134217728 ∧
    f32 ((7990127 : ℚ) / 67108864) = 7990127 / 67108864 ∧
    lerp_2d_f32 (3 : ℚ) 3 3 3 (5033165 / 16777216) (13421773 / 134217728)
      = 12582911 / 4194304 ∧
    lerp_2d_f32 (3 : ℚ) 3 3 3 (5033165 / 16777216) (13421773 / 134217728) ≠ 3 ∧
    lerp_2d_f32 (0 : ℚ) 0 10 10 (7990127 / 67108864) 1 = 10485759 / 1048576 ∧
    lerp_2d_f32 (0 : ℚ) 0 10 10 (7990127 / 67108864) 1 ≠ 10 := by
  have h1 := lerp_2d_f32_three (α := ℚ)
  have h2 : lerp_2d_f32 (0 : ℚ) 0 10 10 (7990127 / 67108864) 1 = 10485759 / 1048576 := by
    rw [lerp_2d_f32_top_edge, lerp_f32_ten_off]
  refine ⟨f32_three_tenths, f32_one_tenth, ?_, h1, ?_, h2, ?_⟩
  · exact f32_of_repr _ 7990127 (-26) (by norm_num) (by norm_num) (by norm_num)
  · rw [h1]; norm_num
  · rw [h2]; norm_num

end LerpExactnessTheorems

section InsertionOrderTheorems

variable {α : Type} [LinearOrderedField α] [FloorRing α]

/-- C20. Insertion order does not affect floor estimation: for every grid and
two point lists that are permutations of each other, if binning the first list
succeeds (all its points fall into valid cells) then binning the second
succeeds too and floor estimation gives the same floor-height grid. This holds
for the binning loop in exact arithmetic and for the binning loop in binary32. -/
theorem floor_zs_insertion_order (g : grid α) (min_points divisor : Nat)
    (ps qs : List (lidar_point α)) (z0 : List (List (List α))) (hperm : ps.Perm qs) :
    (∀ za1, bin_points g ps z0 = some za1 →
      ∃ za2, bin_points g qs z0 = some za2 ∧
        compute_floor_zs min_points divisor za1 = compute_floor_zs min_points divisor za2) ∧
    (∀ za1, bin_points_f32 g ps z0 = some za1 →
      ∃ za2, bin_points_f32 g qs z0 = some za2 ∧
        compute_floor_zs min_points divisor za1 = compute_floor_zs min_points divisor za2) := by
  constructor
  · intro za1 hbin
    obtain ⟨za2, h2, hrel⟩ := bin_points_perm g hperm z0 z0 za1 (cells_perm_refl z0) hbin
    exact ⟨za2, h2, compute_floor_zs_perm min_points divisor hrel⟩
  · intro za1 hbin
    obtain ⟨za2, h2, hrel⟩ := bin_points_f32_perm g hperm z0 z0 za1 (cells_perm_refl z0) hbin
    exact ⟨za2, h2, compute_floor_zs_perm min_points divisor hrel⟩

theorem floor_zs_insertion_order_witness :
    dense_points.Perm dense_points.reverse ∧
    dense_cell.length = 101 ∧ dense_cell.head? = some 0 ∧ dense_cell.reverse.head? = some 100 ∧
    bin_points sample_grid dense_points sample_z_arrays =
      some [[dense_cell, [], []], [[], [], []], [[], [], []]] ∧
    bin_points sample_grid dense_points.reverse sample_z_arrays =
      some [[dense_cell.reverse, [], []], [[], [], []], [[], [], []]] ∧
    bin_points_f32 sample_grid dense_points sample_z_arrays =
      some [[dense_cell, [], []], [[], [], []], [[], [], []]] ∧
    bin_points_f32 sample_grid dense_points.reverse sample_z_arrays =
      some [[dense_cell.reverse, [], []], [[], [], []], [[], [], []]] ∧
    compute_floor_zs MIN_POINTS_PER_BLOCK PERCENTILE_DIVISOR
      [[dense_cell, [], []], [[], [], []], [[], [], []]] =
      some [[5, 0, 0], [0, 0, 0], [0, 0, 0]] ∧
    compute_floor_zs MIN_POINTS_PER_BLOCK PERCENTILE_DIVISOR
      [[dense_cell.reverse, [], []], [[], [], []], [[], [], []]] =
      some [[5, 0, 0], [0, 0, 0], [0, 0, 0]] ∧
    (∀ za1, bin_points sample_grid dense_points sample_z_arrays = some za1 →
      ∃ za2, bin_points sample_grid dense_points.reverse sample_z_arrays = some za2 ∧
        compute_floor_zs MIN_POINTS_PER_BLOCK PERCENTILE_DIVISOR za1 =
          compute_floor_zs MIN_POINTS_PER_BLOCK PERCENTILE_DIVISOR za2) ∧
    (∀ za1, bin_points_f32 sample_grid dense_points sample_z_arrays = some za1 →
      ∃ za2, bin_points_f32 sample_grid dense_points.reverse sample_z_arrays = some za2 ∧
        compute_floor_zs MIN_POINTS_PER_BLOCK PERCENTILE_DIVISOR za1 =
          compute_floor_zs MIN_POINTS_PER_BLOCK PERCENTILE_DIVISOR za2) := by
  have hperm : dense_points.Perm dense_points.reverse := (List.reverse_perm dense_points).symm
  have hz : dense_points.map (fun p => p.z) = dense_cell := by
    simp [dense_points, List.map_map, Function.comp_def]
  have hzr : dense_points.reverse.map (fun p => p.z) = dense_cell.reverse := by
    rw [List.map_reverse, hz]
  have hfl : Int.floor ((3 : ℚ) / 4) = 0 := by
    rw [Int.floor_eq_iff]; constructor <;> norm_num
  have hidx : ∀ p ∈ dense_points,
      sample_grid.to_indices p.x p.y = (((0 : Nat) : Int), ((0 : Nat) : Int)) := by
    intro p hp
    obtain ⟨z, _, rfl⟩ := List.mem_map.mp hp
    have e : ((10 : ℚ) - -5) / 20 = 3 / 4 := by norm_num
    simp only [grid.to_indices, sample_grid, e,
      c_int_cast_of_nonneg (by norm_num : (0 : ℚ) ≤ 3 / 4), hfl]
    rfl
  have a1 : f32 ((10 : ℚ) - -5) = 15 :=
    f32_eq _ _ 15 0 (by norm_num) (by norm_num) (by norm_num) (by norm_num)
  have a2 : f32 ((15 : ℚ) / 20) = 3 / 4 :=
    f32_eq _ _ 3 (-2) (by norm_num) (by norm_num) (by norm_num) (by norm_num)
  have a3 : c_int_cast32 ((3 : ℚ) / 4) = some 0 := by
    rw [c_int_cast32_of_nonneg _ (by norm_num) (by norm_num), hfl]
  have hidx32 : ∀ p ∈ dense_points,
      sample_grid.to_indices_f32 p.x p.y = some (((0 : Nat) : Int), ((0 : Nat) : Int)) := by
    intro p hp
    obtain ⟨z, _, rfl⟩ := List.mem_map.mp hp
    show sample_grid.to_indices_f32 10 10 = _
    simp only [grid.to_indices_f32, sample_grid, a1, a2, a3]
    rfl
  have hrev : ∀ (P : lidar_point ℚ → Prop), (∀ p ∈ dense_points, P p) →
      ∀ p ∈ dense_points.reverse, P p := fun P h p hp => h p (List.mem_reverse.mp hp)
  have hrow : sample_z_arrays[0]? = some [([] : List ℚ), [], []] := by
    simp [sample_z_arrays, List.replicate]
  have hcell : ([([] : List ℚ), [], []])[0]? = some [] := rfl
  have hset : ∀ zs : List ℚ, sample_z_arrays.set 0 (([([] : List ℚ), [], []]).set 0 ([] ++ zs))
      = [[zs, [], []], [[], [], []], [[], [], []]] := by
    intro zs
    simp [sample_z_arrays, List.replicate]
  have b1 := bin_points_same_cell sample_grid 0 0 dense_points sample_z_arrays _ _ hidx hrow hcell
  have b2 := bin_points_same_cell sample_grid 0 0 dense_points.reverse sample_z_arrays _ _
    (hrev _ hidx) hrow hcell
  have b3 := bin_points_f32_same_cell sample_grid 0 0 dense_points sample_z_arrays _ _ hidx32
    hrow hcell
  have b4 := bin_points_f32_same_cell sample_grid 0 0 dense_points.reverse sample_z_arrays _ _
    (hrev _ hidx32) hrow hcell
  rw [hset, hz] at b1 b3
  rw [hset, hzr] at b2 b4
  have hfloor : cell_floor MIN_POINTS_PER_BLOCK PERCENTILE_DIVISOR dense_cell = some 5 := by
    have h := cell_floor_range (α := ℚ) MIN_POINTS_PER_BLOCK PERCENTILE_DIVISOR 101 (by decide)
      (by decide)
    simpa [PERCENTILE_DIVISOR] using h
  have hempty : cell_floor MIN_POINTS_PER_BLOCK PERCENTILE_DIVISOR ([] : List ℚ) = some 0 := by
    simp [cell_floor]
  have c1 : compute_floor_zs MIN_POINTS_PER_BLOCK PERCENTILE_DIVISOR
      [[dense_cell, [], []], [[], [], []], [[], [], []]] =
      some [[5, 0, 0], [0, 0, 0], [0, 0, 0]] := by
    rw [compute_floor_zs_eq MIN_POINTS_PER_BLOCK PERCENTILE_DIVISOR (by decide)]
    simp only [List.map_cons, List.map_nil, hfloor, hempty, Option.getD_some]
  have key := floor_zs_insertion_order sample_grid MIN_POINTS_PER_BLOCK PERCENTILE_DIVISOR
    dense_points dense_points.reverse sample_z_arrays hperm
  have c2 : compute_floor_zs MIN_POINTS_PER_BLOCK PERCENTILE_DIVISOR
      [[dense_cell.reverse, [], []], [[], [], []], [[], [], []]] =
      some [[5, 0, 0], [0, 0, 0], [0, 0, 0]] := by
    obtain ⟨za2, h2, h3⟩ := key.1 _ b1
    rw [b2, Option.some.injEq] at h2
    rw [h2, ← h3]
    exact c1
  have h0 : List.range 101 = 0 :: (List.range 100).map Nat.succ := List.range_succ_eq_map 100
  have h100 : List.range 101 = List.range 100 ++ [100] := List.range_succ 100
  refine ⟨hperm, by simp [dense_cell], ?_, ?_, b1, b2, b3, b4, c1, c2, key.1, key.2⟩
  · simp only [dense_cell, h0, List.map_cons, List.head?_cons, Nat.cast_zero]
  · simp only [dense_cell, h100, List.map_append, List.reverse_append, List.map_cons,
      List.map_nil, List.reverse_cons, List.reverse_nil, List.nil_append, List.singleton_append,
      List.head?_cons, Nat.cast_ofNat]

end InsertionOrderTheorems

section RebaseTheorems

variable {α : Type} [LinearOrderedField α] [FloorRing α]

/-- C21 (amended). Re-basing brackets the point in binary32: for a grid with a
binary32 `section_len` in `[2 ^ (-100), 2 ^ 100]` and a point with
`x ≥ base_x`, `y ≥ base_y` that is, like the origin, less than `2 ^ 18` cell
sides away on each axis (`|base| ≤ 2 ^ 18 * section_len` and
`coordinate - base ≤ 2 ^ 18 * section_len`): the indices are computed, the
ratios after the two `if ratio < 0` steps satisfy `0 ≤ dx_ratio ≤ 1` and
`0 ≤ dy_ratio ≤ 1`, and the point is within
`(|base| + |coordinate| + section_len) * 2 ^ (-21)`, on each axis, of the centre
of the possibly decremented cell plus the ratio times `section_len`; these
ratios are the ones the adjustment loop passes to `adjust_point`. Moreover, when
the origin `(Bx * u, By * u)`, the cell side `S * u` and the point
`(X * u, Y * u)` are integer multiples of a power of two `u = 2 ^ k`,
`-148 ≤ k ≤ 100`, with `0 < S ≤ 2 ^ 21` and `|Bx|, |By|, |X|, |Y| ≤ 2 ^ 21`, the
ratios are below `1` and the point is recovered within
`section_len * 2 ^ (-23)`. -/
theorem rebase_brackets_point (g : grid α) (p : lidar_point α)
    (hsf : f32 g.section_len = g.section_len)
    (hs0 : (2 : α) ^ (-100 : Int) ≤ g.section_len)
    (_hs1 : g.section_len ≤ (2 : α) ^ (100 : Int))
    (hx : g.base_x ≤ p.x) (hy : g.base_y ≤ p.y)
    (hBx : |g.base_x| ≤ 2 ^ 18 * g.section_len) (hBy : |g.base_y| ≤ 2 ^ 18 * g.section_len)
    (hXx : p.x - g.base_x ≤ 2 ^ 18 * g.section_len)
    (hXy : p.y - g.base_y ≤ 2 ^ 18 * g.section_len) :
    ∃ (row col : Int) (dx_ratio dy_ratio : α),
      rebase_f32 g p = some ((row, col), (dx_ratio, dy_ratio)) ∧
      (0 ≤ dx_ratio ∧ dx_ratio ≤ 1) ∧ (0 ≤ dy_ratio ∧ dy_ratio ≤ 1) ∧
      |p.x - ((g.center_coords row col).1 + dx_ratio * g.section_len)|
        ≤ (|g.base_x| + |p.x| + g.section_len) / 2 ^ 21 ∧
      |p.y - ((g.center_coords row col).2 + dy_ratio * g.section_len)|
        ≤ (|g.base_y| + |p.y| + g.section_len) / 2 ^ 21 ∧
      (∀ (sqrt tan atan : α → α) (floor_zs : List (List α)) (q : lidar_point α),
        adjust_one_f32 sqrt tan atan g floor_zs p = some q →
        ∃ z_bl z_br z_tl z_tr, q = adjust_point_f32 sqrt tan atan p z_bl z_br z_tl z_tr
          dx_ratio dy_ratio g.section_len) ∧
      (∀ k Bx By S X Y : Int, -148 ≤ k → k ≤ 100 → 0 < S → S ≤ 2 ^ 21 →
        g.section_len = (S : α) * (2 : α) ^ k →
        g.base_x = (Bx : α) * (2 : α) ^ k → g.base_y = (By : α) * (2 : α) ^ k →
        p.x = (X : α) * (2 : α) ^ k → p.y = (Y : α) * (2 : α) ^ k →
        |Bx| ≤ 2 ^ 21 → |X| ≤ 2 ^ 21 → |By| ≤ 2 ^ 21 → |Y| ≤ 2 ^ 21 →
        dx_ratio < 1 ∧ dy_ratio < 1 ∧
        |p.x - ((g.center_coords row col).1 + dx_ratio * g.section_len)|
          ≤ g.section_len / 2 ^ 23 ∧
        |p.y - ((g.center_coords row col).2 + dy_ratio * g.section_len)|
          ≤ g.section_len / 2 ^ 23) := by
  obtain ⟨row, col, dxr, dyr, hreb, hdx, hdy, hpx, hpy⟩ :=
    rebase_f32_general g p hsf hs0 hx hy hBx hBy hXx hXy
  refine ⟨row, col, dxr, dyr, hreb, hdx, hdy, hpx, hpy, ?_, ?_⟩
  · intro sqrt tan atan floor_zs q hq
    simp only [adjust_one_f32, hreb] at hq
    split at hq
    · split at hq
      · rename_i z_bl z_br z_tl z_tr _ _ _ _
        simp only [Option.some.injEq] at hq
        exact ⟨z_bl, z_br, z_tl, z_tr, hq.symm⟩
      · exact absurd hq (by simp)
    · exact absurd hq (by simp)
  · intro k Bx By S X Y hk _ hS hS1 es ebx eby epx epy hBx1 hX1 hBy1 hY1
    have h2k : (0 : α) < (2 : α) ^ k := zpow_pos (by norm_num) k
    have hxI : Bx ≤ X := by
      have h : (Bx : α) * (2 : α) ^ k ≤ (X : α) * (2 : α) ^ k := by rw [← ebx, ← epx]; exact hx
      exact Int.cast_le.mp (le_of_mul_le_mul_right h h2k)
    have hyI : By ≤ Y := by
      have h : (By : α) * (2 : α) ^ k ≤ (Y : α) * (2 : α) ^ k := by rw [← eby, ← epy]; exact hy
      exact Int.cast_le.mp (le_of_mul_le_mul_right h h2k)
    obtain ⟨row2, col2, dx2, dy2, hreb2, ⟨_, a1⟩, ⟨_, a2⟩, a3, a4⟩ :=
      rebase_f32_aligned g p k Bx By S X Y hk hS hS1 es ebx eby epx epy hxI hyI hBx1 hX1
        hBy1 hY1
    have heq := hreb.symm.trans hreb2
    simp only [Option.some.injEq, Prod.mk.injEq] at heq
    obtain ⟨⟨e1, e2⟩, e3, e4⟩ := heq
    rw [e1, e2, e3, e4]
    exact ⟨a1, a2, a3, a4⟩

theorem rebase_brackets_point_witness :
    f32 sample_grid.section_len = sample_grid.section_len ∧
    (2 : ℚ) ^ (-100 : Int) ≤ sample_grid.section_len ∧
    sample_grid.section_len ≤ (2 : ℚ) ^ (100 : Int) ∧
    sample_grid.base_x ≤ sample_point.x ∧ sample_grid.base_y ≤ sample_point.y ∧
    |sample_grid.base_x| ≤ 2 ^ 18 * sample_grid.section_len ∧
    |sample_grid.base_y| ≤ 2 ^ 18 * sample_grid.section_len ∧
    sample_point.x - sample_grid.base_x ≤ 2 ^ 18 * sample_grid.section_len ∧
    sample_point.y - sample_grid.base_y ≤ 2 ^ 18 * sample_grid.section_len ∧
    (∃ (row col : Int) (dx_ratio dy_ratio : ℚ),
      rebase_f32 sample_grid sample_point = some ((row, col), (dx_ratio, dy_ratio)) ∧
      (0 ≤ dx_ratio ∧ dx_ratio ≤ 1) ∧ (0 ≤ dy_ratio ∧ dy_ratio ≤ 1) ∧
      |sample_point.x - ((sample_grid.center_coords row col).1
          + dx_ratio * sample_grid.section_len)|
        ≤ (|sample_grid.base_x| + |sample_point.x| + sample_grid.section_len) / 2 ^ 21 ∧
      |sample_point.y - ((sample_grid.center_coords row col).2
          + dy_ratio * sample_grid.section_len)|
        ≤ (|sample_grid.base_y| + |sample_point.y| + sample_grid.section_len) / 2 ^ 21 ∧
      (∀ (sqrt tan atan : ℚ → ℚ) (floor_zs : List (List ℚ)) (q : lidar_point ℚ),
        adjust_one_f32 sqrt tan atan sample_grid floor_zs sample_point = some q →
        ∃ z_bl z_br z_tl z_tr, q = adjust_point_f32 sqrt tan atan sample_point
          z_bl z_br z_tl z_tr dx_ratio dy_ratio sample_grid.section_len) ∧
      (∀ k Bx By S X Y : Int, -148 ≤ k → k ≤ 100 → 0 < S → S ≤ 2 ^ 21 →
        sample_grid.section_len = (S : ℚ) * (2 : ℚ) ^ k →
        sample_grid.base_x = (Bx : ℚ) * (2 : ℚ) ^ k →
        sample_grid.base_y = (By : ℚ) * (2 : ℚ) ^ k →
        sample_point.x = (X : ℚ) * (2 : ℚ) ^ k → sample_point.y = (Y : ℚ) * (2 : ℚ) ^ k →
        |Bx| ≤ 2 ^ 21 → |X| ≤ 2 ^ 21 → |By| ≤ 2 ^ 21 → |Y| ≤ 2 ^ 21 →
        dx_ratio < 1 ∧ dy_ratio < 1 ∧
        |sample_point.x - ((sample_grid.center_coords row col).1
            + dx_ratio * sample_grid.section_len)| ≤ sample_grid.section_len / 2 ^ 23 ∧
        |sample_point.y - ((sample_grid.center_coords row col).2
            + dy_ratio * sample_grid.section_len)| ≤ sample_grid.section_len / 2 ^ 23)) ∧
    rebase_f32 sample_grid sample_point
      = some ((-1, 2), (13421773 / 134217728, 7549747 / 8388608)) ∧
    sample_grid.section_len = ((20 : Int) : ℚ) * (2 : ℚ) ^ (0 : Int) ∧
    sample_grid.base_x = ((-5 : Int) : ℚ) * (2 : ℚ) ^ (0 : Int) ∧
    sample_grid.base_y = ((-5 : Int) : ℚ) * (2 : ℚ) ^ (0 : Int) ∧
    sample_point.x = ((47 : Int) : ℚ) * (2 : ℚ) ^ (0 : Int) ∧
    sample_point.y = ((3 : Int) : ℚ) * (2 : ℚ) ^ (0 : Int) := by
  have a1 : f32 ((47 : ℚ) - -5) = 52 :=
    f32_eq _ _ 52 0 (by norm_num) (by norm_num) (by norm_num) (by norm_num)
  have a2 : f32 ((52 : ℚ) / 20) = 5452595 / 2097152 :=
    f32_eval _ _ (1) 10905190 (by norm_num) (by norm_num) (Or.inr (by norm_num)) (by norm_num)
      (by norm_num) (by norm_num)
  have a3 : c_int_cast32 ((5452595 : ℚ) / 2097152) = some 2 := by
    rw [c_int_cast32_of_nonneg _ (by norm_num) (by norm_num)]
    congr 1
    rw [Int.floor_eq_iff]
    constructor <;> norm_num
  have b1 : f32 ((3 : ℚ) - -5) = 8 :=
    f32_eq _ _ 8 0 (by norm_num) (by norm_num) (by norm_num) (by norm_num)
  have b2 : f32 ((8 : ℚ) / 20) = 13421773 / 33554432 :=
    f32_eval _ _ (-2) 13421773 (by norm_num) (by norm_num) (Or.inr (by norm_num)) (by norm_num)
      (by norm_num) (by norm_num)
  have b3 : c_int_cast32 ((13421773 : ℚ) / 33554432) = some 0 := by
    rw [c_int_cast32_of_nonneg _ (by norm_num) (by norm_num)]
    congr 1
    rw [Int.floor_eq_iff]
    constructor <;> norm_num
  -- the centre of the cell (0, 2)
  have c1 : f32 (((2 : Int) : ℚ)) = 2 :=
    f32_eq _ _ 2 0 (by norm_num) (by norm_num) (by norm_num) (by norm_num)
  have c2 : f64 ((2 : ℚ) + 1 / 2) = 5 / 2 :=
    f64_eq _ _ 5 (-1) (by norm_num) (by norm_num) (by norm_num) (by norm_num)
  have c3 : f64 ((20 : ℚ) * (5 / 2)) = 50 :=
    f64_eq _ _ 50 0 (by norm_num) (by norm_num) (by norm_num) (by norm_num)
  have c4 : f64 ((-5 : ℚ) + 50) = 45 :=
    f64_eq _ _ 45 0 (by norm_num) (by norm_num) (by norm_num) (by norm_num)
  have c5 : f32 (45 : ℚ) = 45 :=
    f32_eq _ _ 45 0 (by norm_num) (by norm_num) (by norm_num) (by norm_num)
  have d1 : f32 (((0 : Int) : ℚ)) = 0 := by
    rw [Int.cast_zero]; exact f32_zero
  have d2 : f64 ((0 : ℚ) + 1 / 2) = 1 / 2 :=
    f64_eq _ _ 1 (-1) (by norm_num) (by norm_num) (by norm_num) (by norm_num)
  have d3 : f64 ((20 : ℚ) * (1 / 2)) = 10 :=
    f64_eq _ _ 10 0 (by norm_num) (by norm_num) (by norm_num) (by norm_num)
  have d4 : f64 ((-5 : ℚ) + 10) = 5 :=
    f64_eq _ _ 5 0 (by norm_num) (by norm_num) (by norm_num) (by norm_num)
  have d5 : f32 (5 : ℚ) = 5 :=
    f32_eq _ _ 5 0 (by norm_num) (by norm_num) (by norm_num) (by norm_num)
  -- the ratios
  have r1 : f32 ((47 : ℚ) - 45) = 2 :=
    f32_eq _ _ 2 0 (by norm_num) (by norm_num) (by norm_num) (by norm_num)
  have r2 : f32 ((2 : ℚ) / 20) = 13421773 / 134217728 :=
    f32_eval _ _ (-4) 13421773 (by norm_num) (by norm_num) (Or.inr (by norm_num)) (by norm_num)
      (by norm_num) (by norm_num)
  have s1 : f32 ((3 : ℚ) - 5) = -2 :=
    f32_eq _ _ (-2) 0 (by norm_num) (by norm_num) (by norm_num) (by norm_num)
  have s2 : f32 ((-2 : ℚ) / 20) = -(13421773 / 134217728) := by
    have e : (-2 : ℚ) / 20 = -(2 / 20) := by norm_num
    rw [e, f32_neg, r2]
  have s3 : f64 (-(13421773 / 134217728) + (1 : ℚ)) = 120795955 / 134217728 :=
    f64_eq _ _ (120795955) (-27) (by norm_num) (by norm_num) (by norm_num) (by norm_num)
  have s4 : f32 ((120795955 : ℚ) / 134217728) = 7549747 / 8388608 :=
    f32_eval _ _ (-1) 15099494 (by norm_num) (by norm_num) (Or.inr (by norm_num)) (by norm_num)
      (by norm_num) (by norm_num)
  have n1 : ¬ ((13421773 : ℚ) / 134217728 < 0) := by norm_num
  have n2 : (-(13421773 / 134217728) : ℚ) < 0 := by norm_num
  have hreb : rebase_f32 sample_grid sample_point
      = some ((-1, 2), (13421773 / 134217728, 7549747 / 8388608)) := by
    simp only [rebase_f32, grid.to_indices_f32, grid.center_coords_f32, sample_grid,
      sample_point, a1, a2, a3, b1, b2, b3, c1, c2, c3, c4, c5, d1, d2, d3, d4, d5,
      r1, r2, s1, s2, s3, s4, if_neg n1, if_pos n2]
    rfl
  have hsf : f32 sample_grid.section_len = sample_grid.section_len :=
    f32_eq _ _ 20 0 rfl (by norm_num [sample_grid]) (by norm_num) (by norm_num)
  exact ⟨hsf, by norm_num [sample_grid], by norm_num [sample_grid],
    by norm_num [sample_grid, sample_point], by norm_num [sample_grid, sample_point],
    by norm_num [sample_grid, abs_of_pos], by norm_num [sample_grid, abs_of_pos],
    by norm_num [sample_grid, sample_point], by norm_num [sample_grid, sample_point],
    rebase_brackets_point sample_grid sample_point hsf (by norm_num [sample_grid])
      (by norm_num [sample_grid]) (by norm_num [sample_grid, sample_point])
      (by norm_num [sample_grid, sample_point]) (by norm_num [sample_grid, abs_of_pos])
      (by norm_num [sample_grid, abs_of_pos]) (by norm_num [sample_grid, sample_point])
      (by norm_num [sample_grid, sample_point]),
    hreb, by norm_num [sample_grid], by norm_num [sample_grid], by norm_num [sample_grid],
    by norm_num [sample_point], by norm_num [sample_point]⟩

/-- C21 (counterexample). In binary32, for the grid with origin `(-10, -10)` and
`section_len = 20` and the point `(x, y) = (-5 * 2 ^ (-38), 0)`, which has
`x ≥ base_x` and `y ≥ base_y`: the indices are `(0, 0)`, the cell centre is
`(0, 0)`, `dx_ratio = -2 ^ (-40) < 0`, and the step `dx_ratio += 1.0` rounds to
`1`. The re-based ratio is `1`, not below `1`, and the centre of the
decremented cell plus the ratio times `section_len` is `0`, not `x`. -/
theorem rebase_f32_ratio_reaches_one :
    0 < (grid.mk 20 1 1 (-10) (-10) : grid ℚ).section_len ∧
    (grid.mk 20 1 1 (-10) (-10) : grid ℚ).base_x ≤ -(5 / 274877906944) ∧
    (grid.mk 20 1 1 (-10) (-10) : grid ℚ).base_y ≤ 0 ∧
    f32 (-(5 / 274877906944) : ℚ) = -(5 / 274877906944) ∧
    rebase_f32 (grid.mk 20 1 1 (-10) (-10) : grid ℚ) ⟨-(5 / 274877906944), 0, 1, 9⟩
      = some ((0, -1), (1, 0)) ∧
    ¬ ((1 : ℚ) < 1) ∧
    (-(5 / 274877906944) : ℚ) ≠
      ((grid.mk 20 1 1 (-10) (-10) : grid ℚ).center_coords 0 (-1)).1
        + 1 * (grid.mk 20 1 1 (-10) (-10) : grid ℚ).section_len := by
  have hx : f32 (-(5 / 274877906944) : ℚ) = -(5 / 274877906944) :=
    f32_eq _ _ (-5) (-38) (by norm_num) (by norm_num) (by norm_num) (by norm_num)
  have a1 : f32 ((-(5 / 274877906944) : ℚ) - -10) = 10 :=
    f32_eval _ _ (3) 10485760 (by norm_num) (by norm_num) (Or.inr (by norm_num)) (by norm_num)
      (by norm_num) (by norm_num)
  have a2 : f32 ((10 : ℚ) / 20) = 1 / 2 :=
    f32_eq _ _ 1 (-1) (by norm_num) (by norm_num) (by norm_num) (by norm_num)
  have a3 : c_int_cast32 ((1 : ℚ) / 2) = some 0 := by
    rw [c_int_cast32_of_nonneg _ (by norm_num) (by norm_num)]
    congr 1
    rw [Int.floor_eq_iff]
    constructor <;> norm_num
  have b1 : f32 ((0 : ℚ) - -10) = 10 :=
    f32_eq _ _ 10 0 (by norm_num) (by norm_num) (by norm_num) (by norm_num)
  have d1 : f32 (((0 : Int) : ℚ)) = 0 := by
    rw [Int.cast_zero]; exact f32_zero
  have d2 : f64 ((0 : ℚ) + 1 / 2) = 1 / 2 :=
    f64_eq _ _ 1 (-1) (by norm_num) (by norm_num) (by norm_num) (by norm_num)
  have d3 : f64 ((20 : ℚ) * (1 / 2)) = 10 :=
    f64_eq _ _ 10 0 (by norm_num) (by norm_num) (by norm_num) (by norm_num)
  have d4 : f64 ((-10 : ℚ) + 10) = 0 := by
    have e : (-10 : ℚ) + 10 = 0 := by norm_num
    rw [e]; exact f64_zero
  have d5 : f32 (0 : ℚ) = 0 := f32_zero
  have r1 : f32 ((-(5 / 274877906944) : ℚ) - 0) = -(5 / 274877906944) := by
    rw [sub_zero]; exact hx
  have r2 : f32 ((-(5 / 274877906944) : ℚ) / 20) = -(1 / 1099511627776) :=
    f32_eq _ _ (-1) (-40) (by norm_num) (by norm_num) (by norm_num) (by norm_num)
  have r3 : f64 (-(1 / 1099511627776) + (1 : ℚ)) = 1099511627775 / 1099511627776 :=
    f64_eq _ _ (1099511627775) (-40) (by norm_num) (by norm_num) (by norm_num) (by norm_num)
  have r4 : f32 ((1099511627775 : ℚ) / 1099511627776) = 1 :=
    f32_eval _ _ (-1) 16777216 (by norm_num) (by norm_num) (Or.inr (by norm_num)) (by norm_num)
      (by norm_num) (by norm_num)
  have s1 : f32 ((0 : ℚ) - 0) = 0 := by rw [sub_zero]; exact f32_zero
  have s2 : f32 ((0 : ℚ) / 20) = 0 := by rw [zero_div]; exact f32_zero
  have n1 : (-(1 / 1099511627776) : ℚ) < 0 := by norm_num
  have n2 : ¬ ((0 : ℚ) < 0) := by norm_num
  have hreb : rebase_f32 (grid.mk 20 1 1 (-10) (-10) : grid ℚ) ⟨-(5 / 274877906944), 0, 1, 9⟩
      = some ((0, -1), (1, 0)) := by
    simp only [rebase_f32, grid.to_indices_f32, grid.center_coords_f32, a1, a2, a3, b1,
      d1, d2, d3, d4, d5, r1, r2, r3, r4, s1, s2, if_pos n1, if_neg n2]
    rfl
  refine ⟨by norm_num, by norm_num, by norm_num, hx, hreb, by norm_num, ?_⟩
  norm_num [grid.center_coords]

end RebaseTheorems

section HeightTheorems

end HeightTheorems

section SparseTheorems

/-- C25 (amended). Sparse cloud in binary32: when the grid is computed, binning
succeeds (every point falls into a valid cell of the grid the program
allocates) and every cell receives at most `MIN_POINTS_PER_BLOCK` values, all
floor heights are 0; and when moreover every height is `0` or satisfies
`2 ^ (-63) ≤ |z| < 2 ^ 63`, the flatten core returns every point with `x`, `y`
and the intensity unchanged and `z` replaced by `|z|`, which is the point
itself exactly when `z ≥ 0`. The grid, the indices and the adjustment are the
binary32 ones; `tan` and `atan` are the library functions, with `tan 0 = 0` and
`atan 0 = 0`, and the square root is correctly rounded. -/
theorem flatten_sparse_cloud (tan atan : ℝ → ℝ) (section_len : ℝ)
    (points : List (lidar_point ℝ)) (g : grid ℝ) (h w : Int)
    (z0 za : List (List (List ℝ))) (_hs : section_len ≠ 0)
    (htan : tan 0 = 0) (hatan : atan 0 = 0)
    (hgrid : (grid.new section_len).compute_grid_f32 (compute_full_bbox points)
      = some (g, (h, w)))
    (halloc : alloc_z_arrays h w = some z0)
    (hbin : bin_points_f32 g points z0 = some za)
    (hsparse : ∀ row ∈ za, ∀ cell ∈ row, cell.length ≤ MIN_POINTS_PER_BLOCK)
    (hfloat : ∀ p ∈ points, f32 p.x = p.x ∧ f32 p.y = p.y ∧ f32 p.z = p.z)
    (hrange : ∀ p ∈ points,
      p.z = 0 ∨ ((2 : ℝ) ^ (-63 : Int) ≤ |p.z| ∧ |p.z| < (2 : ℝ) ^ (63 : Int))) :
    (∃ floor_zs,
      flatten_floors_f32 section_len MIN_POINTS_PER_BLOCK PERCENTILE_DIVISOR points
        = some (g, floor_zs) ∧
      ∀ row ∈ floor_zs, ∀ v ∈ row, v = 0) ∧
    flatten_core_f32 (fun t => f32 (Real.sqrt t)) tan atan section_len MIN_POINTS_PER_BLOCK
      PERCENTILE_DIVISOR points = some (points.map (fun p => { p with z := |p.z| })) ∧
    ∀ p : lidar_point ℝ, ({ p with z := |p.z| } = p ↔ 0 ≤ p.z) := by
  obtain ⟨a1, a2, a3, a4⟩ := alloc_z_arrays_shape _ _ z0 halloc
  obtain ⟨b1, b2, b3, b4⟩ := bin_points_f32_shape g _ points z0 za a4 hbin
  obtain ⟨g1, g2, _, _, _⟩ := compute_grid_f32_fields _ _ _ _ _ hgrid
  have hfz := compute_floor_zs_eq MIN_POINTS_PER_BLOCK PERCENTILE_DIVISOR (by decide) za
  have hff : flatten_floors_f32 section_len MIN_POINTS_PER_BLOCK PERCENTILE_DIVISOR points =
      some (g, za.map (fun row => row.map
          (fun cell => (cell_floor MIN_POINTS_PER_BLOCK PERCENTILE_DIVISOR cell).getD 0))) := by
    simp only [flatten_floors_f32, hgrid, halloc, hbin, hfz]
  have hzero : ∀ row ∈ za.map (fun row => row.map
      (fun cell => (cell_floor MIN_POINTS_PER_BLOCK PERCENTILE_DIVISOR cell).getD 0)),
      ∀ v ∈ row, v = 0 := by
    intro row hrow v hv
    obtain ⟨zrow, hz, rfl⟩ := List.mem_map.mp hrow
    obtain ⟨cell, hc, rfl⟩ := List.mem_map.mp hv
    have hle := hsparse zrow hz cell hc
    simp [cell_floor, Nat.not_lt.mpr hle]
  refine ⟨⟨_, hff, hzero⟩, ?_, ?_⟩
  · simp only [flatten_core_f32, hff, adjust_all_f32]
    apply collect_map_some
    intro p hp
    have hne : points ≠ [] := List.ne_nil_of_mem hp
    obtain ⟨c1, c2⟩ := b3 hne
    obtain ⟨f1, f2, f3⟩ := hfloat p hp
    apply adjust_one_f32_zero_floor tan atan htan hatan
    · rw [g1]; omega
    · rw [g2]; omega
    · rw [g1, List.length_map]; omega
    · intro r hr
      obtain ⟨zrow, hz, rfl⟩ := List.mem_map.mp hr
      rw [g2, List.length_map]
      have := b2 zrow hz
      omega
    · exact hzero
    · exact b4 p hp
    · exact f1
    · exact f2
    · exact f3
    · rcases hrange p hp with h0 | ⟨h1, _⟩
      · exact Or.inl h0
      · exact Or.inr h1
  · intro p
    constructor
    · intro h
      have hz : |p.z| = p.z := congrArg lidar_point.z h
      rw [← hz]
      exact abs_nonneg _
    · intro h
      rw [abs_of_nonneg h]

theorem flatten_sparse_cloud_witness :
    (20 : ℝ) ≠ 0 ∧
    (fun t : ℝ => f32 (Real.tan t)) 0 = 0 ∧ Real.arctan 0 = 0 ∧
    (grid.new (20 : ℝ)).compute_grid_f32
      (compute_full_bbox [⟨10, 10, 5, 10⟩, ⟨10, 10, 5, 20⟩, ⟨10, 10, -15, 30⟩])
      = some (⟨20, 1, 1, 0, 0⟩, (1, 1)) ∧
    (alloc_z_arrays 1 1 : Option (List (List (List ℝ)))) = some [[[]]] ∧
    bin_points_f32 (grid.mk 20 1 1 0 0 : grid ℝ)
      [⟨10, 10, 5, 10⟩, ⟨10, 10, 5, 20⟩, ⟨10, 10, -15, 30⟩] [[[]]]
      = some [[[5, 5, -15]]] ∧
    (∀ row ∈ ([[[5, 5, -15]]] : List (List (List ℝ))), ∀ cell ∈ row,
      cell.length ≤ MIN_POINTS_PER_BLOCK) ∧
    (∀ p ∈ ([⟨10, 10, 5, 10⟩, ⟨10, 10, 5, 20⟩, ⟨10, 10, -15, 30⟩] :
        List (lidar_point ℝ)), f32 p.x = p.x ∧ f32 p.y = p.y ∧ f32 p.z = p.z) ∧
    (∀ p ∈ ([⟨10, 10, 5, 10⟩, ⟨10, 10, 5, 20⟩, ⟨10, 10, -15, 30⟩] :
        List (lidar_point ℝ)),
      p.z = 0 ∨ ((2 : ℝ) ^ (-63 : Int) ≤ |p.z| ∧ |p.z| < (2 : ℝ) ^ (63 : Int))) ∧
    ((∃ floor_zs,
      flatten_floors_f32 (20 : ℝ) MIN_POINTS_PER_BLOCK PERCENTILE_DIVISOR
        [⟨10, 10, 5, 10⟩, ⟨10, 10, 5, 20⟩, ⟨10, 10, -15, 30⟩]
        = some (⟨20, 1, 1, 0, 0⟩, floor_zs) ∧
      ∀ row ∈ floor_zs, ∀ v ∈ row, v = 0) ∧
    flatten_core_f32 (fun t => f32 (Real.sqrt t)) (fun t => f32 (Real.tan t)) Real.arctan
      (20 : ℝ) MIN_POINTS_PER_BLOCK PERCENTILE_DIVISOR
      [⟨10, 10, 5, 10⟩, ⟨10, 10, 5, 20⟩, ⟨10, 10, -15, 30⟩] =
      some (([⟨10, 10, 5, 10⟩, ⟨10, 10, 5, 20⟩, ⟨10, 10, -15, 30⟩] :
        List (lidar_point ℝ)).map (fun p => { p with z := |p.z| })) ∧
    ∀ p : lidar_point ℝ, ({ p with z := |p.z| } = p ↔ 0 ≤ p.z)) ∧
    flatten_core_f32 (fun t => f32 (Real.sqrt t)) (fun t => f32 (Real.tan t)) Real.arctan
      (20 : ℝ) MIN_POINTS_PER_BLOCK PERCENTILE_DIVISOR
      [⟨10, 10, 5, 10⟩, ⟨10, 10, 5, 20⟩, ⟨10, 10, -15, 30⟩] =
      some [⟨10, 10, 5, 10⟩, ⟨10, 10, 5, 20⟩, ⟨10, 10, 15, 30⟩] := by
  have hb : compute_full_bbox ([⟨10, 10, 5, 10⟩, ⟨10, 10, 5, 20⟩, ⟨10, 10, -15, 30⟩] :
      List (lidar_point ℝ)) = ⟨0, 0, 10, 10⟩ := by
    norm_num [compute_full_bbox, bbox_step]
  obtain ⟨s1, s2, s3, _⟩ := single_cell_stages
  have htan : (fun t : ℝ => f32 (Real.tan t)) 0 = 0 := by
    simp only [Real.tan_zero, f32_zero]
  have hgrid : (grid.new (20 : ℝ)).compute_grid_f32
      (compute_full_bbox [⟨10, 10, 5, 10⟩, ⟨10, 10, 5, 20⟩, ⟨10, 10, -15, 30⟩])
      = some (⟨20, 1, 1, 0, 0⟩, (1, 1)) := by
    rw [hb]; exact s1
  have hbin : bin_points_f32 (grid.mk 20 1 1 0 0 : grid ℝ)
      [⟨10, 10, 5, 10⟩, ⟨10, 10, 5, 20⟩, ⟨10, 10, -15, 30⟩] [[[]]]
      = some [[[5, 5, -15]]] := by
    simp [bin_points_f32, s3, push_z, vec_get]
  have hsparse : ∀ row ∈ ([[[5, 5, -15]]] : List (List (List ℝ))), ∀ cell ∈ row,
      cell.length ≤ MIN_POINTS_PER_BLOCK := by
    simp [MIN_POINTS_PER_BLOCK]
  have f10 : f32 (10 : ℝ) = 10 :=
    f32_eq _ _ 10 0 (by norm_num) (by norm_num) (by norm_num) (by norm_num)
  have f5 : f32 (5 : ℝ) = 5 :=
    f32_eq _ _ 5 0 (by norm_num) (by norm_num) (by norm_num) (by norm_num)
  have f15 : f32 (-15 : ℝ) = -15 :=
    f32_eq _ _ (-15) 0 (by norm_num) (by norm_num) (by norm_num) (by norm_num)
  have hfloat : ∀ p ∈ ([⟨10, 10, 5, 10⟩, ⟨10, 10, 5, 20⟩, ⟨10, 10, -15, 30⟩] :
      List (lidar_point ℝ)), f32 p.x = p.x ∧ f32 p.y = p.y ∧ f32 p.z = p.z := by
    intro p hp
    simp only [List.mem_cons, List.mem_singleton, List.not_mem_nil, or_false] at hp
    rcases hp with rfl | rfl | rfl
    · exact ⟨f10, f10, f5⟩
    · exact ⟨f10, f10, f5⟩
    · exact ⟨f10, f10, f15⟩
  have r5 : (2 : ℝ) ^ (-63 : Int) ≤ |(5 : ℝ)| ∧ |(5 : ℝ)| < (2 : ℝ) ^ (63 : Int) := by
    rw [abs_of_pos (by norm_num)]
    constructor <;> norm_num
  have r15 : (2 : ℝ) ^ (-63 : Int) ≤ |(-15 : ℝ)| ∧ |(-15 : ℝ)| < (2 : ℝ) ^ (63 : Int) := by
    rw [abs_neg, abs_of_pos (by norm_num)]
    constructor <;> norm_num
  have hrange : ∀ p ∈ ([⟨10, 10, 5, 10⟩, ⟨10, 10, 5, 20⟩, ⟨10, 10, -15, 30⟩] :
      List (lidar_point ℝ)),
      p.z = 0 ∨ ((2 : ℝ) ^ (-63 : Int) ≤ |p.z| ∧ |p.z| < (2 : ℝ) ^ (63 : Int)) := by
    intro p hp
    simp only [List.mem_cons, List.mem_singleton, List.not_mem_nil, or_false] at hp
    rcases hp with rfl | rfl | rfl
    · exact Or.inr r5
    · exact Or.inr r5
    · exact Or.inr r15
  have key := flatten_sparse_cloud (fun t => f32 (Real.tan t)) Real.arctan 20
    [⟨10, 10, 5, 10⟩, ⟨10, 10, 5, 20⟩, ⟨10, 10, -15, 30⟩] ⟨20, 1, 1, 0, 0⟩ 1 1
    [[[]]] [[[5, 5, -15]]] (by norm_num) htan Real.arctan_zero hgrid s2 hbin hsparse hfloat
    hrange
  refine ⟨by norm_num, htan, Real.arctan_zero, hgrid, s2, hbin, hsparse, hfloat, hrange, key,
    ?_⟩
  rw [key.2.1]
  have e5 : |(5 : ℝ)| = 5 := abs_of_pos (by norm_num)
  have e15 : |(-15 : ℝ)| = 15 := by rw [abs_neg, abs_of_pos (by norm_num)]
  simp only [List.map_cons, List.map_nil, e5, e15]

/-- C25 (counterexample). In binary32, for the one-point cloud
`(10, 10, z = 2 ^ (-80))` with `section_len = 20`: the grid is 1 by 1, the point
bins to the valid cell `(0, 0)`, which receives one value, and the floor height
is `0`; the square `z * z = 2 ^ (-160)` underflows to `0`, so the flatten core
returns `z = 0`, not `|z|`; `x` and `y` are unchanged. -/
theorem flatten_f32_sparse_underflow :
    (grid.new (20 : ℝ)).compute_grid_f32
      (compute_full_bbox [⟨10, 10, 1 / 1208925819614629174706176, 9⟩])
      = some (⟨20, 1, 1, 0, 0⟩, (1, 1)) ∧
    (alloc_z_arrays 1 1 : Option (List (List (List ℝ)))) = some [[[]]] ∧
    bin_points_f32 (grid.mk 20 1 1 0 0 : grid ℝ)
      [⟨10, 10, 1 / 1208925819614629174706176, 9⟩] [[[]]]
      = some [[[1 / 1208925819614629174706176]]] ∧
    ([1 / 1208925819614629174706176] : List ℝ).length ≤ MIN_POINTS_PER_BLOCK ∧
    f32 (1 / 1208925819614629174706176 : ℝ) = 1 / 1208925819614629174706176 ∧
    flatten_floors_f32 (20 : ℝ) MIN_POINTS_PER_BLOCK PERCENTILE_DIVISOR
      [⟨10, 10, 1 / 1208925819614629174706176, 9⟩] = some (⟨20, 1, 1, 0, 0⟩, [[0]]) ∧
    flatten_core_f32 (fun t => f32 (Real.sqrt t)) (fun t => f32 (Real.tan t)) Real.arctan
      (20 : ℝ) MIN_POINTS_PER_BLOCK PERCENTILE_DIVISOR
      [⟨10, 10, 1 / 1208925819614629174706176, 9⟩] = some [⟨10, 10, 0, 9⟩] ∧
    (0 : ℝ) ≠ |(1 / 1208925819614629174706176 : ℝ)| := by
  have hb : compute_full_bbox ([⟨10, 10, 1 / 1208925819614629174706176, 9⟩] :
      List (lidar_point ℝ)) = ⟨0, 0, 10, 10⟩ := by
    norm_num [compute_full_bbox, bbox_step]
  obtain ⟨s1, s2, s3, s4⟩ := single_cell_stages
  have hgrid : (grid.new (20 : ℝ)).compute_grid_f32
      (compute_full_bbox [⟨10, 10, 1 / 1208925819614629174706176, 9⟩])
      = some (⟨20, 1, 1, 0, 0⟩, (1, 1)) := by
    rw [hb]; exact s1
  have hbin : bin_points_f32 (grid.mk 20 1 1 0 0 : grid ℝ)
      [⟨10, 10, 1 / 1208925819614629174706176, 9⟩] [[[]]]
      = some [[[1 / 1208925819614629174706176]]] := by
    simp [bin_points_f32, s3, push_z, vec_get]
  have hz : f32 (1 / 1208925819614629174706176 : ℝ) = 1 / 1208925819614629174706176 :=
    f32_eq _ _ 1 (-80) (by norm_num) (by norm_num) (by norm_num) (by norm_num)
  have hfloor : cell_floor MIN_POINTS_PER_BLOCK PERCENTILE_DIVISOR
      ([1 / 1208925819614629174706176] : List ℝ) = some 0 := by
    simp [cell_floor, MIN_POINTS_PER_BLOCK]
  have hff : flatten_floors_f32 (20 : ℝ) MIN_POINTS_PER_BLOCK PERCENTILE_DIVISOR
      [⟨10, 10, 1 / 1208925819614629174706176, 9⟩] = some (⟨20, 1, 1, 0, 0⟩, [[0]]) := by
    simp only [flatten_floors_f32, hgrid, s2, hbin, compute_floor_zs, List.map_cons,
      List.map_nil, hfloor, collect]
  have hsq : f32 ((1 / 1208925819614629174706176 : ℝ) * (1 / 1208925819614629174706176)) = 0 := by
    have h := f32_eval ((1 / 1208925819614629174706176 : ℝ) * (1 / 1208925819614629174706176)) 0 (-126) 0
      (by norm_num) (by norm_num) (Or.inl rfl) (by norm_num)
      (by constructor <;> norm_num) (by norm_num)
    exact h
  have htan : f32 (Real.tan 0) = 0 := by rw [Real.tan_zero]; exact f32_zero
  have hsqrt : f32 (Real.sqrt 0) = 0 := by rw [Real.sqrt_zero]; exact f32_zero
  have f10 : f32 (10 : ℝ) = 10 :=
    f32_eq _ _ 10 0 (by norm_num) (by norm_num) (by norm_num) (by norm_num)
  have hadj : adjust_point_f32 (fun t => f32 (Real.sqrt t)) (fun t => f32 (Real.tan t))
      Real.arctan ⟨10, 10, 1 / 1208925819614629174706176, 9⟩ 0 0 0 0 0 0 20 = ⟨10, 10, 0, 9⟩ := by
    simp only [adjust_point_f32, interp_angles_f32, lerp_2d_f32_zero, lerp_f32_zero, sub_zero,
      sub_self, f32_zero, f64_zero, zero_div, Real.arctan_zero, htan, mul_zero, add_zero, hz,
      hsq, hsqrt, f10]
  have hne : (0 : ℝ) ≠ |(1 / 1208925819614629174706176 : ℝ)| := by
    rw [abs_of_pos (by norm_num)]
    norm_num
  refine ⟨hgrid, s2, hbin, by simp [MIN_POINTS_PER_BLOCK], hz, hff, ?_, hne⟩
  simp only [flatten_core_f32, hff, adjust_all_f32, List.map_cons, List.map_nil, adjust_one_f32,
    s4, int_clamp, vec_get, hadj, collect]
  norm_num [collect, hadj]

end SparseTheorems

end PclFlattener
